import Mathlib

/-!
# IridiumSBD: a shallow embedding of the AT protocol engine

The definitions below follow `src/src/IridiumSBD.cpp` and `src/src/IridiumSBD.h`
(library revision 2).  Bytes and `char` values are natural numbers below 256,
C strings are lists of non-NUL bytes, pointers into the notification literal are
offsets, and the transport is passed explicitly.
-/

/-! ## Constants of `IridiumSBD.h` -/

def ISBD_DEFAULT_AT_TIMEOUT : Int := 30
def ISBD_MSSTM_RETRY_INTERVAL : Int := 10
def ISBD_DEFAULT_SBDIX_INTERVAL : Int := 10
def ISBD_USB_SBDIX_INTERVAL : Int := 30
def ISBD_DEFAULT_SENDRECEIVE_TIME : Int := 300
def ISBD_STARTUP_MAX_TIME : Int := 240
def ISBD_MAX_MESSAGE_LENGTH : Nat := 340
def ISBD_MSSTM_WORKAROUND_FW_VER : Nat := 13001

def ISBD_SUCCESS : Int := 0
def ISBD_ALREADY_AWAKE : Int := 1
def ISBD_SERIAL_FAILURE : Int := 2
def ISBD_PROTOCOL_ERROR : Int := 3
def ISBD_CANCELLED : Int := 4
def ISBD_NO_MODEM_DETECTED : Int := 5
def ISBD_SBDIX_FATAL_ERROR : Int := 6
def ISBD_SENDRECEIVE_TIMEOUT : Int := 7
def ISBD_RX_OVERFLOW : Int := 8
def ISBD_REENTRANT : Int := 9
def ISBD_IS_ASLEEP : Int := 10
def ISBD_NO_SLEEP_PIN : Int := 11
def ISBD_NO_NETWORK : Int := 12
def ISBD_MSG_TOO_LONG : Int := 13

/-! ## Characters and C strings -/

/-- The bytes of a string literal of the source (without the terminating NUL). -/
def cstr (s : String) : List Nat := s.toList.map Char.toNat

/-- Indexing of a NUL-terminated string, `s[i]`: the characters of `s`, then the
terminating NUL at `i = |s|`.  The source never reads past the NUL of a non-empty
string. -/
def cstrAt (s : List Nat) (i : Nat) : Nat := s.getD i 0

/-- The value of a `char` holding byte `b` once converted to `int` (as in
`nextChar = c` and `return c`): the byte itself where `char` is unsigned, the
sign-extended byte where `char` is signed (avr-gcc, the Arduino AVR targets). -/
def charToInt (charSigned : Bool) (b : Nat) : Int :=
  if charSigned && decide (128 ≤ b) then (b : Int) - 256 else (b : Int)

/-- The byte held by a `char` assigned from an `int` (`char c = filteredread()`,
`(char)nextChar`). -/
def intToChar (i : Int) : Nat := (i % 256).toNat

/-! ## The session object -/

/-- The data members of `class IridiumSBD` (the transport `stream` is passed
explicitly to the operations that use it); `head` and `tail` are offsets into
`SBDRING`. -/
structure IridiumSBD where
  sbdixInterval : Int
  atTimeout : Int
  sendReceiveTimeout : Int
  remainingMessages : Int
  asleep : Bool
  reentrant : Bool
  sleepPin : Int
  ringPin : Int
  msstmWorkaroundRequested : Bool
  ringAlertsEnabled : Bool
  ringAsserted : Bool
  lastPowerOnTime : Nat
  head : Nat
  tail : Nat
  nextChar : Int
deriving DecidableEq, Repr

namespace IridiumSBD

/-- The constructor `IridiumSBD(Stream &str, int sleepPinNo = -1, int ringPinNo = -1)`. -/
def new (sleepPinNo ringPinNo : Int) : IridiumSBD :=
  { sbdixInterval := ISBD_USB_SBDIX_INTERVAL
    atTimeout := ISBD_DEFAULT_AT_TIMEOUT
    sendReceiveTimeout := ISBD_DEFAULT_SENDRECEIVE_TIME
    remainingMessages := -1
    asleep := true
    reentrant := false
    sleepPin := sleepPinNo
    ringPin := ringPinNo
    msstmWorkaroundRequested := true
    ringAlertsEnabled := decide (ringPinNo ≠ -1)
    ringAsserted := false
    lastPowerOnTime := 0
    head := 0
    tail := 0
    nextChar := -1 }

/-! ## Unsolicited SBDRING filter -/

/-- The literal `SBDRING[] = "SBDRING\r\n"`. -/
def SBDRING : List Nat := [83, 66, 68, 82, 73, 78, 71, 13, 10]

/-- The raw transport as the filter sees it: `some b` is a byte that is there
when the filter looks for it, `none` a pause in the arrival that outlasts the
grace period `FILTERTIMEOUT` (during it `stream.available()` is 0, also at the
end of the grace wait).  An exhausted list is a transport that stays silent. -/
abbrev Raw := List (Option Nat)

/-- Value of `stream.available() > 0`. -/
def streamAvailable : Raw → Bool
  | some _ :: _ => true
  | _ => false

/-- The raw bytes of a transport script, in arrival order. -/
def rawBytes (evs : Raw) : List Nat := evs.filterMap id

/-- Source: `void IridiumSBD::SBDRINGSeen()`. -/
def SBDRINGSeen (s : IridiumSBD) : IridiumSBD := { s with ringAsserted := true }

/-- Source: `void IridiumSBD::filterSBDRING()`; one clause per evaluation of the loop
condition `stream.available() > 0 && nextChar == -1`. -/
def filterSBDRING (charSigned : Bool) : IridiumSBD → Raw → IridiumSBD × Raw
  | s, [] => (s, [])
  | s, none :: rest => (s, none :: rest)
  | s, some b :: rest =>
    if s.nextChar ≠ -1 then (s, some b :: rest)
    else if cstrAt SBDRING s.head ≠ 0 ∧ b = cstrAt SBDRING s.head then
      -- `++head`
      if cstrAt SBDRING (s.head + 1) = 0 then
        filterSBDRING charSigned { SBDRINGSeen s with head := 0, tail := 0 } rest
      else if streamAvailable rest then
        -- the next byte is there before `FILTERTIMEOUT` has passed
        filterSBDRING charSigned { s with head := s.head + 1 } rest
      else
        -- `--head; nextChar = c;`
        filterSBDRING charSigned
          { s with head := s.head + 1 - 1, nextChar := charToInt charSigned b } rest
    else
      -- `nextChar = c;`
      filterSBDRING charSigned { s with nextChar := charToInt charSigned b } rest

/-- Source: `int IridiumSBD::filteredavailable()`. -/
def filteredavailable (charSigned : Bool) (s : IridiumSBD) (evs : Raw) :
    Int × IridiumSBD × Raw :=
  let r := filterSBDRING charSigned s evs
  ((r.1.head : Int) - (r.1.tail : Int) + (if r.1.nextChar ≠ -1 then 1 else 0), r.1, r.2)

/-- Source: `int IridiumSBD::filteredread()`. -/
def filteredread (charSigned : Bool) (s : IridiumSBD) (evs : Raw) :
    Int × IridiumSBD × Raw :=
  let r := filterSBDRING charSigned s evs
  let s1 := r.1
  if s1.head > s1.tail then
    let c := cstrAt SBDRING s1.tail
    let s2 := { s1 with tail := s1.tail + 1 }
    let s3 := if s2.head = s2.tail then { s2 with head := 0, tail := 0 } else s2
    (charToInt charSigned c, s3, r.2)
  else if s1.nextChar ≠ -1 then
    (charToInt charSigned (intToChar s1.nextChar), { s1 with nextChar := -1 }, r.2)
  else
    (-1, s1, r.2)

/-- The reader of the filtered stream, as in `waitForATResponse`:
`while (filteredavailable() > 0) { char c = filteredread(); ... }`, polled again
once the transport has been silent (a pause is over at the next poll).  The
result is the bytes delivered, the session and the transport left. -/
def readAll (charSigned : Bool) : Nat → IridiumSBD → Raw → List Nat × IridiumSBD × Raw
  | 0, s, evs => ([], s, evs)
  | fuel + 1, s, evs =>
    let a := filteredavailable charSigned s evs
    if a.1 > 0 then
      let r := filteredread charSigned a.2.1 a.2.2
      let t := readAll charSigned fuel r.2.1 r.2.2
      (intToChar r.1 :: t.1, t.2)
    else
      match a.2.2 with
      | none :: rest => readAll charSigned fuel a.2.1 rest
      | _ => ([], a.2.1, a.2.2)

/-- Fuel that lets `readAll` run to the end of a transport script: every round
delivers a byte or ends a pause. -/
def readFuel (evs : Raw) : Nat := 2 * evs.length + 2

/-! ## Response matcher -/

/-- The anonymous `enum` of `waitForATResponse`. -/
inductive PromptState where
  | LOOKING_FOR_PROMPT
  | GATHERING_RESPONSE
  | LOOKING_FOR_TERMINATOR
deriving DecidableEq, Repr

/-- The locals of `waitForATResponse`.  `response` lists the bytes stored through
`*response++ = c`, in the order stored; `responseSize` is the running capacity. -/
structure WaitState where
  response : List Nat
  responseSize : Int
  matchPromptPos : Nat
  matchTerminatorPos : Nat
  promptState : PromptState
deriving DecidableEq, Repr

/-- The locals of `waitForATResponse` before its timer loop. -/
def WaitState.init (responseSize : Int) (prompt : Option (List Nat)) : WaitState :=
  { response := []
    responseSize := responseSize
    matchPromptPos := 0
    matchTerminatorPos := 0
    promptState :=
      if prompt.isSome then PromptState.LOOKING_FOR_PROMPT
      else PromptState.LOOKING_FOR_TERMINATOR }

/-- The `if (prompt) { switch (promptState) ... }` part of the loop body, for
the byte `c`; `response` tells whether the capture buffer pointer is non-NULL. -/
def promptStep (response : Bool) (prompt : Option (List Nat)) (w : WaitState) (c : Nat) :
    WaitState :=
  match prompt with
  | none => w
  | some p =>
    match w.promptState with
    | PromptState.LOOKING_FOR_PROMPT =>
      if c = cstrAt p w.matchPromptPos then
        if cstrAt p (w.matchPromptPos + 1) = 0 then
          { w with matchPromptPos := w.matchPromptPos + 1,
                   promptState := PromptState.GATHERING_RESPONSE }
        else
          { w with matchPromptPos := w.matchPromptPos + 1 }
      else
        { w with matchPromptPos := if c = cstrAt p 0 then 1 else 0 }
    | PromptState.GATHERING_RESPONSE =>
      if response then
        if c = 13 ∨ w.responseSize < 2 then
          { w with promptState := PromptState.LOOKING_FOR_TERMINATOR }
        else
          { w with response := w.response ++ [c], responseSize := w.responseSize - 1 }
      else w
    | PromptState.LOOKING_FOR_TERMINATOR => w

/-- The terminator part of the loop body; the flag is `true` where the source
executes `return true`. -/
def terminatorStep (terminator : List Nat) (w : WaitState) (c : Nat) : WaitState × Bool :=
  if c = cstrAt terminator w.matchTerminatorPos then
    if cstrAt terminator (w.matchTerminatorPos + 1) = 0 then
      ({ w with matchTerminatorPos := w.matchTerminatorPos + 1 }, true)
    else
      ({ w with matchTerminatorPos := w.matchTerminatorPos + 1 }, false)
  else
    ({ w with matchTerminatorPos := if c = cstrAt terminator 0 then 1 else 0 }, false)

/-- The body of `while (filteredavailable() > 0)` for the byte `c` just read. -/
def waitStep (response : Bool) (prompt : Option (List Nat)) (terminator : List Nat)
    (w : WaitState) (c : Nat) : WaitState × Bool :=
  terminatorStep terminator (promptStep response prompt w c) c

/-- Outcome of the inner loop over the filtered bytes that are at hand. -/
structure WaitResult where
  matched : Bool
  state : WaitState
  consumed : Nat
deriving DecidableEq, Repr

/-- The inner loop `while (filteredavailable() > 0) { char c = filteredread(); ... }`
over the filtered bytes at hand; `n` counts the bytes read so far. -/
def waitBytes (response : Bool) (prompt : Option (List Nat)) (terminator : List Nat) :
    WaitState → Nat → List Nat → WaitResult
  | w, n, [] => { matched := false, state := w, consumed := n }
  | w, n, c :: rest =>
    let r := waitStep response prompt terminator w c
    if r.2 then { matched := true, state := r.1, consumed := n + 1 }
    else waitBytes response prompt terminator r.1 (n + 1) rest

/-- One pass of the timer loop of `waitForATResponse`: the answer of `cancelled()`
and the filtered bytes the inner loop then finds. -/
structure Poll where
  cancelled : Bool
  bytes : List Nat
deriving DecidableEq, Repr

/-- The timer loop of `waitForATResponse` over the passes that fit into
`atTimeout`; running out of passes is the timeout. -/
def waitPolls (response : Bool) (prompt : Option (List Nat)) (terminator : List Nat) :
    WaitState → Nat → List Poll → WaitResult
  | w, n, [] => { matched := false, state := w, consumed := n }
  | w, n, p :: rest =>
    if p.cancelled then { matched := false, state := w, consumed := n }
    else
      let r := waitBytes response prompt terminator w n p.bytes
      if r.matched then r
      else waitPolls response prompt terminator r.state r.consumed rest

/-- Source: `bool IridiumSBD::waitForATResponse(char *response, int responseSize,
const char *prompt, const char *terminator)`; `response` is `none` for a NULL
buffer and otherwise carries `responseSize`. -/
def waitForATResponse (response : Option Int) (prompt : Option (List Nat))
    (terminator : List Nat) (polls : List Poll) : WaitResult :=
  waitPolls response.isSome prompt terminator
    (WaitState.init (response.getD 0) prompt) 0 polls

/-- The capture buffer of capacity `n` after `memset(response, 0, responseSize)`
and the stores listed in `stored`. -/
def bufferOf (n : Nat) (stored : List Nat) : List Nat :=
  stored ++ List.replicate (n - stored.length) 0

/-- The filtered bytes of a sequence of passes. -/
def pollBytes : List Poll → List Nat
  | [] => []
  | p :: rest => p.bytes ++ pollBytes rest

/-! ## Binary and text transmit -/

/-- The loop `checksum += (uint16_t)txData[i]` on a `uint16_t`. -/
def checksumLoop : Nat → List Nat → Nat
  | checksum, [] => checksum
  | checksum, b :: rest => checksumLoop ((checksum + b) % 65536) rest

/-- The call `stream.print(n)` for a `uint16_t`: the decimal digits. -/
def printDec (n : Nat) : List Nat := (Nat.toDigits 10 n).map Char.toNat

/-- The call `Stream::write(uint8_t)` of an `int` argument. -/
def writeByte (v : Nat) : Nat := v % 256

/-- What the modem answers during the transmit phase: the results of the two
`waitForATResponse` calls and of `cancelled()` after a failed wait. -/
structure TxEnv where
  ready : Bool
  ack : Bool
  cancelled : Bool
deriving DecidableEq, Repr

/-- The transmit phase of `internalSendReceiveSBD` (up to the SBDIX loop): the
early return code, if any, and the bytes written to the transport. -/
def transmitPhase (s : IridiumSBD) (txTxtMessage : Option (List Nat))
    (txData : Option (List Nat)) (env : TxEnv) : Option Int × List Nat :=
  if s.asleep then (some ISBD_IS_ASLEEP, [])
  else
    let failure := if env.cancelled then ISBD_CANCELLED else ISBD_PROTOCOL_ERROR
    match txData with
    | some (b :: data) =>
      let txData := b :: data
      if txData.length > ISBD_MAX_MESSAGE_LENGTH then (some ISBD_MSG_TOO_LONG, [])
      else
        let w1 := cstr "AT+SBDWB=" ++ printDec (txData.length % 65536) ++ cstr "\r"
        if !env.ready then (some failure, w1)
        else
          let checksum := checksumLoop 0 txData
          let w2 := w1 ++ txData.map writeByte
            ++ [writeByte (checksum >>> 8), writeByte (checksum &&& 0xFF)]
          if !env.ack then (some failure, w2) else (none, w2)
    | _ =>
      match txTxtMessage with
      | none =>
        let w1 := cstr "AT+SBDWT=\r"
        if !env.ack then (some failure, w1) else (none, w1)
      | some m =>
        let msg := m.takeWhile (fun c => c ≠ 13)
        if msg.length > ISBD_MAX_MESSAGE_LENGTH then (some ISBD_MSG_TOO_LONG, [])
        else
          let w1 := cstr "AT+SBDWT\r"
          if !env.ready then (some failure, w1)
          else
            let w2 := w1 ++ msg ++ cstr "\r"
            if !env.ack then (some failure, w2) else (none, w2)

/-! ## Mailbox check-in: `doSBDIX` -/

/-- The six `uint16_t` out-parameters of `doSBDIX`. -/
structure SBDIXReply where
  moCode : Nat
  moMSN : Nat
  mtCode : Nat
  mtMSN : Nat
  mtLen : Nat
  mtRemaining : Nat
deriving DecidableEq, Repr

/-- The assignment `*values[i] = v` of `doSBDIX`. -/
def SBDIXReply.set (r : SBDIXReply) (i : Nat) (v : Nat) : SBDIXReply :=
  match i with
  | 0 => { r with moCode := v }
  | 1 => { r with moMSN := v }
  | 2 => { r with mtCode := v }
  | 3 => { r with mtMSN := v }
  | 4 => { r with mtLen := v }
  | _ => { r with mtRemaining := v }

/-- The text a buffer holds as a C string: its bytes up to the first NUL. -/
def textOf (buf : List Nat) : List Nat := buf.takeWhile (fun c => c ≠ 0)

/-- Membership in the delimiter set `", "` of the `strtok` calls. -/
def isDelim (c : Nat) : Bool := c = 44 || c = 32

/-- The C library `strtok(_, ", ")` on the text not yet scanned: skip leading
delimiters, fail at the end of the text, else return the token and the text
after the delimiter that ended it. -/
def strtok (s : List Nat) : Option (List Nat × List Nat) :=
  match s.dropWhile isDelim with
  | [] => none
  | c :: t =>
    some ((c :: t).takeWhile (fun x => !isDelim x),
          ((c :: t).dropWhile (fun x => !isDelim x)).drop 1)

/-- The C library `isspace` in the "C" locale. -/
def isSpace (c : Nat) : Bool := c = 32 || (9 ≤ c && c ≤ 13)

/-- The digit loop of `atol`: the value of the leading decimal digits. -/
def atolDigits : Nat → List Nat → Nat
  | acc, [] => acc
  | acc, c :: rest =>
    if 48 ≤ c ∧ c ≤ 57 then atolDigits (acc * 10 + (c - 48)) rest else acc

/-- The C library `atol`: leading white space, an optional sign, decimal digits
(the value is exact; overflow of `long` is outside this model). -/
def atol (s : List Nat) : Int :=
  match s.dropWhile isSpace with
  | 45 :: rest => - (atolDigits 0 rest : Int)
  | 43 :: rest => (atolDigits 0 rest : Int)
  | rest => (atolDigits 0 rest : Int)

/-- Conversion of the `long` result of `atol` to `uint16_t`. -/
def toUInt16 (v : Int) : Nat := (v % 65536).toNat

/-- The loop `for (int i=0; i<6; ++i)` of `doSBDIX` from index `i` on, over the
text `strtok` has not scanned yet. -/
def parseFields : Nat → Nat → List Nat → SBDIXReply → Int × SBDIXReply
  | 0, _, _, r => (ISBD_SUCCESS, r)
  | n + 1, i, text, r =>
    match strtok text with
    | none => (ISBD_PROTOCOL_ERROR, r)
    | some (p, rest) => parseFields n (i + 1) rest (r.set i (toUInt16 (atol p)))

/-- Source: `int IridiumSBD::doSBDIX(...)`, from the passes of its `waitForATResponse`
call on: `cancelled` is the answer of `cancelled()` after a failed wait, `r` the
values the out-parameters hold on entry. -/
def doSBDIX (polls : List Poll) (cancelled : Bool) (r : SBDIXReply) : Int × SBDIXReply :=
  let w := waitForATResponse (some 32) (some (cstr "+SBDIX: ")) (cstr "OK\r\n") polls
  if !w.matched then
    (if cancelled then ISBD_CANCELLED else ISBD_PROTOCOL_ERROR, r)
  else
    parseFields 6 0 (textOf (bufferOf 32 w.state.response)) r

/-! ## Mailbox check-in loop of `internalSendReceiveSBD` -/

/-- Commands and waits of the SBDIX loop, in the order performed. -/
inductive LoopAction where
  | msstm
  | sbdix
  | sbdrb
  | wait (seconds : Int)
deriving DecidableEq, Repr

/-- What the environment does during one pass of the SBDIX loop: the clock at
the loop test, and the results of the calls the pass may make. -/
structure Attempt where
  now : Nat
  msstm : Int × Bool
  sbdix : Int × SBDIXReply
  sbdrb : Int × Nat
  waitOk : Bool
deriving DecidableEq, Repr

/-- Result of the SBDIX loop: the return code (`none` when the script of passes
ends before the loop does), the session, the value left in `*prxBufferSize`, and
the actions performed.  The ring flag is not followed through the waits of the
loop: `cancelled()` sets `ringAsserted` when a ring pin reads LOW and the filter
sets it when the literal arrives; no branch of the loop reads the flag, and
`session` carries the value it had on entry. -/
structure LoopResult where
  ret : Option Int
  session : IridiumSBD
  rxBufferSize : Option Nat
  trace : List LoopAction
deriving DecidableEq, Repr

/-- The loop test `millis() - start < 1000UL * this->sendReceiveTimeout` on
32-bit `unsigned long`. -/
def withinDeadline (s : IridiumSBD) (start now : Nat) : Bool :=
  decide ((now + 2 ^ 32 - start % 2 ^ 32) % 2 ^ 32 < ((1000 * s.sendReceiveTimeout) % 2 ^ 32).toNat)

/-- Outcome of one pass through the body of the SBDIX loop: the operation
returns, or the loop test is evaluated again. -/
inductive PassOutcome where
  | done (r : LoopResult)
  | again (trace : List LoopAction)
deriving DecidableEq, Repr

/-- The body of the "Long SBDIX loop" of `internalSendReceiveSBD`; `rxBuffer`
tells whether the receive buffer pointer is non-NULL, `size` is the value behind
`prxBufferSize` (`none` for NULL), `tr` the actions performed so far.  The
assignment `this->remainingMessages = mtRemaining` stores the count as a number:
that is what an `int` of 32 bits holds for every `uint16_t`, and an `int` of 16
bits for the counts up to 32767. -/
def sbdixPass (rxBuffer : Bool) (s : IridiumSBD) (size : Option Nat)
    (tr : List LoopAction) (a : Attempt) : PassOutcome :=
  if s.msstmWorkaroundRequested && decide (a.msstm.1 ≠ ISBD_SUCCESS) then
    PassOutcome.done { ret := some a.msstm.1, session := s, rxBufferSize := size,
                       trace := tr ++ [LoopAction.msstm] }
  else
    let tr1 := if s.msstmWorkaroundRequested then tr ++ [LoopAction.msstm] else tr
    let okToProceed := if s.msstmWorkaroundRequested then a.msstm.2 else true
    if okToProceed then
      let tr2 := tr1 ++ [LoopAction.sbdix]
      if a.sbdix.1 ≠ ISBD_SUCCESS then
        PassOutcome.done { ret := some a.sbdix.1, session := s, rxBufferSize := size,
                           trace := tr2 }
      else
        let moCode := a.sbdix.2.moCode
        if 0 ≤ moCode ∧ moCode ≤ 4 then
          let s1 := { s with remainingMessages := (a.sbdix.2.mtRemaining : Int) }
          if a.sbdix.2.mtCode = 1 ∧ rxBuffer then
            PassOutcome.done { ret := some a.sbdrb.1, session := s1,
                               rxBufferSize := size.map (fun _ => a.sbdrb.2),
                               trace := tr2 ++ [LoopAction.sbdrb] }
          else
            PassOutcome.done { ret := some ISBD_SUCCESS, session := s1,
                               rxBufferSize := size.map (fun _ => 0), trace := tr2 }
        else if moCode = 12 ∨ moCode = 14 ∨ moCode = 16 then
          PassOutcome.done { ret := some ISBD_SBDIX_FATAL_ERROR, session := s,
                             rxBufferSize := size, trace := tr2 }
        else
          let tr3 := tr2 ++ [LoopAction.wait s.sbdixInterval]
          if !a.waitOk then
            PassOutcome.done { ret := some ISBD_CANCELLED, session := s,
                               rxBufferSize := size, trace := tr3 }
          else PassOutcome.again tr3
    else
      let tr2 := tr1 ++ [LoopAction.wait ISBD_MSSTM_RETRY_INTERVAL]
      if !a.waitOk then
        PassOutcome.done { ret := some ISBD_CANCELLED, session := s,
                           rxBufferSize := size, trace := tr2 }
      else PassOutcome.again tr2

/-- The "Long SBDIX loop" of `internalSendReceiveSBD`, `start` being the clock
when the loop is entered: one attempt of the script per evaluation of the loop
test. -/
def sbdixLoop (rxBuffer : Bool) (start : Nat) (s : IridiumSBD) (size : Option Nat) :
    List LoopAction → List Attempt → LoopResult
  | tr, [] => { ret := none, session := s, rxBufferSize := size, trace := tr }
  | tr, a :: rest =>
    if !withinDeadline s start a.now then
      { ret := some ISBD_SENDRECEIVE_TIMEOUT, session := s, rxBufferSize := size, trace := tr }
    else
      match sbdixPass rxBuffer s size tr a with
      | PassOutcome.done r => r
      | PassOutcome.again tr1 => sbdixLoop rxBuffer start s size tr1 rest


/-! ## Reference transducer for the filter (used in the proofs) -/

/-- Bytes a reader gets from the filter when `k` characters of the literal are
matched and undecided and the transport still holds `evs`: a mismatch or a pause
releases the matched characters, a completed literal is dropped. -/
def scanOut : Nat → Raw → List Nat
  | k, [] => SBDRING.take k
  | k, none :: rest => SBDRING.take k ++ scanOut 0 rest
  | k, some b :: rest =>
    if b = cstrAt SBDRING k then
      if k + 1 = 9 then scanOut 0 rest else scanOut (k + 1) rest
    else SBDRING.take k ++ b :: scanOut 0 rest

/-- Whether a literal is completed on the way, from `k` matched characters on. -/
def scanRing : Nat → Raw → Bool
  | _, [] => false
  | _, none :: rest => scanRing 0 rest
  | k, some b :: rest =>
    if b = cstrAt SBDRING k then
      if k + 1 = 9 then true else scanRing (k + 1) rest
    else scanRing 0 rest

/-- Bytes the filter holds for delivery: the queue `[tail, head)` of literal
characters, then the byte held back in `nextChar`. -/
def pending (s : IridiumSBD) : List Nat :=
  (SBDRING.drop s.tail).take (s.head - s.tail)
    ++ (if s.nextChar ≠ -1 then [intToChar s.nextChar] else [])

/-- A byte the transport can carry and that `nextChar` can tell from its empty
marker `-1`. -/
def ValidByte (charSigned : Bool) (b : Nat) : Prop :=
  b < 256 ∧ charToInt charSigned b ≠ -1

/-- Filter states between two reads: offsets within the literal, an empty queue
resets to offset 0, and a queue is only held together with a held-back byte. -/
def Settled (charSigned : Bool) (s : IridiumSBD) : Prop :=
  s.tail ≤ s.head ∧ s.head ≤ 8 ∧ (s.tail = s.head → s.head = 0)
    ∧ (s.nextChar = -1 → s.tail = s.head)
    ∧ (s.nextChar ≠ -1 → ∃ b, ValidByte charSigned b ∧ s.nextChar = charToInt charSigned b)

/-! ## Notions used in the statements -/

/-- The actions of the time-sync check that opens a pass of the SBDIX loop. -/
def msstmActions (s : IridiumSBD) : List LoopAction :=
  if s.msstmWorkaroundRequested then [LoopAction.msstm] else []

/-- The number a string of ASCII decimal digits denotes. -/
def decimalValue (d : List Nat) : Nat :=
  Nat.ofDigits 10 ((d.map (fun c => c - 48)).reverse)

/-- The prompt and capture automaton of `waitForATResponse` run over a sequence
of bytes (it does not depend on the terminator automaton). -/
def promptRun (response : Bool) (prompt : Option (List Nat)) (w : WaitState)
    (bytes : List Nat) : WaitState :=
  bytes.foldl (promptStep response prompt) w

/-! ## Fields of a reply text -/

/-- The fields of a text: its maximal runs of characters other than ',' and ' ',
in order. -/
def fields : List Nat → List (List Nat)
  | [] => []
  | c :: rest =>
    if isDelim c then fields rest
    else
      match rest with
      | [] => [[c]]
      | d :: _ =>
        if isDelim d then [c] :: fields rest
        else
          match fields rest with
          | [] => [[c]]
          | f :: fs => (c :: f) :: fs

/-! ## Binary receive: `doSBDRB` -/

/-- One pass through one of the three waiting loops of `doSBDRB`: the answer of
`cancelled()`, the bytes that have reached the receive buffer of the transport
since the pass before, and the value of `millis() - start >= 1000UL * atTimeout`
when the pass tests the clock. -/
structure Tick where
  cancelled : Bool
  arrived : List Nat
  expired : Bool
deriving DecidableEq, Repr

/-- The raw bytes that arrive during a sequence of passes. -/
def tickBytes : List Tick → List Nat
  | [] => []
  | t :: rest => t.arrived ++ tickBytes rest

/-- The loop `while (millis() - start < 1000UL * atTimeout) { if (cancelled())
return ISBD_CANCELLED; if (stream.available() >= 2) break; }` followed by
`if (stream.available() < 2) return ISBD_SENDRECEIVE_TIMEOUT;`, over the passes
that fit into the timeout: the return code, if the function returns here, the
receive buffer and the passes left. -/
def awaitTwo : List Nat → List Tick → Option Int × List Nat × List Tick
  | buf, [] => (if buf.length < 2 then some ISBD_SENDRECEIVE_TIMEOUT else none, buf, [])
  | buf, t :: rest =>
    if t.expired then
      (if (buf ++ t.arrived).length < 2 then some ISBD_SENDRECEIVE_TIMEOUT else none,
       buf ++ t.arrived, rest)
    else if t.cancelled then (some ISBD_CANCELLED, buf ++ t.arrived, rest)
    else if (buf ++ t.arrived).length ≥ 2 then (none, buf ++ t.arrived, rest)
    else awaitTwo (buf ++ t.arrived) rest

/-- The caller's receive buffer during `doSBDRB`: the bytes stored through
`*rxBuffer++ = c`, the value behind `prxBufferSize` (`none` for NULL), and the
local `rxOverflow`. -/
structure RxState where
  stored : List Nat
  size : Option Nat
  overflow : Bool
deriving DecidableEq, Repr

/-- The statement `if (rxBuffer && prxBufferSize) { ... }` for the byte `c`. -/
def storeByte (rxBuffer : Bool) (rx : RxState) (c : Nat) : RxState :=
  match rx.size with
  | none => rx
  | some n =>
    if rxBuffer then
      if n > 0 then { rx with stored := rx.stored ++ [c], size := some (n - 1) }
      else { rx with overflow := true }
    else rx

/-- Outcome of the payload loop of `doSBDRB`. -/
structure BodyResult where
  ret : Option Int
  buf : List Nat
  rx : RxState
  read : List Nat
  ticks : List Tick
deriving DecidableEq, Repr

/-- The loop `for (uint16_t bytesRead = 0; bytesRead < size;)` of `doSBDRB` with
`n = size - bytesRead` bytes still to read; `got` lists the payload bytes read. -/
def readBody (rxBuffer : Bool) : Nat → List Nat → RxState → List Nat → List Tick → BodyResult
  | 0, buf, rx, got, ticks => { ret := none, buf := buf, rx := rx, read := got, ticks := ticks }
  | _ + 1, buf, rx, got, [] =>
    { ret := some ISBD_SENDRECEIVE_TIMEOUT, buf := buf, rx := rx, read := got, ticks := [] }
  | n + 1, buf, rx, got, t :: rest =>
    if t.cancelled then
      { ret := some ISBD_CANCELLED, buf := buf ++ t.arrived, rx := rx, read := got,
        ticks := rest }
    else
      match buf ++ t.arrived with
      | [] =>
        if t.expired then
          { ret := some ISBD_SENDRECEIVE_TIMEOUT, buf := [], rx := rx, read := got,
            ticks := rest }
        else readBody rxBuffer (n + 1) [] rx got rest
      | c :: buf1 =>
        if t.expired then
          { ret := some ISBD_SENDRECEIVE_TIMEOUT, buf := buf1, rx := storeByte rxBuffer rx c,
            read := got ++ [c], ticks := rest }
        else readBody rxBuffer n buf1 (storeByte rxBuffer rx c) (got ++ [c]) rest

/-- Result of `doSBDRB`: the return code, the bytes stored in the caller's
buffer, the value left behind `prxBufferSize`, and the bytes taken from the
transport by `stream.read()`, in order. -/
structure RBResult where
  ret : Int
  stored : List Nat
  rxBufferSize : Option Nat
  rawRead : List Nat
deriving DecidableEq, Repr

/-- The value `256 * stream.read() + stream.read()` assigned to a `uint16_t`,
the operands taken from left to right. -/
def readUInt16 (hi lo : Nat) : Nat := (256 * hi + lo) % 65536

/-- Source: `int IridiumSBD::doSBDRB(uint8_t *rxBuffer, size_t *prxBufferSize)`.
`echo` and `final` are the passes of its two `waitForATResponse` calls, `ticks`
the passes of its own loops on the raw transport, `cancelled` the answer of
`cancelled()` after a failed wait. -/
def doSBDRB (rxBuffer : Bool) (prxBufferSize : Option Nat) (echo : List Poll)
    (ticks : List Tick) (final : List Poll) (cancelled : Bool) : RBResult :=
  let failure := if cancelled then ISBD_CANCELLED else ISBD_PROTOCOL_ERROR
  if !(waitForATResponse none none (cstr "AT+SBDRB\r") echo).matched then
    { ret := failure, stored := [], rxBufferSize := prxBufferSize, rawRead := [] }
  else
    match awaitTwo [] ticks with
    | (some code, _, _) =>
      { ret := code, stored := [], rxBufferSize := prxBufferSize, rawRead := [] }
    | (none, hi :: lo :: buf1, ticks1) =>
      let size := readUInt16 hi lo
      let body := readBody rxBuffer size buf1
        { stored := [], size := prxBufferSize, overflow := false } [] ticks1
      match body.ret with
      | some code =>
        { ret := code, stored := body.rx.stored, rxBufferSize := body.rx.size,
          rawRead := hi :: lo :: body.read }
      | none =>
        match awaitTwo body.buf body.ticks with
        | (some code, _, _) =>
          { ret := code, stored := body.rx.stored, rxBufferSize := body.rx.size,
            rawRead := hi :: lo :: body.read }
        | (none, c1 :: c2 :: _, _) =>
          let reported := prxBufferSize.map (fun _ => size)
          if !(waitForATResponse none none (cstr "OK\r\n") final).matched then
            { ret := failure, stored := body.rx.stored, rxBufferSize := reported,
              rawRead := hi :: lo :: body.read ++ [c1, c2] }
          else
            { ret := if body.rx.overflow then ISBD_RX_OVERFLOW else ISBD_SUCCESS,
              stored := body.rx.stored, rxBufferSize := reported,
              rawRead := hi :: lo :: body.read ++ [c1, c2] }
        | (none, _, _) =>
          { ret := ISBD_SENDRECEIVE_TIMEOUT, stored := body.rx.stored,
            rxBufferSize := body.rx.size, rawRead := hi :: lo :: body.read }
    | (none, _, _) =>
      { ret := ISBD_SENDRECEIVE_TIMEOUT, stored := [], rxBufferSize := prxBufferSize,
        rawRead := [] }

/-- The caller's buffer after the payload bytes `bytes` have gone through
`storeByte`, in order. -/
def storeAll (rxBuffer : Bool) (rx : RxState) (bytes : List Nat) : RxState :=
  bytes.foldl (storeByte rxBuffer) rx

/-- Passes under which nothing is lost to time: none is cancelled, none finds
the timeout expired, and they split into `early ++ late` such that with the bytes
arrived by the end of `early` at least `need` bytes are at hand, `late` holding at
least `k` passes. -/
def InTime (need k : Nat) (buf : List Nat) (ticks : List Tick) : Prop :=
  (∀ t ∈ ticks, t.cancelled = false ∧ t.expired = false)
    ∧ ∃ early late, ticks = early ++ late ∧ k ≤ late.length
        ∧ need ≤ (buf ++ tickBytes early).length

/-! ## Effects on the hardware -/

/-- What an operation does to the transport and to the sleep pin, in the order
it does it. -/
inductive Effect where
  | send (bytes : List Nat)
  | receive
  | checkin (a : LoopAction)
  | pinMode (pin : Int)
  | digitalWrite (pin : Int) (level : Bool)
  | delay (ms : Nat)
deriving DecidableEq, Repr

/-- The bytes written to the transport by `stream.print` and `stream.write`,
those of the commands of the SBDIX loop apart. -/
def sentBytes : List Effect → List Nat
  | [] => []
  | Effect.send bytes :: rest => bytes ++ sentBytes rest
  | _ :: rest => sentBytes rest

/-- Result of an operation: return code, session, effects. -/
structure OpResult where
  ret : Int
  session : IridiumSBD
  effects : List Effect
deriving DecidableEq, Repr

/-! ## Power -/

/-- Source: `void IridiumSBD::power(bool on)`, with `turnOn` for `on`; `now` is the value of `millis()`
it reads, `digitalWrite` level `true` is HIGH. -/
def power (s : IridiumSBD) (turnOn : Bool) (now : Nat) : IridiumSBD × List Effect :=
  let s1 := { s with asleep := !turnOn }
  if s1.sleepPin = -1 then (s1, [])
  else if turnOn then
    ({ s1 with lastPowerOnTime := now },
     [Effect.pinMode s1.sleepPin, Effect.digitalWrite s1.sleepPin true])
  else
    let elapsed := (now + 2 ^ 32 - s1.lastPowerOnTime % 2 ^ 32) % 2 ^ 32
    (s1,
     [Effect.pinMode s1.sleepPin]
       ++ (if elapsed < 2000 then [Effect.delay (2000 - elapsed)] else [])
       ++ [Effect.digitalWrite s1.sleepPin false])

/-- Source: `bool IridiumSBD::isAsleep()`. -/
def isAsleep (s : IridiumSBD) : Bool := s.asleep

/-- Source: `int IridiumSBD::getWaitingMessageCount()`. -/
def getWaitingMessageCount (s : IridiumSBD) : Int := s.remainingMessages

/-! ## Firmware version and `begin` -/

/-- Result of `getFirmwareVersion`: return code, session, contents of the
caller's buffer `version`, effects. -/
structure FirmwareResult where
  ret : Int
  session : IridiumSBD
  version : List Nat
  effects : List Effect
deriving DecidableEq, Repr

/-- Source: `int IridiumSBD::getFirmwareVersion(char *version, size_t bufferSize)`;
`polls` are the passes of its `waitForATResponse`, `cancelled` the answer of
`cancelled()` after a failed wait.  The method has no busy check. -/
def getFirmwareVersion (s : IridiumSBD) (bufferSize : Nat) (polls : List Poll)
    (cancelled : Bool) : FirmwareResult :=
  if bufferSize < 8 then
    { ret := ISBD_RX_OVERFLOW, session := s, version := [], effects := [] }
  else
    let w := waitForATResponse (some (bufferSize : Int))
      (some (cstr "Call Processor Version: ")) (cstr "OK\r\n") polls
    { ret := if !w.matched then (if cancelled then ISBD_CANCELLED else ISBD_PROTOCOL_ERROR)
             else ISBD_SUCCESS,
      session := s,
      version := bufferOf bufferSize w.state.response,
      effects := [Effect.send (cstr "AT+CGMR\r"), Effect.receive] }

/-- The C library `strtoul(_, NULL, 10)` on a 32-bit `unsigned long`: leading
white space, an optional sign, decimal digits; a value that does not fit gives
`ULONG_MAX`, a minus sign negates modulo 2^32. -/
def strtoul10 (s : List Nat) : Nat :=
  match s.dropWhile isSpace with
  | 45 :: rest =>
    if 2 ^ 32 ≤ atolDigits 0 rest then 2 ^ 32 - 1 else (2 ^ 32 - atolDigits 0 rest) % 2 ^ 32
  | 43 :: rest => if 2 ^ 32 ≤ atolDigits 0 rest then 2 ^ 32 - 1 else atolDigits 0 rest
  | rest => if 2 ^ 32 ≤ atolDigits 0 rest then 2 ^ 32 - 1 else atolDigits 0 rest

/-- One pass of the loop of `internalBegin` that sends "AT": the result of
`waitForATResponse()` and the answer of `cancelled()` after it. -/
structure Probe where
  alive : Bool
  cancelled : Bool
deriving DecidableEq, Repr

/-- A command of the initialization sequence: the result of `waitForATResponse()`
and the answer of `cancelled()` after a failed wait. -/
structure Command where
  ok : Bool
  cancelled : Bool
deriving DecidableEq, Repr

/-- What the environment does during `begin`. -/
structure BeginEnv where
  powerOnClock : Nat
  startupCancelled : Bool
  probes : List Probe
  ate1 : Command
  atd0 : Command
  atk0 : Command
  sbdmta : Command
  firmware : List Poll
  firmwareCancelled : Bool
  powerOffClock : Nat
deriving DecidableEq, Repr

/-- The loop `for (unsigned long start = millis(); !modemAlive && millis() - start
< 1000UL * ISBD_STARTUP_MAX_TIME;)` of `internalBegin` over the passes that fit
into the startup time: the return code, if it returns, `modemAlive`, effects. -/
def probeLoop : List Probe → Option Int × Bool × List Effect
  | [] => (none, false, [])
  | p :: rest =>
    if p.cancelled then
      (some ISBD_CANCELLED, p.alive, [Effect.send (cstr "AT\r"), Effect.receive])
    else if p.alive then (none, true, [Effect.send (cstr "AT\r"), Effect.receive])
    else
      ((probeLoop rest).1, (probeLoop rest).2.1,
       [Effect.send (cstr "AT\r"), Effect.receive] ++ (probeLoop rest).2.2)

/-- The commands `send(...); if (!waitForATResponse()) return cancelled() ?
ISBD_CANCELLED : ISBD_PROTOCOL_ERROR;` of `internalBegin`, in order. -/
def runCommands : List (List Nat × Command) → Option Int × List Effect
  | [] => (none, [])
  | (text, c) :: rest =>
    if !c.ok then
      (some (if c.cancelled then ISBD_CANCELLED else ISBD_PROTOCOL_ERROR),
       [Effect.send text, Effect.receive])
    else ((runCommands rest).1, [Effect.send text, Effect.receive] ++ (runCommands rest).2)

/-- The decision of `internalBegin` on the MSSTM workaround from the result of
`getFirmwareVersion(version, sizeof(version))`. -/
def workaroundFromFirmware (s : IridiumSBD) (fw : FirmwareResult) : Bool :=
  if fw.ret ≠ ISBD_SUCCESS then true
  else if cstrAt fw.version 0 = 84 ∧ cstrAt fw.version 1 = 65 then
    decide (strtoul10 (textOf (fw.version.drop 2)) < ISBD_MSSTM_WORKAROUND_FW_VER)
  else s.msstmWorkaroundRequested

/-- Source: `int IridiumSBD::internalBegin()`. -/
def internalBegin (s : IridiumSBD) (env : BeginEnv) : OpResult :=
  if !s.asleep then { ret := ISBD_ALREADY_AWAKE, session := s, effects := [] }
  else
    let p := power s true env.powerOnClock
    if env.startupCancelled then { ret := ISBD_CANCELLED, session := p.1, effects := p.2 }
    else
      let pr := probeLoop env.probes
      match pr.1 with
      | some code => { ret := code, session := p.1, effects := p.2 ++ pr.2.2 }
      | none =>
        if !pr.2.1 then
          { ret := ISBD_NO_MODEM_DETECTED, session := p.1, effects := p.2 ++ pr.2.2 }
        else
          let cmds := runCommands
            [(cstr "ATE1\r", env.ate1), (cstr "AT&D0\r", env.atd0), (cstr "AT&K0\r", env.atk0),
             (if s.ringAlertsEnabled then cstr "AT+SBDMTA=1\r" else cstr "AT+SBDMTA=0\r",
              env.sbdmta)]
          match cmds.1 with
          | some code => { ret := code, session := p.1, effects := p.2 ++ pr.2.2 ++ cmds.2 }
          | none =>
            let fw := getFirmwareVersion p.1 8 env.firmware env.firmwareCancelled
            { ret := ISBD_SUCCESS,
              session := { p.1 with msstmWorkaroundRequested := workaroundFromFirmware p.1 fw },
              effects := p.2 ++ pr.2.2 ++ cmds.2 ++ fw.effects }

/-- Source: `int IridiumSBD::begin()`. -/
def begin (s : IridiumSBD) (env : BeginEnv) : OpResult :=
  if s.reentrant then { ret := ISBD_REENTRANT, session := s, effects := [] }
  else
    let r := internalBegin { s with reentrant := true } env
    let s1 := { r.session with reentrant := false }
    if r.ret ≠ ISBD_SUCCESS then
      { ret := r.ret, session := (power s1 false env.powerOffClock).1,
        effects := r.effects ++ (power s1 false env.powerOffClock).2 }
    else { ret := r.ret, session := s1, effects := r.effects }

/-! ## Send and receive -/

/-- The writes and waits of the transmit phase of `internalSendReceiveSBD`, in
order (the bytes of the sends are those of `transmitPhase`). -/
def transmitEffects (s : IridiumSBD) (txTxtMessage : Option (List Nat))
    (txData : Option (List Nat)) (env : TxEnv) : List Effect :=
  if s.asleep then []
  else
    match txData with
    | some (b :: data) =>
      let txData := b :: data
      if txData.length > ISBD_MAX_MESSAGE_LENGTH then []
      else
        let e1 := [Effect.send (cstr "AT+SBDWB="), Effect.send (printDec (txData.length % 65536)),
                   Effect.send (cstr "\r"), Effect.receive]
        if !env.ready then e1
        else
          let checksum := checksumLoop 0 txData
          e1 ++ [Effect.send (txData.map writeByte), Effect.send [writeByte (checksum >>> 8)],
                 Effect.send [writeByte (checksum &&& 0xFF)], Effect.receive]
    | _ =>
      match txTxtMessage with
      | none => [Effect.send (cstr "AT+SBDWT=\r"), Effect.receive]
      | some m =>
        let msg := m.takeWhile (fun c => c ≠ 13)
        if msg.length > ISBD_MAX_MESSAGE_LENGTH then []
        else
          let e1 := [Effect.send (cstr "AT+SBDWT\r"), Effect.receive]
          if !env.ready then e1
          else e1 ++ [Effect.send msg, Effect.send (cstr "\r"), Effect.receive]

/-- What the environment does during a send/receive operation: the answers to
the transmit phase, the clock when the SBDIX loop is entered, and the passes of
that loop. -/
structure SendEnv where
  tx : TxEnv
  loopStart : Nat
  attempts : List Attempt
deriving DecidableEq, Repr

/-- Result of a send/receive operation: the return code (`none` when the script
of loop passes ends before the loop does), the session (its ring flag as on
entry: the waits of the operation are not followed in it, see `LoopResult`), the
value behind `prxBufferSize`, effects. -/
structure SendResult where
  ret : Option Int
  session : IridiumSBD
  rxBufferSize : Option Nat
  effects : List Effect
deriving DecidableEq, Repr

/-- Source: `int IridiumSBD::internalSendReceiveSBD(const char *txTxtMessage, const
uint8_t *txData, size_t txDataSize, uint8_t *rxBuffer, size_t *prxBufferSize)`;
`txData` is `none` for NULL and else the `txDataSize` bytes, `rxBuffer` tells
whether the receive buffer is non-NULL, `prxBufferSize` is `none` for NULL. -/
def internalSendReceiveSBD (s : IridiumSBD) (txTxtMessage : Option (List Nat))
    (txData : Option (List Nat)) (rxBuffer : Bool) (prxBufferSize : Option Nat)
    (env : SendEnv) : SendResult :=
  match (transmitPhase s txTxtMessage txData env.tx).1 with
  | some code =>
    { ret := some code, session := s, rxBufferSize := prxBufferSize,
      effects := transmitEffects s txTxtMessage txData env.tx }
  | none =>
    let r := sbdixLoop rxBuffer env.loopStart s prxBufferSize [] env.attempts
    { ret := r.ret, session := r.session, rxBufferSize := r.rxBufferSize,
      effects := transmitEffects s txTxtMessage txData env.tx ++ r.trace.map Effect.checkin }

/-- Source: `int IridiumSBD::sendSBDBinary(const uint8_t *txData, size_t txDataSize)`. -/
def sendSBDBinary (s : IridiumSBD) (txData : Option (List Nat)) (env : SendEnv) : SendResult :=
  if s.reentrant then { ret := some ISBD_REENTRANT, session := s, rxBufferSize := none, effects := [] }
  else
    let r := internalSendReceiveSBD { s with reentrant := true } none txData false none env
    { r with session := { r.session with reentrant := false } }

/-- Source: `int IridiumSBD::sendReceiveSBDBinary(const uint8_t *txData, size_t
txDataSize, uint8_t *rxBuffer, size_t &rxBufferSize)`. -/
def sendReceiveSBDBinary (s : IridiumSBD) (txData : Option (List Nat)) (rxBuffer : Bool)
    (rxBufferSize : Nat) (env : SendEnv) : SendResult :=
  if s.reentrant then
    { ret := some ISBD_REENTRANT, session := s, rxBufferSize := some rxBufferSize, effects := [] }
  else
    let r := internalSendReceiveSBD { s with reentrant := true } none txData rxBuffer
      (some rxBufferSize) env
    { r with session := { r.session with reentrant := false } }

/-- Source: `int IridiumSBD::sendSBDText(const char *message)`. -/
def sendSBDText (s : IridiumSBD) (message : Option (List Nat)) (env : SendEnv) : SendResult :=
  if s.reentrant then { ret := some ISBD_REENTRANT, session := s, rxBufferSize := none, effects := [] }
  else
    let r := internalSendReceiveSBD { s with reentrant := true } message none false none env
    { r with session := { r.session with reentrant := false } }

/-- Source: `int IridiumSBD::sendReceiveSBDText(const char *message, uint8_t
*rxBuffer, size_t &rxBufferSize)`. -/
def sendReceiveSBDText (s : IridiumSBD) (message : Option (List Nat)) (rxBuffer : Bool)
    (rxBufferSize : Nat) (env : SendEnv) : SendResult :=
  if s.reentrant then
    { ret := some ISBD_REENTRANT, session := s, rxBufferSize := some rxBufferSize, effects := [] }
  else
    let r := internalSendReceiveSBD { s with reentrant := true } message none rxBuffer
      (some rxBufferSize) env
    { r with session := { r.session with reentrant := false } }

/-! ## Signal quality, sleep, system time -/

/-- Result of `getSignalQuality`: return code, session, the value assigned to
`quality` (`none` when it is not assigned), effects. -/
structure QualityResult where
  ret : Int
  session : IridiumSBD
  quality : Option Int
  effects : List Effect
deriving DecidableEq, Repr

/-- Source: `int IridiumSBD::internalGetSignalQuality(int &quality)`. -/
def internalGetSignalQuality (s : IridiumSBD) (polls : List Poll) (cancelled : Bool) :
    QualityResult :=
  if s.asleep then { ret := ISBD_IS_ASLEEP, session := s, quality := none, effects := [] }
  else
    let w := waitForATResponse (some 2) (some (cstr "+CSQ:")) (cstr "OK\r\n") polls
    let csqResponseBuf := bufferOf 2 w.state.response
    if !w.matched then
      { ret := if cancelled then ISBD_CANCELLED else ISBD_PROTOCOL_ERROR, session := s,
        quality := none, effects := [Effect.send (cstr "AT+CSQ\r"), Effect.receive] }
    else if 48 ≤ cstrAt csqResponseBuf 0 ∧ cstrAt csqResponseBuf 0 ≤ 57 then
      { ret := ISBD_SUCCESS, session := s, quality := some (atol (textOf csqResponseBuf)),
        effects := [Effect.send (cstr "AT+CSQ\r"), Effect.receive] }
    else
      { ret := ISBD_PROTOCOL_ERROR, session := s, quality := none,
        effects := [Effect.send (cstr "AT+CSQ\r"), Effect.receive] }

/-- Source: `int IridiumSBD::getSignalQuality(int &quality)`. -/
def getSignalQuality (s : IridiumSBD) (polls : List Poll) (cancelled : Bool) : QualityResult :=
  if s.reentrant then { ret := ISBD_REENTRANT, session := s, quality := none, effects := [] }
  else
    let r := internalGetSignalQuality { s with reentrant := true } polls cancelled
    { r with session := { r.session with reentrant := false } }

/-- Source: `int IridiumSBD::internalSleep()`. -/
def internalSleep (s : IridiumSBD) : Int :=
  if s.asleep then ISBD_IS_ASLEEP else ISBD_SUCCESS

/-- Source: `int IridiumSBD::sleep()`; `now` is the value of `millis()` read by
`power(false)`. -/
def sleep (s : IridiumSBD) (now : Nat) : OpResult :=
  if s.reentrant then { ret := ISBD_REENTRANT, session := s, effects := [] }
  else if s.sleepPin = -1 then { ret := ISBD_NO_SLEEP_PIN, session := s, effects := [] }
  else
    let ret := internalSleep { s with reentrant := true }
    let s1 := { s with reentrant := false }
    if ret = ISBD_SUCCESS then
      { ret := ret, session := (power s1 false now).1, effects := (power s1 false now).2 }
    else { ret := ret, session := s1, effects := [] }

/-- The C library `isxdigit`. -/
def isXDigit (c : Nat) : Bool :=
  (48 ≤ c && c ≤ 57) || (65 ≤ c && c ≤ 70) || (97 ≤ c && c ≤ 102)

/-- Result of `getSystemTime`: return code, session, the captured text of the
reply, effects. -/
structure TimeResult where
  ret : Int
  session : IridiumSBD
  msstmResponseBuf : List Nat
  effects : List Effect
deriving DecidableEq, Repr

/-- Source: `int IridiumSBD::getSystemTime(struct tm &tm)`, up to the conversion
of the captured tick count.  The method has no busy check. -/
def getSystemTime (s : IridiumSBD) (polls : List Poll) (cancelled : Bool) : TimeResult :=
  let w := waitForATResponse (some 24) (some (cstr "-MSSTM: ")) (cstr "OK\r\n") polls
  let msstmResponseBuf := bufferOf 24 w.state.response
  { ret := if !w.matched then (if cancelled then ISBD_CANCELLED else ISBD_PROTOCOL_ERROR)
           else if !isXDigit (cstrAt msstmResponseBuf 0) then ISBD_NO_NETWORK
           else ISBD_SUCCESS,
    session := s,
    msstmResponseBuf := msstmResponseBuf,
    effects := [Effect.send (cstr "AT-MSSTM\r"), Effect.receive] }

/-! ## Settings -/

/-- Source: `DEFAULT_POWER_PROFILE = 0` of `enum POWERPROFILE`. -/
def DEFAULT_POWER_PROFILE : Int := 0

/-- Source: `USB_POWER_PROFILE = 1` of `enum POWERPROFILE`. -/
def USB_POWER_PROFILE : Int := 1

/-- Source: `void IridiumSBD::setPowerProfile(POWERPROFILE profile)`; the `switch`
has no default case. -/
def setPowerProfile (s : IridiumSBD) (profile : Int) : IridiumSBD :=
  if profile = DEFAULT_POWER_PROFILE then { s with sbdixInterval := ISBD_DEFAULT_SBDIX_INTERVAL }
  else if profile = USB_POWER_PROFILE then { s with sbdixInterval := ISBD_USB_SBDIX_INTERVAL }
  else s

/-- Source: `void IridiumSBD::adjustATTimeout(int seconds)`. -/
def adjustATTimeout (s : IridiumSBD) (seconds : Int) : IridiumSBD :=
  { s with atTimeout := seconds }

/-- Source: `void IridiumSBD::adjustSendReceiveTimeout(int seconds)`. -/
def adjustSendReceiveTimeout (s : IridiumSBD) (seconds : Int) : IridiumSBD :=
  { s with sendReceiveTimeout := seconds }

/-- Source: `void IridiumSBD::useMSSTMWorkaround(bool useWorkAround)`. -/
def useMSSTMWorkaround (s : IridiumSBD) (useWorkAround : Bool) : IridiumSBD :=
  { s with msstmWorkaroundRequested := useWorkAround }

/-- Source: `void IridiumSBD::enableRingAlerts(bool enable)`. -/
def enableRingAlerts (s : IridiumSBD) (enable : Bool) : IridiumSBD :=
  if enable then { s with ringAlertsEnabled := enable, ringAsserted := false }
  else { s with ringAlertsEnabled := enable }

/-- Source: `bool IridiumSBD::hasRingAsserted()`: the value returned, the
session and the transport afterwards. -/
def hasRingAsserted (charSigned : Bool) (s : IridiumSBD) (evs : Raw) :
    Bool × IridiumSBD × Raw :=
  if !s.ringAlertsEnabled then (false, s, evs)
  else
    let r := if !s.reentrant then filterSBDRING charSigned s evs else (s, evs)
    (r.1.ringAsserted, { r.1 with ringAsserted := false }, r.2)

/-! ## Revision 1 of the engine (`src/IridiumSBD.cpp`) -/

/-- Source, revision 1: the loop test `millis() - start < 1000UL *
ISBD_DEFAULT_SENDRECEIVE_TIME` of its `internalSendReceiveSBD`, on 32-bit
`unsigned long`; the constant is 300 in that revision too, and the member
`sendReceiveTimeout`, which its `adjustSendReceiveTimeout` sets in the same way
as `adjustSendReceiveTimeout` here, is not read. -/
def Revision1.withinDeadline (_s : IridiumSBD) (start now : Nat) : Bool :=
  decide ((now + 2 ^ 32 - start % 2 ^ 32) % 2 ^ 32
    < ((1000 * ISBD_DEFAULT_SENDRECEIVE_TIME) % 2 ^ 32).toNat)

/-! ## Further devices for the proofs -/

/-- The time spent in `delay` by a list of effects, in milliseconds. -/
def delayTotal : List Effect → Nat
  | [] => 0
  | Effect.delay ms :: rest => ms + delayTotal rest
  | _ :: rest => delayTotal rest

/-- The commands of the initialization sequence of `internalBegin` after the
probe loop, with the results the environment gives them: the three
configuration commands and the command that enables or disables ring alerts. -/
def beginCommands (s : IridiumSBD) (env : BeginEnv) : List (List Nat × Command) :=
  [(cstr "ATE1\r", env.ate1), (cstr "AT&D0\r", env.atd0), (cstr "AT&K0\r", env.atk0),
   (if s.ringAlertsEnabled then cstr "AT+SBDMTA=1\r" else cstr "AT+SBDMTA=0\r", env.sbdmta)]

/-- The result of a failed command of `internalBegin`:
`cancelled() ? ISBD_CANCELLED : ISBD_PROTOCOL_ERROR`. -/
def commandFailure (c : Command) : Int :=
  if c.cancelled then ISBD_CANCELLED else ISBD_PROTOCOL_ERROR


/-! ## System time -/

/-- The value of a hexadecimal digit, as the C library `strtoul` reads it. -/
def hexDigitValue (c : Nat) : Option Nat :=
  if 48 ≤ c ∧ c ≤ 57 then some (c - 48)
  else if 65 ≤ c ∧ c ≤ 70 then some (c - 55)
  else if 97 ≤ c ∧ c ≤ 102 then some (c - 87)
  else none

/-- The digit loop of `strtoul(_, NULL, 16)`: the value of the leading
hexadecimal digits. -/
def hexDigits : Nat → List Nat → Nat
  | acc, [] => acc
  | acc, c :: rest =>
    match hexDigitValue c with
    | some d => hexDigits (acc * 16 + d) rest
    | none => acc

/-- The C library `strtoul(_, NULL, 16)` on a 32-bit `unsigned long`: leading
white space, an optional sign, an optional "0x" or "0X", hexadecimal digits; a
value that does not fit gives `ULONG_MAX`, a minus sign negates modulo 2^32. -/
def strtoul16 (s : List Nat) : Nat :=
  let unsignedPart := fun (t : List Nat) =>
    match t with
    | 48 :: x :: rest => if x = 120 ∨ x = 88 then hexDigits 0 rest else hexDigits 0 t
    | _ => hexDigits 0 t
  match s.dropWhile isSpace with
  | 45 :: rest =>
    if 2 ^ 32 ≤ unsignedPart rest then 2 ^ 32 - 1 else (2 ^ 32 - unsignedPart rest) % 2 ^ 32
  | 43 :: rest => if 2 ^ 32 ≤ unsignedPart rest then 2 ^ 32 - 1 else unsignedPart rest
  | rest => if 2 ^ 32 ≤ unsignedPart rest then 2 ^ 32 - 1 else unsignedPart rest

/-- Source: the conversion of `ticks_since_epoch` to `secs_since_epoch` in
`getSystemTime`, on 32-bit `unsigned long`:
`secs_since_epoch = (ticks_since_epoch / 1000) * 90;
small_ticks = ticks_since_epoch - (secs_since_epoch / 90) * 1000;
secs_since_epoch += small_ticks * 90 / 1000;`. -/
def secsSinceEpoch (ticks_since_epoch : Nat) : Nat :=
  let secs_since_epoch := ((ticks_since_epoch / 1000) * 90) % 2 ^ 32
  let small_ticks :=
    (ticks_since_epoch + 2 ^ 32 - ((secs_since_epoch / 90) * 1000) % 2 ^ 32) % 2 ^ 32
  (secs_since_epoch + ((small_ticks * 90) % 2 ^ 32) / 1000) % 2 ^ 32

/-- The seconds since the epoch that `getSystemTime` adds to the epoch time,
when it returns ISBD_SUCCESS. -/
def systemTimeSeconds (s : IridiumSBD) (polls : List Poll) (cancelled : Bool) : Option Nat :=
  if (getSystemTime s polls cancelled).ret = ISBD_SUCCESS then
    some (secsSinceEpoch (strtoul16 (textOf (getSystemTime s polls cancelled).msstmResponseBuf)))
  else none

/-- The exact values of the products and of the sum that the conversion in
`getSystemTime` computes, before they are reduced to 32 bits. -/
def secsIntermediates (ticks_since_epoch : Nat) : List Nat :=
  let secs_since_epoch := ((ticks_since_epoch / 1000) * 90) % 2 ^ 32
  let small_ticks :=
    (ticks_since_epoch + 2 ^ 32 - ((secs_since_epoch / 90) * 1000) % 2 ^ 32) % 2 ^ 32
  [(ticks_since_epoch / 1000) * 90, (secs_since_epoch / 90) * 1000, small_ticks * 90,
   secs_since_epoch + ((small_ticks * 90) % 2 ^ 32) / 1000]

/-! ## Time-sync check -/

/-- Source: `int IridiumSBD::internalMSSTMWorkaround(bool &okToProceed)`, called
with `okToProceed = false`: the return code and `okToProceed`. -/
def internalMSSTMWorkaround (polls : List Poll) (cancelled : Bool) : Int × Bool :=
  let w := waitForATResponse (some 24) (some (cstr "-MSSTM: ")) (cstr "OK\r\n") polls
  if !w.matched then (if cancelled then ISBD_CANCELLED else ISBD_PROTOCOL_ERROR, false)
  else (ISBD_SUCCESS, isXDigit (cstrAt (bufferOf 24 w.state.response) 0))

/-! ## Timing of the raw transport -/

/-- The timing of a sequence of passes of the raw loops of `doSBDRB`: for each
pass the answer of `cancelled()`, the number of bytes that arrive, and whether
the timeout has expired. -/
def tickTiming (ticks : List Tick) : List (Bool × Nat × Bool) :=
  ticks.map (fun t => (t.cancelled, t.arrived.length, t.expired))

/-! ## The response matcher on the raw transport -/

/-- Source: the loops of `waitForATResponse` run on the raw transport, each byte
taken through `filteredavailable` and `filteredread`.  `fuel` bounds the rounds;
a pause of the transport is over at the next pass of the timer loop, and a
transport that stays silent is the timeout; `cancelled()` is taken to answer
false.  The result is the value returned, the locals, the session and the
transport left. -/
def waitForATResponseRaw (charSigned : Bool) (response : Bool) (prompt : Option (List Nat))
    (terminator : List Nat) :
    Nat → WaitState → IridiumSBD → Raw → Bool × WaitState × IridiumSBD × Raw
  | 0, w, s, evs => (false, w, s, evs)
  | fuel + 1, w, s, evs =>
    let a := filteredavailable charSigned s evs
    if a.1 > 0 then
      let r := filteredread charSigned a.2.1 a.2.2
      let st := waitStep response prompt terminator w (intToChar r.1)
      if st.2 then (true, st.1, r.2.1, r.2.2)
      else waitForATResponseRaw charSigned response prompt terminator fuel st.1 r.2.1 r.2.2
    else
      match a.2.2 with
      | none :: rest =>
        waitForATResponseRaw charSigned response prompt terminator fuel w a.2.1 rest
      | _ => (false, w, a.2.1, a.2.2)

/-- The byte `c` completes the terminator when `pos` of its characters are
matched: the test under which the loop body executes `return true`. -/
def completes (terminator : List Nat) (pos c : Nat) : Prop :=
  c = cstrAt terminator pos ∧ cstrAt terminator (pos + 1) = 0

/-- The terminator counter after the byte `c`, from the value `pos`. -/
def nextPos (terminator : List Nat) (pos c : Nat) : Nat :=
  if c = cstrAt terminator pos then pos + 1
  else if c = cstrAt terminator 0 then 1 else 0

/-- Offsets of the filter queue within the literal: `tail` is at most `head`,
`head` at most 8, and `tail` is not 0 only while the queue is not empty. -/
def QueueOK (s : IridiumSBD) : Prop :=
  s.tail ≤ s.head ∧ s.head ≤ 8 ∧ (s.tail = 0 ∨ s.tail < s.head)

/-- A terminator that no byte coming out of the filter queue can complete: it is
a C string of at least two characters; the first character of the literal does
not complete it, nor does the byte 0xFF; and after a character of the literal
has gone through the terminator counter, the next character of the literal does
not complete it. -/
def QuietTerminator (terminator : List Nat) : Prop :=
  2 ≤ terminator.length ∧ (∀ c ∈ terminator, c ≠ 0) ∧
  ∀ pos, pos < terminator.length →
    ¬ completes terminator pos 83 ∧ ¬ completes terminator pos 255 ∧
    ∀ i, i < 7 →
      ¬ completes terminator (nextPos terminator pos (cstrAt SBDRING i)) (cstrAt SBDRING (i + 1))

/-- The history of a session on a transport: `evs` is what is left of the raw
stream `E`, and a byte the filter holds back is the raw byte read last, the one
right before `evs`. -/
def Consumed (charSigned : Bool) (E : Raw) (s : IridiumSBD) (evs : Raw) : Prop :=
  (∃ P : Raw, E = P ++ evs) ∧
  (s.nextChar ≠ -1 → ∃ (P : Raw) (b : Nat), E = P ++ some b :: evs ∧
    s.nextChar = charToInt charSigned b)

/-! ## Binary transmit: payload and checksum -/

theorem checksumLoop_eq (data : List Nat) : ∀ c, c < 65536 →
    checksumLoop c data = (c + data.sum) % 65536 := by
  induction data with
  | nil => intro c hc; simp [checksumLoop]; omega
  | cons b rest ih =>
    intro c hc
    simp only [checksumLoop, List.sum_cons]
    rw [ih _ (Nat.mod_lt _ (by norm_num))]
    omega

theorem map_writeByte (data : List Nat) (hb : ∀ b ∈ data, b < 256) :
    data.map writeByte = data := by
  induction data with
  | nil => rfl
  | cons b rest ih =>
    simp only [List.map_cons]
    rw [ih (fun x hx => hb x (List.mem_cons_of_mem _ hx))]
    simp [writeByte, Nat.mod_eq_of_lt (hb b (List.mem_cons_self _ _))]

theorem and_255 (n : Nat) : n &&& 0xFF = n % 256 := by
  have := Nat.and_pow_two_sub_one_eq_mod n 8
  simpa using this

/-- C1.  On an awake session, for a binary payload of 1 to 340 bytes and once the
modem has answered READY, the binary-transmit path of `internalSendReceiveSBD`
writes, after the command line "AT+SBDWB=<n>\r", the payload bytes unchanged and
in order, followed by exactly two bytes hi, lo with
256 * hi + lo = (b0 + ... + bn-1) mod 65536, the high byte first. -/
theorem binary_transmit_checksum (s : IridiumSBD) (txTxtMessage : Option (List Nat))
    (txData : List Nat) (env : TxEnv)
    (hawake : s.asleep = false) (hready : env.ready = true)
    (hlo : 1 ≤ txData.length) (hhi : txData.length ≤ 340)
    (hbytes : ∀ b ∈ txData, b < 256) :
    (transmitPhase s txTxtMessage (some txData) env).2
        = cstr "AT+SBDWB=" ++ printDec txData.length ++ cstr "\r" ++ txData
          ++ [txData.sum % 65536 / 256, txData.sum % 65536 % 256]
      ∧ txData.sum % 65536 / 256 < 256 ∧ txData.sum % 65536 % 256 < 256
      ∧ 256 * (txData.sum % 65536 / 256) + txData.sum % 65536 % 256 = txData.sum % 65536 := by
  refine ⟨?_, ?_, ?_, ?_⟩
  · cases txData with
    | nil => simp at hlo
    | cons b data =>
      have hlen : ¬ (b :: data).length > ISBD_MAX_MESSAGE_LENGTH := by
        simp only [ISBD_MAX_MESSAGE_LENGTH]; omega
      have hmod : (b :: data).length % 65536 = (b :: data).length :=
        Nat.mod_eq_of_lt (by omega)
      have hcs := checksumLoop_eq (b :: data) 0 (by norm_num)
      simp only [Nat.zero_add] at hcs
      simp only [transmitPhase, hawake, hready, hlen, hmod, hcs, map_writeByte _ hbytes,
        and_255, Nat.shiftRight_eq_div_pow, writeByte]
      have h1 : (b :: data).sum % 65536 / 2 ^ 8 % 256 = (b :: data).sum % 65536 / 256 := by
        omega
      have h2 : (b :: data).sum % 65536 % 256 % 256 = (b :: data).sum % 65536 % 256 := by
        omega
      rw [h1, h2]
      cases env.ack <;> simp
  · omega
  · omega
  · omega

theorem binary_transmit_checksum_witness :
    (transmitPhase { new (-1) (-1) with asleep := false } none (some [1, 2, 3])
        { ready := true, ack := true, cancelled := false }).2
      = cstr "AT+SBDWB=" ++ printDec 3 ++ cstr "\r" ++ [1, 2, 3] ++ [0, 6] := by
  have h := binary_transmit_checksum { new (-1) (-1) with asleep := false } none [1, 2, 3]
    { ready := true, ack := true, cancelled := false } rfl rfl (by decide) (by decide)
    (by decide)
  exact h.1


/-! ## The filter: the code against the reference transducer -/

theorem filterSBDRING_held (cs : Bool) (s : IridiumSBD) (evs : Raw)
    (h : s.nextChar ≠ -1 ∨ streamAvailable evs = false) :
    filterSBDRING cs s evs = (s, evs) := by
  cases evs with
  | nil => rfl
  | cons e rest =>
    cases e with
    | none => rfl
    | some b =>
      rcases h with h | h
      · simp [filterSBDRING, h]
      · simp [streamAvailable] at h

theorem cstrAt_SBDRING_ne_zero (k : Nat) (hk : k ≤ 8) : cstrAt SBDRING k ≠ 0 := by
  interval_cases k <;> decide

theorem cstrAt_SBDRING_succ (k : Nat) (hk : k ≤ 8) :
    cstrAt SBDRING (k + 1) = 0 ↔ k = 8 := by
  interval_cases k <;> decide

theorem take_succ_SBDRING (k : Nat) (hk : k ≤ 8) :
    SBDRING.take (k + 1) = SBDRING.take k ++ [cstrAt SBDRING k] := by
  interval_cases k <;> decide

theorem cstrAt_SBDRING_lt (k : Nat) : cstrAt SBDRING k < 128 := by
  by_cases hk : k ≤ 8
  · interval_cases k <;> decide
  · have : SBDRING.length ≤ k := by simp [SBDRING]; omega
    unfold cstrAt
    rw [List.getD_eq_default _ _ this]
    norm_num

theorem intToChar_charToInt (cs : Bool) (b : Nat) (hb : b < 256) :
    intToChar (charToInt cs b) = b := by
  unfold intToChar charToInt
  split <;> omega

theorem charToInt_literal (cs : Bool) (k : Nat) :
    intToChar (charToInt cs (cstrAt SBDRING k)) = cstrAt SBDRING k :=
  intToChar_charToInt cs _ (by have := cstrAt_SBDRING_lt k; omega)

theorem streamAvailable_false (evs : Raw) (h : streamAvailable evs = false) :
    evs = [] ∨ ∃ rest, evs = none :: rest := by
  cases evs with
  | nil => exact Or.inl rfl
  | cons e rest =>
    cases e with
    | none => exact Or.inr ⟨rest, rfl⟩
    | some b => simp [streamAvailable] at h

theorem scanOut_silent (k : Nat) (evs : Raw) (h : streamAvailable evs = false) :
    scanOut k evs = SBDRING.take k ++ scanOut 0 evs := by
  rcases streamAvailable_false evs h with h | ⟨rest, h⟩ <;> subst h <;> simp [scanOut]

theorem scanRing_silent (k : Nat) (evs : Raw) (h : streamAvailable evs = false) :
    scanRing k evs = scanRing 0 evs := by
  rcases streamAvailable_false evs h with h | ⟨rest, h⟩ <;> subst h <;> simp [scanRing]

theorem pending_matched (s : IridiumSBD) (c : Int) (ht : s.tail = 0) (hc : c ≠ -1) :
    pending { s with nextChar := c } = SBDRING.take s.head ++ [intToChar c] := by
  simp [pending, ht, hc]

theorem settled_matched (cs : Bool) (s : IridiumSBD) (b : Nat) (ht : s.tail = 0)
    (hk : s.head ≤ 8) (hvb : ValidByte cs b) :
    Settled cs { s with nextChar := charToInt cs b } := by
  refine ⟨by simp [ht], by simpa using hk, ?_, ?_, ?_⟩
  · simp only [ht]; intro h; exact h.symm
  · intro h; exact absurd h hvb.2
  · intro _; exact ⟨b, hvb, rfl⟩

/-- One run of `filterSBDRING` from a state that holds nothing back, with
`s.head` characters of the literal matched: what is held afterwards, followed by
what the rest of the transport yields, is what the transducer yields. -/
theorem filterSBDRING_scan (cs : Bool) (evs : Raw) :
    ∀ (s : IridiumSBD), s.nextChar = -1 → s.tail = 0 → s.head ≤ 8 →
      (s.head = 0 ∨ streamAvailable evs = true) →
      (∀ b ∈ rawBytes evs, ValidByte cs b) →
      Settled cs (filterSBDRING cs s evs).1
      ∧ ((filterSBDRING cs s evs).1.nextChar ≠ -1
          ∨ streamAvailable (filterSBDRING cs s evs).2 = false)
      ∧ pending (filterSBDRING cs s evs).1 ++ scanOut 0 (filterSBDRING cs s evs).2
          = scanOut s.head evs
      ∧ ((filterSBDRING cs s evs).1.ringAsserted || scanRing 0 (filterSBDRING cs s evs).2)
          = (s.ringAsserted || scanRing s.head evs)
      ∧ (pending (filterSBDRING cs s evs).1).length + (filterSBDRING cs s evs).2.length
          ≤ s.head + evs.length
      ∧ (∀ b ∈ rawBytes (filterSBDRING cs s evs).2, ValidByte cs b) := by
  induction evs with
  | nil =>
    intro s hn ht hk hav hv
    have hk0 : s.head = 0 := by
      rcases hav with h | h
      · exact h
      · simp [streamAvailable] at h
    simp [filterSBDRING, Settled, pending, hn, ht, hk0, scanOut, streamAvailable, rawBytes]
  | cons e rest ih =>
    intro s hn ht hk hav hv
    cases e with
    | none =>
      have hk0 : s.head = 0 := by
        rcases hav with h | h
        · exact h
        · simp [streamAvailable] at h
      refine ⟨?_, ?_, ?_, ?_, ?_, ?_⟩
      · simp [filterSBDRING, Settled, hn, ht, hk0]
      · simp [filterSBDRING, streamAvailable]
      · simp [filterSBDRING, pending, hn, ht, hk0]
      · simp [filterSBDRING, hk0]
      · simp [filterSBDRING, pending, hn, ht, hk0]
      · simpa [filterSBDRING] using hv
    | some b =>
      have hvb : ValidByte cs b := hv b (by simp [rawBytes])
      have hvrest : ∀ x ∈ rawBytes rest, ValidByte cs x := by
        intro x hx
        apply hv
        simp only [rawBytes, List.filterMap_cons, id] at hx ⊢
        exact List.mem_cons_of_mem _ hx
      have hne := cstrAt_SBDRING_ne_zero s.head hk
      have hn' : ¬ s.nextChar ≠ -1 := by simp [hn]
      by_cases hb : b = cstrAt SBDRING s.head
      · have hcond : cstrAt SBDRING s.head ≠ 0 ∧ b = cstrAt SBDRING s.head := ⟨hne, hb⟩
        by_cases h8 : s.head = 8
        · -- the literal is complete
          have hz : cstrAt SBDRING (s.head + 1) = 0 := (cstrAt_SBDRING_succ s.head hk).2 h8
          have hstep : filterSBDRING cs s (some b :: rest)
              = filterSBDRING cs { SBDRINGSeen s with head := 0, tail := 0 } rest := by
            rw [filterSBDRING, if_neg hn', if_pos hcond, if_pos hz]
          rw [hstep]
          obtain ⟨i1, i2, i3, i4, i5, i6⟩ :=
            ih { SBDRINGSeen s with head := 0, tail := 0 } (by simpa [SBDRINGSeen] using hn)
              rfl (by simp) (Or.inl rfl) hvrest
          refine ⟨i1, i2, ?_, ?_, ?_, i6⟩
          · rw [i3]; simp [scanOut, hb, h8]
          · rw [i4]; simp [scanRing, hb, h8, SBDRINGSeen]
          · have := i5
            simp only [List.length_cons] at this ⊢
            omega
        · have hz : ¬ cstrAt SBDRING (s.head + 1) = 0 :=
            fun h => h8 ((cstrAt_SBDRING_succ s.head hk).1 h)
          have hk9 : ¬ s.head + 1 = 9 := by omega
          by_cases hnext : streamAvailable rest = true
          · have hstep : filterSBDRING cs s (some b :: rest)
                = filterSBDRING cs { s with head := s.head + 1 } rest := by
              rw [filterSBDRING, if_neg hn', if_pos hcond, if_neg hz, if_pos hnext]
            rw [hstep]
            obtain ⟨i1, i2, i3, i4, i5, i6⟩ :=
              ih { s with head := s.head + 1 } hn ht (by simp; omega) (Or.inr hnext) hvrest
            refine ⟨i1, i2, ?_, ?_, ?_, i6⟩
            · rw [i3]; simp [scanOut, hb, hk9]
            · rw [i4]; simp [scanRing, hb, hk9]
            · have := i5
              simp only [List.length_cons] at this ⊢
              omega
          · have hnext' : streamAvailable rest = false := by simpa using hnext
            have hstep : filterSBDRING cs s (some b :: rest)
                = ({ s with head := s.head + 1 - 1, nextChar := charToInt cs b }, rest) := by
              rw [filterSBDRING, if_neg hn', if_pos hcond, if_neg hz, if_neg hnext]
              exact filterSBDRING_held cs _ rest (Or.inr hnext')
            have hsame : ({ s with head := s.head + 1 - 1, nextChar := charToInt cs b }
                : IridiumSBD) = { s with nextChar := charToInt cs b } := by
              simp
            rw [hstep, hsame]
            refine ⟨settled_matched cs s b ht hk hvb, Or.inl hvb.2, ?_, ?_, ?_, hvrest⟩
            · rw [pending_matched s _ ht hvb.2, intToChar_charToInt cs b hvb.1]
              simp only [scanOut, hb, hk9, if_true, if_false]
              rw [scanOut_silent (s.head + 1) rest hnext', take_succ_SBDRING s.head hk]
            · simp only [scanRing, hb, hk9, if_true, if_false]
              rw [scanRing_silent (s.head + 1) rest hnext']
            · rw [pending_matched s _ ht hvb.2]
              simp only [List.length_append, List.length_take, List.length_cons,
                List.length_nil]
              omega
      · have hcond : ¬ (cstrAt SBDRING s.head ≠ 0 ∧ b = cstrAt SBDRING s.head) :=
          fun h => hb h.2
        have hstep : filterSBDRING cs s (some b :: rest)
            = ({ s with nextChar := charToInt cs b }, rest) := by
          rw [filterSBDRING, if_neg hn', if_neg hcond]
          exact filterSBDRING_held cs _ rest (Or.inl hvb.2)
        rw [hstep]
        refine ⟨settled_matched cs s b ht hk hvb, Or.inl hvb.2, ?_, ?_, ?_, hvrest⟩
        · rw [pending_matched s _ ht hvb.2, intToChar_charToInt cs b hvb.1]
          simp [scanOut, hb]
        · simp [scanRing, hb]
        · rw [pending_matched s _ ht hvb.2]
          simp only [List.length_append, List.length_take, List.length_cons,
            List.length_nil]
          omega

theorem filterSBDRING_settle (cs : Bool) (s : IridiumSBD) (evs : Raw)
    (hs : Settled cs s) (hv : ∀ b ∈ rawBytes evs, ValidByte cs b) :
    Settled cs (filterSBDRING cs s evs).1
      ∧ ((filterSBDRING cs s evs).1.nextChar ≠ -1
          ∨ streamAvailable (filterSBDRING cs s evs).2 = false)
      ∧ pending (filterSBDRING cs s evs).1 ++ scanOut 0 (filterSBDRING cs s evs).2
          = pending s ++ scanOut 0 evs
      ∧ ((filterSBDRING cs s evs).1.ringAsserted || scanRing 0 (filterSBDRING cs s evs).2)
          = (s.ringAsserted || scanRing 0 evs)
      ∧ (pending (filterSBDRING cs s evs).1).length + (filterSBDRING cs s evs).2.length
          ≤ (pending s).length + evs.length
      ∧ (∀ b ∈ rawBytes (filterSBDRING cs s evs).2, ValidByte cs b) := by
  by_cases hn : s.nextChar = -1
  · obtain ⟨h1, h2, h3, h4, h5⟩ := hs
    have hth := h4 hn
    have hh0 : s.head = 0 := h3 hth
    have ht0 : s.tail = 0 := by omega
    obtain ⟨i1, i2, i3, i4, i5, i6⟩ :=
      filterSBDRING_scan cs evs s hn ht0 h2 (Or.inl hh0) hv
    rw [hh0] at i3 i4 i5
    have hp : pending s = [] := by simp [pending, hn, hh0, ht0]
    refine ⟨i1, i2, ?_, i4, ?_, i6⟩
    · rw [i3, hp]; rfl
    · rw [hp]; simpa using i5
  · rw [filterSBDRING_held cs s evs (Or.inl hn)]
    exact ⟨hs, Or.inl hn, rfl, rfl, le_refl _, hv⟩

theorem readAll_settle (cs : Bool) (fuel : Nat) (s : IridiumSBD) (evs : Raw) :
    readAll cs (fuel + 1) s evs
      = readAll cs (fuel + 1) (filterSBDRING cs s evs).1 (filterSBDRING cs s evs).2 := by
  have hstop : (filterSBDRING cs s evs).1.nextChar ≠ -1
      ∨ streamAvailable (filterSBDRING cs s evs).2 = false := by
    induction evs generalizing s with
    | nil => right; rfl
    | cons e rest ih =>
      cases e with
      | none => right; rfl
      | some b =>
        rw [filterSBDRING]
        split
        · left; assumption
        · split
          · split
            · exact ih _
            · split
              · exact ih _
              · exact ih _
          · exact ih _
  have hid := filterSBDRING_held cs _ _ hstop
  simp only [readAll, filteredavailable, hid]

theorem queue_cons (t h : Nat) (hth : t < h) (hh : h ≤ 8) :
    (SBDRING.drop t).take (h - t)
      = cstrAt SBDRING t :: (SBDRING.drop (t + 1)).take (h - (t + 1)) := by
  interval_cases h <;> interval_cases t <;> decide

/-- The reader against the transducer: from a settled filter state, with fuel
for every byte and pause, `readAll` delivers what the filter holds followed by
what the transducer makes of the transport, and ends with the transport read to
its end and nothing held. -/
theorem readAll_scan (cs : Bool) : ∀ (fuel : Nat) (s : IridiumSBD) (evs : Raw),
    Settled cs s → (∀ b ∈ rawBytes evs, ValidByte cs b) →
    (pending s).length + evs.length < fuel →
    (readAll cs fuel s evs).1 = pending s ++ scanOut 0 evs
      ∧ (readAll cs fuel s evs).2.1.ringAsserted = (s.ringAsserted || scanRing 0 evs)
      ∧ (readAll cs fuel s evs).2.2 = []
      ∧ (readAll cs fuel s evs).2.1.nextChar = -1
      ∧ (readAll cs fuel s evs).2.1.head = 0
      ∧ (readAll cs fuel s evs).2.1.tail = 0 := by
  intro fuel
  induction fuel with
  | zero => intro s evs _ _ h; omega
  | succ fuel ih =>
    intro s evs hs hv hm
    obtain ⟨j1, j2, j3, j4, j5, j6⟩ := filterSBDRING_settle cs s evs hs hv
    rw [readAll_settle, ← j3, ← j4]
    have hid := filterSBDRING_held cs _ _ j2
    generalize (filterSBDRING cs s evs).1 = s' at *
    generalize (filterSBDRING cs s evs).2 = evs' at *
    have hm' : (pending s').length + evs'.length < fuel + 1 := by omega
    clear j3 j4 j5 hm hs hv
    obtain ⟨h1, h2, h3, h4, h5⟩ := j1
    by_cases hn : s'.nextChar = -1
    · have hth := h4 hn
      have hh0 : s'.head = 0 := h3 hth
      have ht0 : s'.tail = 0 := by omega
      have hp : pending s' = [] := by simp [pending, hn, hh0, ht0]
      have hsil : streamAvailable evs' = false := by
        rcases j2 with h | h
        · exact absurd hn h
        · exact h
      have hcount : ¬ ((s'.head : Int) - (s'.tail : Int)
          + (if s'.nextChar ≠ -1 then 1 else 0) > 0) := by
        simp [hn, hh0, ht0]
      rcases streamAvailable_false evs' hsil with he | ⟨rest, he⟩
      · subst he
        simp only [readAll, filteredavailable, hid, hcount, if_false]
        simp [hp, scanOut, scanRing, hn, hh0, ht0]
      · subst he
        simp only [readAll, filteredavailable, hid, hcount, if_false]
        have hvr : ∀ b ∈ rawBytes rest, ValidByte cs b := by
          simpa [rawBytes] using j6
        have := ih s' rest ⟨h1, h2, h3, h4, h5⟩ hvr (by
          simp only [List.length_cons] at hm'; omega)
        simpa [hp, scanOut, scanRing] using this
    · obtain ⟨b, hvb, hnb⟩ := h5 hn
      have hcount : ((s'.head : Int) - (s'.tail : Int)
          + (if s'.nextChar ≠ -1 then 1 else 0) > 0) := by
        simp only [hn, ne_eq, not_false_eq_true, if_true]; omega
      by_cases hq : s'.head > s'.tail
      · have hq0 := queue_cons s'.tail s'.head hq h2
        by_cases he : s'.head = s'.tail + 1
        · have hpend : pending s' = cstrAt SBDRING s'.tail
              :: pending { s' with head := 0, tail := 0 } := by
            unfold pending
            rw [hq0]
            simp [he]
          have hset : Settled cs { s' with head := 0, tail := 0 } :=
            ⟨le_refl _, by simp, fun _ => rfl, fun _ => rfl, by simpa using h5⟩
          have := ih _ evs' hset j6 (by
            rw [hpend] at hm'; simp only [List.length_cons] at hm'; omega)
          simp only [readAll, filteredavailable, hid, hcount, if_true, filteredread, hq]
          simp only [if_pos he]
          rw [hpend]
          obtain ⟨k1, k2, k3, k4, k5, k6⟩ := this
          refine ⟨?_, ?_, k3, k4, k5, k6⟩
          · simp only [List.cons_append, charToInt_literal]
            rw [← k1]
          · rw [k2]
        · have hpend : pending s' = cstrAt SBDRING s'.tail
              :: pending { s' with tail := s'.tail + 1 } := by
            unfold pending
            rw [hq0]
            simp
          have hset : Settled cs { s' with tail := s'.tail + 1 } := by
            refine ⟨by simp; omega, by simpa using h2, ?_, ?_, by simpa using h5⟩
            · simp; omega
            · simp; intro h; exact absurd h hn
          have := ih _ evs' hset j6 (by
            rw [hpend] at hm'; simp only [List.length_cons] at hm'; omega)
          simp only [readAll, filteredavailable, hid, hcount, if_true, filteredread, hq]
          simp only [if_neg he]
          rw [hpend]
          obtain ⟨k1, k2, k3, k4, k5, k6⟩ := this
          refine ⟨?_, ?_, k3, k4, k5, k6⟩
          · simp only [List.cons_append, charToInt_literal]
            rw [← k1]
          · rw [k2]
      · have hth : s'.tail = s'.head := by omega
        have hh0 : s'.head = 0 := h3 hth
        have ht0 : s'.tail = 0 := by omega
        have hpend : pending s' = [b] := by
          simp [pending, hh0, ht0, hnb, hvb.2, intToChar_charToInt cs b hvb.1]
        have hset : Settled cs { s' with nextChar := -1 } :=
          ⟨h1, h2, h3, fun _ => hth, fun h => absurd rfl h⟩
        have hp0 : pending { s' with nextChar := -1 } = [] := by
          simp [pending, hh0, ht0]
        have := ih _ evs' hset j6 (by
          rw [hp0]; rw [hpend] at hm'; simp only [List.length_cons] at hm'
          simp only [List.length_nil] at hm' ⊢; omega)
        have hn' : s'.nextChar ≠ -1 := hn
        simp only [readAll, filteredavailable, hid, hcount, if_true, filteredread, hq,
          if_false]
        simp only [if_pos hn']
        rw [hpend]
        obtain ⟨k1, k2, k3, k4, k5, k6⟩ := this
        refine ⟨?_, ?_, k3, k4, k5, k6⟩
        · rw [hp0] at k1
          simp only [k1, hnb, intToChar_charToInt cs b hvb.1, List.cons_append,
            List.nil_append]
        · rw [k2]

/-! ## The reference transducer on particular transports -/

theorem rawBytes_map_some (l : List Nat) : rawBytes (l.map some) = l := by
  induction l with
  | nil => rfl
  | cons a t ih =>
    simp only [rawBytes, List.map_cons, List.filterMap_cons, id] at ih ⊢
    rw [ih]

theorem SBDRING_eq_take8 : SBDRING = SBDRING.take 8 ++ [cstrAt SBDRING 8] := by decide

/-- A transport free of the literal passes the transducer unchanged. -/
theorem scan_free (evs : Raw) : ∀ k, k ≤ 8 →
    ¬ SBDRING <:+: (SBDRING.take k ++ rawBytes evs) →
    scanOut k evs = SBDRING.take k ++ rawBytes evs ∧ scanRing k evs = false := by
  induction evs with
  | nil => intro k _ _; simp [scanOut, scanRing, rawBytes]
  | cons e rest ih =>
    intro k hk hfree
    cases e with
    | none =>
      have hr : rawBytes (none :: rest) = rawBytes rest := by simp [rawBytes]
      rw [hr] at hfree ⊢
      have h0 := ih 0 (by omega) (by
        intro h
        apply hfree
        simp only [List.take_zero, List.nil_append] at h
        exact h.trans (List.suffix_append _ _).isInfix)
      simp only [List.take_zero, List.nil_append] at h0
      simp [scanOut, scanRing, h0.1, h0.2]
    | some b =>
      have hr : rawBytes (some b :: rest) = b :: rawBytes rest := by simp [rawBytes]
      rw [hr] at hfree ⊢
      by_cases hb : b = cstrAt SBDRING k
      · have h8 : k ≠ 8 := by
          intro h8
          apply hfree
          subst h8
          have : SBDRING.take 8 ++ b :: rawBytes rest = SBDRING ++ rawBytes rest := by
            rw [hb]; conv_rhs => rw [SBDRING_eq_take8]
            simp
          rw [this]
          exact (List.prefix_append _ _).isInfix
        have hk9 : ¬ k + 1 = 9 := by omega
        have h1 := ih (k + 1) (by omega) (by
          rw [take_succ_SBDRING k hk, ← hb]
          simpa using hfree)
        rw [take_succ_SBDRING k hk, ← hb] at h1
        simp only [scanOut, scanRing, hb, hk9, if_true, if_false]
        rw [← hb]
        simpa using h1
      · have h0 := ih 0 (by omega) (by
          intro h
          apply hfree
          simp only [List.take_zero, List.nil_append] at h
          have hs : rawBytes rest <:+ SBDRING.take k ++ b :: rawBytes rest := by
            have := List.suffix_append (SBDRING.take k ++ [b]) (rawBytes rest)
            simpa using this
          exact h.trans hs.isInfix)
        simp only [List.take_zero, List.nil_append] at h0
        simp [scanOut, scanRing, hb, h0.1, h0.2]

theorem scan_literal (evs : Raw) :
    scanOut 0 (SBDRING.map some ++ evs) = scanOut 0 evs
      ∧ scanRing 0 (SBDRING.map some ++ evs) = true := by
  constructor <;> simp [SBDRING, scanOut, scanRing, cstrAt]

/-- A literal that follows bytes which leave no partial match open is dropped by
the transducer, and the bytes around it are kept. -/
theorem scan_around_literal (Y : List Nat) (hY : ¬ SBDRING <:+: Y) (X : List Nat) :
    ∀ k, k ≤ 8 →
    ¬ SBDRING <:+: (SBDRING.take k ++ X) →
    (∀ j, 1 ≤ j → j ≤ 8 → ¬ SBDRING.take j <:+ (SBDRING.take k ++ X)) →
    scanOut k ((X ++ SBDRING ++ Y).map some) = SBDRING.take k ++ X ++ Y
      ∧ scanRing k ((X ++ SBDRING ++ Y).map some) = true := by
  induction X with
  | nil =>
    intro k hk _ hend
    have hk0 : k = 0 := by
      by_contra hne
      exact hend k (by omega) hk (by simp)
    subst hk0
    have hfreeY := scan_free (Y.map some) 0 (by omega) (by simpa [rawBytes_map_some] using hY)
    simp only [List.nil_append, List.map_append, List.take_zero]
    rw [(scan_literal _).1, (scan_literal _).2, hfreeY.1, rawBytes_map_some]
    simp
  | cons b X' ih =>
    intro k hk hfree hend
    simp only [List.cons_append, List.map_cons]
    by_cases hb : b = cstrAt SBDRING k
    · have h8 : k ≠ 8 := by
        intro h8
        apply hfree
        subst h8
        have : SBDRING.take 8 ++ b :: X' = SBDRING ++ X' := by
          rw [hb]; conv_rhs => rw [SBDRING_eq_take8]
          simp
        rw [this]
        exact (List.prefix_append _ _).isInfix
      have hk9 : ¬ k + 1 = 9 := by omega
      have heq : SBDRING.take (k + 1) ++ X' = SBDRING.take k ++ b :: X' := by
        rw [take_succ_SBDRING k hk, ← hb]; simp
      have h1 := ih (k + 1) (by omega) (by rw [heq]; exact hfree)
        (by intro j hj1 hj8; rw [heq]; exact hend j hj1 hj8)
      rw [heq] at h1
      simp only [scanOut, scanRing, hb, hk9, if_true, if_false]
      rw [← hb]
      exact h1
    · have hs : X' <:+ SBDRING.take k ++ b :: X' := by
        have := List.suffix_append (SBDRING.take k ++ [b]) X'
        simpa using this
      have h0 := ih 0 (by omega)
        (by
          intro h
          simp only [List.take_zero, List.nil_append] at h
          exact hfree (h.trans hs.isInfix))
        (by
          intro j hj1 hj8 h
          simp only [List.take_zero, List.nil_append] at h
          exact hend j hj1 hj8 (h.trans hs))
      simp only [List.take_zero, List.nil_append] at h0
      simp only [scanOut, scanRing, hb, if_false]
      rw [h0.1, h0.2]
      simp

/-! ## The filter: results -/

theorem validByte_of (cs : Bool) (b : Nat) (h : b < 256 ∧ (cs = true → b ≠ 255)) :
    ValidByte cs b := by
  refine ⟨h.1, ?_⟩
  unfold charToInt
  have := h.2
  split <;> rename_i hc
  · have hcs : cs = true := by
      cases cs with
      | false => simp at hc
      | true => rfl
    have := this hcs
    omega
  · omega

theorem settled_of_rest (cs : Bool) (s : IridiumSBD)
    (h : s.head = 0 ∧ s.tail = 0 ∧ s.nextChar = -1) : Settled cs s ∧ pending s = [] := by
  obtain ⟨h1, h2, h3⟩ := h
  refine ⟨⟨by omega, by omega, fun _ => h1, fun _ => by omega, fun h => absurd h3 h⟩, ?_⟩
  simp [pending, h1, h2, h3]

/-- Transparency of the filter away from the defect of `nextChar`: a transport
that does not carry the literal, whatever its pauses, and whose bytes can be told
from the marker `-1` (every byte where `char` is unsigned, every byte but 0xFF
where it is signed), is delivered byte for byte, and the ring flag is not
touched. -/
theorem readAll_free (cs : Bool) (s : IridiumSBD) (evs : Raw) (fuel : Nat)
    (hrest : s.head = 0 ∧ s.tail = 0 ∧ s.nextChar = -1)
    (hbytes : ∀ b ∈ rawBytes evs, b < 256 ∧ (cs = true → b ≠ 255))
    (hfree : ¬ SBDRING <:+: rawBytes evs)
    (hfuel : evs.length < fuel) :
    (readAll cs fuel s evs).1 = rawBytes evs
      ∧ (readAll cs fuel s evs).2.1.ringAsserted = s.ringAsserted := by
  obtain ⟨hs, hp⟩ := settled_of_rest cs s hrest
  obtain ⟨r1, r2, _⟩ := readAll_scan cs fuel s evs hs
    (fun b hb => validByte_of cs b (hbytes b hb)) (by rw [hp]; simpa using hfuel)
  have hf := scan_free evs 0 (by omega) (by simpa using hfree)
  rw [r1, r2, hp, hf.1, hf.2]
  simp

/-- An unwound false alarm, away from the defect of `nextChar`: a proper prefix
of the literal, directly followed by a byte that does not continue it and then by
bytes free of the literal, is delivered whole. -/
theorem readAll_false_alarm (cs : Bool) (s : IridiumSBD) (k c : Nat) (evs : Raw) (fuel : Nat)
    (hrest : s.head = 0 ∧ s.tail = 0 ∧ s.nextChar = -1)
    (hk1 : 1 ≤ k) (hk8 : k ≤ 8) (hc : c ≠ cstrAt SBDRING k)
    (hbytes : ∀ b ∈ c :: rawBytes evs, b < 256 ∧ (cs = true → b ≠ 255))
    (hfree : ¬ SBDRING <:+: rawBytes evs)
    (hfuel : k + 1 + evs.length < fuel) :
    (readAll cs fuel s ((SBDRING.take k ++ [c]).map some ++ evs)).1
        = SBDRING.take k ++ [c] ++ rawBytes evs
      ∧ (readAll cs fuel s ((SBDRING.take k ++ [c]).map some ++ evs)).2.1.ringAsserted
        = s.ringAsserted := by
  obtain ⟨hs, hp⟩ := settled_of_rest cs s hrest
  have hlen : ((SBDRING.take k ++ [c]).map some ++ evs).length = k + 1 + evs.length := by
    have : (SBDRING.take k).length = k := by
      rw [List.length_take]; simp [SBDRING]; omega
    rw [List.length_append, List.length_map, List.length_append, this]
    simp
  have hraw : rawBytes ((SBDRING.take k ++ [c]).map some ++ evs)
      = SBDRING.take k ++ [c] ++ rawBytes evs := by
    have := rawBytes_map_some (SBDRING.take k ++ [c])
    simp only [rawBytes, List.filterMap_append] at this ⊢
    rw [this]
  have hv : ∀ b ∈ rawBytes ((SBDRING.take k ++ [c]).map some ++ evs), ValidByte cs b := by
    intro b hb
    rw [hraw] at hb
    simp only [List.append_assoc, List.singleton_append, List.mem_append] at hb
    rcases hb with hb | hb
    · apply validByte_of
      have hlt : b < 128 := by
        have hsub : ∀ x ∈ SBDRING, x < 128 := by decide
        exact hsub b (List.mem_of_mem_take hb)
      exact ⟨by omega, fun _ => by omega⟩
    · exact validByte_of cs b (hbytes b hb)
  obtain ⟨r1, r2, _⟩ := readAll_scan cs fuel s _ hs hv (by rw [hp, hlen]; simpa using hfuel)
  have hf := scan_free evs 0 (by omega) (by simpa using hfree)
  simp only [List.take_zero, List.nil_append] at hf
  have hscan : scanOut 0 ((SBDRING.take k ++ [c]).map some ++ evs)
        = SBDRING.take k ++ [c] ++ rawBytes evs
      ∧ scanRing 0 ((SBDRING.take k ++ [c]).map some ++ evs) = false := by
    interval_cases k <;>
      simp [SBDRING, cstrAt] at hc <;>
      simp [SBDRING, scanOut, scanRing, cstrAt, hc, hf.1, hf.2]
  rw [r1, r2, hp, hscan.1, hscan.2]
  simp

/-- C2 (code at the failing input).  On a target whose `char` is signed the raw
byte 0xFF, which is not part of the literal, becomes `nextChar = -1`, the marker
of "no byte held back": the reader of the filtered stream receives nothing for a
transport that carries the single byte 0xFF. -/
theorem filter_loses_0xFF :
    rawBytes [some 255] = [255] ∧ ¬ SBDRING <:+: [255]
      ∧ (readAll true (readFuel [some 255]) (new (-1) (-1)) [some 255]).1 = []
      ∧ (filteredavailable true (new (-1) (-1)) [some 255]).1 = 0 := by
  decide

/-- C3 (counterexample).  A literal that directly follows the byte 'S' is not
removed: the whole transport "S" ++ "SBDRING\r\n" is delivered and the ring flag
stays unset, so the output is not X ++ Y for X = "S", Y = "". -/
theorem literal_after_S_not_filtered :
    ¬ ((readAll false 20 (new (-1) (-1)) (([83] ++ SBDRING ++ []).map some)).1 = [83] ++ []
        ∧ (readAll false 20 (new (-1) (-1))
            (([83] ++ SBDRING ++ []).map some)).2.1.ringAsserted = true) := by
  decide

/-- C3 (amended).  Let X and Y be byte sequences that do not contain the literal
"SBDRING\r\n", X not ending in a non-empty proper prefix of the literal, no byte
being 0xFF where `char` is signed.  When X ++ "SBDRING\r\n" ++ Y arrives without
pauses at a filter at rest, the reader of the filtered stream receives exactly
X ++ Y, the ring flag is set afterwards, and nothing is left in the filter. -/
theorem filter_removes_literal (cs : Bool) (s : IridiumSBD) (X Y : List Nat) (fuel : Nat)
    (hrest : s.head = 0 ∧ s.tail = 0 ∧ s.nextChar = -1)
    (hbytes : ∀ b ∈ X ++ Y, b < 256 ∧ (cs = true → b ≠ 255))
    (hX : ¬ SBDRING <:+: X) (hY : ¬ SBDRING <:+: Y)
    (hend : ∀ j, 1 ≤ j → j ≤ 8 → ¬ SBDRING.take j <:+ X)
    (hfuel : X.length + 9 + Y.length < fuel) :
    (readAll cs fuel s ((X ++ SBDRING ++ Y).map some)).1 = X ++ Y
      ∧ (readAll cs fuel s ((X ++ SBDRING ++ Y).map some)).2.1.ringAsserted = true
      ∧ (readAll cs fuel s ((X ++ SBDRING ++ Y).map some)).2.1.nextChar = -1
      ∧ (readAll cs fuel s ((X ++ SBDRING ++ Y).map some)).2.1.head = 0
      ∧ (readAll cs fuel s ((X ++ SBDRING ++ Y).map some)).2.1.tail = 0 := by
  obtain ⟨hs, hp⟩ := settled_of_rest cs s hrest
  have hv : ∀ b ∈ rawBytes ((X ++ SBDRING ++ Y).map some), ValidByte cs b := by
    intro b hb
    rw [rawBytes_map_some] at hb
    simp only [List.append_assoc, List.mem_append] at hb
    rcases hb with hb | hb | hb
    · exact validByte_of cs b (hbytes b (List.mem_append_left _ hb))
    · apply validByte_of
      have hsub : ∀ x ∈ SBDRING, x < 128 := by decide
      have := hsub b hb
      exact ⟨by omega, fun _ => by omega⟩
    · exact validByte_of cs b (hbytes b (List.mem_append_right _ hb))
  obtain ⟨r1, r2, _, r4, r5, r6⟩ := readAll_scan cs fuel s _ hs hv (by
    rw [hp]; simp [SBDRING]; omega)
  have hsc := scan_around_literal Y hY X 0 (by omega) (by simpa using hX)
    (by intro j h1 h8; simpa using hend j h1 h8)
  refine ⟨?_, ?_, r4, r5, r6⟩
  · rw [r1, hp, hsc.1]; simp
  · rw [r2, hsc.2]; simp

theorem filter_removes_literal_witness :
    (readAll true 20 (new (-1) (-1)) (([83, 88] ++ SBDRING ++ [79, 75]).map some)).1
        = [83, 88] ++ [79, 75]
      ∧ (readAll true 20 (new (-1) (-1))
          (([83, 88] ++ SBDRING ++ [79, 75]).map some)).2.1.ringAsserted = true := by
  have h := filter_removes_literal true (new (-1) (-1)) [83, 88] [79, 75] 20
    (by decide) (by decide) (by decide) (by decide)
    (by intro j h1 h8; interval_cases j <;> decide) (by decide)
  exact ⟨h.1, h.2.1⟩

/-- C4 (code at the failing input).  On a target whose `char` is signed, the
prefix "S" of the literal followed by the byte 0xFF, which does not continue the
literal: the byte 0xFF is lost, the reader receives "S" alone. -/
theorem false_alarm_loses_0xFF :
    (255 : Nat) ≠ cstrAt SBDRING 1
      ∧ (readAll true (readFuel [some 83, some 255]) (new (-1) (-1))
          ((SBDRING.take 1 ++ [255]).map some)).1 = [83] := by
  decide

/-! ## The response matcher: terminator automaton -/

theorem promptStep_mtp (resp : Bool) (prompt : Option (List Nat)) (w : WaitState) (c : Nat) :
    (promptStep resp prompt w c).matchTerminatorPos = w.matchTerminatorPos := by
  unfold promptStep
  cases prompt with
  | none => rfl
  | some p =>
    cases h : w.promptState <;> simp only [] <;> repeat' split
    all_goals rfl

theorem cstrAt_lt (T : List Nat) (hT : ∀ c ∈ T, c ≠ 0) (k : Nat) (hk : k < T.length) :
    cstrAt T k ≠ 0 ∧ cstrAt T k ∈ T := by
  have h : cstrAt T k = T[k] := by
    unfold cstrAt
    rw [List.getD_eq_getElem _ _ hk]
  rw [h]
  exact ⟨hT _ (List.getElem_mem _), List.getElem_mem _⟩

theorem cstrAt_eq_zero_iff (T : List Nat) (hT : ∀ c ∈ T, c ≠ 0) (k : Nat) :
    cstrAt T k = 0 ↔ T.length ≤ k := by
  constructor
  · intro h
    by_contra hlt
    exact (cstrAt_lt T hT k (by omega)).1 h
  · intro h
    unfold cstrAt
    exact List.getD_eq_default _ _ h

theorem take_succ_cstr (T : List Nat) (k : Nat) (hk : k < T.length) :
    T.take (k + 1) = T.take k ++ [cstrAt T k] := by
  have h : cstrAt T k = T[k] := by
    unfold cstrAt
    rw [List.getD_eq_getElem _ _ hk]
  rw [h, List.take_succ, List.getElem?_eq_getElem hk]
  rfl

/-- One byte of the terminator automaton: the counter stays a witness that the
bytes read so far end with that many characters of the terminator, and `true`
is returned exactly when the counter reaches the terminator's length. -/
theorem waitStep_terminator (resp : Bool) (prompt : Option (List Nat)) (T : List Nat)
    (hne : T ≠ []) (hT : ∀ c ∈ T, c ≠ 0) (w : WaitState) (c : Nat) (hist : List Nat)
    (hk : w.matchTerminatorPos < T.length) (hinv : T.take w.matchTerminatorPos <:+ hist) :
    T.take (waitStep resp prompt T w c).1.matchTerminatorPos <:+ hist ++ [c]
      ∧ ((waitStep resp prompt T w c).2 = true →
          (waitStep resp prompt T w c).1.matchTerminatorPos = T.length)
      ∧ ((waitStep resp prompt T w c).2 = false →
          (waitStep resp prompt T w c).1.matchTerminatorPos < T.length) := by
  have hpos : 0 < T.length := List.length_pos.mpr hne
  have hm := promptStep_mtp resp prompt w c
  unfold waitStep terminatorStep
  rw [hm]
  by_cases hc : c = cstrAt T w.matchTerminatorPos
  · have hsuf : T.take (w.matchTerminatorPos + 1) <:+ hist ++ [c] := by
      rw [take_succ_cstr T _ hk, ← hc]
      obtain ⟨t, ht⟩ := hinv
      exact ⟨t, by rw [← ht]; simp⟩
    by_cases hz : cstrAt T (w.matchTerminatorPos + 1) = 0
    · have := (cstrAt_eq_zero_iff T hT _).1 hz
      simp only [hc, hz, if_true]
      rw [← hc]
      exact ⟨hsuf, fun _ => by omega, fun h => by simp at h⟩
    · have : ¬ T.length ≤ w.matchTerminatorPos + 1 :=
        fun h => hz ((cstrAt_eq_zero_iff T hT _).2 h)
      simp only [hc, hz, if_true, if_false]
      rw [← hc]
      exact ⟨hsuf, fun h => by simp at h, fun _ => by omega⟩
  · simp only [hc, if_false]
    by_cases h0 : c = cstrAt T 0
    · simp only [h0, if_true]
      refine ⟨?_, fun h => by simp at h, fun _ => ?_⟩
      · rw [take_succ_cstr T 0 hpos]
        exact ⟨hist, by simp⟩
      · by_contra hge
        have hlen : T.length = 1 := by omega
        have : w.matchTerminatorPos = 0 := by omega
        rw [this] at hc
        exact hc h0
    · simp only [h0, if_false]
      exact ⟨⟨hist ++ [c], by simp⟩, fun h => by simp at h, fun _ => hpos⟩

theorem waitBytes_inv (resp : Bool) (prompt : Option (List Nat)) (T : List Nat)
    (hne : T ≠ []) (hT : ∀ c ∈ T, c ≠ 0) (bytes : List Nat) :
    ∀ (w : WaitState) (n : Nat) (hist : List Nat),
      w.matchTerminatorPos < T.length → T.take w.matchTerminatorPos <:+ hist →
      n ≤ (waitBytes resp prompt T w n bytes).consumed
      ∧ (waitBytes resp prompt T w n bytes).consumed ≤ n + bytes.length
      ∧ T.take (waitBytes resp prompt T w n bytes).state.matchTerminatorPos
          <:+ hist ++ bytes.take ((waitBytes resp prompt T w n bytes).consumed - n)
      ∧ ((waitBytes resp prompt T w n bytes).matched = true →
          (waitBytes resp prompt T w n bytes).state.matchTerminatorPos = T.length
          ∧ n < (waitBytes resp prompt T w n bytes).consumed)
      ∧ ((waitBytes resp prompt T w n bytes).matched = false →
          (waitBytes resp prompt T w n bytes).state.matchTerminatorPos < T.length
          ∧ (waitBytes resp prompt T w n bytes).consumed = n + bytes.length) := by
  induction bytes with
  | nil =>
    intro w n hist hk hinv
    simp [waitBytes, hk, hinv]
  | cons c rest ih =>
    intro w n hist hk hinv
    obtain ⟨s1, s2, s3⟩ := waitStep_terminator resp prompt T hne hT w c hist hk hinv
    by_cases hr : (waitStep resp prompt T w c).2 = true
    · simp only [waitBytes, hr, if_true]
      refine ⟨by omega, by simp, ?_, fun _ => ⟨s2 hr, by omega⟩, fun h => by simp at h⟩
      simpa using s1
    · have hr' : (waitStep resp prompt T w c).2 = false := by simpa using hr
      simp only [waitBytes, hr', Bool.false_eq_true, if_false]
      obtain ⟨i1, i2, i3, i4, i5⟩ := ih (waitStep resp prompt T w c).1 (n + 1) (hist ++ [c])
        (s3 hr') s1
      refine ⟨by omega, by simp only [List.length_cons]; omega, ?_, ?_, ?_⟩
      · have hsub : (waitBytes resp prompt T (waitStep resp prompt T w c).1 (n + 1) rest).consumed
            - n = ((waitBytes resp prompt T (waitStep resp prompt T w c).1 (n + 1)
              rest).consumed - (n + 1)) + 1 := by omega
        rw [hsub, List.take_succ_cons]
        simpa using i3
      · intro h; exact ⟨(i4 h).1, by omega⟩
      · intro h; exact ⟨(i5 h).1, by simp only [List.length_cons]; have := (i5 h).2; omega⟩

theorem waitPolls_inv (resp : Bool) (prompt : Option (List Nat)) (T : List Nat)
    (hne : T ≠ []) (hT : ∀ c ∈ T, c ≠ 0) (polls : List Poll) :
    ∀ (w : WaitState) (n : Nat) (hist : List Nat),
      w.matchTerminatorPos < T.length → T.take w.matchTerminatorPos <:+ hist →
      n ≤ (waitPolls resp prompt T w n polls).consumed
      ∧ (waitPolls resp prompt T w n polls).consumed ≤ n + (pollBytes polls).length
      ∧ T.take (waitPolls resp prompt T w n polls).state.matchTerminatorPos
          <:+ hist ++ (pollBytes polls).take ((waitPolls resp prompt T w n polls).consumed - n)
      ∧ ((waitPolls resp prompt T w n polls).matched = true →
          (waitPolls resp prompt T w n polls).state.matchTerminatorPos = T.length
          ∧ n < (waitPolls resp prompt T w n polls).consumed)
      ∧ ((waitPolls resp prompt T w n polls).matched = false →
          (waitPolls resp prompt T w n polls).state.matchTerminatorPos < T.length) := by
  induction polls with
  | nil =>
    intro w n hist hk hinv
    simp [waitPolls, pollBytes, hk, hinv]
  | cons p rest ih =>
    intro w n hist hk hinv
    by_cases hc : p.cancelled = true
    · simp [waitPolls, hc, hk, hinv]
    · obtain ⟨b1, b2, b3, b4, b5⟩ := waitBytes_inv resp prompt T hne hT p.bytes w n hist hk hinv
      by_cases hm : (waitBytes resp prompt T w n p.bytes).matched = true
      · have hw : waitPolls resp prompt T w n (p :: rest)
            = waitBytes resp prompt T w n p.bytes := by
          simp only [waitPolls, hc, hm, if_true, Bool.false_eq_true, if_false]
        rw [hw]
        simp only [pollBytes]
        refine ⟨b1, by simp only [List.length_append]; omega, ?_, b4, fun h => (b5 h).1⟩
        rw [List.take_append_of_le_length (by omega)]
        exact b3
      · have hm' : (waitBytes resp prompt T w n p.bytes).matched = false := by simpa using hm
        obtain ⟨hlt, hcons⟩ := b5 hm'
        have hw : waitPolls resp prompt T w n (p :: rest)
            = waitPolls resp prompt T (waitBytes resp prompt T w n p.bytes).state
                (waitBytes resp prompt T w n p.bytes).consumed rest := by
          simp only [waitPolls, hc, hm', Bool.false_eq_true, if_false]
        rw [hw]
        simp only [pollBytes]
        rw [hcons] at b3 ⊢
        simp only [Nat.add_sub_cancel_left, List.take_length] at b3
        obtain ⟨i1, i2, i3, i4, i5⟩ := ih (waitBytes resp prompt T w n p.bytes).state
          (n + p.bytes.length) (hist ++ p.bytes) hlt b3
        refine ⟨by omega, by simp only [List.length_append]; omega, ?_,
          fun h => ⟨(i4 h).1, by have := (i4 h).2; omega⟩, i5⟩
        have hsub : (waitPolls resp prompt T (waitBytes resp prompt T w n p.bytes).state
            (n + p.bytes.length) rest).consumed - n
            = p.bytes.length + ((waitPolls resp prompt T
              (waitBytes resp prompt T w n p.bytes).state
              (n + p.bytes.length) rest).consumed - (n + p.bytes.length)) := by omega
        rw [hsub, List.take_append]
        simpa using i3

/-- C5.  For a non-empty terminator T (a C string: no NUL among its characters),
whatever the capture buffer, the prompt, the bytes and the cancellations: the
terminator counter k that `waitForATResponse` ends with is such that the bytes it
consumed end with T[0..k); it returns true only when the bytes it consumed end
with the whole of T, the match being completed by the last byte consumed. -/
theorem terminator_match_sound (response : Option Int) (prompt : Option (List Nat))
    (T : List Nat) (polls : List Poll) (hne : T ≠ []) (hT : ∀ c ∈ T, c ≠ 0) :
    (waitForATResponse response prompt T polls).consumed ≤ (pollBytes polls).length
      ∧ T.take (waitForATResponse response prompt T polls).state.matchTerminatorPos
          <:+ (pollBytes polls).take (waitForATResponse response prompt T polls).consumed
      ∧ ((waitForATResponse response prompt T polls).matched = true →
          (waitForATResponse response prompt T polls).state.matchTerminatorPos = T.length
          ∧ T <:+ (pollBytes polls).take (waitForATResponse response prompt T polls).consumed)
      ∧ ((waitForATResponse response prompt T polls).matched = false →
          (waitForATResponse response prompt T polls).state.matchTerminatorPos < T.length) := by
  have hpos : 0 < T.length := List.length_pos.mpr hne
  obtain ⟨i1, i2, i3, i4, i5⟩ := waitPolls_inv response.isSome prompt T hne hT polls
    (WaitState.init (response.getD 0) prompt) 0 [] (by simpa [WaitState.init] using hpos)
    (by simp [WaitState.init])
  unfold waitForATResponse
  simp only [Nat.zero_add, Nat.sub_zero, List.nil_append] at i2 i3
  refine ⟨i2, i3, fun h => ⟨(i4 h).1, ?_⟩, i5⟩
  have := (i4 h).1
  rw [this, List.take_length] at i3
  exact i3

theorem terminator_match_sound_witness :
    (waitForATResponse none none (cstr "OK\r\n")
        [⟨false, cstr "AT\r\r\nO"⟩, ⟨false, cstr "K\r\nzz"⟩]).matched = true
      ∧ cstr "OK\r\n" <:+ (cstr "AT\r\r\nOK\r\nzz").take
          (waitForATResponse none none (cstr "OK\r\n")
            [⟨false, cstr "AT\r\r\nO"⟩, ⟨false, cstr "K\r\nzz"⟩]).consumed := by
  have h := terminator_match_sound none none (cstr "OK\r\n")
    [⟨false, cstr "AT\r\r\nO"⟩, ⟨false, cstr "K\r\nzz"⟩] (by decide) (by decide)
  have hm : (waitForATResponse none none (cstr "OK\r\n")
      [⟨false, cstr "AT\r\r\nO"⟩, ⟨false, cstr "K\r\nzz"⟩]).matched = true := by decide
  exact ⟨hm, (h.2.2.1 hm).2⟩

theorem waitStep_counter (resp : Bool) (prompt : Option (List Nat)) (T : List Nat)
    (w : WaitState) (c : Nat) :
    (waitStep resp prompt T w c).1.matchTerminatorPos
        = (if c = cstrAt T w.matchTerminatorPos then w.matchTerminatorPos + 1
           else if c = cstrAt T 0 then 1 else 0)
      ∧ ((waitStep resp prompt T w c).2 = true ↔
          (c = cstrAt T w.matchTerminatorPos ∧ cstrAt T (w.matchTerminatorPos + 1) = 0)) := by
  have hm := promptStep_mtp resp prompt w c
  unfold waitStep terminatorStep
  rw [hm]
  by_cases hc : c = cstrAt T w.matchTerminatorPos
  · by_cases hz : cstrAt T (w.matchTerminatorPos + 1) = 0
    · simp [hc, hz, hm]
    · simp [hc, hz, hm]
  · simp [hc]

theorem waitBytes_append (resp : Bool) (prompt : Option (List Nat)) (T : List Nat)
    (a b : List Nat) : ∀ (w : WaitState) (n : Nat),
    waitBytes resp prompt T w n (a ++ b)
      = if (waitBytes resp prompt T w n a).matched then waitBytes resp prompt T w n a
        else waitBytes resp prompt T (waitBytes resp prompt T w n a).state
          (waitBytes resp prompt T w n a).consumed b := by
  induction a with
  | nil => intro w n; simp [waitBytes]
  | cons c rest ih =>
    intro w n
    by_cases hr : (waitStep resp prompt T w c).2 = true
    · simp [waitBytes, hr]
    · have hr' : (waitStep resp prompt T w c).2 = false := by simpa using hr
      simp only [List.cons_append, waitBytes, hr', Bool.false_eq_true, if_false]
      exact ih _ _

theorem waitPolls_eq_waitBytes (resp : Bool) (prompt : Option (List Nat)) (T : List Nat)
    (polls : List Poll) (hnc : ∀ p ∈ polls, p.cancelled = false) :
    ∀ (w : WaitState) (n : Nat),
    waitPolls resp prompt T w n polls = waitBytes resp prompt T w n (pollBytes polls) := by
  induction polls with
  | nil => intro w n; simp [waitPolls, pollBytes, waitBytes]
  | cons p rest ih =>
    intro w n
    have hp : p.cancelled = false := hnc p (List.mem_cons_self _ _)
    have hrest : ∀ q ∈ rest, q.cancelled = false :=
      fun q hq => hnc q (List.mem_cons_of_mem _ hq)
    simp only [waitPolls, hp, Bool.false_eq_true, if_false, pollBytes]
    rw [waitBytes_append, ih hrest]

theorem drop_cstr (T : List Nat) (j : Nat) (hj : j < T.length) :
    T.drop j = cstrAt T j :: T.drop (j + 1) := by
  have h : cstrAt T j = T[j] := by
    unfold cstrAt
    rw [List.getD_eq_getElem _ _ hj]
  rw [h]
  exact List.drop_eq_getElem_cons hj

/-- With `j` characters of the terminator matched, the rest of the terminator
completes the match at its last byte. -/
theorem waitBytes_complete (resp : Bool) (prompt : Option (List Nat)) (T : List Nat)
    (hT : ∀ c ∈ T, c ≠ 0) (B : List Nat) :
    ∀ (d j : Nat) (w : WaitState) (n : Nat), w.matchTerminatorPos = j → j + (d + 1) = T.length →
      (waitBytes resp prompt T w n (T.drop j ++ B)).matched = true
      ∧ (waitBytes resp prompt T w n (T.drop j ++ B)).consumed = n + (d + 1) := by
  intro d
  induction d with
  | zero =>
    intro j w n hw hj
    rw [drop_cstr T j (by omega)]
    obtain ⟨_, s2⟩ := waitStep_counter resp prompt T w (cstrAt T j)
    have hret : (waitStep resp prompt T w (cstrAt T j)).2 = true :=
      s2.2 ⟨by rw [hw], (cstrAt_eq_zero_iff T hT _).2 (by omega)⟩
    simp [waitBytes, hret]
  | succ d ih =>
    intro j w n hw hj
    rw [drop_cstr T j (by omega)]
    obtain ⟨s1, s2⟩ := waitStep_counter resp prompt T w (cstrAt T j)
    have hret : (waitStep resp prompt T w (cstrAt T j)).2 = false := by
      by_contra h
      have h' : (waitStep resp prompt T w (cstrAt T j)).2 = true := by simpa using h
      have := (cstrAt_eq_zero_iff T hT _).1 (s2.1 h').2
      omega
    have hnext : (waitStep resp prompt T w (cstrAt T j)).1.matchTerminatorPos = j + 1 := by
      rw [s1, hw]; simp
    obtain ⟨i1, i2⟩ := ih (j + 1) _ (n + 1) hnext (by omega)
    simp only [List.cons_append, waitBytes, hret, Bool.false_eq_true, if_false]
    exact ⟨i1, i2.trans (by omega)⟩

/-- Where the first character of the terminator occurs nowhere else in it, the
terminator is matched from every state of the counter: its first byte restarts
the counter at 1 and the others advance it. -/
theorem waitBytes_restart (resp : Bool) (prompt : Option (List Nat)) (T : List Nat)
    (hne : T ≠ []) (hT : ∀ c ∈ T, c ≠ 0) (huniq : cstrAt T 0 ∉ T.tail) (B : List Nat)
    (w : WaitState) (n : Nat) (hk : w.matchTerminatorPos < T.length) :
    (waitBytes resp prompt T w n (T ++ B)).matched = true
      ∧ (waitBytes resp prompt T w n (T ++ B)).consumed = n + T.length := by
  have hpos : 0 < T.length := List.length_pos.mpr hne
  by_cases h0 : w.matchTerminatorPos = 0
  · have := waitBytes_complete resp prompt T hT B (T.length - 1) 0 w n h0 (by omega)
    simpa [show T.length - 1 + 1 = T.length by omega] using this
  · -- the counter is at j ≥ 1 and T[j] is not the first character
    have hne0 : cstrAt T 0 ≠ cstrAt T w.matchTerminatorPos := by
      intro h
      apply huniq
      have hmem : cstrAt T w.matchTerminatorPos ∈ T.tail := by
        have hd := drop_cstr T w.matchTerminatorPos hk
        have : T.drop w.matchTerminatorPos
            = T.tail.drop (w.matchTerminatorPos - 1) := by
          cases T with
          | nil => simp at hpos
          | cons a t =>
            have : w.matchTerminatorPos = (w.matchTerminatorPos - 1) + 1 := by omega
            rw [this]; simp
        rw [this] at hd
        have hin : cstrAt T w.matchTerminatorPos ∈ T.tail.drop (w.matchTerminatorPos - 1) := by
          rw [hd]; exact List.mem_cons_self _ _
        exact List.mem_of_mem_drop hin
      rw [h]; exact hmem
    have hlen2 : 2 ≤ T.length := by omega
    have hT0 : T = cstrAt T 0 :: T.drop 1 := by
      have := drop_cstr T 0 hpos
      simpa using this
    obtain ⟨s1, s2⟩ := waitStep_counter resp prompt T w (cstrAt T 0)
    have hret : (waitStep resp prompt T w (cstrAt T 0)).2 = false := by
      by_contra h
      have h' : (waitStep resp prompt T w (cstrAt T 0)).2 = true := by simpa using h
      exact hne0 (s2.1 h').1
    have hnext : (waitStep resp prompt T w (cstrAt T 0)).1.matchTerminatorPos = 1 := by
      rw [s1]; simp [hne0]
    obtain ⟨i1, i2⟩ := waitBytes_complete resp prompt T hT B (T.length - 2) 1
      (waitStep resp prompt T w (cstrAt T 0)).1 (n + 1) hnext (by omega)
    have hTB : T ++ B = cstrAt T 0 :: (T.drop 1 ++ B) := by
      have h := congrArg (fun l => l ++ B) hT0
      simpa using h
    have hstep : waitBytes resp prompt T w n (T ++ B)
        = waitBytes resp prompt T (waitStep resp prompt T w (cstrAt T 0)).1 (n + 1)
            (T.drop 1 ++ B) := by
      rw [hTB]
      simp only [waitBytes, hret, Bool.false_eq_true, if_false]
    rw [hstep]
    exact ⟨i1, by rw [i2]; omega⟩

/-- The terminator automaton finds the first occurrence of a terminator whose
first character occurs nowhere else in it. -/
theorem waitBytes_first_occurrence (resp : Bool) (prompt : Option (List Nat)) (T : List Nat)
    (hne : T ≠ []) (hT : ∀ c ∈ T, c ≠ 0) (huniq : cstrAt T 0 ∉ T.tail)
    (A B : List Nat) (w : WaitState) (hw : w.matchTerminatorPos = 0)
    (hfirst : ∀ A' B', A ++ T ++ B = A' ++ T ++ B' → A.length ≤ A'.length) :
    (waitBytes resp prompt T w 0 (A ++ T ++ B)).matched = true
      ∧ (waitBytes resp prompt T w 0 (A ++ T ++ B)).consumed = A.length + T.length := by
  have hpos : 0 < T.length := List.length_pos.mpr hne
  obtain ⟨i1, i2, i3, i4, i5⟩ := waitBytes_inv resp prompt T hne hT A w 0 []
    (by rw [hw]; exact hpos) (by rw [hw]; simp)
  have hnot : (waitBytes resp prompt T w 0 A).matched = false := by
    by_contra h
    have h' : (waitBytes resp prompt T w 0 A).matched = true := by simpa using h
    obtain ⟨hfull, _⟩ := i4 h'
    rw [hfull, List.take_length] at i3
    simp only [List.nil_append, Nat.sub_zero] at i3
    obtain ⟨A', hA'⟩ := i3
    have hsplit : A = A' ++ T ++ A.drop (waitBytes resp prompt T w 0 A).consumed := by
      rw [hA', List.take_append_drop]
    have hlen : A.length = (A' ++ T ++ A.drop (waitBytes resp prompt T w 0 A).consumed).length :=
      congrArg List.length hsplit
    have := hfirst A' (A.drop (waitBytes resp prompt T w 0 A).consumed ++ T ++ B) (by
      conv_lhs => rw [hsplit]
      simp)
    simp only [List.length_append] at hlen
    omega
  obtain ⟨hlt, hcons⟩ := i5 hnot
  rw [List.append_assoc, waitBytes_append]
  simp only [hnot, Bool.false_eq_true, if_false]
  have := waitBytes_restart resp prompt T hne hT huniq B _ (waitBytes resp prompt T w 0 A).consumed
    hlt
  refine ⟨this.1, ?_⟩
  rw [this.2, hcons]
  omega

theorem exists_first_occurrence (T l : List Nat) (h : T <:+: l) :
    ∃ A B, l = A ++ T ++ B ∧ ∀ A' B', l = A' ++ T ++ B' → A.length ≤ A'.length := by
  classical
  have hex : ∃ n, ∃ A B, l = A ++ T ++ B ∧ A.length = n := by
    obtain ⟨A, B, hAB⟩ := h
    exact ⟨A.length, A, B, hAB.symm, rfl⟩
  obtain ⟨A, B, hAB, hlen⟩ := Nat.find_spec hex
  refine ⟨A, B, hAB, fun A' B' h' => ?_⟩
  rw [hlen]
  exact Nat.find_min' hex ⟨A', B', h', rfl⟩

theorem waitForATResponse_first_occurrence (response : Option Int)
    (prompt : Option (List Nat)) (T : List Nat) (polls : List Poll)
    (hne : T ≠ []) (hT : ∀ c ∈ T, c ≠ 0) (huniq : cstrAt T 0 ∉ T.tail)
    (hnc : ∀ p ∈ polls, p.cancelled = false)
    (hocc : T <:+: pollBytes polls) :
    (waitForATResponse response prompt T polls).matched = true
      ∧ ∃ A B, pollBytes polls = A ++ T ++ B
        ∧ (∀ A' B', pollBytes polls = A' ++ T ++ B' → A.length ≤ A'.length)
        ∧ (waitForATResponse response prompt T polls).consumed = A.length + T.length := by
  obtain ⟨A, B, hAB, hfirst⟩ := exists_first_occurrence T _ hocc
  have h := waitBytes_first_occurrence response.isSome prompt T hne hT huniq A B
    (WaitState.init (response.getD 0) prompt) rfl (by rw [← hAB]; exact hfirst)
  unfold waitForATResponse
  rw [waitPolls_eq_waitBytes _ _ _ _ hnc, hAB]
  exact ⟨h.1, A, B, rfl, by rw [← hAB]; exact hfirst, h.2⟩

/-- C6.  For each terminator the library passes to `waitForATResponse` ("OK\r\n",
"READY\r\n", "0\r\n\r\nOK\r\n", "AT+SBDRB\r"), every capture buffer and prompt,
and every filtered byte sequence that contains the terminator and is delivered, in
whatever portions, before the timeout with no cancellation: `waitForATResponse`
returns true, having consumed exactly the bytes up to the end of the first
occurrence of the terminator. -/
theorem library_terminators_first_occurrence (response : Option Int)
    (prompt : Option (List Nat)) (T : List Nat) (polls : List Poll)
    (hlib : T ∈ [cstr "OK\r\n", cstr "READY\r\n", cstr "0\r\n\r\nOK\r\n", cstr "AT+SBDRB\r"])
    (hnc : ∀ p ∈ polls, p.cancelled = false)
    (hocc : T <:+: pollBytes polls) :
    (waitForATResponse response prompt T polls).matched = true
      ∧ ∃ A B, pollBytes polls = A ++ T ++ B
        ∧ (∀ A' B', pollBytes polls = A' ++ T ++ B' → A.length ≤ A'.length)
        ∧ (waitForATResponse response prompt T polls).consumed = A.length + T.length := by
  have hprops : T ≠ [] ∧ (∀ c ∈ T, c ≠ 0) ∧ cstrAt T 0 ∉ T.tail := by
    simp only [List.mem_cons, List.mem_singleton, List.not_mem_nil, or_false] at hlib
    rcases hlib with h | h | h | h <;> subst h <;> decide
  exact waitForATResponse_first_occurrence response prompt T polls hprops.1 hprops.2.1
    hprops.2.2 hnc hocc

theorem library_terminators_first_occurrence_witness :
    (waitForATResponse none none (cstr "0\r\n\r\nOK\r\n")
        [⟨false, cstr "00\r\n\r\nOK\r\nOK\r\n"⟩]).matched = true
      ∧ ∃ A B, pollBytes [⟨false, cstr "00\r\n\r\nOK\r\nOK\r\n"⟩]
          = A ++ cstr "0\r\n\r\nOK\r\n" ++ B
        ∧ (∀ A' B', pollBytes [⟨false, cstr "00\r\n\r\nOK\r\nOK\r\n"⟩]
            = A' ++ cstr "0\r\n\r\nOK\r\n" ++ B' → A.length ≤ A'.length)
        ∧ (waitForATResponse none none (cstr "0\r\n\r\nOK\r\n")
            [⟨false, cstr "00\r\n\r\nOK\r\nOK\r\n"⟩]).consumed
          = A.length + (cstr "0\r\n\r\nOK\r\n").length :=
  library_terminators_first_occurrence none none (cstr "0\r\n\r\nOK\r\n")
    [⟨false, cstr "00\r\n\r\nOK\r\nOK\r\n"⟩] (by decide) (by decide) (by decide)

/-- C7 (counterexample).  The terminator "AAB" has no non-empty proper prefix that
is also a suffix of it, the bytes "AAAB" contain it, and `waitForATResponse` reads
all four bytes without reporting a match. -/
theorem overlap_free_terminator_missed :
    (∀ P ∈ ([65, 65, 66] : List Nat).inits, P ≠ [] → P ≠ [65, 65, 66] → ¬ P <:+ [65, 65, 66])
      ∧ [65, 65, 66] <:+: [65, 65, 65, 66]
      ∧ (waitForATResponse none none [65, 65, 66] [⟨false, [65, 65, 65, 66]⟩]).matched = false
      ∧ (waitForATResponse none none [65, 65, 66] [⟨false, [65, 65, 65, 66]⟩]).consumed = 4 := by
  decide

/-- C7 (amended).  For every terminator T (a non-empty C string) whose first
character occurs nowhere else in T, so that no prefix of T overlaps itself, and
every filtered byte sequence that contains T and is delivered before the timeout
with no cancellation, the terminator automaton of `waitForATResponse` reports the
match at the byte that completes the first occurrence of T. -/
theorem terminator_first_occurrence (response : Option Int)
    (prompt : Option (List Nat)) (T : List Nat) (polls : List Poll)
    (hne : T ≠ []) (hT : ∀ c ∈ T, c ≠ 0) (huniq : cstrAt T 0 ∉ T.tail)
    (hnc : ∀ p ∈ polls, p.cancelled = false)
    (hocc : T <:+: pollBytes polls) :
    (waitForATResponse response prompt T polls).matched = true
      ∧ ∃ A B, pollBytes polls = A ++ T ++ B
        ∧ (∀ A' B', pollBytes polls = A' ++ T ++ B' → A.length ≤ A'.length)
        ∧ (waitForATResponse response prompt T polls).consumed = A.length + T.length :=
  waitForATResponse_first_occurrence response prompt T polls hne hT huniq hnc hocc

theorem terminator_first_occurrence_witness :
    (waitForATResponse none none [65, 66, 66] [⟨false, [65, 65, 66, 66, 66]⟩]).matched = true
      ∧ ∃ A B, pollBytes [⟨false, [65, 65, 66, 66, 66]⟩] = A ++ [65, 66, 66] ++ B
        ∧ (∀ A' B', pollBytes [⟨false, [65, 65, 66, 66, 66]⟩] = A' ++ [65, 66, 66] ++ B' →
            A.length ≤ A'.length)
        ∧ (waitForATResponse none none [65, 66, 66] [⟨false, [65, 65, 66, 66, 66]⟩]).consumed
          = A.length + ([65, 66, 66] : List Nat).length :=
  terminator_first_occurrence none none [65, 66, 66] [⟨false, [65, 65, 66, 66, 66]⟩]
    (by decide) (by decide) (by decide) (by decide) (by decide)

/-! ## The response matcher: prompt and capture -/

theorem promptStep_indep (resp : Bool) (prompt : Option (List Nat)) (w : WaitState)
    (c k : Nat) :
    promptStep resp prompt { w with matchTerminatorPos := k } c
      = { promptStep resp prompt w c with matchTerminatorPos := k } := by
  unfold promptStep
  cases prompt with
  | none => rfl
  | some p =>
    obtain ⟨r, sz, mp, mt, ps⟩ := w
    cases ps <;> simp only [] <;> repeat' split
    all_goals rfl

theorem waitStep_state (resp : Bool) (prompt : Option (List Nat)) (T : List Nat)
    (w : WaitState) (c : Nat) :
    (waitStep resp prompt T w c).1
      = { promptStep resp prompt w c with
          matchTerminatorPos := (waitStep resp prompt T w c).1.matchTerminatorPos } := by
  unfold waitStep terminatorStep
  repeat' split
  all_goals rfl

theorem waitBytes_bounds (resp : Bool) (prompt : Option (List Nat)) (T : List Nat)
    (bytes : List Nat) : ∀ (w : WaitState) (n : Nat),
    n ≤ (waitBytes resp prompt T w n bytes).consumed
      ∧ (waitBytes resp prompt T w n bytes).consumed ≤ n + bytes.length
      ∧ (bytes ≠ [] → n < (waitBytes resp prompt T w n bytes).consumed)
      ∧ ((waitBytes resp prompt T w n bytes).matched = false →
          (waitBytes resp prompt T w n bytes).consumed = n + bytes.length) := by
  induction bytes with
  | nil => intro w n; simp [waitBytes]
  | cons c rest ih =>
    intro w n
    by_cases hr : (waitStep resp prompt T w c).2 = true
    · simp [waitBytes, hr]
    · have hr' : (waitStep resp prompt T w c).2 = false := by simpa using hr
      obtain ⟨i1, i2, _, i4⟩ := ih (waitStep resp prompt T w c).1 (n + 1)
      simp only [waitBytes, hr', Bool.false_eq_true, if_false, List.length_cons]
      exact ⟨by omega, by omega, fun _ => by omega, fun h => by have := i4 h; omega⟩

/-- The state `waitBytes` ends in is, the terminator counter apart, the state of
the prompt automaton after the bytes consumed. -/
theorem waitBytes_prompt (resp : Bool) (prompt : Option (List Nat)) (T : List Nat)
    (bytes : List Nat) : ∀ (w : WaitState) (n : Nat),
    (waitBytes resp prompt T w n bytes).state
      = { promptRun resp prompt w
            (bytes.take ((waitBytes resp prompt T w n bytes).consumed - n)) with
          matchTerminatorPos :=
            (waitBytes resp prompt T w n bytes).state.matchTerminatorPos } := by
  induction bytes with
  | nil => intro w n; simp [waitBytes, promptRun]
  | cons c rest ih =>
    intro w n
    by_cases hr : (waitStep resp prompt T w c).2 = true
    · simp only [waitBytes, hr, if_true]
      have : n + 1 - n = 1 := by omega
      rw [this]
      simp only [List.take_succ_cons, List.take_zero, promptRun, List.foldl_cons,
        List.foldl_nil]
      exact waitStep_state resp prompt T w c
    · have hr' : (waitStep resp prompt T w c).2 = false := by simpa using hr
      obtain ⟨b1, _, _, _⟩ := waitBytes_bounds resp prompt T rest
        (waitStep resp prompt T w c).1 (n + 1)
      have hsub : (waitBytes resp prompt T (waitStep resp prompt T w c).1 (n + 1) rest).consumed
          - n = ((waitBytes resp prompt T (waitStep resp prompt T w c).1 (n + 1)
            rest).consumed - (n + 1)) + 1 := by omega
      simp only [waitBytes, hr', Bool.false_eq_true, if_false]
      rw [hsub, List.take_succ_cons]
      have h := ih (waitStep resp prompt T w c).1 (n + 1)
      rw [h]
      simp only [promptRun, List.foldl_cons]
      rw [waitStep_state resp prompt T w c]
      generalize (waitStep resp prompt T w c).1.matchTerminatorPos = k
      generalize List.take _ rest = l
      have hfold : ∀ (l : List Nat) (v : WaitState),
          List.foldl (promptStep resp prompt) { v with matchTerminatorPos := k } l
            = { List.foldl (promptStep resp prompt) v l with matchTerminatorPos := k } := by
        intro l
        induction l with
        | nil => intro v; rfl
        | cons x t iht =>
          intro v
          simp only [List.foldl_cons]
          rw [promptStep_indep, iht]
      rw [hfold]

theorem waitBytes_prefix_unmatched (resp : Bool) (prompt : Option (List Nat)) (T : List Nat)
    (a b : List Nat) (w : WaitState) (n : Nat)
    (h : (waitBytes resp prompt T w n (a ++ b)).matched = false) :
    (waitBytes resp prompt T w n a).matched = false := by
  rw [waitBytes_append] at h
  by_contra hm
  have hm' : (waitBytes resp prompt T w n a).matched = true := by simpa using hm
  rw [hm'] at h
  simp only [if_true] at h
  rw [hm'] at h
  exact absurd h (by simp)

theorem promptRun_append (resp : Bool) (prompt : Option (List Nat)) (w : WaitState)
    (a b : List Nat) :
    promptRun resp prompt w (a ++ b) = promptRun resp prompt (promptRun resp prompt w a) b := by
  simp [promptRun, List.foldl_append]

theorem promptRun_frozen (resp : Bool) (P : List Nat) (l : List Nat) :
    ∀ w : WaitState, w.promptState = PromptState.LOOKING_FOR_TERMINATOR →
      (promptRun resp (some P) w l).response = w.response
      ∧ (promptRun resp (some P) w l).promptState = PromptState.LOOKING_FOR_TERMINATOR := by
  induction l with
  | nil => intro w h; exact ⟨rfl, h⟩
  | cons c t ih =>
    intro w h
    have hstep : promptStep resp (some P) w c = w := by
      simp [promptStep, h]
    simp only [promptRun, List.foldl_cons, hstep]
    exact ih w h

theorem promptStep_not_looking (resp : Bool) (P : List Nat) (w : WaitState) (c : Nat)
    (h : w.promptState ≠ PromptState.LOOKING_FOR_PROMPT) :
    (promptStep resp (some P) w c).promptState ≠ PromptState.LOOKING_FOR_PROMPT := by
  obtain ⟨r, sz, mp, mt, ps⟩ := w
  cases ps
  · exact absurd rfl h
  · simp only [promptStep]
    repeat' split
    all_goals simp
  · simp [promptStep]

theorem promptStep_looking (resp : Bool) (P : List Nat) (w : WaitState) (c : Nat)
    (h : w.promptState = PromptState.LOOKING_FOR_PROMPT) :
    (promptStep resp (some P) w c).response = w.response
      ∧ (promptStep resp (some P) w c).responseSize = w.responseSize := by
  obtain ⟨r, sz, mp, mt, ps⟩ := w
  simp only at h
  subst h
  simp only [promptStep]
  repeat' split
  all_goals exact ⟨rfl, rfl⟩

theorem promptRun_looking (resp : Bool) (P : List Nat) (l : List Nat) :
    ∀ w : WaitState,
      (promptRun resp (some P) w l).promptState = PromptState.LOOKING_FOR_PROMPT →
      (promptRun resp (some P) w l).response = w.response
      ∧ (promptRun resp (some P) w l).responseSize = w.responseSize := by
  induction l with
  | nil => intro w _; exact ⟨rfl, rfl⟩
  | cons c t ih =>
    intro w h
    simp only [promptRun, List.foldl_cons] at h ⊢
    have hw : w.promptState = PromptState.LOOKING_FOR_PROMPT := by
      by_contra hne
      have h1 := promptStep_not_looking resp P w c hne
      have hmono : ∀ (t : List Nat) (v : WaitState),
          v.promptState ≠ PromptState.LOOKING_FOR_PROMPT →
          (promptRun resp (some P) v t).promptState ≠ PromptState.LOOKING_FOR_PROMPT := by
        intro t
        induction t with
        | nil => intro v hv; exact hv
        | cons x t' iht =>
          intro v hv
          simp only [promptRun, List.foldl_cons]
          exact iht _ (promptStep_not_looking resp P v x hv)
      exact hmono t _ h1 h
    obtain ⟨i1, i2⟩ := ih (promptStep resp (some P) w c) h
    obtain ⟨s1, s2⟩ := promptStep_looking resp P w c hw
    exact ⟨by rw [← s1]; exact i1, by rw [← s2]; exact i2⟩

/-- Gathering: from the state GATHERING_RESPONSE with capacity `m` left, bytes
free of CR are stored while the capacity is 2 or more. -/
theorem promptRun_gather (P : List Nat) (R : List Nat) (hR : 13 ∉ R) :
    ∀ (w : WaitState) (m : Nat), w.promptState = PromptState.GATHERING_RESPONSE →
      w.responseSize = (m : Int) → 1 ≤ m →
      (promptRun true (some P) w R).response = w.response ++ R.take (m - 1)
      ∧ (promptRun true (some P) w R).promptState ≠ PromptState.LOOKING_FOR_PROMPT := by
  induction R with
  | nil => intro w m h _ _; simp [promptRun, h]
  | cons c t ih =>
    intro w m h hm h1
    have hc : c ≠ 13 := fun e => hR (e ▸ List.mem_cons_self _ _)
    have ht : 13 ∉ t := fun e => hR (List.mem_cons_of_mem _ e)
    by_cases hsz : m < 2
    · have hm1 : m = 1 := by omega
      have hstep : promptStep true (some P) w c
          = { w with promptState := PromptState.LOOKING_FOR_TERMINATOR } := by
        have : w.responseSize < 2 := by rw [hm]; omega
        simp [promptStep, h, this]
      simp only [promptRun, List.foldl_cons, hstep]
      obtain ⟨f1, f2⟩ := promptRun_frozen true P t
        { w with promptState := PromptState.LOOKING_FOR_TERMINATOR } rfl
      simp only [promptRun] at f1 f2
      rw [f1, f2, hm1]
      simp
    · have hstep : promptStep true (some P) w c
          = { w with response := w.response ++ [c], responseSize := w.responseSize - 1 } := by
        have : ¬ w.responseSize < 2 := by rw [hm]; omega
        simp [promptStep, h, this, hc]
      simp only [promptRun, List.foldl_cons, hstep]
      obtain ⟨i1, i2⟩ := ih ht
        { w with response := w.response ++ [c], responseSize := w.responseSize - 1 } (m - 1)
        h (by simp only [hm]; omega) (by omega)
      simp only [promptRun] at i1 i2
      refine ⟨?_, i2⟩
      rw [i1]
      have : m - 1 = (m - 1 - 1) + 1 := by omega
      conv_rhs => rw [this, List.take_succ_cons]
      simp

theorem promptRun_after_CR (P : List Nat) (Z : List Nat) (w : WaitState)
    (h : w.promptState ≠ PromptState.LOOKING_FOR_PROMPT) :
    (promptRun true (some P) w (13 :: Z)).response = w.response := by
  obtain ⟨r, sz, mp, mt, ps⟩ := w
  cases ps
  · exact absurd rfl h
  · have hstep : promptStep true (some P)
        ⟨r, sz, mp, mt, PromptState.GATHERING_RESPONSE⟩ 13
        = ⟨r, sz, mp, mt, PromptState.LOOKING_FOR_TERMINATOR⟩ := by
      simp [promptStep]
    simp only [promptRun, List.foldl_cons, hstep]
    exact (promptRun_frozen true P Z _ rfl).1
  · exact (promptRun_frozen true P (13 :: Z) _ rfl).1

theorem waitForATResponse_single (response : Option Int) (prompt : Option (List Nat))
    (T : List Nat) (l : List Nat) :
    waitForATResponse response prompt T [⟨false, l⟩]
      = waitBytes response.isSome prompt T (WaitState.init (response.getD 0) prompt) 0 l := by
  unfold waitForATResponse
  rw [waitPolls_eq_waitBytes _ _ _ _ (by simp)]
  simp [pollBytes]

/-- C8.  For a prompt P, a capture buffer of capacity n >= 1 and filtered bytes
X ++ P ++ R ++ [CR] ++ Z delivered before the timeout with no cancellation, where
the prompt automaton is still seeking P before the last byte of X ++ P and has
completed it at that byte, R holds no CR, and the terminator is not completed
within X ++ P ++ R: on return of `waitForATResponse` (with a match or with the
timeout) the buffer holds the first min(|R|, n-1) bytes of R and NUL bytes in all
its other places; neither the CR nor a later byte is stored. -/
theorem capture_up_to_CR (n : Nat) (P T X R Z : List Nat) (polls : List Poll)
    (hn : 1 ≤ n)
    (hnc : ∀ p ∈ polls, p.cancelled = false)
    (hbytes : pollBytes polls = X ++ P ++ R ++ [13] ++ Z)
    (hbefore : (waitForATResponse (some (n : Int)) (some P) T
        [⟨false, (X ++ P).dropLast⟩]).state.promptState = PromptState.LOOKING_FOR_PROMPT)
    (hat : (waitForATResponse (some (n : Int)) (some P) T
        [⟨false, X ++ P⟩]).state.promptState = PromptState.GATHERING_RESPONSE)
    (hR : 13 ∉ R)
    (hterm : (waitForATResponse (some (n : Int)) (some P) T
        [⟨false, X ++ P ++ R⟩]).matched = false) :
    bufferOf n (waitForATResponse (some (n : Int)) (some P) T polls).state.response
      = R.take (min R.length (n - 1)) ++ List.replicate (n - min R.length (n - 1)) 0 := by
  rw [waitForATResponse_single] at hbefore hat hterm
  simp only [Option.isSome_some, Option.getD_some] at hbefore hat hterm
  have hfull : waitForATResponse (some (n : Int)) (some P) T polls
      = waitBytes true (some P) T (WaitState.init (n : Int) (some P)) 0
          (X ++ P ++ R ++ [13] ++ Z) := by
    unfold waitForATResponse
    rw [waitPolls_eq_waitBytes _ _ _ _ hnc, hbytes]
    rfl
  generalize hw0 : WaitState.init (n : Int) (some P) = w0 at *
  have hinit : w0.promptState = PromptState.LOOKING_FOR_PROMPT ∧ w0.response = []
      ∧ w0.responseSize = (n : Int) := by
    subst hw0; simp [WaitState.init]
  -- the runs over the prefixes are not cut short by the terminator
  have hXP : (waitBytes true (some P) T w0 0 (X ++ P)).matched = false :=
    waitBytes_prefix_unmatched _ _ _ _ R _ _ hterm
  have hne : X ++ P ≠ [] := by
    intro he
    rw [he] at hat
    simp only [waitBytes] at hat
    rw [hinit.1] at hat
    exact absurd hat (by decide)
  have hsplit : X ++ P = (X ++ P).dropLast ++ [(X ++ P).getLast hne] :=
    (List.dropLast_append_getLast hne).symm
  have hXP' : (waitBytes true (some P) T w0 0 (X ++ P).dropLast).matched = false := by
    rw [hsplit] at hXP
    exact waitBytes_prefix_unmatched _ _ _ _ _ _ _ hXP
  have hstate : ∀ l, (waitBytes true (some P) T w0 0 l).matched = false →
      (waitBytes true (some P) T w0 0 l).state.promptState
          = (promptRun true (some P) w0 l).promptState := by
    intro l hl
    have hc := (waitBytes_bounds true (some P) T l w0 0).2.2.2 hl
    have hp := waitBytes_prompt true (some P) T l w0 0
    rw [hc] at hp
    simp only [Nat.zero_add, Nat.sub_zero, List.take_length] at hp
    rw [hp]
  rw [hstate _ hXP'] at hbefore
  rw [hstate _ hXP] at hat
  -- nothing is stored before the prompt is complete
  obtain ⟨l1, l2⟩ := promptRun_looking true P _ w0 hbefore
  have hXPrun : promptRun true (some P) w0 (X ++ P)
      = promptStep true (some P) (promptRun true (some P) w0 (X ++ P).dropLast)
          ((X ++ P).getLast hne) := by
    conv_lhs => rw [hsplit]
    rw [promptRun_append]
    rfl
  obtain ⟨s1, s2⟩ := promptStep_looking true P _ ((X ++ P).getLast hne) hbefore
  rw [← hXPrun] at s1 s2
  have hresp : (promptRun true (some P) w0 (X ++ P)).response = [] := by
    rw [s1, l1, hinit.2.1]
  have hsize : (promptRun true (some P) w0 (X ++ P)).responseSize = (n : Int) := by
    rw [s2, l2, hinit.2.2]
  -- the bytes consumed reach past the CR
  have hcons : (X ++ P ++ R).length
      < (waitBytes true (some P) T w0 0 (X ++ P ++ R ++ [13] ++ Z)).consumed := by
    have happ := waitBytes_append true (some P) T (X ++ P ++ R) ([13] ++ Z) w0 0
    rw [hterm] at happ
    simp only [Bool.false_eq_true, if_false] at happ
    have hc := (waitBytes_bounds true (some P) T (X ++ P ++ R) w0 0).2.2.2 hterm
    have hb := (waitBytes_bounds true (some P) T ([13] ++ Z)
      (waitBytes true (some P) T w0 0 (X ++ P ++ R)).state
      (waitBytes true (some P) T w0 0 (X ++ P ++ R)).consumed).2.2.1 (by simp)
    rw [List.append_assoc (X ++ P ++ R), happ]
    omega
  obtain ⟨k, hk⟩ : ∃ k, (waitBytes true (some P) T w0 0 (X ++ P ++ R ++ [13] ++ Z)).consumed
      = (X ++ P ++ R).length + 1 + k :=
    ⟨(waitBytes true (some P) T w0 0 (X ++ P ++ R ++ [13] ++ Z)).consumed
      - ((X ++ P ++ R).length + 1), by omega⟩
  have htake : (X ++ P ++ R ++ [13] ++ Z).take ((X ++ P ++ R).length + 1 + k)
      = (X ++ P) ++ (R ++ (13 :: Z.take k)) := by
    have h1 : X ++ P ++ R ++ [13] ++ Z = (X ++ P ++ R ++ [13]) ++ Z := by simp
    have h2 : (X ++ P ++ R).length + 1 + k = (X ++ P ++ R ++ [13]).length + k := by
      simp only [List.length_append, List.length_cons, List.length_nil]
    rw [h1, h2, List.take_append]
    simp
  have hp := waitBytes_prompt true (some P) T (X ++ P ++ R ++ [13] ++ Z) w0 0
  rw [hk, Nat.sub_zero, htake, promptRun_append, promptRun_append] at hp
  obtain ⟨g1, g2⟩ := promptRun_gather P R hR (promptRun true (some P) w0 (X ++ P)) n hat
    hsize hn
  have hfinal := promptRun_after_CR P (Z.take k)
    (promptRun true (some P) (promptRun true (some P) w0 (X ++ P)) R) g2
  rw [hfull, hp]
  simp only []
  rw [hfinal, g1, hresp]
  have ht : R.take (min R.length (n - 1)) = R.take (n - 1) := by
    by_cases hle : R.length ≤ n - 1
    · rw [Nat.min_eq_left hle, List.take_of_length_le hle, List.take_of_length_le (le_refl _)]
    · rw [Nat.min_eq_right (by omega)]
  have hl : (R.take (n - 1)).length = min R.length (n - 1) := by
    rw [List.length_take, Nat.min_comm]
  simp only [List.nil_append, bufferOf]
  rw [ht, hl]

theorem capture_up_to_CR_witness :
    bufferOf 4 (waitForATResponse (some ((4 : Nat) : Int)) (some (cstr "+CSQ:")) (cstr "OK\r\n")
        [⟨false, cstr "AT+CSQ\r\r\n+CS"⟩, ⟨false, cstr "Q:12345\r\n\r\nOK\r\n"⟩]).state.response
      = (cstr "12345").take (min (cstr "12345").length (4 - 1))
        ++ List.replicate (4 - min (cstr "12345").length (4 - 1)) 0 :=
  capture_up_to_CR 4 (cstr "+CSQ:") (cstr "OK\r\n") (cstr "AT+CSQ\r\r\n") (cstr "12345")
    (cstr "\n\r\nOK\r\n") [⟨false, cstr "AT+CSQ\r\r\n+CS"⟩, ⟨false, cstr "Q:12345\r\n\r\nOK\r\n"⟩]
    (by decide) (by decide) (by decide) (by decide) (by decide) (by decide) (by decide)

/-! ## The mailbox check-in loop -/

/-- A pass that gets to the check-in: the deadline aside, the time-sync check is
off or has passed. -/
theorem sbdixPass_checkin (rxBuffer : Bool) (s : IridiumSBD) (size : Option Nat)
    (tr : List LoopAction) (a : Attempt)
    (hgo : s.msstmWorkaroundRequested = false ∨ a.msstm = (ISBD_SUCCESS, true)) :
    ∃ more, (match sbdixPass rxBuffer s size tr a with
        | PassOutcome.done r => r.trace
        | PassOutcome.again t => t) = tr ++ msstmActions s ++ [LoopAction.sbdix] ++ more := by
  have hm : (s.msstmWorkaroundRequested && decide (a.msstm.1 ≠ ISBD_SUCCESS)) = false := by
    rcases hgo with h | h
    · simp [h]
    · simp [h]
  have hok : (if s.msstmWorkaroundRequested then a.msstm.2 else true) = true := by
    rcases hgo with h | h
    · simp [h]
    · simp [h]
  have htr : (if s.msstmWorkaroundRequested then tr ++ [LoopAction.msstm] else tr)
      = tr ++ msstmActions s := by
    unfold msstmActions
    split <;> simp
  unfold sbdixPass
  simp only [hm, hok, htr, Bool.false_eq_true, if_false, if_true]
  by_cases h1 : a.sbdix.1 ≠ ISBD_SUCCESS
  · exact ⟨[], by simp [h1]⟩
  · by_cases h2 : a.sbdix.2.moCode ≤ 4
    · by_cases h3 : a.sbdix.2.mtCode = 1 ∧ rxBuffer = true
      · exact ⟨[LoopAction.sbdrb], by simp [h1, h2, h3]⟩
      · exact ⟨[], by simp [h1, h2, h3]⟩
    · by_cases h4 : a.sbdix.2.moCode = 12 ∨ a.sbdix.2.moCode = 14 ∨ a.sbdix.2.moCode = 16
      · exact ⟨[], by simp [h1, h2, h4]⟩
      · by_cases h5 : a.waitOk = true
        · exact ⟨[LoopAction.wait s.sbdixInterval], by simp [h1, h2, h4, h5]⟩
        · exact ⟨[LoopAction.wait s.sbdixInterval], by simp [h1, h2, h4, h5]⟩

theorem sbdixPass_trace_prefix (rxBuffer : Bool) (s : IridiumSBD) (size : Option Nat)
    (tr : List LoopAction) (a : Attempt) :
    ∃ more, (match sbdixPass rxBuffer s size tr a with
        | PassOutcome.done r => r.trace
        | PassOutcome.again t => t) = tr ++ more := by
  by_cases hgo : s.msstmWorkaroundRequested = false ∨ a.msstm = (ISBD_SUCCESS, true)
  · obtain ⟨more, h⟩ := sbdixPass_checkin rxBuffer s size tr a hgo
    exact ⟨msstmActions s ++ [LoopAction.sbdix] ++ more, by rw [h]; simp⟩
  · have hw : s.msstmWorkaroundRequested = true := by
      by_contra h; exact hgo (Or.inl (by simpa using h))
    unfold sbdixPass
    by_cases h1 : a.msstm.1 ≠ ISBD_SUCCESS
    · exact ⟨[LoopAction.msstm], by simp [hw, h1]⟩
    · have h2 : a.msstm.2 = false := by
        by_contra h
        apply hgo; right
        have h1' : a.msstm.1 = ISBD_SUCCESS := by simpa using h1
        have h2' : a.msstm.2 = true := by simpa using h
        exact Prod.ext h1' h2'
      by_cases h5 : a.waitOk = true
      · exact ⟨[LoopAction.msstm, LoopAction.wait ISBD_MSSTM_RETRY_INTERVAL], by
          simp [hw, h1, h2, h5]⟩
      · exact ⟨[LoopAction.msstm, LoopAction.wait ISBD_MSSTM_RETRY_INTERVAL], by
          simp [hw, h1, h2, h5]⟩

theorem sbdixLoop_trace_prefix (rxBuffer : Bool) (start : Nat) (s : IridiumSBD)
    (size : Option Nat) (attempts : List Attempt) :
    ∀ (tr : List LoopAction),
    ∃ more, (sbdixLoop rxBuffer start s size tr attempts).trace = tr ++ more := by
  induction attempts with
  | nil => intro tr; exact ⟨[], by simp [sbdixLoop]⟩
  | cons a rest ih =>
    intro tr
    by_cases hd : withinDeadline s start a.now = true
    · obtain ⟨m1, h1⟩ := sbdixPass_trace_prefix rxBuffer s size tr a
      simp only [sbdixLoop, hd, Bool.not_true, Bool.false_eq_true, if_false]
      cases hp : sbdixPass rxBuffer s size tr a with
      | done r =>
        rw [hp] at h1
        exact ⟨m1, h1⟩
      | again t =>
        rw [hp] at h1
        simp only [] at h1 ⊢
        obtain ⟨m2, h2⟩ := ih t
        exact ⟨m1 ++ m2, by rw [h2, h1]; simp⟩
    · exact ⟨[], by simp [sbdixLoop, hd]⟩

/-- C9 (counterexample).  On a fresh session (time-sync workaround requested) the
first check-in reports mo_status 32; the retry wait is not cancelled and the next
loop test, 30 s after the start, is within the 300 s deadline: yet AT+SBDIX is not
issued again, because the AT-MSSTM check of that pass finds no valid time; the
operation ends with ISBD_SENDRECEIVE_TIMEOUT after a single check-in. -/
theorem retry_without_second_checkin :
    withinDeadline { new (-1) (-1) with asleep := false } 0 30000 = true
      ∧ (sbdixLoop false 0 { new (-1) (-1) with asleep := false } none []
          [ { now := 0, msstm := (ISBD_SUCCESS, true),
              sbdix := (ISBD_SUCCESS, ⟨32, 1, 0, 0, 0, 0⟩), sbdrb := (0, 0), waitOk := true },
            { now := 30000, msstm := (ISBD_SUCCESS, false),
              sbdix := (ISBD_SUCCESS, ⟨0, 2, 0, 0, 0, 0⟩), sbdrb := (0, 0), waitOk := true },
            { now := 300000, msstm := (ISBD_SUCCESS, true),
              sbdix := (ISBD_SUCCESS, ⟨0, 2, 0, 0, 0, 0⟩), sbdrb := (0, 0), waitOk := true } ])
        = { ret := some ISBD_SENDRECEIVE_TIMEOUT
            session := { new (-1) (-1) with asleep := false }
            rxBufferSize := none
            trace := [LoopAction.msstm, LoopAction.sbdix, LoopAction.wait 30,
                      LoopAction.msstm, LoopAction.wait 10] } := by
  decide

/-- C9 (amended).  In a pass of the SBDIX loop that is within the deadline and
gets to the check-in (time-sync workaround off, or AT-MSSTM answered with a valid
time), for the mo_status of a successfully parsed reply: 0..4 ends the operation
on the success path (the result of doSBDRB when mt_status is 1 and a receive
buffer was given, else ISBD_SUCCESS); 12, 14, 16 end it with
ISBD_SBDIX_FATAL_ERROR and no further command; every other value makes the pass
wait sbdixInterval seconds, return ISBD_CANCELLED if cancelled meanwhile, and
else go back to the loop test, where past the deadline the operation returns
ISBD_SENDRECEIVE_TIMEOUT and otherwise the next pass issues AT+SBDIX again if the
workaround is off or its AT-MSSTM check finds a valid time. -/
theorem sbdix_classification (rxBuffer : Bool) (start : Nat) (s : IridiumSBD)
    (size : Option Nat) (tr : List LoopAction) (a : Attempt) (rest : List Attempt)
    (hdl : withinDeadline s start a.now = true)
    (hgo : s.msstmWorkaroundRequested = false ∨ a.msstm = (ISBD_SUCCESS, true))
    (hok : a.sbdix.1 = ISBD_SUCCESS) :
    (a.sbdix.2.moCode ≤ 4 →
        (sbdixLoop rxBuffer start s size tr (a :: rest)).ret
            = some (if a.sbdix.2.mtCode = 1 ∧ rxBuffer = true then a.sbdrb.1 else ISBD_SUCCESS)
        ∧ (sbdixLoop rxBuffer start s size tr (a :: rest)).trace
            = tr ++ msstmActions s ++ [LoopAction.sbdix]
              ++ (if a.sbdix.2.mtCode = 1 ∧ rxBuffer = true then [LoopAction.sbdrb] else []))
    ∧ (a.sbdix.2.moCode = 12 ∨ a.sbdix.2.moCode = 14 ∨ a.sbdix.2.moCode = 16 →
        (sbdixLoop rxBuffer start s size tr (a :: rest)).ret = some ISBD_SBDIX_FATAL_ERROR
        ∧ (sbdixLoop rxBuffer start s size tr (a :: rest)).trace
            = tr ++ msstmActions s ++ [LoopAction.sbdix])
    ∧ (4 < a.sbdix.2.moCode →
        ¬ (a.sbdix.2.moCode = 12 ∨ a.sbdix.2.moCode = 14 ∨ a.sbdix.2.moCode = 16) →
        (a.waitOk = false →
          (sbdixLoop rxBuffer start s size tr (a :: rest)).ret = some ISBD_CANCELLED
          ∧ (sbdixLoop rxBuffer start s size tr (a :: rest)).trace
              = tr ++ msstmActions s ++ [LoopAction.sbdix, LoopAction.wait s.sbdixInterval])
        ∧ (a.waitOk = true →
          sbdixLoop rxBuffer start s size tr (a :: rest)
            = sbdixLoop rxBuffer start s size
                (tr ++ msstmActions s ++ [LoopAction.sbdix, LoopAction.wait s.sbdixInterval]) rest
          ∧ ∀ a2 rest2, rest = a2 :: rest2 →
              (withinDeadline s start a2.now = false →
                (sbdixLoop rxBuffer start s size tr (a :: rest)).ret
                    = some ISBD_SENDRECEIVE_TIMEOUT
                ∧ (sbdixLoop rxBuffer start s size tr (a :: rest)).trace
                    = tr ++ msstmActions s
                      ++ [LoopAction.sbdix, LoopAction.wait s.sbdixInterval])
              ∧ (withinDeadline s start a2.now = true →
                  (s.msstmWorkaroundRequested = false ∨ a2.msstm = (ISBD_SUCCESS, true)) →
                  ∃ more, (sbdixLoop rxBuffer start s size tr (a :: rest)).trace
                    = tr ++ msstmActions s
                      ++ [LoopAction.sbdix, LoopAction.wait s.sbdixInterval]
                      ++ msstmActions s ++ [LoopAction.sbdix] ++ more))) := by
  have hm : (s.msstmWorkaroundRequested && decide (a.msstm.1 ≠ ISBD_SUCCESS)) = false := by
    rcases hgo with h | h
    · simp [h]
    · simp [h]
  have hgo' : (if s.msstmWorkaroundRequested then a.msstm.2 else true) = true := by
    rcases hgo with h | h
    · simp [h]
    · simp [h]
  have htr : (if s.msstmWorkaroundRequested then tr ++ [LoopAction.msstm] else tr)
      = tr ++ msstmActions s := by
    unfold msstmActions
    split <;> simp
  have hloopdef : ∀ o, sbdixPass rxBuffer s size tr a = o →
      sbdixLoop rxBuffer start s size tr (a :: rest)
        = (match o with
            | PassOutcome.done r => r
            | PassOutcome.again tr1 => sbdixLoop rxBuffer start s size tr1 rest) := by
    intro o ho
    simp only [sbdixLoop, hdl, Bool.not_true, Bool.false_eq_true, if_false, ho]
  refine ⟨?_, ?_, ?_⟩
  · intro h4
    by_cases h3 : a.sbdix.2.mtCode = 1 ∧ rxBuffer = true
    · have hpass : sbdixPass rxBuffer s size tr a = PassOutcome.done
          { ret := some a.sbdrb.1,
            session := { s with remainingMessages := (a.sbdix.2.mtRemaining : Int) },
            rxBufferSize := size.map (fun _ => a.sbdrb.2),
            trace := tr ++ msstmActions s ++ [LoopAction.sbdix] ++ [LoopAction.sbdrb] } := by
        unfold sbdixPass
        simp only [hm, hgo', htr, Bool.false_eq_true, if_false, if_true]
        simp [hok, h4, h3]
      rw [hloopdef _ hpass]
      simp [h3]
    · have hpass : sbdixPass rxBuffer s size tr a = PassOutcome.done
          { ret := some ISBD_SUCCESS,
            session := { s with remainingMessages := (a.sbdix.2.mtRemaining : Int) },
            rxBufferSize := size.map (fun _ => 0),
            trace := tr ++ msstmActions s ++ [LoopAction.sbdix] } := by
        unfold sbdixPass
        simp only [hm, hgo', htr, Bool.false_eq_true, if_false, if_true]
        simp [hok, h4, h3]
      rw [hloopdef _ hpass]
      simp [h3]
  · intro h12
    have h4 : ¬ a.sbdix.2.moCode ≤ 4 := by omega
    have hpass : sbdixPass rxBuffer s size tr a = PassOutcome.done
        { ret := some ISBD_SBDIX_FATAL_ERROR, session := s, rxBufferSize := size,
          trace := tr ++ msstmActions s ++ [LoopAction.sbdix] } := by
      unfold sbdixPass
      simp only [hm, hgo', htr, Bool.false_eq_true, if_false, if_true]
      simp [hok, h4, h12]
    rw [hloopdef _ hpass]
    simp
  · intro h4 h12
    have h4' : ¬ a.sbdix.2.moCode ≤ 4 := by omega
    refine ⟨?_, ?_⟩
    · intro hw
      have hpass : sbdixPass rxBuffer s size tr a = PassOutcome.done
          { ret := some ISBD_CANCELLED, session := s, rxBufferSize := size,
            trace := tr ++ msstmActions s
              ++ [LoopAction.sbdix, LoopAction.wait s.sbdixInterval] } := by
        unfold sbdixPass
        simp only [hm, hgo', htr, Bool.false_eq_true, if_false, if_true]
        simp [hok, h4', h12, hw]
      rw [hloopdef _ hpass]
      simp
    · intro hw
      have hpass : sbdixPass rxBuffer s size tr a = PassOutcome.again
          (tr ++ msstmActions s ++ [LoopAction.sbdix, LoopAction.wait s.sbdixInterval]) := by
        unfold sbdixPass
        simp only [hm, hgo', htr, Bool.false_eq_true, if_false, if_true]
        simp [hok, h4', h12, hw]
      have hloop : sbdixLoop rxBuffer start s size tr (a :: rest)
          = sbdixLoop rxBuffer start s size
              (tr ++ msstmActions s ++ [LoopAction.sbdix, LoopAction.wait s.sbdixInterval])
              rest := by
        rw [hloopdef _ hpass]
      refine ⟨hloop, ?_⟩
      intro a2 rest2 hrest
      subst hrest
      rw [hloop]
      refine ⟨?_, ?_⟩
      · intro hd2
        simp [sbdixLoop, hd2]
      · intro hd2 hgo2
        obtain ⟨m1, h1⟩ := sbdixPass_checkin rxBuffer s size
          (tr ++ msstmActions s ++ [LoopAction.sbdix, LoopAction.wait s.sbdixInterval]) a2 hgo2
        simp only [sbdixLoop, hd2, Bool.not_true, Bool.false_eq_true, if_false]
        cases hp : sbdixPass rxBuffer s size
            (tr ++ msstmActions s ++ [LoopAction.sbdix, LoopAction.wait s.sbdixInterval]) a2 with
        | done r =>
          rw [hp] at h1
          exact ⟨m1, h1⟩
        | again t =>
          rw [hp] at h1
          simp only [] at h1 ⊢
          obtain ⟨m2, h2⟩ := sbdixLoop_trace_prefix rxBuffer start s size rest2 t
          exact ⟨m1 ++ m2, by rw [h2, h1]; simp⟩

theorem sbdix_classification_witness :
    (sbdixLoop false 0 { new (-1) (-1) with asleep := false } none []
        [ { now := 0, msstm := (ISBD_SUCCESS, true),
            sbdix := (ISBD_SUCCESS, ⟨32, 1, 0, 0, 0, 0⟩), sbdrb := (0, 0), waitOk := true },
          { now := 30000, msstm := (ISBD_SUCCESS, true),
            sbdix := (ISBD_SUCCESS, ⟨14, 1, 0, 0, 0, 0⟩), sbdrb := (0, 0), waitOk := true } ])
      = sbdixLoop false 0 { new (-1) (-1) with asleep := false } none
          ([] ++ msstmActions { new (-1) (-1) with asleep := false }
            ++ [LoopAction.sbdix,
                LoopAction.wait ({ new (-1) (-1) with asleep := false } : IridiumSBD).sbdixInterval])
          [ { now := 30000, msstm := (ISBD_SUCCESS, true),
              sbdix := (ISBD_SUCCESS, ⟨14, 1, 0, 0, 0, 0⟩), sbdrb := (0, 0), waitOk := true } ] :=
  ((sbdix_classification false 0 { new (-1) (-1) with asleep := false } none []
      { now := 0, msstm := (ISBD_SUCCESS, true),
        sbdix := (ISBD_SUCCESS, ⟨32, 1, 0, 0, 0, 0⟩), sbdrb := (0, 0), waitOk := true }
      [ { now := 30000, msstm := (ISBD_SUCCESS, true),
          sbdix := (ISBD_SUCCESS, ⟨14, 1, 0, 0, 0, 0⟩), sbdrb := (0, 0), waitOk := true } ]
      (by decide) (Or.inr rfl) rfl).2.2 (by decide) (by decide)).2 rfl |>.1

/-! ## Parsing the check-in reply -/

theorem dropWhile_delims (sd x : List Nat) (hsd : ∀ c ∈ sd, isDelim c = true) :
    (sd ++ x).dropWhile isDelim = x.dropWhile isDelim := by
  induction sd with
  | nil => rfl
  | cons c t ih =>
    have hc := hsd c (List.mem_cons_self _ _)
    simp only [List.cons_append, List.dropWhile_cons, hc, if_true]
    exact ih (fun y hy => hsd y (List.mem_cons_of_mem _ hy))

theorem takeWhile_token (d x : List Nat) (hd : ∀ c ∈ d, isDelim c = false) :
    (d ++ x).takeWhile (fun c => !isDelim c) = d ++ x.takeWhile (fun c => !isDelim c) := by
  induction d with
  | nil => rfl
  | cons c t ih =>
    have hc := hd c (List.mem_cons_self _ _)
    simp only [List.cons_append, List.takeWhile_cons, hc, Bool.not_false, if_true]
    rw [ih (fun y hy => hd y (List.mem_cons_of_mem _ hy))]

theorem dropWhile_token (d x : List Nat) (hd : ∀ c ∈ d, isDelim c = false) :
    (d ++ x).dropWhile (fun c => !isDelim c) = x.dropWhile (fun c => !isDelim c) := by
  induction d with
  | nil => rfl
  | cons c t ih =>
    have hc := hd c (List.mem_cons_self _ _)
    simp only [List.cons_append, List.dropWhile_cons, hc, Bool.not_false, if_true]
    exact ih (fun y hy => hd y (List.mem_cons_of_mem _ hy))

/-- The call of `strtok` on delimiters, a token, a delimiter and more text. -/
theorem strtok_field (sd d : List Nat) (c : Nat) (x : List Nat)
    (hsd : ∀ y ∈ sd, isDelim y = true) (hne : d ≠ []) (hd : ∀ y ∈ d, isDelim y = false)
    (hc : isDelim c = true) :
    strtok (sd ++ (d ++ c :: x)) = some (d, x) := by
  unfold strtok
  rw [dropWhile_delims sd _ hsd]
  cases d with
  | nil => exact absurd rfl hne
  | cons a t =>
    have ha := hd a (List.mem_cons_self _ _)
    have h1 : ((a :: t) ++ c :: x).dropWhile isDelim = (a :: t) ++ c :: x := by
      simp [List.dropWhile_cons, ha]
    rw [h1]
    have h2 : (a :: t) ++ c :: x = a :: (t ++ c :: x) := rfl
    rw [h2]
    simp only []
    rw [← h2, takeWhile_token _ _ hd, dropWhile_token _ _ hd]
    simp [List.takeWhile_cons, List.dropWhile_cons, hc]

/-- The call of `strtok` on delimiters and a last token. -/
theorem strtok_last (sd d : List Nat)
    (hsd : ∀ y ∈ sd, isDelim y = true) (hne : d ≠ []) (hd : ∀ y ∈ d, isDelim y = false) :
    strtok (sd ++ d) = some (d, []) := by
  unfold strtok
  rw [dropWhile_delims sd _ hsd]
  cases d with
  | nil => exact absurd rfl hne
  | cons a t =>
    have ha := hd a (List.mem_cons_self _ _)
    have h1 : (a :: t).dropWhile isDelim = a :: t := by
      simp [List.dropWhile_cons, ha]
    rw [h1]
    simp only []
    have h3 := takeWhile_token (a :: t) [] hd
    have h4 := dropWhile_token (a :: t) [] hd
    simp only [List.append_nil, List.takeWhile_nil, List.dropWhile_nil] at h3 h4
    rw [h3, h4]
    rfl

theorem atolDigits_value (d : List Nat) (hd : ∀ c ∈ d, 48 ≤ c ∧ c ≤ 57) :
    ∀ acc, atolDigits acc d = acc * 10 ^ d.length + decimalValue d := by
  induction d with
  | nil => intro acc; simp [atolDigits, decimalValue]
  | cons c t ih =>
    intro acc
    have hc := hd c (List.mem_cons_self _ _)
    have ht := ih (fun y hy => hd y (List.mem_cons_of_mem _ hy))
    have hlen : ((t.map (fun c => c - 48)).reverse).length = t.length := by simp
    simp only [atolDigits, hc, and_self, if_true, decimalValue, List.map_cons,
      List.reverse_cons, Nat.ofDigits_append, Nat.ofDigits_singleton, hlen, List.length_cons]
    rw [ht]
    simp only [decimalValue]
    ring

theorem atol_digits (d : List Nat) (hne : d ≠ []) (hd : ∀ c ∈ d, 48 ≤ c ∧ c ≤ 57) :
    atol d = (decimalValue d : Int) := by
  cases d with
  | nil => exact absurd rfl hne
  | cons a t =>
    have ha := hd a (List.mem_cons_self _ _)
    have hsp : isSpace a = false := by
      unfold isSpace
      simp
      omega
    have h1 : (a :: t).dropWhile isSpace = a :: t := by
      simp [List.dropWhile_cons, hsp]
    have hv := atolDigits_value (a :: t) hd 0
    simp only [Nat.zero_mul, Nat.zero_add] at hv
    unfold atol
    rw [h1]
    split
    · rename_i rest heq
      have : a = 45 := by simpa using (List.cons.inj heq).1
      omega
    · rename_i rest heq
      have : a = 43 := by simpa using (List.cons.inj heq).1
      omega
    · rw [hv]

theorem digit_not_delim (d : List Nat) (hd : ∀ c ∈ d, 48 ≤ c ∧ c ≤ 57) :
    ∀ y ∈ d, isDelim y = false := by
  intro y hy
  have := hd y hy
  unfold isDelim
  simp
  omega

theorem toUInt16_value (v : Nat) (hv : v < 65536) : toUInt16 (v : Int) = v := by
  unfold toUInt16
  omega

theorem parseFields_field (n i : Nat) (sd d : List Nat) (c : Nat) (x : List Nat)
    (r : SBDIXReply) (hsd : ∀ y ∈ sd, isDelim y = true) (hne : d ≠ [])
    (hd : ∀ y ∈ d, 48 ≤ y ∧ y ≤ 57) (hv : decimalValue d < 65536) (hc : isDelim c = true) :
    parseFields (n + 1) i (sd ++ (d ++ c :: x)) r
      = parseFields n (i + 1) x (r.set i (decimalValue d)) := by
  rw [parseFields, strtok_field sd d c x hsd hne (digit_not_delim d hd) hc]
  simp only []
  rw [atol_digits d hne hd, toUInt16_value _ hv]

theorem parseFields_last (i : Nat) (sd d : List Nat) (r : SBDIXReply)
    (hsd : ∀ y ∈ sd, isDelim y = true) (hne : d ≠ [])
    (hd : ∀ y ∈ d, 48 ≤ y ∧ y ≤ 57) (hv : decimalValue d < 65536) :
    parseFields 1 i (sd ++ d) r = (ISBD_SUCCESS, r.set i (decimalValue d)) := by
  rw [parseFields, strtok_last sd d hsd hne (digit_not_delim d hd)]
  simp only []
  rw [atol_digits d hne hd, toUInt16_value _ hv, parseFields]

theorem delims_split (s : List Nat) (hs : s ≠ [] ∧ ∀ c ∈ s, c = 44 ∨ c = 32) :
    ∃ c t, s = c :: t ∧ isDelim c = true ∧ ∀ y ∈ t, isDelim y = true := by
  obtain ⟨hne, hall⟩ := hs
  have hdel : ∀ y ∈ s, isDelim y = true := by
    intro y hy
    unfold isDelim
    rcases hall y hy with h | h <;> simp [h]
  cases s with
  | nil => exact absurd rfl hne
  | cons c t =>
    exact ⟨c, t, rfl, hdel c (List.mem_cons_self _ _),
      fun y hy => hdel y (List.mem_cons_of_mem _ hy)⟩

/-- C10.  When the wait for the reply to AT+SBDIX succeeds and the text captured
after the prompt "+SBDIX: " consists of six strings of decimal digits, each
denoting a number below 65536, separated by non-empty runs of commas and spaces,
`doSBDIX` returns ISBD_SUCCESS and sets mo_status, mo_sequence, mt_status,
mt_sequence, mt_length and mt_queued_count to the six numbers, in that order. -/
theorem doSBDIX_parses_six_fields (polls : List Poll) (cancelled : Bool) (r0 : SBDIXReply)
    (d1 d2 d3 d4 d5 d6 s1 s2 s3 s4 s5 : List Nat)
    (hmatch : (waitForATResponse (some 32) (some (cstr "+SBDIX: ")) (cstr "OK\r\n")
        polls).matched = true)
    (htext : textOf (bufferOf 32 (waitForATResponse (some 32) (some (cstr "+SBDIX: "))
        (cstr "OK\r\n") polls).state.response)
        = d1 ++ s1 ++ d2 ++ s2 ++ d3 ++ s3 ++ d4 ++ s4 ++ d5 ++ s5 ++ d6)
    (hd : ∀ d ∈ [d1, d2, d3, d4, d5, d6],
        d ≠ [] ∧ (∀ c ∈ d, 48 ≤ c ∧ c ≤ 57) ∧ decimalValue d < 65536)
    (hs : ∀ s ∈ [s1, s2, s3, s4, s5], s ≠ [] ∧ ∀ c ∈ s, c = 44 ∨ c = 32) :
    doSBDIX polls cancelled r0
      = (ISBD_SUCCESS,
          { moCode := decimalValue d1, moMSN := decimalValue d2, mtCode := decimalValue d3,
            mtMSN := decimalValue d4, mtLen := decimalValue d5,
            mtRemaining := decimalValue d6 }) := by
  obtain ⟨c1, t1, e1, hc1, ht1⟩ := delims_split s1 (hs s1 (by simp))
  obtain ⟨c2, t2, e2, hc2, ht2⟩ := delims_split s2 (hs s2 (by simp))
  obtain ⟨c3, t3, e3, hc3, ht3⟩ := delims_split s3 (hs s3 (by simp))
  obtain ⟨c4, t4, e4, hc4, ht4⟩ := delims_split s4 (hs s4 (by simp))
  obtain ⟨c5, t5, e5, hc5, ht5⟩ := delims_split s5 (hs s5 (by simp))
  obtain ⟨n1, g1, v1⟩ := hd d1 (by simp)
  obtain ⟨n2, g2, v2⟩ := hd d2 (by simp)
  obtain ⟨n3, g3, v3⟩ := hd d3 (by simp)
  obtain ⟨n4, g4, v4⟩ := hd d4 (by simp)
  obtain ⟨n5, g5, v5⟩ := hd d5 (by simp)
  obtain ⟨n6, g6, v6⟩ := hd d6 (by simp)
  have hshape : d1 ++ s1 ++ d2 ++ s2 ++ d3 ++ s3 ++ d4 ++ s4 ++ d5 ++ s5 ++ d6
      = [] ++ (d1 ++ c1 :: (t1 ++ (d2 ++ c2 :: (t2 ++ (d3 ++ c3 :: (t3 ++ (d4 ++ c4 ::
          (t4 ++ (d5 ++ c5 :: (t5 ++ d6)))))))))) := by
    subst e1 e2 e3 e4 e5
    simp
  unfold doSBDIX
  simp only [hmatch, Bool.not_true, Bool.false_eq_true, if_false]
  rw [htext, hshape,
    parseFields_field 5 0 [] d1 c1 _ r0 (by simp) n1 g1 v1 hc1,
    parseFields_field 4 1 t1 d2 c2 _ _ ht1 n2 g2 v2 hc2,
    parseFields_field 3 2 t2 d3 c3 _ _ ht2 n3 g3 v3 hc3,
    parseFields_field 2 3 t3 d4 c4 _ _ ht3 n4 g4 v4 hc4,
    parseFields_field 1 4 t4 d5 c5 _ _ ht4 n5 g5 v5 hc5,
    parseFields_last 5 t5 d6 _ ht5 n6 g6 v6]
  rfl

theorem doSBDIX_parses_six_fields_witness :
    doSBDIX [⟨false, cstr "AT+SBDIX\r\r\n+SBDIX: 1, 15, 1, 7, 23, 2\r\n\r\nOK\r\n"⟩] false
        ⟨0, 0, 0, 0, 0, 0⟩
      = (ISBD_SUCCESS,
          { moCode := decimalValue (cstr "1"), moMSN := decimalValue (cstr "15"),
            mtCode := decimalValue (cstr "1"), mtMSN := decimalValue (cstr "7"),
            mtLen := decimalValue (cstr "23"), mtRemaining := decimalValue (cstr "2") }) :=
  doSBDIX_parses_six_fields
    [⟨false, cstr "AT+SBDIX\r\r\n+SBDIX: 1, 15, 1, 7, 23, 2\r\n\r\nOK\r\n"⟩] false
    ⟨0, 0, 0, 0, 0, 0⟩ (cstr "1") (cstr "15") (cstr "1") (cstr "7") (cstr "23") (cstr "2")
    (cstr ", ") (cstr ", ") (cstr ", ") (cstr ", ") (cstr ", ")
    (by decide) (by decide) (by decide) (by decide)

/-! ## Replies to AT+SBDIX of another shape -/

theorem fields_token (c : Nat) (hc : isDelim c = false) (rest : List Nat) :
    fields (c :: rest)
      = (c :: rest.takeWhile (fun x => !isDelim x))
        :: fields ((rest.dropWhile (fun x => !isDelim x)).drop 1) := by
  induction rest generalizing c with
  | nil => simp [fields, hc]
  | cons d r ih =>
    by_cases hd : isDelim d = true
    · simp [fields, hc, hd, List.takeWhile_cons, List.dropWhile_cons]
    · have hd' : isDelim d = false := by simpa using hd
      have h := ih d hd'
      rw [fields]
      simp only [hc, Bool.false_eq_true, if_false, hd']
      rw [h]
      simp [List.takeWhile_cons, List.dropWhile_cons, hd']

/-- The function `strtok` returns the fields of the text one by one. -/
theorem strtok_fields (s : List Nat) :
    (strtok s = none → fields s = [])
      ∧ (∀ p rest, strtok s = some (p, rest) → fields s = p :: fields rest) := by
  induction s with
  | nil =>
    constructor
    · intro _; rfl
    · intro p rest h; simp [strtok] at h
  | cons c t ih =>
    by_cases hc : isDelim c = true
    · have hs : strtok (c :: t) = strtok t := by
        simp [strtok, List.dropWhile_cons, hc]
      have hf : fields (c :: t) = fields t := by
        simp [fields, hc]
      rw [hs, hf]
      exact ih
    · have hc' : isDelim c = false := by simpa using hc
      have hs : strtok (c :: t)
          = some (c :: t.takeWhile (fun x => !isDelim x),
                  (t.dropWhile (fun x => !isDelim x)).drop 1) := by
        simp [strtok, List.dropWhile_cons, List.takeWhile_cons, hc']
      rw [hs, fields_token c hc' t]
      constructor
      · intro h; simp at h
      · intro p rest h
        simp only [Option.some.injEq, Prod.mk.injEq] at h
        rw [← h.1, ← h.2]

theorem parseFields_short : ∀ (n i : Nat) (text : List Nat) (r : SBDIXReply),
    (fields text).length < n → (parseFields n i text r).1 = ISBD_PROTOCOL_ERROR := by
  intro n
  induction n with
  | zero => intro i text r h; omega
  | succ n ih =>
    intro i text r h
    rw [parseFields]
    cases hs : strtok text with
    | none => rfl
    | some pr =>
      obtain ⟨p, rest⟩ := pr
      have hf := (strtok_fields text).2 p rest hs
      rw [hf] at h
      simp only [List.length_cons] at h
      exact ih _ _ _ (by omega)

theorem parseFields_next (n i : Nat) (text : List Nat) (r : SBDIXReply) (d : List Nat)
    (fs : List (List Nat)) (hf : fields text = d :: fs)
    (hne : d ≠ []) (hd : ∀ y ∈ d, 48 ≤ y ∧ y ≤ 57) (hv : decimalValue d < 65536) :
    ∃ rest, fields rest = fs
      ∧ parseFields (n + 1) i text r = parseFields n (i + 1) rest (r.set i (decimalValue d)) := by
  cases hs : strtok text with
  | none =>
    have := (strtok_fields text).1 hs
    rw [this] at hf
    exact absurd hf (by simp)
  | some pr =>
    obtain ⟨p, rest⟩ := pr
    have hf' := (strtok_fields text).2 p rest hs
    rw [hf] at hf'
    simp only [List.cons.injEq] at hf'
    refine ⟨rest, hf'.2.symm, ?_⟩
    rw [parseFields, hs]
    simp only []
    rw [← hf'.1, atol_digits d hne hd, toUInt16_value _ hv]

theorem sbdixLoop_checkin_failed (rxBuffer : Bool) (start : Nat) (s : IridiumSBD)
    (size : Option Nat) (tr : List LoopAction) (a : Attempt) (rest : List Attempt)
    (hdl : withinDeadline s start a.now = true)
    (hgo : s.msstmWorkaroundRequested = false ∨ a.msstm = (ISBD_SUCCESS, true))
    (hfail : a.sbdix.1 ≠ ISBD_SUCCESS) :
    sbdixLoop rxBuffer start s size tr (a :: rest)
      = { ret := some a.sbdix.1, session := s, rxBufferSize := size,
          trace := tr ++ msstmActions s ++ [LoopAction.sbdix] } := by
  have hm : (s.msstmWorkaroundRequested && decide (a.msstm.1 ≠ ISBD_SUCCESS)) = false := by
    rcases hgo with h | h
    · simp [h]
    · simp [h]
  have hgo' : (if s.msstmWorkaroundRequested then a.msstm.2 else true) = true := by
    rcases hgo with h | h
    · simp [h]
    · simp [h]
  have htr : (if s.msstmWorkaroundRequested then tr ++ [LoopAction.msstm] else tr)
      = tr ++ msstmActions s := by
    unfold msstmActions
    split <;> simp
  have hpass : sbdixPass rxBuffer s size tr a = PassOutcome.done
      { ret := some a.sbdix.1, session := s, rxBufferSize := size,
        trace := tr ++ msstmActions s ++ [LoopAction.sbdix] } := by
    unfold sbdixPass
    simp only [hm, hgo', htr, Bool.false_eq_true, if_false, if_true]
    simp [hfail]
  simp only [sbdixLoop, hdl, Bool.not_true, Bool.false_eq_true, if_false, hpass]

/-- C11 (counterexample).  A reply with a seventh field, "0, 1, 0, 0, 0, 0, 9":
`doSBDIX` returns ISBD_SUCCESS with the first six fields, and the loop takes
mo_status 0 as a success. -/
theorem extra_field_accepted :
    doSBDIX [⟨false, cstr "AT+SBDIX\r\r\n+SBDIX: 0, 1, 0, 0, 0, 0, 9\r\n\r\nOK\r\n"⟩] false
        ⟨0, 0, 0, 0, 0, 0⟩
      = (ISBD_SUCCESS, ⟨0, 1, 0, 0, 0, 0⟩)
    ∧ (sbdixLoop false 0 { new (-1) (-1) with asleep := false } none []
        [ { now := 0, msstm := (ISBD_SUCCESS, true),
            sbdix := doSBDIX
              [⟨false, cstr "AT+SBDIX\r\r\n+SBDIX: 0, 1, 0, 0, 0, 0, 9\r\n\r\nOK\r\n"⟩] false
              ⟨0, 0, 0, 0, 0, 0⟩,
            sbdrb := (0, 0), waitOk := true } ]).ret = some ISBD_SUCCESS := by
  decide

/-- C11 (amended).  When the wait for the reply to AT+SBDIX succeeds: if the text
captured after "+SBDIX: " has fewer than six fields (runs of characters other than
comma and space), `doSBDIX` returns ISBD_PROTOCOL_ERROR, and a pass of the mailbox
loop that gets this result returns it at once and records no success: the
check-in is its last action (no message is retrieved), the outstanding-message
count and the value behind `prxBufferSize` are what they were; fields after the
sixth are ignored: when the first six fields are strings of decimal digits
denoting numbers below 65536, `doSBDIX` returns ISBD_SUCCESS with these six
numbers, whatever follows them. -/
theorem doSBDIX_field_count (polls : List Poll) (cancelled : Bool) (r0 : SBDIXReply)
    (hmatch : (waitForATResponse (some 32) (some (cstr "+SBDIX: ")) (cstr "OK\r\n")
        polls).matched = true) :
    ((fields (textOf (bufferOf 32 (waitForATResponse (some 32) (some (cstr "+SBDIX: "))
          (cstr "OK\r\n") polls).state.response))).length < 6 →
        (doSBDIX polls cancelled r0).1 = ISBD_PROTOCOL_ERROR
        ∧ ∀ (rxBuffer : Bool) (start : Nat) (s : IridiumSBD) (size : Option Nat)
            (tr : List LoopAction) (a : Attempt) (rest : List Attempt),
            a.sbdix = doSBDIX polls cancelled r0 →
            withinDeadline s start a.now = true →
            (s.msstmWorkaroundRequested = false ∨ a.msstm = (ISBD_SUCCESS, true)) →
            (sbdixLoop rxBuffer start s size tr (a :: rest)).ret = some ISBD_PROTOCOL_ERROR
            ∧ (sbdixLoop rxBuffer start s size tr (a :: rest)).trace
                = tr ++ msstmActions s ++ [LoopAction.sbdix]
            ∧ getWaitingMessageCount (sbdixLoop rxBuffer start s size tr (a :: rest)).session
                = getWaitingMessageCount s
            ∧ (sbdixLoop rxBuffer start s size tr (a :: rest)).rxBufferSize = size)
    ∧ (∀ (d1 d2 d3 d4 d5 d6 : List Nat) (extra : List (List Nat)),
        fields (textOf (bufferOf 32 (waitForATResponse (some 32) (some (cstr "+SBDIX: "))
          (cstr "OK\r\n") polls).state.response))
          = d1 :: d2 :: d3 :: d4 :: d5 :: d6 :: extra →
        (∀ d ∈ [d1, d2, d3, d4, d5, d6],
          d ≠ [] ∧ (∀ c ∈ d, 48 ≤ c ∧ c ≤ 57) ∧ decimalValue d < 65536) →
        doSBDIX polls cancelled r0
          = (ISBD_SUCCESS,
              { moCode := decimalValue d1, moMSN := decimalValue d2,
                mtCode := decimalValue d3, mtMSN := decimalValue d4,
                mtLen := decimalValue d5, mtRemaining := decimalValue d6 })) := by
  have hdo : doSBDIX polls cancelled r0
      = parseFields 6 0 (textOf (bufferOf 32 (waitForATResponse (some 32)
          (some (cstr "+SBDIX: ")) (cstr "OK\r\n") polls).state.response)) r0 := by
    unfold doSBDIX
    simp only [hmatch, Bool.not_true, Bool.false_eq_true, if_false]
  refine ⟨?_, ?_⟩
  · intro hshort
    have herr : (doSBDIX polls cancelled r0).1 = ISBD_PROTOCOL_ERROR := by
      rw [hdo]
      exact parseFields_short 6 0 _ r0 hshort
    refine ⟨herr, ?_⟩
    intro rxBuffer start s size tr a rest ha hdl hgo
    have hfail : a.sbdix.1 ≠ ISBD_SUCCESS := by
      rw [ha, herr]
      decide
    rw [sbdixLoop_checkin_failed rxBuffer start s size tr a rest hdl hgo hfail, ha, herr]
    exact ⟨rfl, rfl, rfl, rfl⟩
  · intro d1 d2 d3 d4 d5 d6 extra hf hd
    obtain ⟨n1, g1, v1⟩ := hd d1 (by simp)
    obtain ⟨n2, g2, v2⟩ := hd d2 (by simp)
    obtain ⟨n3, g3, v3⟩ := hd d3 (by simp)
    obtain ⟨n4, g4, v4⟩ := hd d4 (by simp)
    obtain ⟨n5, g5, v5⟩ := hd d5 (by simp)
    obtain ⟨n6, g6, v6⟩ := hd d6 (by simp)
    obtain ⟨t1, f1, e1⟩ := parseFields_next 5 0 _ r0 d1 _ hf n1 g1 v1
    obtain ⟨t2, f2, e2⟩ := parseFields_next 4 1 t1 (r0.set 0 (decimalValue d1)) d2 _ f1 n2 g2 v2
    obtain ⟨t3, f3, e3⟩ := parseFields_next 3 2 t2 _ d3 _ f2 n3 g3 v3
    obtain ⟨t4, f4, e4⟩ := parseFields_next 2 3 t3 _ d4 _ f3 n4 g4 v4
    obtain ⟨t5, f5, e5⟩ := parseFields_next 1 4 t4 _ d5 _ f4 n5 g5 v5
    obtain ⟨t6, f6, e6⟩ := parseFields_next 0 5 t5 _ d6 _ f5 n6 g6 v6
    rw [hdo, e1, e2, e3, e4, e5, e6, parseFields]
    rfl

/-- C11 (witness): a reply with three fields. -/
theorem doSBDIX_field_count_witness :
    (doSBDIX [⟨false, cstr "AT+SBDIX\r\r\n+SBDIX: 1, 2, 3\r\n\r\nOK\r\n"⟩] false
        ⟨0, 0, 0, 0, 0, 0⟩).1 = ISBD_PROTOCOL_ERROR :=
  ((doSBDIX_field_count [⟨false, cstr "AT+SBDIX\r\r\n+SBDIX: 1, 2, 3\r\n\r\nOK\r\n"⟩] false
      ⟨0, 0, 0, 0, 0, 0⟩ (by decide)).1 (by decide)).1

/-! ## Binary receive -/

theorem tickBytes_append (a b : List Tick) :
    tickBytes (a ++ b) = tickBytes a ++ tickBytes b := by
  induction a with
  | nil => rfl
  | cons t rest ih => simp [tickBytes, ih]

/-- Passing one calm pass keeps the passes in time; the pass costs one of the
`k` late passes only when the bytes needed are all at hand. -/
theorem inTime_step (need k : Nat) (buf : List Nat) (t : Tick) (rest : List Tick)
    (h : InTime need k buf (t :: rest)) :
    InTime need (k - 1) (buf ++ t.arrived) rest
      ∧ ((buf ++ t.arrived).length < need → InTime need k (buf ++ t.arrived) rest) := by
  obtain ⟨hcalm, early, late, hsplit, hk, hneed⟩ := h
  have hcalm' : ∀ x ∈ rest, x.cancelled = false ∧ x.expired = false :=
    fun x hx => hcalm x (List.mem_cons_of_mem _ hx)
  cases early with
  | nil =>
    simp only [List.nil_append] at hsplit
    simp only [tickBytes, List.append_nil] at hneed
    refine ⟨⟨hcalm', [], rest, rfl, ?_, ?_⟩, ?_⟩
    · rw [← hsplit] at hk; simp only [List.length_cons] at hk; omega
    · simp only [tickBytes, List.append_nil, List.length_append]; omega
    · intro hlt
      simp only [List.length_append] at hlt
      omega
  | cons e early' =>
    simp only [List.cons_append, List.cons.injEq] at hsplit
    obtain ⟨he, hrest⟩ := hsplit
    subst he
    have hneed' : need ≤ (buf ++ t.arrived ++ tickBytes early').length := by
      simpa [tickBytes, List.append_assoc] using hneed
    exact ⟨⟨hcalm', early', late, hrest, by omega, hneed'⟩,
      fun _ => ⟨hcalm', early', late, hrest, hk, hneed'⟩⟩

theorem awaitTwo_inTime (need : Nat) (hneed : 2 ≤ need) (ticks : List Tick) :
    ∀ (k : Nat) (buf : List Nat), 1 ≤ k → InTime need k buf ticks →
      (awaitTwo buf ticks).1 = none
      ∧ 2 ≤ (awaitTwo buf ticks).2.1.length
      ∧ (awaitTwo buf ticks).2.1 ++ tickBytes (awaitTwo buf ticks).2.2 = buf ++ tickBytes ticks
      ∧ InTime need (k - 1) (awaitTwo buf ticks).2.1 (awaitTwo buf ticks).2.2 := by
  induction ticks with
  | nil =>
    intro k buf hk h
    obtain ⟨_, early, late, hsplit, hkl, _⟩ := h
    have : late = [] := by
      cases early <;> cases late <;> simp at hsplit ⊢
    subst this
    simp at hkl
    omega
  | cons t rest ih =>
    intro k buf hk h
    have hcalm := h.1 t (List.mem_cons_self _ _)
    obtain ⟨s1, s2⟩ := inTime_step need k buf t rest h
    by_cases h2 : (buf ++ t.arrived).length ≥ 2
    · have hw : awaitTwo buf (t :: rest) = (none, buf ++ t.arrived, rest) := by
        simp only [awaitTwo, hcalm.1, hcalm.2, Bool.false_eq_true, if_false, h2, if_true]
      rw [hw]
      exact ⟨rfl, h2, by simp [tickBytes], s1⟩
    · have hw : awaitTwo buf (t :: rest) = awaitTwo (buf ++ t.arrived) rest := by
        simp only [awaitTwo, hcalm.1, hcalm.2, Bool.false_eq_true, if_false, h2]
      rw [hw]
      obtain ⟨i1, i2, i3, i4⟩ := ih k (buf ++ t.arrived) hk (s2 (by omega))
      exact ⟨i1, i2, by rw [i3]; simp [tickBytes], i4⟩

theorem readBody_inTime (rxBuffer : Bool) (ticks : List Tick) :
    ∀ (n need k : Nat) (buf : List Nat) (rx : RxState) (got : List Nat),
      n ≤ need → n ≤ k → InTime need k buf ticks →
      (readBody rxBuffer n buf rx got ticks).ret = none
      ∧ (readBody rxBuffer n buf rx got ticks).read = got ++ (buf ++ tickBytes ticks).take n
      ∧ (readBody rxBuffer n buf rx got ticks).buf
          ++ tickBytes (readBody rxBuffer n buf rx got ticks).ticks
          = (buf ++ tickBytes ticks).drop n
      ∧ (readBody rxBuffer n buf rx got ticks).rx
          = storeAll rxBuffer rx ((buf ++ tickBytes ticks).take n)
      ∧ InTime (need - n) (k - n) (readBody rxBuffer n buf rx got ticks).buf
          (readBody rxBuffer n buf rx got ticks).ticks := by
  induction ticks with
  | nil =>
    intro n need k buf rx got hn hk h
    have hn0 : n = 0 := by
      obtain ⟨_, early, late, hsplit, hkl, _⟩ := h
      have : late = [] := by
        cases early <;> cases late <;> simp at hsplit ⊢
      subst this
      simp only [List.length_nil, Nat.le_zero] at hkl
      omega
    subst hn0
    refine ⟨rfl, by simp [readBody], by simp [readBody], by simp [readBody, storeAll], ?_⟩
    simpa [readBody] using h
  | cons t rest ih =>
    intro n need k buf rx got hn hk h
    cases n with
    | zero =>
      refine ⟨rfl, by simp [readBody], by simp [readBody], by simp [readBody, storeAll], ?_⟩
      simpa [readBody] using h
    | succ n =>
      have hcalm := h.1 t (List.mem_cons_self _ _)
      obtain ⟨s1, s2⟩ := inTime_step need k buf t rest h
      cases hb : buf ++ t.arrived with
      | nil =>
        rw [hb] at s2
        have hstay := s2 (by simp only [List.length_nil]; omega)
        obtain ⟨i1, i2, i3, i4, i5⟩ := ih (n + 1) need k [] rx got hn hk hstay
        have hall : buf ++ tickBytes (t :: rest) = [] ++ tickBytes rest := by
          simp only [tickBytes, ← List.append_assoc, hb]
        simp only [readBody, hcalm.1, hcalm.2, Bool.false_eq_true, if_false, hb]
        rw [hall]
        exact ⟨i1, i2, i3, i4, i5⟩
      | cons c buf1 =>
        rw [hb] at s1
        have hnext : InTime (need - 1) (k - 1) buf1 rest := by
          obtain ⟨hc, early, late, hsplit, hkl, hne⟩ := s1
          refine ⟨hc, early, late, hsplit, hkl, ?_⟩
          simp only [List.cons_append, List.length_cons] at hne
          omega
        obtain ⟨i1, i2, i3, i4, i5⟩ := ih n (need - 1) (k - 1) buf1
          (storeByte rxBuffer rx c) (got ++ [c]) (by omega) (by omega) hnext
        have hall : buf ++ tickBytes (t :: rest) = c :: (buf1 ++ tickBytes rest) := by
          simp only [tickBytes, ← List.append_assoc, hb]
          rfl
        simp only [readBody, hcalm.1, hcalm.2, Bool.false_eq_true, if_false, hb]
        rw [hall]
        refine ⟨i1, ?_, ?_, ?_, ?_⟩
        · rw [i2]; simp
        · rw [i3]; simp
        · rw [i4]; simp [storeAll]
        · have e1 : need - 1 - n = need - (n + 1) := by omega
          have e2 : k - 1 - n = k - (n + 1) := by omega
          rw [e1, e2] at i5
          exact i5

theorem storeAll_capacity (bytes : List Nat) :
    ∀ (st : List Nat) (C : Nat) (o : Bool),
    storeAll true { stored := st, size := some C, overflow := o } bytes
      = { stored := st ++ bytes.take C, size := some (C - bytes.length),
          overflow := o || decide (C < bytes.length) } := by
  induction bytes with
  | nil => intro st C o; simp [storeAll]
  | cons b rest ih =>
    intro st C o
    simp only [storeAll, List.foldl_cons] at ih ⊢
    cases C with
    | zero =>
      have hstep : storeByte true { stored := st, size := some 0, overflow := o } b
          = { stored := st, size := some 0, overflow := true } := by
        simp [storeByte]
      rw [hstep, ih]
      simp
    | succ C =>
      have hstep : storeByte true { stored := st, size := some (C + 1), overflow := o } b
          = { stored := st ++ [b], size := some C, overflow := o } := by
        simp [storeByte]
      rw [hstep, ih]
      simp

theorem inTime_drop (need k : Nat) (a b : List Nat) (ticks : List Tick)
    (h : InTime need k (a ++ b) ticks) : InTime (need - a.length) k b ticks := by
  obtain ⟨hc, early, late, hsplit, hk, hneed⟩ := h
  refine ⟨hc, early, late, hsplit, hk, ?_⟩
  simp only [List.length_append] at hneed ⊢
  omega

/-- The run of `doSBDRB` when the echo, the frame (two length bytes, the payload,
two checksum bytes) and the final OK come in time and nothing is cancelled. -/
theorem doSBDRB_inTime (C h l : Nat) (payload : List Nat) (c1 c2 : Nat)
    (echo final : List Poll) (early late : List Tick) (cancelled : Bool)
    (hh : h < 256) (hl : l < 256) (hlen : payload.length = 256 * h + l)
    (hecho : (waitForATResponse none none (cstr "AT+SBDRB\r") echo).matched = true)
    (hfinal : (waitForATResponse none none (cstr "OK\r\n") final).matched = true)
    (hcalm : ∀ t ∈ early ++ late, t.cancelled = false ∧ t.expired = false)
    (hframe : [h, l] ++ payload ++ [c1, c2] <+: tickBytes early)
    (hlate : payload.length + 2 ≤ late.length) :
    doSBDRB true (some C) echo (early ++ late) final cancelled
      = { ret := if C < payload.length then ISBD_RX_OVERFLOW else ISBD_SUCCESS,
          stored := payload.take C,
          rxBufferSize := some payload.length,
          rawRead := [h, l] ++ payload ++ [c1, c2] } := by
  obtain ⟨more, hmore⟩ := hframe
  have hall : tickBytes (early ++ late)
      = h :: l :: (payload ++ (c1 :: c2 :: (more ++ tickBytes late))) := by
    rw [tickBytes_append, ← hmore]
    simp
  have h0 : InTime (payload.length + 4) (payload.length + 2) [] (early ++ late) := by
    refine ⟨hcalm, early, late, rfl, hlate, ?_⟩
    rw [← hmore]
    simp only [List.nil_append, List.length_append, List.length_cons, List.length_nil]
    omega
  -- the two length bytes
  obtain ⟨a1, a2, a3, a4⟩ := awaitTwo_inTime (payload.length + 4) (by omega) (early ++ late)
    (payload.length + 2) [] (by omega) h0
  rcases hA : awaitTwo [] (early ++ late) with ⟨code, b, tk⟩
  rw [hA] at a1 a2 a3 a4
  simp only at a1 a2 a3 a4
  subst a1
  rw [List.nil_append, hall] at a3
  obtain ⟨hi, lo, buf1, hb⟩ : ∃ hi lo buf1, b = hi :: lo :: buf1 := by
    match b, a2 with
    | hi :: lo :: buf1, _ => exact ⟨hi, lo, buf1, rfl⟩
  subst hb
  simp only [List.cons_append, List.cons.injEq] at a3
  obtain ⟨e1, e2, a3⟩ := a3
  subst e1 e2
  have hsize : readUInt16 hi lo = payload.length := by
    unfold readUInt16
    omega
  -- the payload
  have h1 : InTime (payload.length + 2) (payload.length + 1) buf1 tk := by
    have := inTime_drop (payload.length + 4) (payload.length + 2 - 1) [hi, lo] buf1 tk a4
    simpa using this
  obtain ⟨b1, b2, b3, b4, b5⟩ := readBody_inTime true tk payload.length
    (payload.length + 2) (payload.length + 1) buf1
    { stored := [], size := some C, overflow := false } [] (by omega) (by omega) h1
  rw [a3] at b2 b3 b4
  simp only [List.take_left', List.drop_left', List.nil_append] at b2 b3 b4
  rw [storeAll_capacity] at b4
  -- the two checksum bytes
  have h2 : InTime 2 1 (readBody true payload.length buf1
      { stored := [], size := some C, overflow := false } [] tk).buf
      (readBody true payload.length buf1
      { stored := [], size := some C, overflow := false } [] tk).ticks := by
    have e1 : payload.length + 2 - payload.length = 2 := by omega
    have e2 : payload.length + 1 - payload.length = 1 := by omega
    rw [e1, e2] at b5
    exact b5
  obtain ⟨d1, d2, d3, _⟩ := awaitTwo_inTime 2 (le_refl _) _ 1 _ (le_refl _) h2
  rcases hB : awaitTwo (readBody true payload.length buf1
      { stored := [], size := some C, overflow := false } [] tk).buf
      (readBody true payload.length buf1
      { stored := [], size := some C, overflow := false } [] tk).ticks with ⟨code2, bb, tk2⟩
  rw [hB] at d1 d2 d3
  simp only at d1 d2 d3
  subst d1
  rw [b3] at d3
  obtain ⟨x1, x2, bb1, hbb⟩ : ∃ x1 x2 bb1, bb = x1 :: x2 :: bb1 := by
    match bb, d2 with
    | x1 :: x2 :: bb1, _ => exact ⟨x1, x2, bb1, rfl⟩
  subst hbb
  simp only [List.cons_append, List.cons.injEq] at d3
  obtain ⟨f1, f2, _⟩ := d3
  subst f1 f2
  unfold doSBDRB
  simp only [hecho, hfinal, Bool.not_true, Bool.false_eq_true, if_false, hA, hsize, b1, hB,
    b2, b4]
  simp

/-- C12.  For a declared length L = 256*h + l, a payload of L bytes and a caller
buffer of capacity C >= L: when the echo of AT+SBDRB is matched, the two length
bytes, the payload and the two checksum bytes reach the transport while at least
L + 2 further passes of the waiting loops fit into the timeout, no pass is
cancelled, and the final OK is matched, `doSBDRB` returns ISBD_SUCCESS, has stored
the payload bytes in order at the start of the caller's buffer, reports the size
L, and has read exactly the frame from the transport. -/
theorem doSBDRB_success (C h l : Nat) (payload : List Nat) (c1 c2 : Nat)
    (echo final : List Poll) (early late : List Tick) (cancelled : Bool)
    (hh : h < 256) (hl : l < 256) (hlen : payload.length = 256 * h + l)
    (hC : payload.length ≤ C)
    (hecho : (waitForATResponse none none (cstr "AT+SBDRB\r") echo).matched = true)
    (hfinal : (waitForATResponse none none (cstr "OK\r\n") final).matched = true)
    (hcalm : ∀ t ∈ early ++ late, t.cancelled = false ∧ t.expired = false)
    (hframe : [h, l] ++ payload ++ [c1, c2] <+: tickBytes early)
    (hlate : payload.length + 2 ≤ late.length) :
    doSBDRB true (some C) echo (early ++ late) final cancelled
      = { ret := ISBD_SUCCESS, stored := payload, rxBufferSize := some payload.length,
          rawRead := [h, l] ++ payload ++ [c1, c2] } := by
  rw [doSBDRB_inTime C h l payload c1 c2 echo final early late cancelled hh hl hlen hecho
    hfinal hcalm hframe hlate]
  have hnot : ¬ C < payload.length := by omega
  simp only [hnot, if_false, List.take_of_length_le hC]

theorem doSBDRB_success_witness :
    doSBDRB true (some 5) [⟨false, cstr "AT+SBDRB\r"⟩]
        ([⟨false, [0, 3, 7], false⟩, ⟨false, [8, 9, 0, 24], false⟩]
          ++ List.replicate 5 ⟨false, [], false⟩)
        [⟨false, cstr "\r\nOK\r\n"⟩] false
      = { ret := ISBD_SUCCESS, stored := [7, 8, 9],
          rxBufferSize := some ([7, 8, 9] : List Nat).length,
          rawRead := [0, 3] ++ [7, 8, 9] ++ [0, 24] } :=
  doSBDRB_success 5 0 3 [7, 8, 9] 0 24 [⟨false, cstr "AT+SBDRB\r"⟩]
    [⟨false, cstr "\r\nOK\r\n"⟩] [⟨false, [0, 3, 7], false⟩, ⟨false, [8, 9, 0, 24], false⟩]
    (List.replicate 5 ⟨false, [], false⟩) false
    (by decide) (by decide) (by decide) (by decide) (by decide) (by decide) (by decide)
    (by decide) (by decide)

/-- C13.  For a declared length L = 256*h + l, a payload of L bytes and a caller
buffer of capacity C < L, under the same timing (everything in time, nothing
cancelled, final OK matched): `doSBDRB` returns ISBD_RX_OVERFLOW, the caller's
buffer has received exactly the first C payload bytes, and the bytes read from
the transport before the final acknowledgement is awaited are the two length
bytes, all L payload bytes and the two checksum bytes. -/
theorem doSBDRB_overflow (C h l : Nat) (payload : List Nat) (c1 c2 : Nat)
    (echo final : List Poll) (early late : List Tick) (cancelled : Bool)
    (hh : h < 256) (hl : l < 256) (hlen : payload.length = 256 * h + l)
    (hC : C < payload.length)
    (hecho : (waitForATResponse none none (cstr "AT+SBDRB\r") echo).matched = true)
    (hfinal : (waitForATResponse none none (cstr "OK\r\n") final).matched = true)
    (hcalm : ∀ t ∈ early ++ late, t.cancelled = false ∧ t.expired = false)
    (hframe : [h, l] ++ payload ++ [c1, c2] <+: tickBytes early)
    (hlate : payload.length + 2 ≤ late.length) :
    (doSBDRB true (some C) echo (early ++ late) final cancelled).ret = ISBD_RX_OVERFLOW
      ∧ (doSBDRB true (some C) echo (early ++ late) final cancelled).stored = payload.take C
      ∧ (doSBDRB true (some C) echo (early ++ late) final cancelled).rawRead
          = [h, l] ++ payload ++ [c1, c2]
      ∧ (doSBDRB true (some C) echo (early ++ late) final cancelled).rawRead.length
          = 2 + payload.length + 2 := by
  rw [doSBDRB_inTime C h l payload c1 c2 echo final early late cancelled hh hl hlen hecho
    hfinal hcalm hframe hlate]
  simp only [hC, if_true, true_and]
  simp
  omega

theorem doSBDRB_overflow_witness :
    (doSBDRB true (some 4) [⟨false, cstr "AT+SBDRB\r"⟩]
        ([⟨false, [0, 10, 1, 2, 3], false⟩, ⟨false, [4, 5, 6, 7, 8, 9, 10, 0, 55], false⟩]
          ++ List.replicate 12 ⟨false, [], false⟩)
        [⟨false, cstr "\r\nOK\r\n"⟩] false).ret = ISBD_RX_OVERFLOW
      ∧ (doSBDRB true (some 4) [⟨false, cstr "AT+SBDRB\r"⟩]
        ([⟨false, [0, 10, 1, 2, 3], false⟩, ⟨false, [4, 5, 6, 7, 8, 9, 10, 0, 55], false⟩]
          ++ List.replicate 12 ⟨false, [], false⟩)
        [⟨false, cstr "\r\nOK\r\n"⟩] false).stored
          = ([1, 2, 3, 4, 5, 6, 7, 8, 9, 10] : List Nat).take 4 := by
  have h := doSBDRB_overflow 4 0 10 [1, 2, 3, 4, 5, 6, 7, 8, 9, 10] 0 55
    [⟨false, cstr "AT+SBDRB\r"⟩] [⟨false, cstr "\r\nOK\r\n"⟩]
    [⟨false, [0, 10, 1, 2, 3], false⟩, ⟨false, [4, 5, 6, 7, 8, 9, 10, 0, 55], false⟩]
    (List.replicate 12 ⟨false, [], false⟩) false
    (by decide) (by decide) (by decide) (by decide) (by decide) (by decide) (by decide)
    (by decide) (by decide)
  exact ⟨h.1, h.2.1⟩

/-- C14 (code at the failing input).  Declared length 10, buffer capacity 4,
everything in time: `doSBDRB` returns ISBD_RX_OVERFLOW with 4 bytes stored in the
caller's buffer, and the size it reports through `prxBufferSize` is 10. -/
theorem overflow_reports_declared_length :
    doSBDRB true (some 4) [⟨false, cstr "AT+SBDRB\r"⟩]
        [⟨false, [0, 10, 1, 2, 3, 4, 5, 6, 7, 8, 9, 10, 0, 55], false⟩,
         ⟨false, [], false⟩, ⟨false, [], false⟩, ⟨false, [], false⟩, ⟨false, [], false⟩,
         ⟨false, [], false⟩, ⟨false, [], false⟩, ⟨false, [], false⟩, ⟨false, [], false⟩,
         ⟨false, [], false⟩, ⟨false, [], false⟩, ⟨false, [], false⟩]
        [⟨false, cstr "\r\nOK\r\n"⟩] false
      = { ret := ISBD_RX_OVERFLOW, stored := [1, 2, 3, 4], rxBufferSize := some 10,
          rawRead := [0, 10, 1, 2, 3, 4, 5, 6, 7, 8, 9, 10, 0, 55] } := by
  decide

/-! ## Top-level operations: busy and asleep sessions -/

/-- Clearing the busy flag of a session entered with the flag clear gives the
session back. -/
theorem reentrant_roundtrip (s : IridiumSBD) (h : s.reentrant = false) :
    { ({ s with reentrant := true } : IridiumSBD) with reentrant := false } = s := by
  cases s
  simp_all

/-- An asleep session is refused by `internalSendReceiveSBD` before anything is
written. -/
theorem internalSendReceiveSBD_asleep (s : IridiumSBD) (txTxtMessage txData : Option (List Nat))
    (rxBuffer : Bool) (prxBufferSize : Option Nat) (env : SendEnv) (h : s.asleep = true) :
    internalSendReceiveSBD s txTxtMessage txData rxBuffer prxBufferSize env
      = { ret := some ISBD_IS_ASLEEP, session := s, rxBufferSize := prxBufferSize,
          effects := [] } := by
  simp [internalSendReceiveSBD, transmitPhase, transmitEffects, h]

/-- C17 (counterexample): `getFirmwareVersion`, which `internalBegin` calls while
the busy flag is set, has no busy check: invoked on a busy session it writes
"AT+CGMR\r", reads the reply and returns ISBD_SUCCESS, not ISBD_REENTRANT. -/
theorem firmware_query_ignores_busy :
    ({ new (-1) (-1) with reentrant := true } : IridiumSBD).reentrant = true ∧
    getFirmwareVersion { new (-1) (-1) with reentrant := true } 8
        [⟨false, cstr "Call Processor Version: TA13001\r\nOK\r\n"⟩] false
      = { ret := ISBD_SUCCESS, session := { new (-1) (-1) with reentrant := true },
          version := cstr "TA13001" ++ [0],
          effects := [Effect.send (cstr "AT+CGMR\r"), Effect.receive] } := by
  decide

/-- C17 (amended): each of begin, sendSBDText, sendSBDBinary, sendReceiveSBDText,
sendReceiveSBDBinary, getSignalQuality and sleep, invoked while the busy flag is
set, returns ISBD_REENTRANT, has no effect on the transport or the pins, and
leaves the session (and the caller's size and quality variables) unchanged. -/
theorem busy_returns_reentrant (s : IridiumSBD) (hbusy : s.reentrant = true)
    (benv : BeginEnv) (env : SendEnv) (message txData : Option (List Nat)) (rxBuffer : Bool)
    (rxBufferSize : Nat) (polls : List Poll) (cancelled : Bool) (now : Nat) :
    begin s benv = { ret := ISBD_REENTRANT, session := s, effects := [] } ∧
    sendSBDText s message env
      = { ret := some ISBD_REENTRANT, session := s, rxBufferSize := none, effects := [] } ∧
    sendSBDBinary s txData env
      = { ret := some ISBD_REENTRANT, session := s, rxBufferSize := none, effects := [] } ∧
    sendReceiveSBDText s message rxBuffer rxBufferSize env
      = { ret := some ISBD_REENTRANT, session := s, rxBufferSize := some rxBufferSize,
          effects := [] } ∧
    sendReceiveSBDBinary s txData rxBuffer rxBufferSize env
      = { ret := some ISBD_REENTRANT, session := s, rxBufferSize := some rxBufferSize,
          effects := [] } ∧
    getSignalQuality s polls cancelled
      = { ret := ISBD_REENTRANT, session := s, quality := none, effects := [] } ∧
    sleep s now = { ret := ISBD_REENTRANT, session := s, effects := [] } := by
  simp [begin, sendSBDText, sendSBDBinary, sendReceiveSBDText, sendReceiveSBDBinary,
    getSignalQuality, sleep, hbusy]

/-- C17 (witness): a busy session, a text message and a binary payload. -/
theorem busy_returns_reentrant_witness :
    begin { new 3 (-1) with reentrant := true }
        ⟨0, false, [⟨true, false⟩], ⟨true, false⟩, ⟨true, false⟩, ⟨true, false⟩, ⟨true, false⟩,
         [], false, 0⟩
      = { ret := ISBD_REENTRANT, session := { new 3 (-1) with reentrant := true },
          effects := [] } ∧
    sendSBDText { new 3 (-1) with reentrant := true } (some (cstr "hello"))
        ⟨⟨true, true, false⟩, 0, []⟩
      = { ret := some ISBD_REENTRANT, session := { new 3 (-1) with reentrant := true },
          rxBufferSize := none, effects := [] } :=
  have h := busy_returns_reentrant { new 3 (-1) with reentrant := true } rfl
    ⟨0, false, [⟨true, false⟩], ⟨true, false⟩, ⟨true, false⟩, ⟨true, false⟩, ⟨true, false⟩,
     [], false, 0⟩
    ⟨⟨true, true, false⟩, 0, []⟩ (some (cstr "hello")) (some [1, 2, 3]) true 10 [] false 0
  ⟨h.1, h.2.1⟩

/-- C18: on a session that is asleep and not busy, each of sendSBDText,
sendSBDBinary, sendReceiveSBDText and sendReceiveSBDBinary returns
ISBD_IS_ASLEEP for every payload, has no effect on the transport, and leaves
the session (with its outstanding-message count and power state) and the
caller's size variable unchanged. -/
theorem asleep_send_refused (s : IridiumSBD) (hasleep : s.asleep = true)
    (hidle : s.reentrant = false) (env : SendEnv) (message txData : Option (List Nat))
    (rxBuffer : Bool) (rxBufferSize : Nat) :
    sendSBDText s message env
      = { ret := some ISBD_IS_ASLEEP, session := s, rxBufferSize := none, effects := [] } ∧
    sendSBDBinary s txData env
      = { ret := some ISBD_IS_ASLEEP, session := s, rxBufferSize := none, effects := [] } ∧
    sendReceiveSBDText s message rxBuffer rxBufferSize env
      = { ret := some ISBD_IS_ASLEEP, session := s, rxBufferSize := some rxBufferSize,
          effects := [] } ∧
    sendReceiveSBDBinary s txData rxBuffer rxBufferSize env
      = { ret := some ISBD_IS_ASLEEP, session := s, rxBufferSize := some rxBufferSize,
          effects := [] } := by
  have hs : ({ s with reentrant := true } : IridiumSBD).asleep = true := hasleep
  have hr := reentrant_roundtrip s hidle
  simp only [sendSBDText, sendSBDBinary, sendReceiveSBDText, sendReceiveSBDBinary, hidle,
    internalSendReceiveSBD_asleep _ _ _ _ _ _ hs, hr]
  simp

/-- C18 (witness): a freshly constructed session is asleep and not busy. -/
theorem asleep_send_refused_witness :
    (new 3 (-1)).asleep = true ∧ (new 3 (-1)).reentrant = false ∧
    sendSBDBinary (new 3 (-1)) (some [1, 2, 3]) ⟨⟨true, true, false⟩, 0, []⟩
      = { ret := some ISBD_IS_ASLEEP, session := new 3 (-1), rxBufferSize := none,
          effects := [] } :=
  ⟨rfl, rfl,
   (asleep_send_refused (new 3 (-1)) rfl rfl ⟨⟨true, true, false⟩, 0, []⟩ (some (cstr "hello"))
      (some [1, 2, 3]) true 10).2.1⟩

/-! ## `begin` and the power state -/

/-- After `power(false)` the session is asleep, whether or not a pin is
configured; nothing else of the session changes. -/
theorem power_off_session (s : IridiumSBD) (now : Nat) :
    (power s false now).1 = { s with asleep := true } := by
  simp only [power]
  split <;> simp

/-- With a sleep pin, the last thing `power(false)` does is to write LOW to it. -/
theorem power_off_last (s : IridiumSBD) (now : Nat) (hpin : s.sleepPin ≠ -1) :
    ∃ pre, (power s false now).2 = pre ++ [Effect.digitalWrite s.sleepPin false] := by
  simp only [power, if_neg hpin]
  exact ⟨_, rfl⟩

/-- Without a sleep pin `power` touches no pin and does not wait. -/
theorem power_pinless (s : IridiumSBD) (turnOn : Bool) (now : Nat) (hpin : s.sleepPin = -1) :
    power s turnOn now = ({ s with asleep := !turnOn }, []) := by
  simp [power, hpin]

/-- After `power(true)` the session is awake and keeps its pins and busy flag. -/
theorem power_on_session (s : IridiumSBD) (now : Nat) :
    (power s true now).1.asleep = false ∧ (power s true now).1.sleepPin = s.sleepPin ∧
    (power s true now).1.reentrant = s.reentrant := by
  simp only [power]
  split <;> simp

/-- The probe loop only ever returns ISBD_CANCELLED. -/
theorem probeLoop_code (probes : List Probe) (code : Int)
    (h : (probeLoop probes).1 = some code) : code = ISBD_CANCELLED := by
  induction probes with
  | nil => simp [probeLoop] at h
  | cons p rest ih =>
    simp only [probeLoop] at h
    split at h
    · simpa using h.symm
    · split at h
      · simp at h
      · exact ih h

/-- A failing configuration command gives ISBD_CANCELLED or ISBD_PROTOCOL_ERROR. -/
theorem runCommands_code (cmds : List (List Nat × Command)) (code : Int)
    (h : (runCommands cmds).1 = some code) :
    code = ISBD_CANCELLED ∨ code = ISBD_PROTOCOL_ERROR := by
  induction cmds with
  | nil => simp [runCommands] at h
  | cons c rest ih =>
    obtain ⟨text, c⟩ := c
    simp only [runCommands] at h
    split at h
    · simp only [Option.some.injEq] at h
      subst h
      split
      · exact Or.inl rfl
      · exact Or.inr rfl
    · exact ih h

/-- The results of `internalBegin`: an awake session is refused unchanged and
without effect; otherwise the result is one of five codes, the pins and the
busy flag are kept, and after a success the session is awake. -/
theorem internalBegin_cases (s : IridiumSBD) (env : BeginEnv) :
    (s.asleep = false → internalBegin s env
        = { ret := ISBD_ALREADY_AWAKE, session := s, effects := [] }) ∧
    ((internalBegin s env).ret = ISBD_ALREADY_AWAKE ∨ (internalBegin s env).ret = ISBD_CANCELLED ∨
      (internalBegin s env).ret = ISBD_NO_MODEM_DETECTED ∨
      (internalBegin s env).ret = ISBD_PROTOCOL_ERROR ∨
      (internalBegin s env).ret = ISBD_SUCCESS) ∧
    (internalBegin s env).session.sleepPin = s.sleepPin ∧
    (internalBegin s env).session.reentrant = s.reentrant ∧
    ((internalBegin s env).ret = ISBD_SUCCESS → (internalBegin s env).session.asleep = false) := by
  have hp := power_on_session s env.powerOnClock
  refine ⟨fun h => by simp [internalBegin, h], ?_⟩
  unfold internalBegin
  by_cases ha : s.asleep = false
  · simp [ha, ISBD_ALREADY_AWAKE, ISBD_SUCCESS]
  · have ha1 : s.asleep = true := by simpa using ha
    simp only [ha1, Bool.not_true, Bool.false_eq_true, if_false]
    by_cases hc : env.startupCancelled = true
    · simp [hc, hp, ISBD_CANCELLED, ISBD_SUCCESS]
    · simp only [hc, if_false]
      cases hpr : (probeLoop env.probes).1 with
      | some code =>
        have := probeLoop_code _ _ hpr
        subst this
        simp [hp, ISBD_CANCELLED, ISBD_SUCCESS]
      | none =>
        by_cases hal : (probeLoop env.probes).2.1 = true
        · simp only [hal, Bool.not_true, Bool.false_eq_true, if_false]
          generalize hcm : runCommands _ = cmds
          cases hc1 : cmds.1 with
          | some code =>
            have := runCommands_code _ code (by rw [hcm]; exact hc1)
            rcases this with h | h <;> subst h <;>
              simp [hp, ISBD_CANCELLED, ISBD_PROTOCOL_ERROR, ISBD_SUCCESS]
          | none => simp [hp]
        · simp [hal, hp, ISBD_NO_MODEM_DETECTED, ISBD_SUCCESS]

/-- C19: every `begin()` entered with the busy flag clear that returns a result
other than ISBD_SUCCESS returns ISBD_ALREADY_AWAKE, ISBD_CANCELLED,
ISBD_NO_MODEM_DETECTED or ISBD_PROTOCOL_ERROR, leaves the session asleep
(`isAsleep()` is true) and, if a sleep pin is configured, ends by writing LOW to
that pin; in particular `begin()` on an already-awake session returns
ISBD_ALREADY_AWAKE and leaves the session asleep. -/
theorem failed_begin_powers_off (s : IridiumSBD) (env : BeginEnv)
    (hidle : s.reentrant = false) :
    ((begin s env).ret ≠ ISBD_SUCCESS →
      ((begin s env).ret = ISBD_ALREADY_AWAKE ∨ (begin s env).ret = ISBD_CANCELLED ∨
        (begin s env).ret = ISBD_NO_MODEM_DETECTED ∨ (begin s env).ret = ISBD_PROTOCOL_ERROR) ∧
      isAsleep (begin s env).session = true ∧
      (begin s env).session.sleepPin = s.sleepPin ∧
      (s.sleepPin ≠ -1 →
        (begin s env).effects.getLast? = some (Effect.digitalWrite s.sleepPin false))) ∧
    (s.asleep = false →
      (begin s env).ret = ISBD_ALREADY_AWAKE ∧ isAsleep (begin s env).session = true) := by
  obtain ⟨h0, hcodes, hpin, -, -⟩ := internalBegin_cases { s with reentrant := true } env
  have hfail : ∀ h : (internalBegin { s with reentrant := true } env).ret ≠ ISBD_SUCCESS,
      begin s env
        = { ret := (internalBegin { s with reentrant := true } env).ret,
            session := (power { (internalBegin { s with reentrant := true } env).session with
              reentrant := false } false env.powerOffClock).1,
            effects := (internalBegin { s with reentrant := true } env).effects ++
              (power { (internalBegin { s with reentrant := true } env).session with
                reentrant := false } false env.powerOffClock).2 } := by
    intro h
    simp only [begin, hidle, Bool.false_eq_true, if_false]
    rw [if_pos h]
  have hret : (begin s env).ret = (internalBegin { s with reentrant := true } env).ret := by
    simp only [begin, hidle, Bool.false_eq_true, if_false]
    split <;> rfl
  have main : (begin s env).ret ≠ ISBD_SUCCESS →
      ((begin s env).ret = ISBD_ALREADY_AWAKE ∨ (begin s env).ret = ISBD_CANCELLED ∨
        (begin s env).ret = ISBD_NO_MODEM_DETECTED ∨ (begin s env).ret = ISBD_PROTOCOL_ERROR) ∧
      isAsleep (begin s env).session = true ∧
      (begin s env).session.sleepPin = s.sleepPin ∧
      (s.sleepPin ≠ -1 →
        (begin s env).effects.getLast? = some (Effect.digitalWrite s.sleepPin false)) := by
    intro hne
    rw [hret] at hne
    have hb := hfail hne
    refine ⟨?_, ?_, ?_, ?_⟩
    · rw [hret]
      rcases hcodes with h | h | h | h | h
      · exact Or.inl h
      · exact Or.inr (Or.inl h)
      · exact Or.inr (Or.inr (Or.inl h))
      · exact Or.inr (Or.inr (Or.inr h))
      · exact absurd h hne
    · rw [hb]
      simp only [isAsleep, power_off_session]
    · rw [hb]
      simp only [power_off_session]
      exact hpin
    · intro hp
      rw [hb]
      have hp1 : ({ (internalBegin { s with reentrant := true } env).session with
          reentrant := false } : IridiumSBD).sleepPin ≠ -1 := by
        show (internalBegin { s with reentrant := true } env).session.sleepPin ≠ -1
        rw [hpin]
        exact hp
      obtain ⟨pre, hpre⟩ := power_off_last _ env.powerOffClock hp1
      simp only [hpre]
      rw [← List.append_assoc, List.getLast?_append]
      simp only [List.getLast?_singleton, Option.or_some]
      show some (Effect.digitalWrite
        (internalBegin { s with reentrant := true } env).session.sleepPin false) = _
      rw [hpin]
  refine ⟨main, fun hawake => ?_⟩
  have hr : (begin s env).ret = ISBD_ALREADY_AWAKE := by
    rw [hret, h0 hawake]
  exact ⟨hr, (main (by rw [hr]; decide)).2.1⟩

/-- C19 (witness): a session with a sleep pin whose modem never answers. -/
theorem failed_begin_powers_off_witness :
    (begin (new 3 (-1))
        ⟨100, false, [⟨false, false⟩, ⟨false, false⟩], ⟨true, false⟩, ⟨true, false⟩,
         ⟨true, false⟩, ⟨true, false⟩, [], false, 600⟩).ret = ISBD_NO_MODEM_DETECTED ∧
    isAsleep (begin (new 3 (-1))
        ⟨100, false, [⟨false, false⟩, ⟨false, false⟩], ⟨true, false⟩, ⟨true, false⟩,
         ⟨true, false⟩, ⟨true, false⟩, [], false, 600⟩).session = true ∧
    (begin (new 3 (-1))
        ⟨100, false, [⟨false, false⟩, ⟨false, false⟩], ⟨true, false⟩, ⟨true, false⟩,
         ⟨true, false⟩, ⟨true, false⟩, [], false, 600⟩).effects.getLast?
      = some (Effect.digitalWrite 3 false) :=
  have h := (failed_begin_powers_off (new 3 (-1))
    ⟨100, false, [⟨false, false⟩, ⟨false, false⟩], ⟨true, false⟩, ⟨true, false⟩,
     ⟨true, false⟩, ⟨true, false⟩, [], false, 600⟩ rfl).1 (by decide)
  ⟨by decide, h.2.1, h.2.2.2 (by decide)⟩

/-! ## Sessions without a sleep pin -/

/-- The effects of the probe loop are writes to and reads from the transport. -/
theorem probeLoop_effects (probes : List Probe) :
    ∀ e ∈ (probeLoop probes).2.2, e = Effect.send (cstr "AT\r") ∨ e = Effect.receive := by
  induction probes with
  | nil => simp [probeLoop]
  | cons p rest ih =>
    intro e he
    simp only [probeLoop] at he
    split at he
    · simpa using he
    · split at he
      · simpa using he
      · simp only [List.cons_append, List.nil_append, List.mem_cons] at he
        rcases he with h | h | h
        · exact Or.inl h
        · exact Or.inr h
        · exact ih e h

/-- The effects of the configuration commands are writes to and reads from the
transport. -/
theorem runCommands_effects (cmds : List (List Nat × Command)) :
    ∀ e ∈ (runCommands cmds).2, (∃ bytes, e = Effect.send bytes) ∨ e = Effect.receive := by
  induction cmds with
  | nil => simp [runCommands]
  | cons c rest ih =>
    obtain ⟨text, c⟩ := c
    intro e he
    simp only [runCommands] at he
    split at he
    · simp only [List.mem_cons, List.mem_singleton, List.not_mem_nil, or_false] at he
      rcases he with h | h
      · exact Or.inl ⟨_, h⟩
      · exact Or.inr h
    · simp only [List.cons_append, List.nil_append, List.mem_cons] at he
      rcases he with h | h | h
      · exact Or.inl ⟨_, h⟩
      · exact Or.inr h
      · exact ih e h

/-- Without a sleep pin `internalBegin` only writes to and reads from the
transport. -/
theorem internalBegin_pinless (s : IridiumSBD) (env : BeginEnv) (hpin : s.sleepPin = -1) :
    ∀ e ∈ (internalBegin s env).effects, (∃ bytes, e = Effect.send bytes) ∨ e = Effect.receive := by
  have hp := power_pinless s true env.powerOnClock hpin
  have hprobe := probeLoop_effects env.probes
  intro e he
  unfold internalBegin at he
  by_cases ha : s.asleep = false
  · simp [ha] at he
  · have ha1 : s.asleep = true := by simpa using ha
    simp only [ha1, Bool.not_true, Bool.false_eq_true, if_false, hp] at he
    by_cases hc : env.startupCancelled = true
    · simp [hc] at he
    · simp only [hc, if_false, List.nil_append] at he
      cases hpr : (probeLoop env.probes).1 with
      | some code =>
        simp only [hpr] at he
        rcases hprobe e he with h | h
        · exact Or.inl ⟨_, h⟩
        · exact Or.inr h
      | none =>
        simp only [hpr] at he
        by_cases hal : (probeLoop env.probes).2.1 = true
        · simp only [hal, Bool.not_true, Bool.false_eq_true, if_false] at he
          generalize hcm : runCommands _ = cmds at he
          have hce : ∀ e ∈ cmds.2, (∃ bytes, e = Effect.send bytes) ∨ e = Effect.receive := by
            rw [← hcm]
            exact runCommands_effects _
          cases hc1 : cmds.1 with
          | some code =>
            simp only [hc1, List.mem_append] at he
            rcases he with h | h
            · rcases hprobe e h with h | h
              · exact Or.inl ⟨_, h⟩
              · exact Or.inr h
            · exact hce e h
          | none =>
            simp only [hc1, List.mem_append, getFirmwareVersion] at he
            rcases he with (h | h) | h
            · rcases hprobe e h with h | h
              · exact Or.inl ⟨_, h⟩
              · exact Or.inr h
            · exact hce e h
            · simp at h
              rcases h with h | h
              · exact Or.inl ⟨_, h⟩
              · exact Or.inr h
        · simp only [hal, Bool.not_false, if_true] at he
          rcases hprobe e he with h | h
          · exact Or.inl ⟨_, h⟩
          · exact Or.inr h

/-- C20 (counterexample): a session constructed without a sleep pin is asleep
right after construction, and asleep again after a `begin()` that found no modem. -/
theorem pinless_session_starts_asleep :
    (new (-1) (-1)).sleepPin = -1 ∧ isAsleep (new (-1) (-1)) = true ∧
    begin (new (-1) (-1))
        ⟨100, false, [⟨false, false⟩], ⟨true, false⟩, ⟨true, false⟩, ⟨true, false⟩,
         ⟨true, false⟩, [], false, 600⟩
      = { ret := ISBD_NO_MODEM_DETECTED, session := new (-1) (-1),
          effects := [Effect.send (cstr "AT\r"), Effect.receive] } := by
  decide

/-- C20 (amended): for a session without a sleep pin (`sleepPin = -1`) no pin is
driven and no power-down delay is made, but the asleep flag is kept as with a
pin: `isAsleep()` is true immediately after construction, true after a
`begin()` that failed and false after a `begin()` that succeeded; `sleep()`
returns ISBD_NO_SLEEP_PIN and changes nothing. -/
theorem pinless_power_state (s : IridiumSBD) (env : BeginEnv) (now : Nat)
    (hpin : s.sleepPin = -1) (hidle : s.reentrant = false) :
    (∀ ringPin, isAsleep (new (-1) ringPin) = true) ∧
    isAsleep (begin s env).session = decide ((begin s env).ret ≠ ISBD_SUCCESS) ∧
    (∀ e ∈ (begin s env).effects, (∃ bytes, e = Effect.send bytes) ∨ e = Effect.receive) ∧
    sleep s now = { ret := ISBD_NO_SLEEP_PIN, session := s, effects := [] } := by
  obtain ⟨-, -, hp, -, hok⟩ := internalBegin_cases { s with reentrant := true } env
  have heff := internalBegin_pinless { s with reentrant := true } env hpin
  have hp1 : ({ (internalBegin { s with reentrant := true } env).session with
      reentrant := false } : IridiumSBD).sleepPin = -1 := by
    show (internalBegin { s with reentrant := true } env).session.sleepPin = -1
    rw [hp]
    exact hpin
  refine ⟨fun _ => rfl, ?_, ?_, by simp [sleep, hidle, hpin]⟩
  · simp only [begin, hidle, Bool.false_eq_true, if_false]
    by_cases h : (internalBegin { s with reentrant := true } env).ret = ISBD_SUCCESS
    · simp only [h, ne_eq, not_true_eq_false, if_false, decide_False]
      exact hok h
    · rw [if_pos h]
      simp only [isAsleep, power_off_session, ne_eq, h, not_false_eq_true, decide_True]
  · simp only [begin, hidle, Bool.false_eq_true, if_false]
    by_cases h : (internalBegin { s with reentrant := true } env).ret = ISBD_SUCCESS
    · simp only [h, ne_eq, not_true_eq_false, if_false]
      exact heff
    · rw [if_pos h]
      simp only [power_pinless _ false env.powerOffClock hp1, List.append_nil]
      exact heff

/-- C20 (witness): a session without pins whose modem answers: awake after
`begin()`. -/
theorem pinless_power_state_witness :
    (new (-1) (-1)).sleepPin = -1 ∧ (new (-1) (-1)).reentrant = false ∧
    (begin (new (-1) (-1))
        ⟨100, false, [⟨true, false⟩], ⟨true, false⟩, ⟨true, false⟩, ⟨true, false⟩,
         ⟨true, false⟩, [], false, 600⟩).ret = ISBD_SUCCESS ∧
    isAsleep (begin (new (-1) (-1))
        ⟨100, false, [⟨true, false⟩], ⟨true, false⟩, ⟨true, false⟩, ⟨true, false⟩,
         ⟨true, false⟩, [], false, 600⟩).session
      = decide ((begin (new (-1) (-1))
        ⟨100, false, [⟨true, false⟩], ⟨true, false⟩, ⟨true, false⟩, ⟨true, false⟩,
         ⟨true, false⟩, [], false, 600⟩).ret ≠ ISBD_SUCCESS) :=
  ⟨rfl, rfl, by decide,
   (pinless_power_state (new (-1) (-1))
      ⟨100, false, [⟨true, false⟩], ⟨true, false⟩, ⟨true, false⟩, ⟨true, false⟩,
       ⟨true, false⟩, [], false, 600⟩ 0 rfl rfl).2.1⟩

/-! ## Length check and text body of the transmit phase -/

/-- A pass of the SBDIX loop that returns, returns the result of one of its
sub-operations or one of four codes of its own. -/
theorem sbdixPass_ret (rxBuffer : Bool) (s : IridiumSBD) (size : Option Nat)
    (tr : List LoopAction) (a : Attempt) (r : LoopResult)
    (h : sbdixPass rxBuffer s size tr a = PassOutcome.done r) :
    r.ret = some a.msstm.1 ∨ r.ret = some a.sbdix.1 ∨ r.ret = some a.sbdrb.1 ∨
    r.ret = some ISBD_SUCCESS ∨ r.ret = some ISBD_SBDIX_FATAL_ERROR ∨
    r.ret = some ISBD_CANCELLED := by
  unfold sbdixPass at h
  simp only at h
  split_ifs at h <;> (injection h with h; subst h; simp)

/-- The SBDIX loop returns ISBD_MSG_TOO_LONG only if one of its sub-operations
does. -/
theorem sbdixLoop_not_too_long (rxBuffer : Bool) (start : Nat) (s : IridiumSBD)
    (size : Option Nat) (attempts : List Attempt)
    (hsub : ∀ a ∈ attempts, a.msstm.1 ≠ ISBD_MSG_TOO_LONG ∧ a.sbdix.1 ≠ ISBD_MSG_TOO_LONG ∧
      a.sbdrb.1 ≠ ISBD_MSG_TOO_LONG) :
    ∀ tr, (sbdixLoop rxBuffer start s size tr attempts).ret ≠ some ISBD_MSG_TOO_LONG := by
  induction attempts with
  | nil => intro tr; simp [sbdixLoop]
  | cons a rest ih =>
    intro tr
    simp only [sbdixLoop]
    split
    · simp [ISBD_SENDRECEIVE_TIMEOUT, ISBD_MSG_TOO_LONG]
    · have ha := hsub a (List.mem_cons_self _ _)
      cases hp : sbdixPass rxBuffer s size tr a with
      | done r =>
        simp only
        intro hr
        rcases sbdixPass_ret _ _ _ _ _ _ hp with h | h | h | h | h | h <;> rw [hr] at h
        · exact ha.1 (Option.some.inj h).symm
        · exact ha.2.1 (Option.some.inj h).symm
        · exact ha.2.2 (Option.some.inj h).symm
        · exact absurd (Option.some.inj h) (by decide)
        · exact absurd (Option.some.inj h) (by decide)
        · exact absurd (Option.some.inj h) (by decide)
      | again tr1 =>
        simp only
        exact ih (fun b hb => hsub b (List.mem_cons_of_mem _ hb)) tr1

/-- A text whose only carriage return, if any, is its last character is cut at
the first carriage return to the text without carriage returns. -/
theorem takeWhile_final_CR (m : List Nat) (h : 13 ∉ m.dropLast) :
    m.takeWhile (fun c => c ≠ 13) = m.filter (fun c => c ≠ 13) := by
  induction m with
  | nil => rfl
  | cons c rest ih =>
    cases rest with
    | nil =>
      by_cases hc : c = 13 <;> simp [List.takeWhile, List.filter, hc]
    | cons d rest =>
      simp only [List.dropLast_cons₂, List.mem_cons, not_or] at h
      have hc : c ≠ 13 := fun e => h.1 e.symm
      have := ih h.2
      simp only [List.takeWhile, List.filter, hc, ne_eq, not_false_eq_true, decide_True] at this ⊢
      rw [this]

/-- The early return of the transmit phase on an awake session is
ISBD_MSG_TOO_LONG exactly when the binary payload, or the text up to its first
carriage return, is longer than 340; nothing has been written then. -/
theorem transmitPhase_too_long (s : IridiumSBD) (txTxtMessage txData : Option (List Nat))
    (env : TxEnv) (hawake : s.asleep = false) :
    (∀ b d, txData = some (b :: d) →
      (((transmitPhase s txTxtMessage txData env).1 = some ISBD_MSG_TOO_LONG
          ↔ ISBD_MAX_MESSAGE_LENGTH < (b :: d).length) ∧
       (ISBD_MAX_MESSAGE_LENGTH < (b :: d).length →
          transmitEffects s txTxtMessage txData env = []))) ∧
    (∀ m, txData = none ∨ txData = some [] → txTxtMessage = some m →
      (((transmitPhase s txTxtMessage txData env).1 = some ISBD_MSG_TOO_LONG
          ↔ ISBD_MAX_MESSAGE_LENGTH < (m.takeWhile (fun c => c ≠ 13)).length) ∧
       (ISBD_MAX_MESSAGE_LENGTH < (m.takeWhile (fun c => c ≠ 13)).length →
          transmitEffects s txTxtMessage txData env = []))) ∧
    (txData = none ∨ txData = some [] → txTxtMessage = none →
      (transmitPhase s txTxtMessage txData env).1 ≠ some ISBD_MSG_TOO_LONG) := by
  have hcodes : ∀ c : Bool, (if c then ISBD_CANCELLED else ISBD_PROTOCOL_ERROR)
      ≠ ISBD_MSG_TOO_LONG := by
    intro c; cases c <;> decide
  refine ⟨?_, ?_, ?_⟩
  · intro b d hd
    subst hd
    simp only [transmitPhase, transmitEffects, hawake, Bool.false_eq_true, if_false]
    by_cases hl : (b :: d).length > ISBD_MAX_MESSAGE_LENGTH
    · simp only [if_pos hl]
      exact ⟨⟨fun _ => hl, fun _ => by first | rfl | trivial⟩, fun _ => by first | rfl | trivial⟩
    · simp only [if_neg hl]
      refine ⟨⟨fun h => ?_, fun h => absurd h hl⟩, fun h => absurd h hl⟩
      exfalso
      split at h
      · exact hcodes _ (Option.some.inj h)
      · split at h
        · exact hcodes _ (Option.some.inj h)
        · simp at h
  · intro m hd ht
    subst ht
    by_cases hl : (m.takeWhile (fun c => c ≠ 13)).length > ISBD_MAX_MESSAGE_LENGTH
    · rcases hd with hd | hd <;> subst hd <;>
        simp only [transmitPhase, transmitEffects, hawake, Bool.false_eq_true, if_false,
          if_pos hl] <;>
        exact ⟨⟨fun _ => hl, fun _ => by first | rfl | trivial⟩, fun _ => by first | rfl | trivial⟩
    · rcases hd with hd | hd <;> subst hd <;>
        simp only [transmitPhase, transmitEffects, hawake, Bool.false_eq_true, if_false,
          if_neg hl] <;>
        refine ⟨⟨fun h => ?_, fun h => absurd h hl⟩, fun h => absurd h hl⟩ <;>
        exfalso <;>
        split at h
      · exact hcodes _ (Option.some.inj h)
      · split at h
        · exact hcodes _ (Option.some.inj h)
        · simp at h
      · exact hcodes _ (Option.some.inj h)
      · split at h
        · exact hcodes _ (Option.some.inj h)
        · simp at h
  · intro hd ht
    subst ht
    rcases hd with hd | hd <;> subst hd <;>
      simp only [transmitPhase, hawake, Bool.false_eq_true, if_false] <;>
      intro h <;> split at h
    · exact hcodes _ (Option.some.inj h)
    · simp at h
    · exact hcodes _ (Option.some.inj h)
    · simp at h

/-- A text that ends in its only carriage return and has at most 340 characters
before it passes the length check: the characters before the carriage return
are written and the SBDIX loop is entered. -/
theorem final_CR_transmit (s : IridiumSBD) (body : List Nat) (rxBuffer : Bool)
    (prxBufferSize : Option Nat) (start : Nat) (attempts : List Attempt)
    (hawake : s.asleep = false) (h13 : ∀ c ∈ body, c ≠ 13)
    (hlen : body.length ≤ ISBD_MAX_MESSAGE_LENGTH) :
    internalSendReceiveSBD s (some (body ++ [13])) none rxBuffer prxBufferSize
        ⟨⟨true, true, false⟩, start, attempts⟩
      = { ret := (sbdixLoop rxBuffer start s prxBufferSize [] attempts).ret,
          session := (sbdixLoop rxBuffer start s prxBufferSize [] attempts).session,
          rxBufferSize := (sbdixLoop rxBuffer start s prxBufferSize [] attempts).rxBufferSize,
          effects := [Effect.send (cstr "AT+SBDWT\r"), Effect.receive, Effect.send body,
                      Effect.send (cstr "\r"), Effect.receive]
            ++ (sbdixLoop rxBuffer start s prxBufferSize [] attempts).trace.map Effect.checkin } := by
  have ht : (body ++ [13]).takeWhile (fun c => c ≠ 13) = body := by
    rw [List.takeWhile_append_of_pos]
    · simp [List.takeWhile]
    · intro c hc
      simpa using h13 c hc
  have hl : ¬ (body.length > ISBD_MAX_MESSAGE_LENGTH) := by omega
  have hp : (transmitPhase s (some (body ++ [13])) none ⟨true, true, false⟩).1 = none := by
    simp only [transmitPhase, hawake, ht, if_neg hl]
    rfl
  have he : transmitEffects s (some (body ++ [13])) none ⟨true, true, false⟩
      = [Effect.send (cstr "AT+SBDWT\r"), Effect.receive, Effect.send body,
         Effect.send (cstr "\r"), Effect.receive] := by
    simp only [transmitEffects, hawake, ht, if_neg hl]
    rfl
  simp only [internalSendReceiveSBD, hp, he]

/-- C15 (counterexample): a text message of 341 characters, 340 letters and a
final carriage return, is accepted on an awake session: the carriage return is
cut off before the length is checked, the 340 letters are written, and the
operation returns ISBD_SUCCESS. -/
theorem text_of_341_accepted :
    (List.replicate 340 65 ++ [13]).length = 341 ∧
    internalSendReceiveSBD { new (-1) (-1) with asleep := false }
        (some (List.replicate 340 65 ++ [13])) none false none
        ⟨⟨true, true, false⟩, 0, [⟨0, (0, true), (0, ⟨0, 1, 0, 0, 0, 0⟩), (0, 0), true⟩]⟩
      = { ret := some ISBD_SUCCESS,
          session := { new (-1) (-1) with asleep := false, remainingMessages := 0 },
          rxBufferSize := none,
          effects := [Effect.send (cstr "AT+SBDWT\r"), Effect.receive,
                      Effect.send (List.replicate 340 65), Effect.send (cstr "\r"),
                      Effect.receive, Effect.checkin LoopAction.msstm,
                      Effect.checkin LoopAction.sbdix] } := by
  have hloop : sbdixLoop false 0 { new (-1) (-1) with asleep := false } none []
      [⟨0, (0, true), (0, ⟨0, 1, 0, 0, 0, 0⟩), (0, 0), true⟩]
      = { ret := some ISBD_SUCCESS,
          session := { new (-1) (-1) with asleep := false, remainingMessages := 0 },
          rxBufferSize := none, trace := [LoopAction.msstm, LoopAction.sbdix] } := by
    decide
  refine ⟨by rw [List.length_append, List.length_replicate]; rfl, ?_⟩
  rw [final_CR_transmit _ _ _ _ _ _ rfl
    (fun c hc => by rw [List.eq_of_mem_replicate hc]; decide)
    (by rw [List.length_replicate]; decide), hloop]
  rfl

/-- C15 (amended): on an awake session, `internalSendReceiveSBD` whose loop
sub-operations do not themselves return ISBD_MSG_TOO_LONG returns
ISBD_MSG_TOO_LONG if and only if the outgoing payload exceeds 340 bytes (binary:
`txDataSize > 340`; text whose only carriage return, if any, is its last
character: the message without that carriage return is longer than 340), and in
that case nothing has been written to the transport and the session is
unchanged; a payload of exactly 340 bytes is therefore accepted, and a
transaction without payload is never refused. -/
theorem msg_too_long_iff (s : IridiumSBD) (txTxtMessage txData : Option (List Nat))
    (rxBuffer : Bool) (prxBufferSize : Option Nat) (env : SendEnv)
    (hawake : s.asleep = false)
    (hsub : ∀ a ∈ env.attempts, a.msstm.1 ≠ ISBD_MSG_TOO_LONG ∧ a.sbdix.1 ≠ ISBD_MSG_TOO_LONG ∧
      a.sbdrb.1 ≠ ISBD_MSG_TOO_LONG) :
    (∀ b d, txData = some (b :: d) →
      (((internalSendReceiveSBD s txTxtMessage txData rxBuffer prxBufferSize env).ret
            = some ISBD_MSG_TOO_LONG ↔ 340 < (b :: d).length) ∧
       (340 < (b :: d).length →
          internalSendReceiveSBD s txTxtMessage txData rxBuffer prxBufferSize env
            = { ret := some ISBD_MSG_TOO_LONG, session := s, rxBufferSize := prxBufferSize,
                effects := [] }))) ∧
    (∀ m, txData = none ∨ txData = some [] → txTxtMessage = some m → 13 ∉ m.dropLast →
      (((internalSendReceiveSBD s txTxtMessage txData rxBuffer prxBufferSize env).ret
            = some ISBD_MSG_TOO_LONG ↔ 340 < (m.filter (fun c => c ≠ 13)).length) ∧
       (340 < (m.filter (fun c => c ≠ 13)).length →
          internalSendReceiveSBD s txTxtMessage txData rxBuffer prxBufferSize env
            = { ret := some ISBD_MSG_TOO_LONG, session := s, rxBufferSize := prxBufferSize,
                effects := [] }))) ∧
    (txData = none ∨ txData = some [] → txTxtMessage = none →
      (internalSendReceiveSBD s txTxtMessage txData rxBuffer prxBufferSize env).ret
        ≠ some ISBD_MSG_TOO_LONG) := by
  obtain ⟨hbin, htxt, hnone⟩ := transmitPhase_too_long s txTxtMessage txData env.tx hawake
  have hloop := sbdixLoop_not_too_long rxBuffer env.loopStart s prxBufferSize env.attempts hsub []
  have hret : (internalSendReceiveSBD s txTxtMessage txData rxBuffer prxBufferSize env).ret
        = some ISBD_MSG_TOO_LONG
      ↔ (transmitPhase s txTxtMessage txData env.tx).1 = some ISBD_MSG_TOO_LONG := by
    unfold internalSendReceiveSBD
    cases hp : (transmitPhase s txTxtMessage txData env.tx).1 with
    | some code => simp
    | none =>
      simp only
      exact ⟨fun h => absurd h hloop, fun h => by simp at h⟩
  have hfull : (transmitPhase s txTxtMessage txData env.tx).1 = some ISBD_MSG_TOO_LONG →
      transmitEffects s txTxtMessage txData env.tx = [] →
      internalSendReceiveSBD s txTxtMessage txData rxBuffer prxBufferSize env
        = { ret := some ISBD_MSG_TOO_LONG, session := s, rxBufferSize := prxBufferSize,
            effects := [] } := by
    intro h1 h2
    simp only [internalSendReceiveSBD, h1, h2]
  have h340 : ISBD_MAX_MESSAGE_LENGTH = 340 := rfl
  refine ⟨fun b d hd => ?_, fun m hd ht hcr => ?_, fun hd ht => ?_⟩
  · obtain ⟨h1, h2⟩ := hbin b d hd
    rw [h340] at h1 h2
    exact ⟨hret.trans h1, fun hl => hfull (h1.2 hl) (h2 hl)⟩
  · obtain ⟨h1, h2⟩ := htxt m hd ht
    rw [h340, takeWhile_final_CR m hcr] at h1 h2
    exact ⟨hret.trans h1, fun hl => hfull (h1.2 hl) (h2 hl)⟩
  · exact fun h => hnone hd ht (hret.1 h)

/-- C15 (witness): a binary payload of exactly 340 bytes is not refused. -/
theorem msg_too_long_iff_witness :
    ({ new (-1) (-1) with asleep := false } : IridiumSBD).asleep = false ∧
    (7 :: List.replicate 339 7).length = 340 ∧
    (internalSendReceiveSBD { new (-1) (-1) with asleep := false } none
        (some (7 :: List.replicate 339 7)) false none ⟨⟨true, true, false⟩, 0, []⟩).ret
      ≠ some ISBD_MSG_TOO_LONG :=
  ⟨rfl, by rw [List.length_cons, List.length_replicate],
   fun h => absurd
     (((msg_too_long_iff { new (-1) (-1) with asleep := false } none
        (some (7 :: List.replicate 339 7)) false none ⟨⟨true, true, false⟩, 0, []⟩ rfl
        (by intro a ha; cases ha)).1 7 (List.replicate 339 7) rfl).1.1 h)
     (by rw [List.length_cons, List.length_replicate]; decide)⟩

/-- C16 (code at the failing input): for the text "AB\rCD" the body written
between the READY acknowledgement and the terminating carriage return is "AB":
the text is cut at its first carriage return, and "CD" is not transmitted. -/
theorem text_cut_at_first_CR :
    sendSBDText { new (-1) (-1) with asleep := false } (some (cstr "AB\rCD"))
        ⟨⟨true, true, false⟩, 0, [⟨0, (0, true), (0, ⟨0, 1, 0, 0, 0, 0⟩), (0, 0), true⟩]⟩
      = { ret := some ISBD_SUCCESS,
          session := { new (-1) (-1) with asleep := false, remainingMessages := 0 },
          rxBufferSize := none,
          effects := [Effect.send (cstr "AT+SBDWT\r"), Effect.receive,
                      Effect.send (cstr "AB"), Effect.send (cstr "\r"), Effect.receive,
                      Effect.checkin LoopAction.msstm, Effect.checkin LoopAction.sbdix] } := by
  decide

/-! ## `sleep` and the power-down delay -/

/-- C21: for a session that is not busy, `sleep()` with no sleep pin returns
ISBD_NO_SLEEP_PIN and changes nothing; with a sleep pin on a session already
asleep it returns ISBD_IS_ASLEEP and changes nothing; with a sleep pin on an
awake session it returns ISBD_SUCCESS, ends by writing LOW to the pin, and
leaves the session asleep (`isAsleep()` is true), nothing else of it changed. -/
theorem sleep_cases (s : IridiumSBD) (now : Nat) (hidle : s.reentrant = false) :
    (s.sleepPin = -1 →
      sleep s now = { ret := ISBD_NO_SLEEP_PIN, session := s, effects := [] }) ∧
    (s.sleepPin ≠ -1 → s.asleep = true →
      sleep s now = { ret := ISBD_IS_ASLEEP, session := s, effects := [] }) ∧
    (s.sleepPin ≠ -1 → s.asleep = false →
      (sleep s now).ret = ISBD_SUCCESS ∧
      (sleep s now).session = { s with asleep := true } ∧
      isAsleep (sleep s now).session = true ∧
      (sleep s now).effects.getLast? = some (Effect.digitalWrite s.sleepPin false) ∧
      ∀ e ∈ (sleep s now).effects, ∀ pin, e ≠ Effect.digitalWrite pin true) := by
  refine ⟨fun hp => by simp [sleep, hidle, hp], fun hp ha => ?_, fun hp ha => ?_⟩
  · cases s
    simp_all [sleep, internalSleep, ISBD_IS_ASLEEP, ISBD_SUCCESS]
  · have hsl : sleep s now
        = { ret := ISBD_SUCCESS, session := (power s false now).1,
            effects := (power s false now).2 } := by
      cases s
      simp_all [sleep, internalSleep]
    rw [hsl]
    refine ⟨rfl, power_off_session s now, ?_, ?_, ?_⟩
    · simp only [isAsleep, power_off_session]
    · obtain ⟨pre, hpre⟩ := power_off_last s now hp
      simp only [hpre, List.getLast?_append, List.getLast?_singleton, Option.or_some]
    · intro e he pin heq
      subst heq
      simp only [power, if_neg hp, Bool.false_eq_true, if_false] at he
      split at he <;> simp at he

/-- C21 (witness): an awake session with sleep pin 3, woken at clock 100 and put
to sleep at clock 5000. -/
theorem sleep_cases_witness :
    sleep { new 3 (-1) with asleep := false, lastPowerOnTime := 100 } 5000
      = { ret := ISBD_SUCCESS,
          session := { new 3 (-1) with asleep := true, lastPowerOnTime := 100 },
          effects := [Effect.pinMode 3, Effect.digitalWrite 3 false] } ∧
    (sleep { new 3 (-1) with asleep := false, lastPowerOnTime := 100 } 5000).effects.getLast?
      = some (Effect.digitalWrite 3 false) :=
  ⟨by decide,
   ((sleep_cases { new 3 (-1) with asleep := false, lastPowerOnTime := 100 } 5000 rfl).2.2
      (by decide) rfl).2.2.2.1⟩

/-- C22: for 32-bit clock values `now` and last-wake timestamp `t0` and a
configured sleep pin, `power(false)` sets the pin mode, blocks in `delay` for
exactly max(0, 2000 - e) milliseconds, where e = (now - t0) mod 2^32, and then
writes LOW to the pin; hence, when the wake happened at time T0 and the
power-down starts at time T1 >= T0 (the clock showing these times modulo 2^32,
wrapped or not), the pin is written LOW no earlier than T0 + 2000. -/
theorem power_down_delay (s : IridiumSBD) (now : Nat) (hpin : s.sleepPin ≠ -1)
    (hnow : now < 2 ^ 32) (ht0 : s.lastPowerOnTime < 2 ^ 32) :
    (∃ ms : Nat, (ms : Int) = max 0 (2000 - ((now : Int) - (s.lastPowerOnTime : Int)) % 2 ^ 32) ∧
      delayTotal (power s false now).2 = ms ∧
      (power s false now).2
        = [Effect.pinMode s.sleepPin] ++ (if ms = 0 then [] else [Effect.delay ms])
            ++ [Effect.digitalWrite s.sleepPin false]) ∧
    (∀ T0 T1 : Nat, T0 ≤ T1 → s.lastPowerOnTime = T0 % 2 ^ 32 → now = T1 % 2 ^ 32 →
      T0 + 2000 ≤ T1 + delayTotal (power s false now).2) := by
  have he : (((now + 2 ^ 32 - s.lastPowerOnTime % 2 ^ 32) % 2 ^ 32 : Nat) : Int)
      = ((now : Int) - (s.lastPowerOnTime : Int)) % 2 ^ 32 := by
    rw [Nat.mod_eq_of_lt ht0]
    have h1 : ((now + 2 ^ 32 - s.lastPowerOnTime : Nat) : Int)
        = (now : Int) - (s.lastPowerOnTime : Int) + 2 ^ 32 := by
      have : s.lastPowerOnTime ≤ now + 2 ^ 32 := by omega
      rw [Int.ofNat_sub this]
      push_cast
      ring
    rw [Int.natCast_mod, h1]
    simp
  generalize hE : (now + 2 ^ 32 - s.lastPowerOnTime % 2 ^ 32) % 2 ^ 32 = e at he
  have hp : (power s false now).2
      = [Effect.pinMode s.sleepPin] ++ (if e < 2000 then [Effect.delay (2000 - e)] else [])
          ++ [Effect.digitalWrite s.sleepPin false] := by
    simp only [power, if_neg hpin, Bool.false_eq_true, if_false, hE]
  have hd : delayTotal (power s false now).2 = 2000 - e := by
    rw [hp]
    by_cases h : e < 2000
    · simp [h, delayTotal]
    · simp only [if_neg h]
      simp only [List.append_nil, List.singleton_append, delayTotal]
      omega
  refine ⟨⟨2000 - e, ?_, hd, ?_⟩, ?_⟩
  · rw [← he]
    omega
  · rw [hp]
    by_cases h : e < 2000
    · have : ¬ (2000 - e = 0) := by omega
      simp [h, this]
    · have : 2000 - e = 0 := by omega
      simp [h, this]
  · intro T0 T1 hle h0 h1
    rw [hd]
    have hmod : e = (T1 - T0) % 4294967296 := by
      rw [← hE, h0, h1]
      norm_num
      omega
    have := Nat.mod_le (T1 - T0) 4294967296
    omega

/-- C22 (witness): woken 296 ms before the 32-bit clock wraps and powered down
500 ms after the wrap: 796 ms have elapsed and the delay is 1204 ms. -/
theorem power_down_delay_witness :
    (power { new 3 (-1) with lastPowerOnTime := 4294967000 } false 500).2
      = [Effect.pinMode 3, Effect.delay 1204, Effect.digitalWrite 3 false] ∧
    4294967000 + 2000 ≤ 4294967796
      + delayTotal (power { new 3 (-1) with lastPowerOnTime := 4294967000 } false 500).2 :=
  ⟨by decide,
   (power_down_delay { new 3 (-1) with lastPowerOnTime := 4294967000 } 500 (by decide)
      (by decide) (by decide)).2 4294967000 4294967796 (by decide) (by decide) (by decide)⟩

/-! ## Ring flag, defaults and the two revisions -/

/-- C27: with ring alerts enabled and no input pending on the transport,
`hasRingAsserted()` returns the value of the ring-asserted flag and clears it,
leaving everything else as it is, so that a second call right afterwards
returns false; with ring alerts disabled it returns false and leaves the
session (the flag included) and the transport untouched; and
`enableRingAlerts(true)` clears the flag. -/
theorem ring_flag_sticky (charSigned : Bool) (s : IridiumSBD) (evs : Raw) :
    (s.ringAlertsEnabled = true → streamAvailable evs = false →
      hasRingAsserted charSigned s evs = (s.ringAsserted, { s with ringAsserted := false }, evs) ∧
      (hasRingAsserted charSigned (hasRingAsserted charSigned s evs).2.1
        (hasRingAsserted charSigned s evs).2.2).1 = false) ∧
    (s.ringAlertsEnabled = false → hasRingAsserted charSigned s evs = (false, s, evs)) ∧
    (enableRingAlerts s true).ringAsserted = false ∧
    (enableRingAlerts s true).ringAlertsEnabled = true := by
  have hf : ∀ t : IridiumSBD, streamAvailable evs = false →
      filterSBDRING charSigned t evs = (t, evs) := by
    intro t h
    cases evs with
    | nil => rfl
    | cons e rest =>
      cases e with
      | none => rfl
      | some b => simp [streamAvailable] at h
  refine ⟨fun hen hav => ?_, fun hdis => by simp [hasRingAsserted, hdis], rfl, rfl⟩
  have hf1 : ∀ t : IridiumSBD, filterSBDRING charSigned t evs = (t, evs) :=
    fun t => hf t hav
  have h1 : hasRingAsserted charSigned s evs
      = (s.ringAsserted, { s with ringAsserted := false }, evs) := by
    cases hr : s.reentrant <;> simp [hasRingAsserted, hen, hr, hf1]
  refine ⟨h1, ?_⟩
  rw [h1]
  cases hr : s.reentrant <;> simp [hasRingAsserted, hen, hr, hf1]

/-- C27 (witness): a session with a ring pin whose flag is set, transport
silent: the first call returns true, the second false. -/
theorem ring_flag_sticky_witness :
    hasRingAsserted true { new 3 4 with ringAsserted := true } []
      = (true, new 3 4, []) ∧
    (hasRingAsserted true
      (hasRingAsserted true { new 3 4 with ringAsserted := true } []).2.1
      (hasRingAsserted true { new 3 4 with ringAsserted := true } []).2.2).1 = false :=
  (ring_flag_sticky true { new 3 4 with ringAsserted := true } []).1 rfl rfl

/-- C28 (code at the failing input): a freshly constructed session has a
per-AT-response timeout of 30 seconds (ISBD_DEFAULT_AT_TIMEOUT), not the 20
seconds documented at `adjustATTimeout`; its send/receive timeout is 300
seconds. -/
theorem fresh_session_timeouts (sleepPinNo ringPinNo : Int) :
    (new sleepPinNo ringPinNo).atTimeout = 30 ∧
    (new sleepPinNo ringPinNo).atTimeout ≠ 20 ∧
    (new sleepPinNo ringPinNo).sendReceiveTimeout = 300 := by
  refine ⟨rfl, ?_, rfl⟩
  show (30 : Int) ≠ 20
  decide

/-- C29 (code at the failing input): a freshly constructed session has the
mailbox retry interval of the USB profile, 30 seconds, not the 10 seconds in
force after `setPowerProfile(DEFAULT_POWER_PROFILE)`. -/
theorem fresh_session_retry_interval (sleepPinNo ringPinNo : Int) :
    (new sleepPinNo ringPinNo).sbdixInterval = 30 ∧
    (setPowerProfile (new sleepPinNo ringPinNo) DEFAULT_POWER_PROFILE).sbdixInterval = 10 ∧
    (setPowerProfile (new sleepPinNo ringPinNo) USB_POWER_PROFILE).sbdixInterval = 30 ∧
    (new sleepPinNo ringPinNo).sbdixInterval
      = (setPowerProfile (new sleepPinNo ringPinNo) USB_POWER_PROFILE).sbdixInterval := by
  refine ⟨rfl, rfl, rfl, rfl⟩

/-- The loop test of this revision after `adjustSendReceiveTimeout(seconds)`, for
a timeout that fits 32 bits in milliseconds: a pass starts exactly while less
than 1000 * seconds milliseconds have elapsed on the 32-bit clock. -/
theorem withinDeadline_adjusted (s : IridiumSBD) (seconds : Int) (start now : Nat)
    (h0 : 0 ≤ seconds) (h1 : 1000 * seconds < 2 ^ 32) :
    withinDeadline (adjustSendReceiveTimeout s seconds) start now
      = decide ((((now + 2 ^ 32 - start % 2 ^ 32) % 2 ^ 32 : Nat) : Int) < 1000 * seconds) := by
  simp only [withinDeadline, adjustSendReceiveTimeout]
  have hm : (1000 * seconds) % 2 ^ 32 = 1000 * seconds :=
    Int.emod_eq_of_lt (by omega) h1
  rw [decide_eq_decide, hm]
  omega

/-- C30 (code at the failing input): in revision 1 the loop test compares with
the constant ISBD_DEFAULT_SENDRECEIVE_TIME: after `adjustSendReceiveTimeout(60)`
a pass still starts when 60 s have elapsed, and after
`adjustSendReceiveTimeout(600)` no pass starts when only 300 s have elapsed;
in revision 2 the test follows the adjusted value. -/
theorem revision1_ignores_adjusted_timeout :
    Revision1.withinDeadline (adjustSendReceiveTimeout (new 3 (-1)) 60) 0 60000 = true ∧
    Revision1.withinDeadline (adjustSendReceiveTimeout (new 3 (-1)) 600) 0 300000 = false ∧
    withinDeadline (adjustSendReceiveTimeout (new 3 (-1)) 60) 0 59999 = true ∧
    withinDeadline (adjustSendReceiveTimeout (new 3 (-1)) 60) 0 60000 = false ∧
    withinDeadline (adjustSendReceiveTimeout (new 3 (-1)) 600) 0 300000 = true := by
  decide

/-! ## Failed waits -/

/-- The paths through `internalBegin` on a session that is asleep. -/
theorem internalBegin_paths (s : IridiumSBD) (env : BeginEnv) (hasleep : s.asleep = true) :
    (env.startupCancelled = true →
      internalBegin s env
        = { ret := ISBD_CANCELLED, session := (power s true env.powerOnClock).1,
            effects := (power s true env.powerOnClock).2 }) ∧
    (env.startupCancelled = false →
      (∀ c, (probeLoop env.probes).1 = some c →
        internalBegin s env
          = { ret := c, session := (power s true env.powerOnClock).1,
              effects := (power s true env.powerOnClock).2 ++ (probeLoop env.probes).2.2 }) ∧
      ((probeLoop env.probes).1 = none → (probeLoop env.probes).2.1 = false →
        internalBegin s env
          = { ret := ISBD_NO_MODEM_DETECTED, session := (power s true env.powerOnClock).1,
              effects := (power s true env.powerOnClock).2 ++ (probeLoop env.probes).2.2 }) ∧
      ((probeLoop env.probes).1 = none → (probeLoop env.probes).2.1 = true →
        (∀ c, (runCommands (beginCommands s env)).1 = some c →
          internalBegin s env
            = { ret := c, session := (power s true env.powerOnClock).1,
                effects := (power s true env.powerOnClock).2 ++ (probeLoop env.probes).2.2
                  ++ (runCommands (beginCommands s env)).2 }) ∧
        ((runCommands (beginCommands s env)).1 = none →
          internalBegin s env
            = { ret := ISBD_SUCCESS,
                session := { (power s true env.powerOnClock).1 with
                  msstmWorkaroundRequested :=
                    workaroundFromFirmware (power s true env.powerOnClock).1
                      (getFirmwareVersion (power s true env.powerOnClock).1 8 env.firmware
                        env.firmwareCancelled) },
                effects := (power s true env.powerOnClock).2 ++ (probeLoop env.probes).2.2
                  ++ (runCommands (beginCommands s env)).2
                  ++ (getFirmwareVersion (power s true env.powerOnClock).1 8 env.firmware
                        env.firmwareCancelled).effects }))) := by
  refine ⟨fun hc => ?_, fun hc => ⟨fun c hp => ?_, fun hp hal => ?_, fun hp hal =>
    ⟨fun c hcm => ?_, fun hcm => ?_⟩⟩⟩
  · simp only [internalBegin, hasleep, Bool.not_true, Bool.false_eq_true, if_false, hc, if_true]
  · simp only [internalBegin, hasleep, Bool.not_true, Bool.false_eq_true, if_false, hc, hp]
  · simp only [internalBegin, hasleep, Bool.not_true, Bool.false_eq_true, if_false, hc, hp, hal,
      Bool.not_false, if_true]
  · have hcm1 : (runCommands
        [(cstr "ATE1\r", env.ate1), (cstr "AT&D0\r", env.atd0), (cstr "AT&K0\r", env.atk0),
         (if s.ringAlertsEnabled then cstr "AT+SBDMTA=1\r" else cstr "AT+SBDMTA=0\r",
          env.sbdmta)]).1 = some c := hcm
    simp only [internalBegin, hasleep, Bool.not_true, Bool.false_eq_true, if_false, hc, hp, hal,
      hcm1]
    rfl
  · have hcm1 : (runCommands
        [(cstr "ATE1\r", env.ate1), (cstr "AT&D0\r", env.atd0), (cstr "AT&K0\r", env.atk0),
         (if s.ringAlertsEnabled then cstr "AT+SBDMTA=1\r" else cstr "AT+SBDMTA=0\r",
          env.sbdmta)]).1 = none := hcm
    simp only [internalBegin, hasleep, Bool.not_true, Bool.false_eq_true, if_false, hc, hp, hal,
      hcm1]
    rfl

/-- What `begin` adds to `internalBegin` on a session that is not busy: the
return code is the same, nothing more is written to the transport, and after a
success the session is that of `internalBegin` with the busy flag cleared. -/
theorem begin_of_internalBegin (s : IridiumSBD) (env : BeginEnv) (hidle : s.reentrant = false) :
    (begin s env).ret = (internalBegin { s with reentrant := true } env).ret ∧
    sentBytes (begin s env).effects
      = sentBytes (internalBegin { s with reentrant := true } env).effects ∧
    ((begin s env).ret = ISBD_SUCCESS →
      (begin s env).session
        = { (internalBegin { s with reentrant := true } env).session with reentrant := false }) := by
  have hsb : ∀ (l m : List Effect), sentBytes (l ++ m) = sentBytes l ++ sentBytes m := by
    intro l m
    induction l with
    | nil => rfl
    | cons e l ih => cases e <;> simp [sentBytes, ih]
  have hpw : ∀ (t : IridiumSBD) (b : Bool) (now : Nat), sentBytes (power t b now).2 = [] := by
    intro t b now
    simp only [power]
    split
    · rfl
    · split
      · rfl
      · split <;> rfl
  by_cases h : (internalBegin { s with reentrant := true } env).ret = ISBD_SUCCESS
  · simp [begin, hidle, h]
  · have hb : begin s env
        = { ret := (internalBegin { s with reentrant := true } env).ret,
            session := (power { (internalBegin { s with reentrant := true } env).session with
              reentrant := false } false env.powerOffClock).1,
            effects := (internalBegin { s with reentrant := true } env).effects ++
              (power { (internalBegin { s with reentrant := true } env).session with
                reentrant := false } false env.powerOffClock).2 } := by
      simp only [begin, hidle, Bool.false_eq_true, if_false]
      rw [if_pos h]
    rw [hb]
    refine ⟨rfl, ?_, fun h2 => absurd h2 h⟩
    simp only [hsb, hpw, List.append_nil]

/-- The bytes sent by a list of effects that is put together from two lists. -/
theorem sentBytes_append (l m : List Effect) :
    sentBytes (l ++ m) = sentBytes l ++ sentBytes m := by
  induction l with
  | nil => rfl
  | cons e l ih => cases e <;> simp [sentBytes, ih]

/-- The pin handling of `power` writes nothing to the transport. -/
theorem sentBytes_power (t : IridiumSBD) (b : Bool) (now : Nat) :
    sentBytes (power t b now).2 = [] := by
  simp only [power]
  split
  · rfl
  · split
    · rfl
    · split <;> rfl

/-- The initialization commands stop at the first one that fails. -/
theorem runCommands_beginCommands (s : IridiumSBD) (env : BeginEnv) :
    (env.ate1.ok = false →
      (runCommands (beginCommands s env)).1 = some (commandFailure env.ate1) ∧
      sentBytes (runCommands (beginCommands s env)).2 = cstr "ATE1\r") ∧
    (env.ate1.ok = true → env.atd0.ok = false →
      (runCommands (beginCommands s env)).1 = some (commandFailure env.atd0) ∧
      sentBytes (runCommands (beginCommands s env)).2 = cstr "ATE1\rAT&D0\r") ∧
    (env.ate1.ok = true → env.atd0.ok = true → env.atk0.ok = false →
      (runCommands (beginCommands s env)).1 = some (commandFailure env.atk0) ∧
      sentBytes (runCommands (beginCommands s env)).2 = cstr "ATE1\rAT&D0\rAT&K0\r") ∧
    (env.ate1.ok = true → env.atd0.ok = true → env.atk0.ok = true → env.sbdmta.ok = false →
      (runCommands (beginCommands s env)).1 = some (commandFailure env.sbdmta) ∧
      sentBytes (runCommands (beginCommands s env)).2
        = cstr "ATE1\rAT&D0\rAT&K0\r"
          ++ (if s.ringAlertsEnabled then cstr "AT+SBDMTA=1\r" else cstr "AT+SBDMTA=0\r")) ∧
    (env.ate1.ok = true → env.atd0.ok = true → env.atk0.ok = true → env.sbdmta.ok = true →
      (runCommands (beginCommands s env)).1 = none ∧
      sentBytes (runCommands (beginCommands s env)).2
        = cstr "ATE1\rAT&D0\rAT&K0\r"
          ++ (if s.ringAlertsEnabled then cstr "AT+SBDMTA=1\r" else cstr "AT+SBDMTA=0\r")) := by
  refine ⟨fun h1 => ?_, fun h1 h2 => ?_, fun h1 h2 h3 => ?_, fun h1 h2 h3 h4 => ?_,
    fun h1 h2 h3 h4 => ?_⟩
  · simp only [runCommands, beginCommands, commandFailure, h1, Bool.not_false, if_true,
      sentBytes, List.append_nil, and_self]
  · simp only [runCommands, beginCommands, commandFailure, h1, h2, Bool.not_false, Bool.not_true,
      Bool.false_eq_true, if_true, if_false, sentBytes, List.cons_append, List.nil_append,
      List.append_nil, true_and]
    decide
  · simp only [runCommands, beginCommands, commandFailure, h1, h2, h3, Bool.not_false,
      Bool.not_true, Bool.false_eq_true, if_true, if_false, sentBytes, List.cons_append,
      List.nil_append, List.append_nil, true_and]
    decide
  · simp only [runCommands, beginCommands, commandFailure, h1, h2, h3, h4, Bool.not_false,
      Bool.not_true, Bool.false_eq_true, if_true, if_false, sentBytes, List.cons_append,
      List.nil_append, List.append_nil, true_and]
    cases s.ringAlertsEnabled <;> decide
  · simp only [runCommands, beginCommands, h1, h2, h3, h4, Bool.not_true,
      Bool.false_eq_true, if_false, sentBytes, List.cons_append,
      List.nil_append, List.append_nil, true_and]
    cases s.ringAlertsEnabled <;> decide

/-- A failed command gives ISBD_CANCELLED or ISBD_PROTOCOL_ERROR, never
ISBD_SUCCESS. -/
theorem commandFailure_codes (c : Command) :
    commandFailure c ≠ ISBD_SUCCESS ∧
    (commandFailure c = ISBD_CANCELLED ∨ commandFailure c = ISBD_PROTOCOL_ERROR) := by
  unfold commandFailure
  cases c.cancelled
  · exact ⟨by decide, Or.inr rfl⟩
  · exact ⟨by decide, Or.inl rfl⟩

/-- The firmware query does not look at the session. -/
theorem getFirmwareVersion_session (s t : IridiumSBD) (n : Nat) (polls : List Poll)
    (cancelled : Bool) :
    (getFirmwareVersion s n polls cancelled).ret = (getFirmwareVersion t n polls cancelled).ret ∧
    (getFirmwareVersion s n polls cancelled).version
      = (getFirmwareVersion t n polls cancelled).version ∧
    (getFirmwareVersion s n polls cancelled).effects
      = (getFirmwareVersion t n polls cancelled).effects := by
  simp only [getFirmwareVersion]
  split <;> exact ⟨rfl, rfl, rfl⟩

/-- C24 (counterexample): the modem answers the probe and the four commands, but
the firmware-version query gets no reply (ISBD_PROTOCOL_ERROR): `begin()` returns
ISBD_SUCCESS all the same, with the time-sync workaround enforced. -/
theorem begin_survives_failed_firmware_query :
    (getFirmwareVersion (new 3 (-1)) 8 [⟨false, []⟩, ⟨false, []⟩] false).ret
      = ISBD_PROTOCOL_ERROR ∧
    (begin (new 3 (-1))
        ⟨100, false, [⟨true, false⟩], ⟨true, false⟩, ⟨true, false⟩, ⟨true, false⟩,
         ⟨true, false⟩, [⟨false, []⟩, ⟨false, []⟩], false, 600⟩).ret = ISBD_SUCCESS ∧
    (begin (new 3 (-1))
        ⟨100, false, [⟨true, false⟩], ⟨true, false⟩, ⟨true, false⟩, ⟨true, false⟩,
         ⟨true, false⟩, [⟨false, []⟩, ⟨false, []⟩], false, 600⟩).session.msstmWorkaroundRequested
      = true := by
  decide

/-- C24 (amended): `begin()` on a session that is asleep and not busy stops at
the first failing step among the start-up wait, the liveness probe loop, the
three configuration commands and the alert-enable command, returns that step's
non-success result (ISBD_CANCELLED, ISBD_NO_MODEM_DETECTED or
ISBD_PROTOCOL_ERROR) and sends no later command; when these steps succeed it
sends the firmware-version query and returns ISBD_SUCCESS whatever the result
of that query, a failed query only making the time-sync workaround enforced. -/
theorem begin_short_circuit (s : IridiumSBD) (env : BeginEnv)
    (hidle : s.reentrant = false) (hasleep : s.asleep = true) :
    (env.startupCancelled = true →
      (begin s env).ret = ISBD_CANCELLED ∧ sentBytes (begin s env).effects = []) ∧
    (env.startupCancelled = false →
      ((probeLoop env.probes).1 ≠ none →
        (begin s env).ret = ISBD_CANCELLED ∧
        sentBytes (begin s env).effects = sentBytes (probeLoop env.probes).2.2) ∧
      ((probeLoop env.probes).1 = none → (probeLoop env.probes).2.1 = false →
        (begin s env).ret = ISBD_NO_MODEM_DETECTED ∧
        sentBytes (begin s env).effects = sentBytes (probeLoop env.probes).2.2) ∧
      ((probeLoop env.probes).1 = none → (probeLoop env.probes).2.1 = true →
        (env.ate1.ok = false →
          (begin s env).ret = commandFailure env.ate1 ∧
          sentBytes (begin s env).effects
            = sentBytes (probeLoop env.probes).2.2 ++ cstr "ATE1\r") ∧
        (env.ate1.ok = true → env.atd0.ok = false →
          (begin s env).ret = commandFailure env.atd0 ∧
          sentBytes (begin s env).effects
            = sentBytes (probeLoop env.probes).2.2 ++ cstr "ATE1\rAT&D0\r") ∧
        (env.ate1.ok = true → env.atd0.ok = true → env.atk0.ok = false →
          (begin s env).ret = commandFailure env.atk0 ∧
          sentBytes (begin s env).effects
            = sentBytes (probeLoop env.probes).2.2 ++ cstr "ATE1\rAT&D0\rAT&K0\r") ∧
        (env.ate1.ok = true → env.atd0.ok = true → env.atk0.ok = true →
            env.sbdmta.ok = false →
          (begin s env).ret = commandFailure env.sbdmta ∧
          sentBytes (begin s env).effects
            = sentBytes (probeLoop env.probes).2.2 ++ cstr "ATE1\rAT&D0\rAT&K0\r"
              ++ (if s.ringAlertsEnabled then cstr "AT+SBDMTA=1\r" else cstr "AT+SBDMTA=0\r")) ∧
        (env.ate1.ok = true → env.atd0.ok = true → env.atk0.ok = true →
            env.sbdmta.ok = true →
          (begin s env).ret = ISBD_SUCCESS ∧
          sentBytes (begin s env).effects
            = sentBytes (probeLoop env.probes).2.2 ++ cstr "ATE1\rAT&D0\rAT&K0\r"
              ++ (if s.ringAlertsEnabled then cstr "AT+SBDMTA=1\r" else cstr "AT+SBDMTA=0\r")
              ++ cstr "AT+CGMR\r" ∧
          ((getFirmwareVersion s 8 env.firmware env.firmwareCancelled).ret ≠ ISBD_SUCCESS →
            (begin s env).session.msstmWorkaroundRequested = true)))) ∧
    (∀ c : Command, commandFailure c ≠ ISBD_SUCCESS ∧
      (commandFailure c = ISBD_CANCELLED ∨ commandFailure c = ISBD_PROTOCOL_ERROR)) := by
  obtain ⟨hret, hsent, hsess⟩ := begin_of_internalBegin s env hidle
  obtain ⟨hp1, hp2⟩ := internalBegin_paths { s with reentrant := true } env hasleep
  obtain ⟨hc1, hc2, hc3, hc4, hc5⟩ := runCommands_beginCommands { s with reentrant := true } env
  have hring : ({ s with reentrant := true } : IridiumSBD).ringAlertsEnabled
      = s.ringAlertsEnabled := rfl
  rw [hring] at hc4 hc5
  refine ⟨fun hc => ?_, fun hc => ?_, commandFailure_codes⟩
  · rw [hret, hsent, hp1 hc]
    exact ⟨rfl, sentBytes_power _ _ _⟩
  · obtain ⟨hq1, hq2, hq3⟩ := hp2 hc
    refine ⟨fun hpr => ?_, fun hpr hal => ?_, fun hpr hal => ?_⟩
    · cases hp : (probeLoop env.probes).1 with
      | none => exact absurd hp hpr
      | some c =>
        rw [hret, hsent, hq1 c hp]
        simp only [sentBytes_append, sentBytes_power, List.nil_append]
        exact ⟨probeLoop_code _ _ hp, trivial⟩
    · rw [hret, hsent, hq2 hpr hal]
      simp only [sentBytes_append, sentBytes_power, List.nil_append]
      exact ⟨trivial, trivial⟩
    · obtain ⟨hr1, hr2⟩ := hq3 hpr hal
      have hfail : ∀ c bytes, (runCommands (beginCommands { s with reentrant := true } env)).1
            = some c →
          sentBytes (runCommands (beginCommands { s with reentrant := true } env)).2 = bytes →
          (begin s env).ret = c ∧
          sentBytes (begin s env).effects = sentBytes (probeLoop env.probes).2.2 ++ bytes := by
        intro c bytes h1 h2
        rw [hret, hsent, hr1 c h1]
        simp only [sentBytes_append, sentBytes_power, List.nil_append, h2]
        exact ⟨trivial, trivial⟩
      refine ⟨fun h1 => ?_, fun h1 h2 => ?_, fun h1 h2 h3 => ?_, fun h1 h2 h3 h4 => ?_,
        fun h1 h2 h3 h4 => ?_⟩
      · exact hfail _ _ (hc1 h1).1 (hc1 h1).2
      · exact hfail _ _ (hc2 h1 h2).1 (hc2 h1 h2).2
      · exact hfail _ _ (hc3 h1 h2 h3).1 (hc3 h1 h2 h3).2
      · have := hfail _ _ (hc4 h1 h2 h3 h4).1 (hc4 h1 h2 h3 h4).2
        rw [← List.append_assoc] at this
        exact this
      · have hok := hr2 (hc5 h1 h2 h3 h4).1
        have hrs : (begin s env).ret = ISBD_SUCCESS := by rw [hret, hok]
        refine ⟨hrs, ?_, fun hfw => ?_⟩
        · rw [hsent, hok]
          simp only [sentBytes_append, sentBytes_power, List.nil_append, (hc5 h1 h2 h3 h4).2]
          have : sentBytes (getFirmwareVersion
              (power { s with reentrant := true } true env.powerOnClock).1 8 env.firmware
              env.firmwareCancelled).effects = cstr "AT+CGMR\r" := by
            simp only [getFirmwareVersion]
            rfl
          rw [this]
          simp only [List.append_assoc]
        · rw [hsess hrs, hok]
          have hfw1 := (getFirmwareVersion_session
            (power { s with reentrant := true } true env.powerOnClock).1 s 8 env.firmware
            env.firmwareCancelled).1
          show workaroundFromFirmware _ _ = true
          unfold workaroundFromFirmware
          rw [hfw1, if_pos hfw]

/-- C24 (witness): the probe is answered, ATE1 succeeds, AT&D0 gets no reply. -/
theorem begin_short_circuit_witness :
    (begin (new 3 (-1))
        ⟨100, false, [⟨true, false⟩], ⟨true, false⟩, ⟨false, false⟩, ⟨true, false⟩,
         ⟨true, false⟩, [], false, 600⟩).ret = ISBD_PROTOCOL_ERROR ∧
    sentBytes (begin (new 3 (-1))
        ⟨100, false, [⟨true, false⟩], ⟨true, false⟩, ⟨false, false⟩, ⟨true, false⟩,
         ⟨true, false⟩, [], false, 600⟩).effects = cstr "AT\rATE1\rAT&D0\r" :=
  (((begin_short_circuit (new 3 (-1))
      ⟨100, false, [⟨true, false⟩], ⟨true, false⟩, ⟨false, false⟩, ⟨true, false⟩,
       ⟨true, false⟩, [], false, 600⟩ rfl rfl).2.1 rfl).2.2 rfl rfl).2.1 rfl rfl

/-! ## Firmware version and the time-sync workaround -/

/-- A string of at most five decimal digits denotes a number below 100000. -/
theorem decimalValue_lt (d : List Nat) (hd : ∀ c ∈ d, 48 ≤ c ∧ c ≤ 57) :
    decimalValue d < 10 ^ d.length := by
  unfold decimalValue
  have h := Nat.ofDigits_lt_base_pow_length (b := 10)
    (l := (d.map (fun c => c - 48)).reverse) (by norm_num) (by
      intro x hx
      simp only [List.mem_reverse, List.mem_map] at hx
      obtain ⟨c, hc, rfl⟩ := hx
      have := hd c hc
      omega)
  simpa using h

/-- The C library `strtoul` on a string of at most nine decimal digits. -/
theorem strtoul10_digits (d : List Nat) (hd : ∀ c ∈ d, 48 ≤ c ∧ c ≤ 57) (hlen : d.length ≤ 9) :
    strtoul10 d = decimalValue d := by
  have hv := atolDigits_value d hd 0
  simp only [Nat.zero_mul, Nat.zero_add] at hv
  have hlt : decimalValue d < 2 ^ 32 := by
    have h1 := decimalValue_lt d hd
    have h2 : 10 ^ d.length ≤ 10 ^ 9 := Nat.pow_le_pow_right (by norm_num) hlen
    have h3 : (10 : Nat) ^ 9 < 2 ^ 32 := by norm_num
    omega
  have hns : ¬ (2 ^ 32 ≤ atolDigits 0 d) := by rw [hv]; omega
  cases d with
  | nil => simp [strtoul10, atolDigits, decimalValue]
  | cons a t =>
    have ha := hd a (List.mem_cons_self _ _)
    have hsp : isSpace a = false := by
      unfold isSpace
      simp
      omega
    have h1 : (a :: t).dropWhile isSpace = a :: t := by
      simp [List.dropWhile_cons, hsp]
    unfold strtoul10
    rw [h1]
    split
    · rename_i rest heq
      have : a = 45 := by simpa using (List.cons.inj heq).1
      omega
    · rename_i rest heq
      have : a = 43 := by simpa using (List.cons.inj heq).1
      omega
    · rw [if_neg hns, hv]

/-- A buffer whose text starts with two given characters holds them in its first
two places, and the text after them is the rest of its text. -/
theorem textOf_two (v : List Nat) (a b : Nat) (rest : List Nat)
    (h : textOf v = a :: b :: rest) :
    cstrAt v 0 = a ∧ cstrAt v 1 = b ∧ textOf (v.drop 2) = rest := by
  unfold textOf at h
  cases v with
  | nil => simp at h
  | cons x v1 =>
    by_cases hx : x = 0
    · simp [List.takeWhile, hx] at h
    · simp only [List.takeWhile, ne_eq, hx, not_false_eq_true, decide_True,
        List.cons.injEq] at h
      obtain ⟨hxa, h⟩ := h
      cases v1 with
      | nil => simp at h
      | cons y v2 =>
        by_cases hy : y = 0
        · simp [List.takeWhile, hy] at h
        · simp only [List.takeWhile, ne_eq, hy, not_false_eq_true, decide_True,
            List.cons.injEq] at h
          obtain ⟨hyb, h⟩ := h
          refine ⟨by simpa [cstrAt] using hxa, by simpa [cstrAt] using hyb, ?_⟩
          simpa [textOf] using h

/-- A successful `internalBegin` has set the workaround flag from the firmware
query. -/
theorem internalBegin_success (s : IridiumSBD) (env : BeginEnv)
    (hok : (internalBegin s env).ret = ISBD_SUCCESS) :
    (internalBegin s env).session.msstmWorkaroundRequested
      = workaroundFromFirmware s
          (getFirmwareVersion s 8 env.firmware env.firmwareCancelled) := by
  by_cases ha : s.asleep = false
  · rw [(internalBegin_cases s env).1 ha] at hok
    exact absurd (show ISBD_ALREADY_AWAKE = ISBD_SUCCESS from hok) (by decide)
  · have hasleep : s.asleep = true := by simpa using ha
    obtain ⟨hp1, hp2⟩ := internalBegin_paths s env hasleep
    have hw : ∀ t : IridiumSBD, t.msstmWorkaroundRequested = s.msstmWorkaroundRequested →
        workaroundFromFirmware t (getFirmwareVersion t 8 env.firmware env.firmwareCancelled)
          = workaroundFromFirmware s
              (getFirmwareVersion s 8 env.firmware env.firmwareCancelled) := by
      intro t ht
      obtain ⟨h1, h2, -⟩ := getFirmwareVersion_session t s 8 env.firmware env.firmwareCancelled
      simp only [workaroundFromFirmware, h1, h2, ht]
    have hpm : (power s true env.powerOnClock).1.msstmWorkaroundRequested
        = s.msstmWorkaroundRequested := by
      simp only [power]
      split <;> simp
    by_cases hc : env.startupCancelled = true
    · rw [hp1 hc] at hok
      exact absurd (show ISBD_CANCELLED = ISBD_SUCCESS from hok) (by decide)
    · have hc0 : env.startupCancelled = false := by simpa using hc
      obtain ⟨hq1, hq2, hq3⟩ := hp2 hc0
      cases hpr : (probeLoop env.probes).1 with
      | some c =>
        rw [hq1 c hpr] at hok
        have := probeLoop_code _ _ hpr
        subst this
        exact absurd (show ISBD_CANCELLED = ISBD_SUCCESS from hok) (by decide)
      | none =>
        by_cases hal : (probeLoop env.probes).2.1 = true
        · obtain ⟨hr1, hr2⟩ := hq3 hpr hal
          cases hcm : (runCommands (beginCommands s env)).1 with
          | some c =>
            rw [hr1 c hcm] at hok
            rcases runCommands_code _ _ hcm with h | h <;> subst h
            · exact absurd (show ISBD_CANCELLED = ISBD_SUCCESS from hok) (by decide)
            · exact absurd (show ISBD_PROTOCOL_ERROR = ISBD_SUCCESS from hok) (by decide)
          | none =>
            rw [hr2 hcm]
            exact hw _ hpm
        · have hal0 : (probeLoop env.probes).2.1 = false := by simpa using hal
          rw [hq2 hpr hal0] at hok
          exact absurd (show ISBD_NO_MODEM_DETECTED = ISBD_SUCCESS from hok) (by decide)

/-- C26 (counterexample): the firmware replies "TA100000": `begin()` returns
ISBD_SUCCESS and the time-sync workaround is enforced, although 100000 is not
below 13001; the eight-byte version buffer has kept "TA10000". -/
theorem six_digit_version_enforces_workaround :
    (begin (useMSSTMWorkaround (new 3 (-1)) false)
        ⟨100, false, [⟨true, false⟩], ⟨true, false⟩, ⟨true, false⟩, ⟨true, false⟩,
         ⟨true, false⟩,
         [⟨false, cstr "AT+CGMR\r\r\nCall Processor Version: TA100000\r\n\r\nOK\r\n"⟩],
         false, 600⟩).ret = ISBD_SUCCESS ∧
    (begin (useMSSTMWorkaround (new 3 (-1)) false)
        ⟨100, false, [⟨true, false⟩], ⟨true, false⟩, ⟨true, false⟩, ⟨true, false⟩,
         ⟨true, false⟩,
         [⟨false, cstr "AT+CGMR\r\r\nCall Processor Version: TA100000\r\n\r\nOK\r\n"⟩],
         false, 600⟩).session.msstmWorkaroundRequested = true ∧
    (getFirmwareVersion (new 3 (-1)) 8
        [⟨false, cstr "AT+CGMR\r\r\nCall Processor Version: TA100000\r\n\r\nOK\r\n"⟩]
        false).version = cstr "TA10000" ++ [0] ∧
    ¬ (100000 < ISBD_MSSTM_WORKAROUND_FW_VER) := by
  decide

/-- C26 (amended): after `begin()` on a session that is not busy returns
ISBD_SUCCESS, if the firmware-version query failed the time-sync workaround is
enforced, and if the query succeeded and the version text captured in the
eight-byte buffer is "TA" followed by a decimal number v of at most five digits,
the workaround is enforced if and only if v < 13001, whatever value an earlier
`useMSSTMWorkaround` call had set. -/
theorem firmware_version_decides_workaround (s : IridiumSBD) (env : BeginEnv)
    (hidle : s.reentrant = false) (hok : (begin s env).ret = ISBD_SUCCESS) :
    ((getFirmwareVersion s 8 env.firmware env.firmwareCancelled).ret ≠ ISBD_SUCCESS →
      (begin s env).session.msstmWorkaroundRequested = true) ∧
    (∀ digits : List Nat,
      (getFirmwareVersion s 8 env.firmware env.firmwareCancelled).ret = ISBD_SUCCESS →
      textOf (getFirmwareVersion s 8 env.firmware env.firmwareCancelled).version
        = cstr "TA" ++ digits →
      (∀ c ∈ digits, 48 ≤ c ∧ c ≤ 57) → digits.length ≤ 5 →
      ((begin s env).session.msstmWorkaroundRequested = true ↔ decimalValue digits < 13001)) := by
  obtain ⟨hret, -, hsess⟩ := begin_of_internalBegin s env hidle
  have hin := internalBegin_success { s with reentrant := true } env (by rw [← hret]; exact hok)
  have hms : (begin s env).session.msstmWorkaroundRequested
      = workaroundFromFirmware s
          (getFirmwareVersion s 8 env.firmware env.firmwareCancelled) := by
    rw [hsess hok]
    show (internalBegin { s with reentrant := true } env).session.msstmWorkaroundRequested = _
    rw [hin]
    obtain ⟨h1, h2, -⟩ := getFirmwareVersion_session { s with reentrant := true } s 8
      env.firmware env.firmwareCancelled
    simp only [workaroundFromFirmware, h1, h2]
  rw [hms]
  refine ⟨fun hfw => by simp only [workaroundFromFirmware, if_pos hfw], ?_⟩
  intro digits hfw htext hdig hlen
  have ht : textOf (getFirmwareVersion s 8 env.firmware env.firmwareCancelled).version
      = 84 :: 65 :: digits := htext
  obtain ⟨h0, h1, h2⟩ := textOf_two _ _ _ _ ht
  have hnot : ¬ ((getFirmwareVersion s 8 env.firmware env.firmwareCancelled).ret
      ≠ ISBD_SUCCESS) := fun h => h hfw
  simp only [workaroundFromFirmware, if_neg hnot, h0, h1, and_self, if_true, h2,
    strtoul10_digits digits hdig (by omega), ISBD_MSSTM_WORKAROUND_FW_VER, decide_eq_true_eq]

/-- C26 (witness): the workaround was switched off by hand, the firmware replies
"TA12345": it is enforced after `begin()`. -/
theorem firmware_version_decides_workaround_witness :
    (begin (useMSSTMWorkaround (new 3 (-1)) false)
        ⟨100, false, [⟨true, false⟩], ⟨true, false⟩, ⟨true, false⟩, ⟨true, false⟩,
         ⟨true, false⟩,
         [⟨false, cstr "AT+CGMR\r\r\nCall Processor Version: TA12345\r\n\r\nOK\r\n"⟩],
         false, 600⟩).session.msstmWorkaroundRequested = true
      ↔ decimalValue (cstr "12345") < 13001 :=
  (firmware_version_decides_workaround (useMSSTMWorkaround (new 3 (-1)) false)
    ⟨100, false, [⟨true, false⟩], ⟨true, false⟩, ⟨true, false⟩, ⟨true, false⟩,
     ⟨true, false⟩,
     [⟨false, cstr "AT+CGMR\r\r\nCall Processor Version: TA12345\r\n\r\nOK\r\n"⟩],
     false, 600⟩ rfl (by decide)).2 (cstr "12345") (by decide) (by decide) (by decide) (by decide)

/-! ## The outstanding-message count -/

/-- The two tests that open a pass of the SBDIX loop to the check-in, in terms of
the workaround flag and the result of the AT-MSSTM check. -/
theorem gate_open_iff (s : IridiumSBD) (a : Attempt) :
    ((s.msstmWorkaroundRequested && decide (a.msstm.1 ≠ ISBD_SUCCESS)) = false ∧
      (if s.msstmWorkaroundRequested then a.msstm.2 else true) = true)
    ↔ (s.msstmWorkaroundRequested = false ∨ a.msstm = (ISBD_SUCCESS, true)) := by
  constructor
  · rintro ⟨h1, h2⟩
    cases hw : s.msstmWorkaroundRequested
    · exact Or.inl rfl
    · rw [hw] at h1 h2
      simp only [Bool.true_and, ne_eq, decide_not, Bool.not_eq_false', decide_eq_true_eq,
        if_true] at h1 h2
      exact Or.inr (Prod.ext h1 h2)
  · rintro (h | h)
    · simp [h]
    · simp [h]

/-- A pass of the SBDIX loop that gets a check-in reply with status 0..4 ends
the operation with the count of that reply recorded in the session, whatever
`doSBDRB` returns afterwards. -/
theorem sbdixPass_success (rxBuffer : Bool) (s : IridiumSBD) (size : Option Nat)
    (tr : List LoopAction) (a : Attempt)
    (hgo : s.msstmWorkaroundRequested = false ∨ a.msstm = (ISBD_SUCCESS, true))
    (hok : a.sbdix.1 = ISBD_SUCCESS) (hmo : a.sbdix.2.moCode ≤ 4) :
    ∃ r, sbdixPass rxBuffer s size tr a = PassOutcome.done r ∧
      r.session = { s with remainingMessages := (a.sbdix.2.mtRemaining : Int) } ∧
      r.ret = some (if a.sbdix.2.mtCode = 1 ∧ rxBuffer = true then a.sbdrb.1
                    else ISBD_SUCCESS) := by
  obtain ⟨hm, hg⟩ := (gate_open_iff s a).2 hgo
  have hm1 : ¬ ((s.msstmWorkaroundRequested && decide (a.msstm.1 ≠ ISBD_SUCCESS)) = true) := by
    rw [hm]; decide
  have h1 : ¬ (a.sbdix.1 ≠ ISBD_SUCCESS) := fun h => h hok
  have h2 : 0 ≤ a.sbdix.2.moCode ∧ a.sbdix.2.moCode ≤ 4 := ⟨Nat.zero_le _, hmo⟩
  unfold sbdixPass
  rw [if_neg hm1]
  simp only []
  rw [if_pos hg, if_neg h1, if_pos h2]
  by_cases h3 : a.sbdix.2.mtCode = 1 ∧ rxBuffer = true
  · rw [if_pos h3, if_pos h3]
    exact ⟨_, rfl, rfl, rfl⟩
  · rw [if_neg h3, if_neg h3]
    exact ⟨_, rfl, rfl, rfl⟩

/-- Every other pass of the SBDIX loop ends the operation with the session as it
was (the ring flag aside, which `LoopResult` does not follow), or goes back to
the loop test. -/
theorem sbdixPass_unchanged (rxBuffer : Bool) (s : IridiumSBD) (size : Option Nat)
    (tr : List LoopAction) (a : Attempt)
    (h : ¬ ((s.msstmWorkaroundRequested = false ∨ a.msstm = (ISBD_SUCCESS, true)) ∧
      a.sbdix.1 = ISBD_SUCCESS ∧ a.sbdix.2.moCode ≤ 4)) :
    (∃ r, sbdixPass rxBuffer s size tr a = PassOutcome.done r ∧ r.session = s) ∨
    (∃ tr1, sbdixPass rxBuffer s size tr a = PassOutcome.again tr1) := by
  unfold sbdixPass
  by_cases hm : (s.msstmWorkaroundRequested && decide (a.msstm.1 ≠ ISBD_SUCCESS)) = true
  · rw [if_pos hm]
    exact Or.inl ⟨_, rfl, rfl⟩
  · rw [if_neg hm]
    simp only []
    by_cases hg : (if s.msstmWorkaroundRequested then a.msstm.2 else true) = true
    · have hgo := (gate_open_iff s a).1 ⟨by simpa using hm, hg⟩
      rw [if_pos hg]
      by_cases h1 : a.sbdix.1 ≠ ISBD_SUCCESS
      · rw [if_pos h1]
        exact Or.inl ⟨_, rfl, rfl⟩
      · have h2 : ¬ (0 ≤ a.sbdix.2.moCode ∧ a.sbdix.2.moCode ≤ 4) :=
          fun h2 => h ⟨hgo, by simpa using h1, h2.2⟩
        rw [if_neg h1, if_neg h2]
        by_cases h4 : a.sbdix.2.moCode = 12 ∨ a.sbdix.2.moCode = 14 ∨ a.sbdix.2.moCode = 16
        · rw [if_pos h4]
          exact Or.inl ⟨_, rfl, rfl⟩
        · rw [if_neg h4]
          by_cases h5 : (!a.waitOk) = true
          · rw [if_pos h5]
            exact Or.inl ⟨_, rfl, rfl⟩
          · rw [if_neg h5]
            exact Or.inr ⟨_, rfl⟩
    · rw [if_neg hg]
      by_cases h5 : (!a.waitOk) = true
      · rw [if_pos h5]
        exact Or.inl ⟨_, rfl, rfl⟩
      · rw [if_neg h5]
        exact Or.inr ⟨_, rfl⟩

/-- The SBDIX loop changes the session only by recording the count of a reply
with status 0..4 (the ring flag aside, which `LoopResult` does not follow). -/
theorem sbdixLoop_session (rxBuffer : Bool) (start : Nat) (s : IridiumSBD)
    (size : Option Nat) (attempts : List Attempt) :
    ∀ tr, (sbdixLoop rxBuffer start s size tr attempts).session = s ∨
      ∃ a ∈ attempts, a.sbdix.1 = ISBD_SUCCESS ∧ a.sbdix.2.moCode ≤ 4 ∧
        (sbdixLoop rxBuffer start s size tr attempts).session
          = { s with remainingMessages := (a.sbdix.2.mtRemaining : Int) } := by
  induction attempts with
  | nil => intro tr; exact Or.inl rfl
  | cons a rest ih =>
    intro tr
    by_cases hdl : withinDeadline s start a.now = true
    · simp only [sbdixLoop, hdl, Bool.not_true, Bool.false_eq_true, if_false]
      by_cases h : (s.msstmWorkaroundRequested = false ∨ a.msstm = (ISBD_SUCCESS, true)) ∧
          a.sbdix.1 = ISBD_SUCCESS ∧ a.sbdix.2.moCode ≤ 4
      · obtain ⟨r, hr, hs, -⟩ := sbdixPass_success rxBuffer s size tr a h.1 h.2.1 h.2.2
        rw [hr]
        exact Or.inr ⟨a, List.mem_cons_self _ _, h.2.1, h.2.2, hs⟩
      · rcases sbdixPass_unchanged rxBuffer s size tr a h with ⟨r, hr, hs⟩ | ⟨tr1, hr⟩
        · rw [hr]
          exact Or.inl hs
        · rw [hr]
          rcases ih tr1 with h1 | ⟨b, hb, h1⟩
          · exact Or.inl h1
          · exact Or.inr ⟨b, List.mem_cons_of_mem _ hb, h1⟩
    · exact Or.inl (by simp [sbdixLoop, hdl])

/-- C25 (counterexample): the check-in reply has status 0 and announces a
message, 2 more being queued; the retrieval of the message then fails because
the echo of AT+SBDRB never arrives: the operation ends with
ISBD_PROTOCOL_ERROR, and the outstanding-message count has changed from -1
to 2. -/
theorem count_changes_before_failed_retrieval :
    (doSBDRB true (some 10) [⟨false, []⟩, ⟨false, []⟩] [] [] false).ret
      = ISBD_PROTOCOL_ERROR ∧
    getWaitingMessageCount { new (-1) (-1) with asleep := false } = -1 ∧
    (sendReceiveSBDBinary { new (-1) (-1) with asleep := false } (some [1, 2, 3]) true 10
        ⟨⟨true, true, false⟩, 0,
         [⟨0, (ISBD_SUCCESS, true), (ISBD_SUCCESS, ⟨0, 7, 1, 3, 5, 2⟩),
           (ISBD_PROTOCOL_ERROR, 10), true⟩]⟩).ret = some ISBD_PROTOCOL_ERROR ∧
    getWaitingMessageCount
      (sendReceiveSBDBinary { new (-1) (-1) with asleep := false } (some [1, 2, 3]) true 10
        ⟨⟨true, true, false⟩, 0,
         [⟨0, (ISBD_SUCCESS, true), (ISBD_SUCCESS, ⟨0, 7, 1, 3, 5, 2⟩),
           (ISBD_PROTOCOL_ERROR, 10), true⟩]⟩).session = 2 := by
  decide

/-- C25 (amended): in a pass of the check-in loop that is within the deadline
and gets a reply to AT+SBDIX with mo_status in 0..4 and an mt_queued_count of at
most 32767 (what an `int` of 16 bits holds), the operation ends with
`getWaitingMessageCount()` equal to that count, also when the retrieval of the
message by `doSBDRB` then fails; every other pass (deadline passed, failed or
invalid AT-MSSTM, failed AT+SBDIX, fatal status, retryable reply, cancelled
wait) ends the operation with the outstanding-message count unchanged or goes
back to the loop test; so after the whole send/receive operation the count is
what it was, or it is the count of such a reply; it is -1 on a fresh session. -/
theorem outstanding_count (rxBuffer : Bool) (start : Nat) (s : IridiumSBD)
    (size : Option Nat) (tr : List LoopAction) (a : Attempt) (rest : List Attempt) :
    (withinDeadline s start a.now = true →
      s.msstmWorkaroundRequested = false ∨ a.msstm = (ISBD_SUCCESS, true) →
      a.sbdix.1 = ISBD_SUCCESS → a.sbdix.2.moCode ≤ 4 → a.sbdix.2.mtRemaining ≤ 32767 →
      getWaitingMessageCount (sbdixLoop rxBuffer start s size tr (a :: rest)).session
          = (a.sbdix.2.mtRemaining : Int) ∧
      (sbdixLoop rxBuffer start s size tr (a :: rest)).ret
          = some (if a.sbdix.2.mtCode = 1 ∧ rxBuffer = true then a.sbdrb.1 else ISBD_SUCCESS)) ∧
    (¬ (withinDeadline s start a.now = true ∧
        (s.msstmWorkaroundRequested = false ∨ a.msstm = (ISBD_SUCCESS, true)) ∧
        a.sbdix.1 = ISBD_SUCCESS ∧ a.sbdix.2.moCode ≤ 4) →
      getWaitingMessageCount (sbdixLoop rxBuffer start s size tr (a :: rest)).session
          = getWaitingMessageCount s ∨
      ∃ tr1, sbdixLoop rxBuffer start s size tr (a :: rest)
        = sbdixLoop rxBuffer start s size tr1 rest) ∧
    (∀ (txTxtMessage txData : Option (List Nat)) (env : SendEnv),
      getWaitingMessageCount
          (internalSendReceiveSBD s txTxtMessage txData rxBuffer size env).session
        = getWaitingMessageCount s ∨
      ∃ b ∈ env.attempts, b.sbdix.1 = ISBD_SUCCESS ∧ b.sbdix.2.moCode ≤ 4 ∧
        (b.sbdix.2.mtRemaining ≤ 32767 →
          getWaitingMessageCount
              (internalSendReceiveSBD s txTxtMessage txData rxBuffer size env).session
            = (b.sbdix.2.mtRemaining : Int))) ∧
    (∀ sleepPinNo ringPinNo, getWaitingMessageCount (new sleepPinNo ringPinNo) = -1) := by
  refine ⟨fun hdl hgo hok hmo _ => ?_, fun h => ?_, fun txt data env => ?_, fun _ _ => rfl⟩
  · obtain ⟨r, hr, hs, hret⟩ := sbdixPass_success rxBuffer s size tr a hgo hok hmo
    simp only [sbdixLoop, hdl, Bool.not_true, Bool.false_eq_true, if_false, hr]
    exact ⟨by rw [hs]; rfl, hret⟩
  · by_cases hdl : withinDeadline s start a.now = true
    · have h1 : ¬ ((s.msstmWorkaroundRequested = false ∨ a.msstm = (ISBD_SUCCESS, true)) ∧
          a.sbdix.1 = ISBD_SUCCESS ∧ a.sbdix.2.moCode ≤ 4) := fun h2 => h ⟨hdl, h2⟩
      simp only [sbdixLoop, hdl, Bool.not_true, Bool.false_eq_true, if_false]
      rcases sbdixPass_unchanged rxBuffer s size tr a h1 with ⟨r, hr, hs⟩ | ⟨tr1, hr⟩
      · rw [hr]
        exact Or.inl (by rw [hs])
      · rw [hr]
        exact Or.inr ⟨tr1, rfl⟩
    · exact Or.inl (by simp [sbdixLoop, hdl])
  · unfold internalSendReceiveSBD
    cases hp : (transmitPhase s txt data env.tx).1 with
    | some code => exact Or.inl rfl
    | none =>
      rcases sbdixLoop_session rxBuffer env.loopStart s size env.attempts [] with h | ⟨b, hb, h1, h2, h3⟩
      · exact Or.inl (by simp only []; rw [h])
      · exact Or.inr ⟨b, hb, h1, h2, fun _ => by simp only []; rw [h3]; rfl⟩

/-- C25 (witness): a fresh session made awake; the first reply is retryable
(status 32), the second has status 1 with 4 messages queued. -/
theorem outstanding_count_witness :
    getWaitingMessageCount
      (sbdixLoop false 0 { new (-1) (-1) with asleep := false } none []
        [⟨0, (ISBD_SUCCESS, true), (ISBD_SUCCESS, ⟨32, 7, 0, 0, 0, 9⟩), (0, 0), true⟩,
         ⟨30000, (ISBD_SUCCESS, true), (ISBD_SUCCESS, ⟨1, 8, 0, 0, 0, 4⟩), (0, 0), true⟩]).session
      = 4 ∧
    getWaitingMessageCount
      (sbdixLoop false 0 { new (-1) (-1) with asleep := false } none
        [LoopAction.msstm, LoopAction.sbdix, LoopAction.wait 30]
        [⟨30000, (ISBD_SUCCESS, true), (ISBD_SUCCESS, ⟨1, 8, 0, 0, 0, 4⟩), (0, 0), true⟩]).session
      = ((4 : Nat) : Int) :=
  ⟨by decide,
   ((outstanding_count false 0 { new (-1) (-1) with asleep := false } none
      [LoopAction.msstm, LoopAction.sbdix, LoopAction.wait 30]
      ⟨30000, (ISBD_SUCCESS, true), (ISBD_SUCCESS, ⟨1, 8, 0, 0, 0, 4⟩), (0, 0), true⟩ []).1
      (by decide) (Or.inr rfl) rfl (by decide) (by decide)).1⟩

/-! ## System time arithmetic -/

/-- C35: for every 32-bit tick count t, the seconds-since-epoch value computed
by the conversion of `getSystemTime` equals floor(t * 90 / 1000); the two
products, the subtrahend and the final sum of the computation are all below
2^32, and the subtraction does not go below zero, so that nothing is lost to
32-bit arithmetic. -/
theorem secsSinceEpoch_exact (t : Nat) (ht : t < 2 ^ 32) :
    secsSinceEpoch t = t * 90 / 1000 ∧
    (∀ v ∈ secsIntermediates t, v < 2 ^ 32) ∧
    (t / 1000 * 90 / 90) * 1000 ≤ t ∧
    t - (t / 1000 * 90 / 90) * 1000 < 1000 := by
  have hM : (2 : Nat) ^ 32 = 4294967296 := by norm_num
  rw [hM] at ht
  have h1 : (t / 1000 * 90) % 4294967296 = t / 1000 * 90 := by
    apply Nat.mod_eq_of_lt
    omega
  have h2 : t / 1000 * 90 / 90 = t / 1000 := by omega
  have h3 : (t / 1000 * 1000) % 4294967296 = t / 1000 * 1000 := by
    apply Nat.mod_eq_of_lt
    omega
  have h4 : (t + 4294967296 - t / 1000 * 1000) % 4294967296 = t % 1000 := by omega
  have h5 : (t % 1000 * 90) % 4294967296 = t % 1000 * 90 := by
    apply Nat.mod_eq_of_lt
    omega
  have h6 : (t / 1000 * 90 + t % 1000 * 90 / 1000) % 4294967296
      = t / 1000 * 90 + t % 1000 * 90 / 1000 := by
    apply Nat.mod_eq_of_lt
    omega
  refine ⟨?_, ?_, ?_, ?_⟩
  · simp only [secsSinceEpoch, hM, h1, h2, h3, h4, h5, h6]
    omega
  · intro v hv
    simp only [secsIntermediates, hM, h1, h2, h3, h4, h5, List.mem_cons, List.mem_singleton,
      List.not_mem_nil, or_false] at hv
    rw [hM]
    rcases hv with h | h | h | h <;> subst h <;> omega
  · rw [h2]
    omega
  · rw [h2]
    omega

/-- C35 (witness): the largest 32-bit tick count. -/
theorem secsSinceEpoch_exact_witness :
    secsSinceEpoch 4294967295 = 386547056 ∧ 4294967295 * 90 / 1000 = 386547056 ∧
    secsSinceEpoch 4294967295 = 4294967295 * 90 / 1000 :=
  ⟨by decide, by decide, (secsSinceEpoch_exact 4294967295 (by decide)).1⟩

/-! ## The capture buffer of `waitForATResponse` -/

/-- A property of the locals that every step of the loop body keeps is kept by
the inner loop. -/
theorem waitBytes_keeps (P : WaitState → Prop) (resp : Bool) (prompt : Option (List Nat))
    (T : List Nat) (hstep : ∀ w c, P w → P (waitStep resp prompt T w c).1)
    (bytes : List Nat) : ∀ (w : WaitState) (n : Nat), P w →
    P (waitBytes resp prompt T w n bytes).state := by
  induction bytes with
  | nil => intro w n h; exact h
  | cons c rest ih =>
    intro w n h
    by_cases hr : (waitStep resp prompt T w c).2 = true
    · simp only [waitBytes, hr, if_true]
      exact hstep w c h
    · have hr' : (waitStep resp prompt T w c).2 = false := by simpa using hr
      simp only [waitBytes, hr', Bool.false_eq_true, if_false]
      exact ih _ _ (hstep w c h)

/-- A property of the locals that every step of the loop body keeps is kept by
the timer loop. -/
theorem waitPolls_keeps (P : WaitState → Prop) (resp : Bool) (prompt : Option (List Nat))
    (T : List Nat) (hstep : ∀ w c, P w → P (waitStep resp prompt T w c).1)
    (polls : List Poll) : ∀ (w : WaitState) (n : Nat), P w →
    P (waitPolls resp prompt T w n polls).state := by
  induction polls with
  | nil => intro w n h; exact h
  | cons p rest ih =>
    intro w n h
    by_cases hc : p.cancelled = true
    · simp only [waitPolls, hc, if_true]
      exact h
    · have hb := waitBytes_keeps P resp prompt T hstep p.bytes w n h
      simp only [waitPolls, hc, Bool.false_eq_true, if_false]
      by_cases hm : (waitBytes resp prompt T w n p.bytes).matched = true
      · simp only [hm, if_true]
        exact hb
      · simp only [hm, Bool.false_eq_true, if_false]
        exact ih _ _ hb

/-- The capture keeps the count of bytes stored and the running capacity in
step, never uses the last place of the buffer, and stores nothing before the
prompt is matched. -/
theorem waitStep_capture (n : Nat) (resp : Bool) (prompt : Option (List Nat)) (T : List Nat)
    (w : WaitState) (c : Nat)
    (h : (w.response.length : Int) + w.responseSize = (n : Int) ∧ 1 ≤ w.responseSize ∧
      (w.promptState = PromptState.LOOKING_FOR_PROMPT → w.response = []) ∧
      (prompt = none → w.response = [])) :
    (((waitStep resp prompt T w c).1.response.length : Int)
        + (waitStep resp prompt T w c).1.responseSize = (n : Int)) ∧
    1 ≤ (waitStep resp prompt T w c).1.responseSize ∧
    ((waitStep resp prompt T w c).1.promptState = PromptState.LOOKING_FOR_PROMPT →
      (waitStep resp prompt T w c).1.response = []) ∧
    (prompt = none → (waitStep resp prompt T w c).1.response = []) := by
  rw [waitStep_state]
  simp only []
  obtain ⟨h1, h2, h3, h4⟩ := h
  unfold promptStep
  cases prompt with
  | none => exact ⟨h1, h2, h3, h4⟩
  | some p =>
    obtain ⟨r, sz, mp, mt, ps⟩ := w
    simp only [] at h1 h2 h3 h4
    cases ps
    · simp only []
      have hr := h3 rfl
      subst hr
      split
      · split
        · exact ⟨h1, h2, (fun _ => rfl), (fun h => by cases h)⟩
        · exact ⟨h1, h2, (fun _ => rfl), (fun h => by cases h)⟩
      · exact ⟨h1, h2, (fun _ => rfl), (fun h => by cases h)⟩
    · simp only []
      split
      · split
        · exact ⟨h1, h2, (fun h => by cases h), (fun h => by cases h)⟩
        · rename_i hc
          refine ⟨?_, ?_, (fun h => by cases h), (fun h => by cases h)⟩
          · simp only [List.length_append, List.length_singleton]
            push_cast
            omega
          · simp only [not_or, not_lt] at hc
            show 1 ≤ sz - 1
            omega
      · exact ⟨h1, h2, (fun h => by cases h), (fun h => by cases h)⟩
    · exact ⟨h1, h2, (fun h => by cases h), (fun h => by cases h)⟩

/-- C31: for every call of `waitForATResponse` with a capture buffer of capacity
n >= 1, every prompt and terminator, every sequence of passes (bytes, timeout,
cancellation) and every outcome: at most n-1 bytes are stored, from the start of
the buffer on, so all at indices below n-1; every place of the buffer from the
end of the stored bytes on holds zero, the last place included, so the buffer
holds a NUL-terminated string; and nothing is stored, the string being empty,
when the prompt was never matched or no prompt was given. -/
theorem capture_buffer_bounds (n : Nat) (prompt : Option (List Nat)) (T : List Nat)
    (polls : List Poll) (hn : 1 ≤ n) :
    (waitForATResponse (some (n : Int)) prompt T polls).state.response.length ≤ n - 1 ∧
    (bufferOf n (waitForATResponse (some (n : Int)) prompt T polls).state.response).length = n ∧
    (∀ i, i < (waitForATResponse (some (n : Int)) prompt T polls).state.response.length →
      (bufferOf n (waitForATResponse (some (n : Int)) prompt T polls).state.response)[i]?
        = (waitForATResponse (some (n : Int)) prompt T polls).state.response[i]?) ∧
    (∀ i, (waitForATResponse (some (n : Int)) prompt T polls).state.response.length ≤ i →
      i < n →
      (bufferOf n (waitForATResponse (some (n : Int)) prompt T polls).state.response)[i]?
        = some 0) ∧
    (bufferOf n (waitForATResponse (some (n : Int)) prompt T polls).state.response)[n - 1]?
      = some 0 ∧
    ((waitForATResponse (some (n : Int)) prompt T polls).state.promptState
        = PromptState.LOOKING_FOR_PROMPT ∨ prompt = none →
      (waitForATResponse (some (n : Int)) prompt T polls).state.response = [] ∧
      textOf (bufferOf n (waitForATResponse (some (n : Int)) prompt T polls).state.response)
        = []) := by
  have hinv := waitPolls_keeps
    (fun w => (w.response.length : Int) + w.responseSize = (n : Int) ∧ 1 ≤ w.responseSize ∧
      (w.promptState = PromptState.LOOKING_FOR_PROMPT → w.response = []) ∧
      (prompt = none → w.response = []))
    true prompt T (fun w c h => waitStep_capture n true prompt T w c h) polls
    (WaitState.init (n : Int) prompt) 0
    ⟨by simp [WaitState.init], by simp only [WaitState.init]; omega,
     fun _ => rfl, fun _ => rfl⟩
  have hw : waitForATResponse (some (n : Int)) prompt T polls
      = waitPolls true prompt T (WaitState.init (n : Int) prompt) 0 polls := rfl
  rw [hw]
  generalize (waitPolls true prompt T (WaitState.init (n : Int) prompt) 0 polls).state = w at hinv
  obtain ⟨h1, h2, h3, h4⟩ := hinv
  have hlen : w.response.length ≤ n - 1 := by omega
  have hzero : ∀ i, w.response.length ≤ i → i < n → (bufferOf n w.response)[i]? = some 0 := by
    intro i hi hin
    unfold bufferOf
    rw [List.getElem?_append_right hi, List.getElem?_replicate]
    have : i - w.response.length < n - w.response.length := by omega
    simp [this]
  refine ⟨hlen, ?_, ?_, hzero, hzero (n - 1) (by omega) (by omega), ?_⟩
  · unfold bufferOf
    simp only [List.length_append, List.length_replicate]
    omega
  · intro i hi
    unfold bufferOf
    rw [List.getElem?_append_left hi]
  · intro h
    have hr : w.response = [] := by
      rcases h with h | h
      · exact h3 h
      · exact h4 h
    refine ⟨hr, ?_⟩
    rw [hr]
    unfold bufferOf textOf
    cases n with
    | zero => omega
    | succ k => simp [List.replicate_succ, List.takeWhile]

/-- C31 (witness): a buffer of capacity 4 offered the six characters "123456"
after the prompt keeps "123". -/
theorem capture_buffer_bounds_witness :
    bufferOf 4 (waitForATResponse (some 4) (some (cstr "+CSQ:")) (cstr "OK\r\n")
      [⟨false, cstr "AT+CSQ\r\r\n+CSQ:123456\r\n\r\nOK\r\n"⟩]).state.response
      = cstr "123" ++ [0] ∧
    (waitForATResponse (some ((4 : Nat) : Int)) (some (cstr "+CSQ:")) (cstr "OK\r\n")
      [⟨false, cstr "AT+CSQ\r\r\n+CSQ:123456\r\n\r\nOK\r\n"⟩]).state.response.length ≤ 4 - 1 :=
  ⟨by decide,
   (capture_buffer_bounds 4 (some (cstr "+CSQ:")) (cstr "OK\r\n")
      [⟨false, cstr "AT+CSQ\r\r\n+CSQ:123456\r\n\r\nOK\r\n"⟩] (by decide)).1⟩

/-! ## The time-sync gate and the overall deadline -/

/-- A pass of the SBDIX loop whose AT-MSSTM exchange fails returns that failure
without a further command. -/
theorem sbdixPass_msstm_failed (rxBuffer : Bool) (s : IridiumSBD) (size : Option Nat)
    (tr : List LoopAction) (a : Attempt) (hw : s.msstmWorkaroundRequested = true)
    (hf : a.msstm.1 ≠ ISBD_SUCCESS) :
    sbdixPass rxBuffer s size tr a
      = PassOutcome.done { ret := some a.msstm.1, session := s, rxBufferSize := size,
                           trace := tr ++ [LoopAction.msstm] } := by
  have hm : (s.msstmWorkaroundRequested && decide (a.msstm.1 ≠ ISBD_SUCCESS)) = true := by
    simp [hw, hf]
  unfold sbdixPass
  rw [if_pos hm]

/-- A pass of the SBDIX loop whose AT-MSSTM exchange reports no valid time
issues no check-in: it waits ISBD_MSSTM_RETRY_INTERVAL seconds and goes back to
the loop test, or returns ISBD_CANCELLED when the wait is cancelled. -/
theorem sbdixPass_gate_closed (rxBuffer : Bool) (s : IridiumSBD) (size : Option Nat)
    (tr : List LoopAction) (a : Attempt) (hw : s.msstmWorkaroundRequested = true)
    (hf : a.msstm = (ISBD_SUCCESS, false)) :
    sbdixPass rxBuffer s size tr a
      = if !a.waitOk then
          PassOutcome.done { ret := some ISBD_CANCELLED, session := s, rxBufferSize := size,
                             trace := tr ++ [LoopAction.msstm]
                               ++ [LoopAction.wait ISBD_MSSTM_RETRY_INTERVAL] }
        else
          PassOutcome.again
            (tr ++ [LoopAction.msstm] ++ [LoopAction.wait ISBD_MSSTM_RETRY_INTERVAL]) := by
  have hm : ¬ ((s.msstmWorkaroundRequested && decide (a.msstm.1 ≠ ISBD_SUCCESS)) = true) := by
    simp [hw, hf]
  have hg : ¬ ((if s.msstmWorkaroundRequested then a.msstm.2 else true) = true) := by
    simp [hw, hf]
  unfold sbdixPass
  rw [if_neg hm]
  simp only []
  rw [if_neg hg, if_pos hw]

/-- A pass of the SBDIX loop in which every exchange succeeds, the check-in, if
it is issued, gets a retryable status, and the wait is not cancelled, goes back
to the loop test. -/
theorem sbdixPass_retry (rxBuffer : Bool) (s : IridiumSBD) (size : Option Nat)
    (tr : List LoopAction) (a : Attempt)
    (hm : s.msstmWorkaroundRequested = true → a.msstm.1 = ISBD_SUCCESS)
    (hx : s.msstmWorkaroundRequested = false ∨ a.msstm.2 = true →
      a.sbdix.1 = ISBD_SUCCESS ∧ 4 < a.sbdix.2.moCode ∧
      ¬ (a.sbdix.2.moCode = 12 ∨ a.sbdix.2.moCode = 14 ∨ a.sbdix.2.moCode = 16))
    (hw : a.waitOk = true) :
    ∃ tr1, sbdixPass rxBuffer s size tr a = PassOutcome.again tr1 := by
  have h0 : ¬ ((s.msstmWorkaroundRequested && decide (a.msstm.1 ≠ ISBD_SUCCESS)) = true) := by
    cases hs : s.msstmWorkaroundRequested
    · simp
    · simp [hm hs]
  have h5 : ¬ ((!a.waitOk) = true) := by simp [hw]
  unfold sbdixPass
  rw [if_neg h0]
  simp only []
  by_cases hg : (if s.msstmWorkaroundRequested then a.msstm.2 else true) = true
  · have hopen : s.msstmWorkaroundRequested = false ∨ a.msstm.2 = true := by
      cases hs : s.msstmWorkaroundRequested
      · exact Or.inl rfl
      · rw [hs] at hg
        exact Or.inr (by simpa using hg)
    obtain ⟨h1, h2, h3⟩ := hx hopen
    have h1' : ¬ (a.sbdix.1 ≠ ISBD_SUCCESS) := fun h => h h1
    have h2' : ¬ (0 ≤ a.sbdix.2.moCode ∧ a.sbdix.2.moCode ≤ 4) := by omega
    rw [if_pos hg, if_neg h1', if_neg h2', if_neg h3, if_neg h5]
    exact ⟨_, rfl⟩
  · rw [if_neg hg, if_neg h5]
    exact ⟨_, rfl⟩

/-- The loop goes through passes that all go back to the loop test, and carries
on with the passes that follow, the session as it was. -/
theorem sbdixLoop_retries (rxBuffer : Bool) (start : Nat) (s : IridiumSBD)
    (size : Option Nat) (pre rest : List Attempt)
    (hpre : ∀ b ∈ pre, withinDeadline s start b.now = true ∧
      (s.msstmWorkaroundRequested = true → b.msstm.1 = ISBD_SUCCESS) ∧
      (s.msstmWorkaroundRequested = false ∨ b.msstm.2 = true →
        b.sbdix.1 = ISBD_SUCCESS ∧ 4 < b.sbdix.2.moCode ∧
        ¬ (b.sbdix.2.moCode = 12 ∨ b.sbdix.2.moCode = 14 ∨ b.sbdix.2.moCode = 16)) ∧
      b.waitOk = true) :
    ∀ tr, ∃ tr1, sbdixLoop rxBuffer start s size tr (pre ++ rest)
      = sbdixLoop rxBuffer start s size tr1 rest := by
  induction pre with
  | nil => intro tr; exact ⟨tr, rfl⟩
  | cons b pre ih =>
    intro tr
    obtain ⟨hdl, hm, hx, hw⟩ := hpre b (List.mem_cons_self _ _)
    obtain ⟨tr1, h1⟩ := sbdixPass_retry rxBuffer s size tr b hm hx hw
    obtain ⟨tr2, h2⟩ := ih (fun c hc => hpre c (List.mem_cons_of_mem _ hc)) tr1
    refine ⟨tr2, ?_⟩
    simp only [List.cons_append, sbdixLoop, hdl, Bool.not_true, Bool.false_eq_true, if_false, h1]
    exact h2

/-- C33 (counterexample): the transmit phase succeeds, nothing is cancelled and
no check-in reply carries a status that is not retryable, yet the operation
returns ISBD_PROTOCOL_ERROR, not ISBD_SENDRECEIVE_TIMEOUT: the AT-MSSTM
exchange of the time-sync workaround gets no answer; and with a send/receive
timeout of -1 second a pass of the loop starts although the elapsed time 0 is
not below 1000 * (-1). -/
theorem retryable_replies_without_timeout :
    internalMSSTMWorkaround [⟨false, []⟩, ⟨false, []⟩] false = (ISBD_PROTOCOL_ERROR, false) ∧
    (transmitPhase { new (-1) (-1) with asleep := false } (some (cstr "hello")) none
        ⟨true, true, false⟩).1 = none ∧
    (internalSendReceiveSBD { new (-1) (-1) with asleep := false } (some (cstr "hello")) none
        false none
        ⟨⟨true, true, false⟩, 0,
         [⟨0, internalMSSTMWorkaround [⟨false, []⟩, ⟨false, []⟩] false,
           (ISBD_SUCCESS, ⟨32, 0, 0, 0, 0, 0⟩), (0, 0), true⟩,
          ⟨300000, (ISBD_SUCCESS, true), (ISBD_SUCCESS, ⟨32, 0, 0, 0, 0, 0⟩), (0, 0), true⟩]⟩).ret
      = some ISBD_PROTOCOL_ERROR ∧
    withinDeadline (adjustSendReceiveTimeout (new (-1) (-1)) (-1)) 0 0 = true ∧
    ¬ (((0 : Int) - 0) % 2 ^ 32 < 1000 * (-1)) := by
  decide

/-- C33 (amended): when every pass of the check-in loop that starts has a
successful AT-MSSTM exchange (if the workaround is enforced), gets a retryable
status from its check-in (if the check-in is issued) and is not cancelled, the
loop ends at the first loop test that finds the deadline passed, with
ISBD_SENDRECEIVE_TIMEOUT and the session unchanged, and so does
`internalSendReceiveSBD` after a successful transmit phase; for a send/receive
timeout of 0 to 4294967 seconds and 32-bit clock values a pass starts exactly
while (now - loopStart) mod 2^32 < 1000 * sendReceiveTimeout; with
sendReceiveTimeout = 0 the result is ISBD_SENDRECEIVE_TIMEOUT at the first loop
test, no command having been issued. -/
theorem retry_until_deadline (rxBuffer : Bool) (start : Nat) (s : IridiumSBD)
    (size : Option Nat) (pre : List Attempt) (a : Attempt) (rest : List Attempt)
    (hpre : ∀ b ∈ pre, withinDeadline s start b.now = true ∧
      (s.msstmWorkaroundRequested = true → b.msstm.1 = ISBD_SUCCESS) ∧
      (s.msstmWorkaroundRequested = false ∨ b.msstm.2 = true →
        b.sbdix.1 = ISBD_SUCCESS ∧ 4 < b.sbdix.2.moCode ∧
        ¬ (b.sbdix.2.moCode = 12 ∨ b.sbdix.2.moCode = 14 ∨ b.sbdix.2.moCode = 16)) ∧
      b.waitOk = true)
    (hlast : withinDeadline s start a.now = false) :
    (∀ tr, (sbdixLoop rxBuffer start s size tr (pre ++ a :: rest)).ret
        = some ISBD_SENDRECEIVE_TIMEOUT ∧
      (sbdixLoop rxBuffer start s size tr (pre ++ a :: rest)).session = s) ∧
    (∀ (txTxtMessage txData : Option (List Nat)) (tx : TxEnv),
      (transmitPhase s txTxtMessage txData tx).1 = none →
      (internalSendReceiveSBD s txTxtMessage txData rxBuffer size
        ⟨tx, start, pre ++ a :: rest⟩).ret = some ISBD_SENDRECEIVE_TIMEOUT) ∧
    (0 ≤ s.sendReceiveTimeout → 1000 * s.sendReceiveTimeout < 2 ^ 32 → start < 2 ^ 32 →
      ∀ now, now < 2 ^ 32 →
        (withinDeadline s start now = true
          ↔ ((now : Int) - (start : Int)) % 2 ^ 32 < 1000 * s.sendReceiveTimeout)) ∧
    (s.sendReceiveTimeout = 0 →
      ∀ tr (b : Attempt) (more : List Attempt),
        sbdixLoop rxBuffer start s size tr (b :: more)
          = { ret := some ISBD_SENDRECEIVE_TIMEOUT, session := s, rxBufferSize := size,
              trace := tr }) := by
  have hloop : ∀ tr, (sbdixLoop rxBuffer start s size tr (pre ++ a :: rest)).ret
        = some ISBD_SENDRECEIVE_TIMEOUT ∧
      (sbdixLoop rxBuffer start s size tr (pre ++ a :: rest)).session = s := by
    intro tr
    obtain ⟨tr1, h1⟩ := sbdixLoop_retries rxBuffer start s size pre (a :: rest) hpre tr
    rw [h1]
    simp [sbdixLoop, hlast]
  refine ⟨hloop, ?_, ?_, ?_⟩
  · intro txt data tx htx
    simp only [internalSendReceiveSBD, htx]
    exact (hloop []).1
  · intro h0 h1 hs now hn
    have hm : (1000 * s.sendReceiveTimeout) % 2 ^ 32 = 1000 * s.sendReceiveTimeout :=
      Int.emod_eq_of_lt (by omega) h1
    simp only [withinDeadline, decide_eq_true_eq, hm]
    have hM : (2 : Nat) ^ 32 = 4294967296 := by norm_num
    have hMi : (2 : Int) ^ 32 = 4294967296 := by norm_num
    rw [hM] at hs hn ⊢
    rw [hMi] at h1 ⊢
    omega
  · intro h0 tr b more
    have hd : withinDeadline s start b.now = false := by
      simp [withinDeadline, h0]
    simp [sbdixLoop, hd]

/-- C33 (witness): send/receive timeout 300 s, workaround enforced; a retryable
reply at 0 s, no valid time at 30 s, deadline passed at 300 s. -/
theorem retry_until_deadline_witness :
    (sbdixLoop false 0 { new (-1) (-1) with asleep := false } none []
        ([⟨0, (ISBD_SUCCESS, true), (ISBD_SUCCESS, ⟨32, 1, 0, 0, 0, 0⟩), (0, 0), true⟩,
          ⟨30000, (ISBD_SUCCESS, false), (ISBD_SUCCESS, ⟨0, 0, 0, 0, 0, 0⟩), (0, 0), true⟩]
         ++ ⟨300000, (ISBD_SUCCESS, true), (ISBD_SUCCESS, ⟨0, 0, 0, 0, 0, 0⟩), (0, 0), true⟩
            :: [])).ret = some ISBD_SENDRECEIVE_TIMEOUT :=
  ((retry_until_deadline false 0 { new (-1) (-1) with asleep := false } none
      [⟨0, (ISBD_SUCCESS, true), (ISBD_SUCCESS, ⟨32, 1, 0, 0, 0, 0⟩), (0, 0), true⟩,
       ⟨30000, (ISBD_SUCCESS, false), (ISBD_SUCCESS, ⟨0, 0, 0, 0, 0, 0⟩), (0, 0), true⟩]
      ⟨300000, (ISBD_SUCCESS, true), (ISBD_SUCCESS, ⟨0, 0, 0, 0, 0, 0⟩), (0, 0), true⟩ []
      (by decide) (by decide)).1 []).1

/-- C34 (counterexample): the workaround is enforced, AT-MSSTM answers "no
network service", and the wait that follows is cancelled: the iteration does
not loop, the operation returns ISBD_CANCELLED (no AT+SBDIX having been
issued). -/
theorem invalid_time_wait_cancelled :
    internalMSSTMWorkaround
        [⟨false, cstr "AT-MSSTM\r\r\n-MSSTM: no network service\r\n\r\nOK\r\n"⟩] false
      = (ISBD_SUCCESS, false) ∧
    sbdixLoop false 0 { new (-1) (-1) with asleep := false } none []
        [⟨0, internalMSSTMWorkaround
              [⟨false, cstr "AT-MSSTM\r\r\n-MSSTM: no network service\r\n\r\nOK\r\n"⟩] false,
           (ISBD_SUCCESS, ⟨0, 0, 0, 0, 0, 0⟩), (0, 0), false⟩,
         ⟨10000, (ISBD_SUCCESS, true), (ISBD_SUCCESS, ⟨0, 0, 0, 0, 0, 0⟩), (0, 0), true⟩]
      = { ret := some ISBD_CANCELLED, session := { new (-1) (-1) with asleep := false },
          rxBufferSize := none,
          trace := [LoopAction.msstm, LoopAction.wait ISBD_MSSTM_RETRY_INTERVAL] } := by
  decide

/-- C34 (amended): while the time-sync workaround is enforced, in a loop
iteration whose AT-MSSTM exchange succeeds with an invalid reply (first captured
character not a hexadecimal digit, as in "no network service") AT+SBDIX is not
issued: the iteration only waits ISBD_MSSTM_RETRY_INTERVAL seconds and then goes
back to the loop test, unless the wait is cancelled, in which case the operation
returns ISBD_CANCELLED; and a failed AT-MSSTM exchange ends the operation with
that failure (ISBD_CANCELLED or ISBD_PROTOCOL_ERROR), no further command having
been issued. -/
theorem msstm_gate (rxBuffer : Bool) (start : Nat) (s : IridiumSBD) (size : Option Nat)
    (tr : List LoopAction) (a : Attempt) (rest : List Attempt) (polls : List Poll)
    (cancelled : Bool)
    (hw : s.msstmWorkaroundRequested = true) (hdl : withinDeadline s start a.now = true)
    (ha : a.msstm = internalMSSTMWorkaround polls cancelled) :
    ((waitForATResponse (some 24) (some (cstr "-MSSTM: ")) (cstr "OK\r\n") polls).matched
        = true →
      isXDigit (cstrAt (bufferOf 24 (waitForATResponse (some 24) (some (cstr "-MSSTM: "))
        (cstr "OK\r\n") polls).state.response) 0) = false →
      (a.waitOk = true →
        sbdixLoop rxBuffer start s size tr (a :: rest)
          = sbdixLoop rxBuffer start s size
              (tr ++ [LoopAction.msstm] ++ [LoopAction.wait ISBD_MSSTM_RETRY_INTERVAL]) rest) ∧
      (a.waitOk = false →
        sbdixLoop rxBuffer start s size tr (a :: rest)
          = { ret := some ISBD_CANCELLED, session := s, rxBufferSize := size,
              trace := tr ++ [LoopAction.msstm]
                ++ [LoopAction.wait ISBD_MSSTM_RETRY_INTERVAL] })) ∧
    ((waitForATResponse (some 24) (some (cstr "-MSSTM: ")) (cstr "OK\r\n") polls).matched
        = false →
      sbdixLoop rxBuffer start s size tr (a :: rest)
        = { ret := some (if cancelled then ISBD_CANCELLED else ISBD_PROTOCOL_ERROR),
            session := s, rxBufferSize := size, trace := tr ++ [LoopAction.msstm] }) := by
  refine ⟨fun hm hx => ?_, fun hm => ?_⟩
  · have hms : a.msstm = (ISBD_SUCCESS, false) := by
      rw [ha]
      simp only [internalMSSTMWorkaround, hm, Bool.not_true, Bool.false_eq_true, if_false, hx]
    have hp := sbdixPass_gate_closed rxBuffer s size tr a hw hms
    refine ⟨fun hwait => ?_, fun hwait => ?_⟩
    · simp only [sbdixLoop, hdl, Bool.not_true, Bool.false_eq_true, if_false, hp, hwait]
    · simp only [sbdixLoop, hdl, Bool.not_true, Bool.false_eq_true, if_false, hp, hwait,
        Bool.not_false, if_true]
  · have hms : a.msstm
        = (if cancelled then ISBD_CANCELLED else ISBD_PROTOCOL_ERROR, false) := by
      rw [ha]
      simp only [internalMSSTMWorkaround, hm, Bool.not_false, if_true]
    have hne : a.msstm.1 ≠ ISBD_SUCCESS := by
      rw [hms]
      cases cancelled <;> decide
    have hp := sbdixPass_msstm_failed rxBuffer s size tr a hw hne
    simp only [sbdixLoop, hdl, Bool.not_true, Bool.false_eq_true, if_false, hp, hms]

/-- C34 (witness): "no network service" and an undisturbed wait: the next pass
starts with the actions AT-MSSTM and wait 10 behind it. -/
theorem msstm_gate_witness :
    sbdixLoop false 0 { new (-1) (-1) with asleep := false } none []
        (⟨0, (ISBD_SUCCESS, false), (ISBD_SUCCESS, ⟨0, 0, 0, 0, 0, 0⟩), (0, 0), true⟩ :: [])
      = sbdixLoop false 0 { new (-1) (-1) with asleep := false } none
          ([] ++ [LoopAction.msstm] ++ [LoopAction.wait ISBD_MSSTM_RETRY_INTERVAL]) [] :=
  ((msstm_gate false 0 { new (-1) (-1) with asleep := false } none []
      ⟨0, (ISBD_SUCCESS, false), (ISBD_SUCCESS, ⟨0, 0, 0, 0, 0, 0⟩), (0, 0), true⟩ []
      [⟨false, cstr "AT-MSSTM\r\r\n-MSSTM: no network service\r\n\r\nOK\r\n"⟩] false
      rfl (by decide) (by decide)).1 (by decide) (by decide)).1 rfl

/-! ## Binary receive: what the result depends on -/

/-- The wait for two bytes keeps the bytes of the transport in order. -/
theorem awaitTwo_stream : ∀ (ticks : List Tick) (buf : List Nat),
    (awaitTwo buf ticks).2.1 ++ tickBytes (awaitTwo buf ticks).2.2 = buf ++ tickBytes ticks := by
  intro ticks
  induction ticks with
  | nil => intro buf; simp [awaitTwo, tickBytes]
  | cons t rest ih =>
    intro buf
    simp only [awaitTwo]
    split
    · simp [tickBytes]
    · split
      · simp [tickBytes]
      · split
        · simp [tickBytes]
        · rw [ih]
          simp [tickBytes]

/-- The wait for two bytes depends on the timing only. -/
theorem awaitTwo_timing : ∀ (ticks ticks' : List Tick) (buf buf' : List Nat),
    buf.length = buf'.length → tickTiming ticks = tickTiming ticks' →
    (awaitTwo buf ticks).1 = (awaitTwo buf' ticks').1 ∧
    (awaitTwo buf ticks).2.1.length = (awaitTwo buf' ticks').2.1.length ∧
    tickTiming (awaitTwo buf ticks).2.2 = tickTiming (awaitTwo buf' ticks').2.2 := by
  intro ticks
  induction ticks with
  | nil =>
    intro ticks' buf buf' hb ht
    cases ticks' with
    | nil => simp [awaitTwo, hb]
    | cons t' rest' => simp [tickTiming] at ht
  | cons t rest ih =>
    intro ticks' buf buf' hb ht
    cases ticks' with
    | nil => simp [tickTiming] at ht
    | cons t' rest' =>
      simp only [tickTiming, List.map_cons, List.cons.injEq, Prod.mk.injEq] at ht
      obtain ⟨⟨hc, hl, he⟩, hrest⟩ := ht
      have hlen : (buf ++ t.arrived).length = (buf' ++ t'.arrived).length := by
        simp only [List.length_append, hb, hl]
      simp only [awaitTwo, hc, he, hlen]
      split
      · exact ⟨rfl, hlen, hrest⟩
      · split
        · exact ⟨rfl, hlen, hrest⟩
        · split
          · exact ⟨rfl, hlen, hrest⟩
          · exact ih rest' _ _ hlen hrest

/-- The payload loop depends on the timing and on the bytes it reads only. -/
theorem readBody_timing (rxBuffer : Bool) : ∀ (ticks ticks' : List Tick) (n : Nat)
    (buf buf' : List Nat) (rx : RxState) (got : List Nat),
    buf.length = buf'.length → tickTiming ticks = tickTiming ticks' →
    (buf ++ tickBytes ticks).take n = (buf' ++ tickBytes ticks').take n →
    (readBody rxBuffer n buf rx got ticks).ret = (readBody rxBuffer n buf' rx got ticks').ret ∧
    (readBody rxBuffer n buf rx got ticks).rx = (readBody rxBuffer n buf' rx got ticks').rx ∧
    (readBody rxBuffer n buf rx got ticks).read = (readBody rxBuffer n buf' rx got ticks').read ∧
    (readBody rxBuffer n buf rx got ticks).buf.length
      = (readBody rxBuffer n buf' rx got ticks').buf.length ∧
    tickTiming (readBody rxBuffer n buf rx got ticks).ticks
      = tickTiming (readBody rxBuffer n buf' rx got ticks').ticks := by
  intro ticks
  induction ticks with
  | nil =>
    intro ticks' n buf buf' rx got hb ht hs
    cases ticks' with
    | cons t' rest' => simp [tickTiming] at ht
    | nil =>
      cases n with
      | zero => simp [readBody, hb]
      | succ n => simp [readBody, hb]
  | cons t rest ih =>
    intro ticks' n buf buf' rx got hb ht hs
    cases ticks' with
    | nil => simp [tickTiming] at ht
    | cons t' rest' =>
      cases n with
      | zero => simp [readBody, hb, ht]
      | succ n =>
        have ht0 := ht
        simp only [tickTiming, List.map_cons, List.cons.injEq, Prod.mk.injEq] at ht
        obtain ⟨⟨hc, hl, he⟩, hrest⟩ := ht
        have hlen : (buf ++ t.arrived).length = (buf' ++ t'.arrived).length := by
          simp only [List.length_append, hb, hl]
        simp only [tickBytes, ← List.append_assoc] at hs
        generalize hB : buf ++ t.arrived = B at hs hlen
        generalize hB' : buf' ++ t'.arrived = B' at hs hlen
        simp only [readBody, hc, he, hB, hB']
        split
        · exact ⟨rfl, rfl, rfl, hlen, hrest⟩
        · cases B with
          | nil =>
            cases B' with
            | cons c' b1' => simp at hlen
            | nil =>
              simp only []
              split
              · exact ⟨rfl, rfl, rfl, rfl, hrest⟩
              · exact ih rest' (n + 1) [] [] rx got rfl hrest (by simpa using hs)
          | cons c b1 =>
            cases B' with
            | nil => simp at hlen
            | cons c' b1' =>
              simp only [List.cons_append, List.take_succ_cons, List.cons.injEq] at hs
              obtain ⟨hcc, hs1⟩ := hs
              subst hcc
              have hl1 : b1.length = b1'.length := by simpa using hlen
              simp only []
              split
              · exact ⟨rfl, rfl, rfl, hl1, hrest⟩
              · exact ih rest' n b1 b1' _ _ hl1 hrest hs1

/-- C32: the received checksum does not influence binary receive: for two raw
input streams to `doSBDRB` with the same timing that agree in every byte before
the two checksum bytes that follow the payload (the two length bytes h, l and
the payload of the declared length), whatever their checksum bytes are,
`doSBDRB` returns the same result code, stores the same bytes in the caller's
buffer and reports the same length. -/
theorem checksum_not_used (rxBuffer : Bool) (prxBufferSize : Option Nat)
    (echo final : List Poll) (cancelled : Bool) (ticks ticks' : List Tick)
    (h l : Nat) (rest : List Nat)
    (htime : tickTiming ticks = tickTiming ticks')
    (hstream : tickBytes ticks = h :: l :: rest)
    (hsame : (tickBytes ticks').take (readUInt16 h l + 2)
      = (tickBytes ticks).take (readUInt16 h l + 2)) :
    (doSBDRB rxBuffer prxBufferSize echo ticks final cancelled).ret
      = (doSBDRB rxBuffer prxBufferSize echo ticks' final cancelled).ret ∧
    (doSBDRB rxBuffer prxBufferSize echo ticks final cancelled).stored
      = (doSBDRB rxBuffer prxBufferSize echo ticks' final cancelled).stored ∧
    (doSBDRB rxBuffer prxBufferSize echo ticks final cancelled).rxBufferSize
      = (doSBDRB rxBuffer prxBufferSize echo ticks' final cancelled).rxBufferSize := by
  obtain ⟨a1, a2, a3⟩ := awaitTwo_timing ticks ticks' [] [] rfl htime
  have s1 := awaitTwo_stream ticks []
  have s1' := awaitTwo_stream ticks' []
  rcases hA : awaitTwo [] ticks with ⟨code, b, tk⟩
  rcases hA' : awaitTwo [] ticks' with ⟨code', b', tk'⟩
  rw [hA] at a1 a2 a3 s1
  rw [hA'] at a1 a2 a3 s1'
  simp only [List.nil_append] at a1 a2 a3 s1 s1'
  subst a1
  unfold doSBDRB
  by_cases hecho : (waitForATResponse none none (cstr "AT+SBDRB\r") echo).matched = true
  swap
  · simp [hecho]
  simp only [hecho, Bool.not_true, Bool.false_eq_true, if_false, hA, hA']
  cases code with
  | some c => exact ⟨rfl, rfl, rfl⟩
  | none =>
    match b, b', a2 with
    | [], [], _ => exact ⟨rfl, rfl, rfl⟩
    | [x], [x'], _ => exact ⟨rfl, rfl, rfl⟩
    | hi :: lo :: buf1, hi' :: lo' :: buf1', a2 =>
      rw [hstream] at s1 hsame
      simp only [List.cons_append, List.cons.injEq] at s1
      obtain ⟨e1, e2, s1⟩ := s1
      subst e1 e2
      rw [← s1'] at hsame
      simp only [List.cons_append, List.take_succ_cons, List.cons.injEq] at hsame
      obtain ⟨e1, e2, hsame⟩ := hsame
      subst e1 e2
      have hl1 : buf1.length = buf1'.length := by simpa using a2
      obtain ⟨b1, b2, b3, b4, b5⟩ := readBody_timing rxBuffer tk tk' (readUInt16 hi' lo')
        buf1 buf1' { stored := [], size := prxBufferSize, overflow := false } [] hl1 a3
        (by rw [s1]; exact hsame.symm)
      simp only []
      generalize readBody rxBuffer (readUInt16 hi' lo') buf1
        { stored := [], size := prxBufferSize, overflow := false } [] tk = body at b1 b2 b3 b4 b5
      generalize readBody rxBuffer (readUInt16 hi' lo') buf1'
        { stored := [], size := prxBufferSize, overflow := false } [] tk' = body'
        at b1 b2 b3 b4 b5
      obtain ⟨c1, c2, c3⟩ := awaitTwo_timing body.ticks body'.ticks body.buf body'.buf b4 b5
      rcases hB : awaitTwo body.buf body.ticks with ⟨code2, bb, tk2⟩
      rcases hB' : awaitTwo body'.buf body'.ticks with ⟨code2', bb', tk2'⟩
      rw [hB, hB'] at c1 c2 c3
      simp only at c1 c2 c3
      subst c1
      rw [← b1, ← b2]
      cases hr : body.ret with
      | some c => exact ⟨rfl, rfl, rfl⟩
      | none =>
        simp only []
        cases code2 with
        | some c => exact ⟨rfl, rfl, rfl⟩
        | none =>
          match bb, bb', c2 with
          | [], [], _ => exact ⟨rfl, rfl, rfl⟩
          | [x], [x'], _ => exact ⟨rfl, rfl, rfl⟩
          | x1 :: x2 :: bb1, y1 :: y2 :: bb1', _ =>
            simp only []
            split <;> exact ⟨rfl, rfl, rfl⟩

/-- C32 (witness): a payload of three bytes, once with the checksum 00 06 and
once with the checksum 09 09: both runs succeed with the same buffer. -/
theorem checksum_not_used_witness :
    doSBDRB true (some 8) [⟨false, cstr "AT+SBDRB\r"⟩]
        [⟨false, [0, 3, 1, 2, 3, 9, 9], false⟩, ⟨false, [], false⟩, ⟨false, [], false⟩,
         ⟨false, [], false⟩, ⟨false, [], false⟩]
        [⟨false, cstr "\r\nOK\r\n"⟩] false
      = { ret := ISBD_SUCCESS, stored := [1, 2, 3], rxBufferSize := some 3,
          rawRead := [0, 3, 1, 2, 3, 9, 9] } ∧
    (doSBDRB true (some 8) [⟨false, cstr "AT+SBDRB\r"⟩]
        [⟨false, [0, 3, 1, 2, 3, 0, 6], false⟩, ⟨false, [], false⟩, ⟨false, [], false⟩,
         ⟨false, [], false⟩, ⟨false, [], false⟩]
        [⟨false, cstr "\r\nOK\r\n"⟩] false).stored
      = (doSBDRB true (some 8) [⟨false, cstr "AT+SBDRB\r"⟩]
        [⟨false, [0, 3, 1, 2, 3, 9, 9], false⟩, ⟨false, [], false⟩, ⟨false, [], false⟩,
         ⟨false, [], false⟩, ⟨false, [], false⟩]
        [⟨false, cstr "\r\nOK\r\n"⟩] false).stored :=
  ⟨by decide,
   (checksum_not_used true (some 8) [⟨false, cstr "AT+SBDRB\r"⟩] [⟨false, cstr "\r\nOK\r\n"⟩]
      false
      [⟨false, [0, 3, 1, 2, 3, 0, 6], false⟩, ⟨false, [], false⟩, ⟨false, [], false⟩,
       ⟨false, [], false⟩, ⟨false, [], false⟩]
      [⟨false, [0, 3, 1, 2, 3, 9, 9], false⟩, ⟨false, [], false⟩, ⟨false, [], false⟩,
       ⟨false, [], false⟩, ⟨false, [], false⟩]
      0 3 [1, 2, 3, 0, 6] (by decide) (by decide) (by decide)).2.1⟩

/-! ## The filter queue and the terminators of the library -/

/-- The loop body returns true exactly when the byte completes the terminator,
and the terminator counter moves as `nextPos` says. -/
theorem waitStep_completes (resp : Bool) (prompt : Option (List Nat)) (T : List Nat)
    (w : WaitState) (c : Nat) :
    ((waitStep resp prompt T w c).2 = true ↔ completes T w.matchTerminatorPos c) ∧
    (waitStep resp prompt T w c).1.matchTerminatorPos = nextPos T w.matchTerminatorPos c := by
  unfold waitStep terminatorStep completes nextPos
  rw [promptStep_mtp]
  by_cases h1 : c = cstrAt T w.matchTerminatorPos
  · by_cases h2 : cstrAt T (w.matchTerminatorPos + 1) = 0
    · simp [h1, h2]
    · simp [h1, h2]
  · simp [h1]

/-- A byte that does not complete a terminator leaves the counter within it. -/
theorem nextPos_lt (T : List Nat) (hlen : 2 ≤ T.length) (hT : ∀ c ∈ T, c ≠ 0)
    (pos c : Nat) (hc : ¬ completes T pos c) :
    nextPos T pos c < T.length := by
  unfold nextPos
  by_cases h1 : c = cstrAt T pos
  · rw [if_pos h1]
    have h2 : ¬ cstrAt T (pos + 1) = 0 := fun h => hc ⟨h1, h⟩
    rw [cstrAt_eq_zero_iff T hT] at h2
    omega
  · rw [if_neg h1]
    split <;> omega

/-- The filter keeps the offsets of its queue in order, and moves `tail` only by
resetting it. -/
theorem filterSBDRING_queue (cs : Bool) : ∀ (evs : Raw) (s : IridiumSBD), QueueOK s →
    QueueOK (filterSBDRING cs s evs).1 ∧
    (0 < (filterSBDRING cs s evs).1.tail → (filterSBDRING cs s evs).1.tail = s.tail) := by
  intro evs
  induction evs with
  | nil => intro s hs; exact ⟨hs, fun _ => rfl⟩
  | cons e rest ih =>
    intro s hs
    cases e with
    | none => exact ⟨hs, fun _ => rfl⟩
    | some b =>
      obtain ⟨h1, h2, h3⟩ := hs
      rw [filterSBDRING]
      split
      · exact ⟨⟨h1, h2, h3⟩, fun _ => rfl⟩
      · split
        · split
          · obtain ⟨i1, i2⟩ := ih { SBDRINGSeen s with head := 0, tail := 0 }
              ⟨le_refl _, by simp, Or.inl rfl⟩
            exact ⟨i1, fun h => by have e := i2 h; change _ = 0 at e; omega⟩
          · rename_i hnz
            have h8 : s.head + 1 ≤ 8 := by
              have := (cstrAt_SBDRING_succ s.head h2).not.1 hnz
              omega
            split
            · exact ih { s with head := s.head + 1 }
                ⟨by simp only []; omega, h8, by simp only []; omega⟩
            · exact ih { s with head := s.head + 1 - 1, nextChar := charToInt cs b }
                ⟨by simp only []; omega, by simp only []; omega, by simp only []; omega⟩
        · exact ih { s with nextChar := charToInt cs b } ⟨h1, h2, h3⟩

/-- When the response matcher, run on the raw transport with a terminator that
no byte of the filter queue can complete, returns true, the byte that completed
the terminator was the held-back byte: the filter is left with an empty queue
and no byte held back. -/
theorem matched_filter_empty (cs resp : Bool) (prompt : Option (List Nat)) (T : List Nat)
    (hq : QuietTerminator T) : ∀ (fuel : Nat) (w : WaitState) (s : IridiumSBD) (evs : Raw),
    QueueOK s → w.matchTerminatorPos < T.length →
    (0 < s.tail → ¬ completes T w.matchTerminatorPos (cstrAt SBDRING s.tail)) →
    (waitForATResponseRaw cs resp prompt T fuel w s evs).1 = true →
    (waitForATResponseRaw cs resp prompt T fuel w s evs).2.2.1.nextChar = -1 ∧
    (waitForATResponseRaw cs resp prompt T fuel w s evs).2.2.1.head = 0 ∧
    (waitForATResponseRaw cs resp prompt T fuel w s evs).2.2.1.tail = 0 := by
  obtain ⟨hlen, hT, hQ⟩ := hq
  intro fuel
  induction fuel with
  | zero =>
    intro w s evs _ _ _ h
    simp [waitForATResponseRaw] at h
  | succ fuel ih =>
    intro w s evs hs hpos hL hm
    obtain ⟨q1, t1⟩ := filterSBDRING_queue cs evs s hs
    generalize hF1 : filterSBDRING cs s evs = F1 at q1 t1
    obtain ⟨s1, evs1⟩ := F1
    simp only [] at q1 t1
    have hL1 : 0 < s1.tail → ¬ completes T w.matchTerminatorPos (cstrAt SBDRING s1.tail) := by
      intro h
      have e := t1 h
      rw [e]
      exact hL (by omega)
    obtain ⟨q2, t2⟩ := filterSBDRING_queue cs evs1 s1 q1
    generalize hF2 : filterSBDRING cs s1 evs1 = F2 at q2 t2
    obtain ⟨s2, evs2⟩ := F2
    simp only [] at q2 t2
    have hL2 : 0 < s2.tail → ¬ completes T w.matchTerminatorPos (cstrAt SBDRING s2.tail) := by
      intro h
      have e := t2 h
      rw [e]
      exact hL1 (by omega)
    obtain ⟨g1, g2, g3⟩ := q2
    rw [waitForATResponseRaw] at hm ⊢
    simp only [filteredavailable, hF1] at hm ⊢
    by_cases ha : ((s1.head : Int) - (s1.tail : Int) + (if s1.nextChar ≠ -1 then 1 else 0)) > 0
    · rw [if_pos ha] at hm ⊢
      simp only [filteredread, hF2] at hm ⊢
      by_cases hq1 : s2.head > s2.tail
      · -- a byte of the queue: it does not complete the terminator
        simp only [if_pos hq1, charToInt_literal] at hm ⊢
        have hnc : ¬ completes T w.matchTerminatorPos (cstrAt SBDRING s2.tail) := by
          by_cases h0 : s2.tail = 0
          · rw [h0]
            exact (hQ _ hpos).1
          · exact hL2 (by omega)
        obtain ⟨c1, c2⟩ := waitStep_completes resp prompt T w (cstrAt SBDRING s2.tail)
        have hst : (waitStep resp prompt T w (cstrAt SBDRING s2.tail)).2 = false := by
          cases hx : (waitStep resp prompt T w (cstrAt SBDRING s2.tail)).2
          · rfl
          · exact absurd (c1.1 hx) hnc
        simp only [hst, Bool.false_eq_true, if_false] at hm ⊢
        have hpos1 : (waitStep resp prompt T w (cstrAt SBDRING s2.tail)).1.matchTerminatorPos
            < T.length := by
          rw [c2]
          exact nextPos_lt T hlen hT _ _ hnc
        by_cases heq : s2.head = s2.tail + 1
        · simp only [heq, if_true] at hm ⊢
          exact ih _ _ _ ⟨le_refl _, by simp, Or.inl rfl⟩ hpos1
            (fun h => absurd h (by simp)) hm
        · simp only [heq, if_false] at hm ⊢
          refine ih _ _ _ ⟨by simp only []; omega, g2, by simp only []; omega⟩ hpos1 ?_ hm
          intro _
          rw [c2]
          exact (hQ _ hpos).2.2 s2.tail (by omega)
      · have ht0 : s2.tail = 0 := by omega
        have hh0 : s2.head = 0 := by omega
        by_cases hq2 : s2.nextChar ≠ -1
        · -- the held-back byte
          simp only [if_neg hq1, if_pos hq2] at hm ⊢
          generalize hc : intToChar (charToInt cs (intToChar s2.nextChar)) = c at hm ⊢
          obtain ⟨c1, c2⟩ := waitStep_completes resp prompt T w c
          cases hx : (waitStep resp prompt T w c).2
          · simp only [hx, Bool.false_eq_true, if_false] at hm ⊢
            have hnc : ¬ completes T w.matchTerminatorPos c := fun h => by
              have := c1.2 h
              rw [hx] at this
              cases this
            refine ih _ _ _ ⟨by simp only []; omega, g2, Or.inl ht0⟩ ?_ ?_ hm
            · rw [c2]
              exact nextPos_lt T hlen hT _ _ hnc
            · intro h
              simp only [] at h
              omega
          · simp only [hx, if_true]
            exact ⟨trivial, hh0, ht0⟩
        · -- nothing to read
          simp only [if_neg hq1, if_neg hq2] at hm ⊢
          have h255 : intToChar (-1) = 255 := by decide
          rw [h255] at hm ⊢
          have hnc : ¬ completes T w.matchTerminatorPos 255 := (hQ _ hpos).2.1
          obtain ⟨c1, c2⟩ := waitStep_completes resp prompt T w 255
          have hst : (waitStep resp prompt T w 255).2 = false := by
            cases hx : (waitStep resp prompt T w 255).2
            · rfl
            · exact absurd (c1.1 hx) hnc
          simp only [hst, Bool.false_eq_true, if_false] at hm ⊢
          refine ih _ _ _ ⟨g1, g2, g3⟩ ?_ ?_ hm
          · rw [c2]
            exact nextPos_lt T hlen hT _ _ hnc
          · intro h
            omega
    · rw [if_neg ha] at hm ⊢
      match evs1, hm with
      | [], hm => simp at hm
      | some b :: rest, hm => simp at hm
      | none :: rest, hm =>
        simp only [] at hm ⊢
        exact ih w s1 rest q1 hpos hL1 hm

/-! ## The echo of AT+SBDRB -/

/-- After a run of the filter a byte is held back or the transport has nothing
at hand. -/
theorem filterSBDRING_stop (cs : Bool) : ∀ (evs : Raw) (s : IridiumSBD),
    (filterSBDRING cs s evs).1.nextChar ≠ -1
      ∨ streamAvailable (filterSBDRING cs s evs).2 = false := by
  intro evs
  induction evs with
  | nil => intro s; right; rfl
  | cons e rest ih =>
    intro s
    cases e with
    | none => right; rfl
    | some b =>
      rw [filterSBDRING]
      split
      · left; assumption
      · split
        · split
          · exact ih _
          · split
            · exact ih _
            · exact ih _
        · exact ih _

/-- A second run of the filter right after the first changes nothing. -/
theorem filterSBDRING_idem (cs : Bool) (s : IridiumSBD) (evs : Raw) :
    filterSBDRING cs (filterSBDRING cs s evs).1 (filterSBDRING cs s evs).2
      = filterSBDRING cs s evs :=
  filterSBDRING_held cs _ _ (filterSBDRING_stop cs evs s)

/-- A round of the response matcher starts with a run of the filter. -/
theorem waitForATResponseRaw_settle (cs resp : Bool) (prompt : Option (List Nat))
    (T : List Nat) (fuel : Nat) (w : WaitState) (s : IridiumSBD) (evs : Raw) :
    waitForATResponseRaw cs resp prompt T (fuel + 1) w s evs
      = waitForATResponseRaw cs resp prompt T (fuel + 1) w (filterSBDRING cs s evs).1
          (filterSBDRING cs s evs).2 := by
  rw [waitForATResponseRaw, waitForATResponseRaw]
  simp only [filteredavailable, filteredread, filterSBDRING_idem]

/-- A round of the response matcher on a filter that holds a byte back and has
characters of the literal queued: the next queued character is delivered, the
transport is not touched. -/
theorem waitForATResponseRaw_queue (cs resp : Bool) (prompt : Option (List Nat))
    (T : List Nat) (fuel : Nat) (w : WaitState) (s : IridiumSBD) (evs : Raw)
    (hn : s.nextChar ≠ -1) (hq : s.tail < s.head) :
    waitForATResponseRaw cs resp prompt T (fuel + 1) w s evs
      = if (waitStep resp prompt T w (cstrAt SBDRING s.tail)).2 then
          (true, (waitStep resp prompt T w (cstrAt SBDRING s.tail)).1,
           if s.head = s.tail + 1 then { s with head := 0, tail := 0 }
           else { s with tail := s.tail + 1 }, evs)
        else
          waitForATResponseRaw cs resp prompt T fuel
            (waitStep resp prompt T w (cstrAt SBDRING s.tail)).1
            (if s.head = s.tail + 1 then { s with head := 0, tail := 0 }
             else { s with tail := s.tail + 1 }) evs := by
  have hf := filterSBDRING_held cs s evs (Or.inl hn)
  have ha : ((s.head : Int) - (s.tail : Int) + (if s.nextChar ≠ -1 then 1 else 0)) > 0 := by
    rw [if_pos hn]
    omega
  have hq1 : s.head > s.tail := hq
  have ha1 : ((s.head : Int) - (s.tail : Int) + 1) > 0 := by omega
  rw [waitForATResponseRaw]
  simp only [filteredavailable, filteredread, hf, if_pos ha, if_pos ha1, if_pos hq1, if_pos hn,
    charToInt_literal]

/-- A round of the response matcher on a filter that holds a byte back and has
nothing queued: the byte held back is delivered, the transport is not touched. -/
theorem waitForATResponseRaw_held (cs resp : Bool) (prompt : Option (List Nat))
    (T : List Nat) (fuel : Nat) (w : WaitState) (s : IridiumSBD) (evs : Raw)
    (hn : s.nextChar ≠ -1) (hq : s.head = s.tail) :
    waitForATResponseRaw cs resp prompt T (fuel + 1) w s evs
      = if (waitStep resp prompt T w
            (intToChar (charToInt cs (intToChar s.nextChar)))).2 then
          (true, (waitStep resp prompt T w
            (intToChar (charToInt cs (intToChar s.nextChar)))).1,
           { s with nextChar := -1 }, evs)
        else
          waitForATResponseRaw cs resp prompt T fuel
            (waitStep resp prompt T w (intToChar (charToInt cs (intToChar s.nextChar)))).1
            { s with nextChar := -1 } evs := by
  have hf := filterSBDRING_held cs s evs (Or.inl hn)
  have ha : ((s.head : Int) - (s.tail : Int) + (if s.nextChar ≠ -1 then 1 else 0)) > 0 := by
    rw [if_pos hn]
    omega
  have hq1 : ¬ (s.head > s.tail) := by omega
  have ha1 : ((s.head : Int) - (s.tail : Int) + 1) > 0 := by omega
  rw [waitForATResponseRaw]
  simp only [filteredavailable, filteredread, hf, if_pos ha, if_pos ha1, if_neg hq1, if_pos hn]

/-- The filter at a byte that does not continue the literal: the byte is held
back. -/
theorem filterSBDRING_mismatch (cs : Bool) (s : IridiumSBD) (b : Nat) (rest : Raw)
    (hn : s.nextChar = -1) (hb : b ≠ cstrAt SBDRING s.head) (hv : charToInt cs b ≠ -1) :
    filterSBDRING cs s (some b :: rest) = ({ s with nextChar := charToInt cs b }, rest) := by
  rw [filterSBDRING]
  have h1 : ¬ (s.nextChar ≠ -1) := fun h => h hn
  have h2 : ¬ (cstrAt SBDRING s.head ≠ 0 ∧ b = cstrAt SBDRING s.head) := fun h => hb h.2
  rw [if_neg h1, if_neg h2]
  exact filterSBDRING_held cs _ rest (Or.inl hv)

/-- The filter at a byte that continues the literal while the next byte is at
hand: the match goes on. -/
theorem filterSBDRING_match (cs : Bool) (s : IridiumSBD) (b b1 : Nat) (rest : Raw)
    (hn : s.nextChar = -1) (hb : b = cstrAt SBDRING s.head) (hh : s.head < 8) :
    filterSBDRING cs s (some b :: some b1 :: rest)
      = filterSBDRING cs { s with head := s.head + 1 } (some b1 :: rest) := by
  rw [filterSBDRING]
  have h1 : ¬ (s.nextChar ≠ -1) := fun h => h hn
  have h2 : cstrAt SBDRING s.head ≠ 0 ∧ b = cstrAt SBDRING s.head :=
    ⟨cstrAt_SBDRING_ne_zero s.head (by omega), hb⟩
  have h3 : ¬ (cstrAt SBDRING (s.head + 1) = 0) := by
    rw [cstrAt_SBDRING_succ s.head (by omega)]
    omega
  rw [if_neg h1, if_pos h2, if_neg h3]
  simp only [streamAvailable, if_true]

/-- A round of the response matcher on a filter at rest, at a plain byte that
does not start the literal: the byte is delivered, the filter is at rest
again, and only that byte has left the transport. -/
theorem waitForATResponseRaw_plain (cs resp : Bool) (prompt : Option (List Nat))
    (T : List Nat) (fuel : Nat) (w : WaitState) (s : IridiumSBD) (b : Nat) (rest : Raw)
    (h1 : s.nextChar = -1) (h2 : s.head = 0) (h3 : s.tail = 0) (hb : b ≠ 83) (hv : b < 128) :
    waitForATResponseRaw cs resp prompt T (fuel + 1) w s (some b :: rest)
      = if (waitStep resp prompt T w b).2 then (true, (waitStep resp prompt T w b).1, s, rest)
        else waitForATResponseRaw cs resp prompt T fuel (waitStep resp prompt T w b).1 s rest := by
  have hc : charToInt cs b = (b : Int) := by
    unfold charToInt
    have : ¬ (128 ≤ b) := by omega
    simp [this]
  have hb1 : b ≠ cstrAt SBDRING s.head := by
    rw [h2]
    exact hb
  have hv1 : charToInt cs b ≠ -1 := by
    rw [hc]
    omega
  have hi : intToChar (charToInt cs (intToChar (b : Int))) = b := by
    have e : intToChar (b : Int) = b := by
      unfold intToChar
      omega
    rw [e, hc, e]
  have hs : ({ ({ s with nextChar := (b : Int) } : IridiumSBD) with nextChar := -1 } : IridiumSBD)
      = s := by
    cases s
    simp_all
  rw [waitForATResponseRaw_settle, filterSBDRING_mismatch cs s b rest h1 hb1 hv1, hc]
  rw [waitForATResponseRaw_held cs resp prompt T fuel w _ rest
    (show ({ s with nextChar := (b : Int) } : IridiumSBD).nextChar ≠ -1 by
      show (b : Int) ≠ -1
      omega)
    (show ({ s with nextChar := (b : Int) } : IridiumSBD).head
        = ({ s with nextChar := (b : Int) } : IridiumSBD).tail by
      show s.head = s.tail
      omega)]
  simp only [hi, hs]

/-- The filter at rest at the bytes "SBDRB": four characters of the literal are
queued, the byte B is held back, and exactly these five bytes have left the
transport. -/
theorem filterSBDRING_SBDRB (cs : Bool) (s : IridiumSBD) (rest : Raw)
    (h1 : s.nextChar = -1) (h2 : s.head = 0) :
    filterSBDRING cs s (some 83 :: some 66 :: some 68 :: some 82 :: some 66 :: rest)
      = ({ s with head := 4, nextChar := 66 }, rest) := by
  have hc : charToInt cs 66 = 66 := by cases cs <;> decide
  rw [filterSBDRING_match cs s 83 66 _ h1 (by rw [h2]; decide) (by omega)]
  rw [filterSBDRING_match cs { s with head := s.head + 1 } 66 68 _ h1
    (by show 66 = cstrAt SBDRING (s.head + 1); rw [h2]; decide)
    (by show s.head + 1 < 8; omega)]
  rw [filterSBDRING_match cs { s with head := s.head + 1 + 1 } 68 82 _ h1
    (by show 68 = cstrAt SBDRING (s.head + 1 + 1); rw [h2]; decide)
    (by show s.head + 1 + 1 < 8; omega)]
  rw [filterSBDRING_match cs { s with head := s.head + 1 + 1 + 1 } 82 66 _ h1
    (by show 82 = cstrAt SBDRING (s.head + 1 + 1 + 1); rw [h2]; decide)
    (by show s.head + 1 + 1 + 1 < 8; omega)]
  rw [filterSBDRING_mismatch cs { s with head := s.head + 1 + 1 + 1 + 1 } 66 _ h1
    (by show 66 ≠ cstrAt SBDRING (s.head + 1 + 1 + 1 + 1); rw [h2]; decide)
    (by rw [hc]; decide)]
  rw [hc, h2]

/-- The response matcher on a filter at rest at the bytes "SBDRB", when none of
the five completes the terminator: the five bytes are delivered in order, the
filter is at rest again, and exactly these bytes have left the transport. -/
theorem waitForATResponseRaw_SBDRB (cs resp : Bool) (prompt : Option (List Nat))
    (T : List Nat) (fuel : Nat) (w w1 w2 w3 w4 w5 : WaitState) (s : IridiumSBD) (rest : Raw)
    (h1 : s.nextChar = -1) (h2 : s.head = 0) (h3 : s.tail = 0)
    (e1 : waitStep resp prompt T w 83 = (w1, false))
    (e2 : waitStep resp prompt T w1 66 = (w2, false))
    (e3 : waitStep resp prompt T w2 68 = (w3, false))
    (e4 : waitStep resp prompt T w3 82 = (w4, false))
    (e5 : waitStep resp prompt T w4 66 = (w5, false)) :
    waitForATResponseRaw cs resp prompt T (fuel + 1 + 1 + 1 + 1 + 1) w s
        (some 83 :: some 66 :: some 68 :: some 82 :: some 66 :: rest)
      = waitForATResponseRaw cs resp prompt T fuel w5 s rest := by
  have hi : intToChar (charToInt cs (intToChar 66)) = 66 := by cases cs <;> decide
  have q0 : cstrAt SBDRING 0 = 83 := by decide
  have q1 : cstrAt SBDRING 1 = 66 := by decide
  have q2 : cstrAt SBDRING 2 = 68 := by decide
  have q3 : cstrAt SBDRING 3 = 82 := by decide
  rw [waitForATResponseRaw_settle, filterSBDRING_SBDRB cs s _ h1 h2]
  obtain ⟨f1, f2, f3, f4, f5, f6, f7, f8, f9, f10, f11, f12, hd, tl, nc⟩ := s
  simp only [] at h1 h2 h3
  subst h1 h2 h3
  rw [waitForATResponseRaw_queue _ _ _ _ _ _ _ _ (by simp) (by simp)]
  simp only [q0, e1, Bool.false_eq_true, if_false, Nat.reduceAdd, Nat.reduceEqDiff]
  rw [waitForATResponseRaw_queue _ _ _ _ _ _ _ _ (by simp) (by simp)]
  simp only [q1, e2, Bool.false_eq_true, if_false, Nat.reduceAdd, Nat.reduceEqDiff]
  rw [waitForATResponseRaw_queue _ _ _ _ _ _ _ _ (by simp) (by simp)]
  simp only [q2, e3, Bool.false_eq_true, if_false, Nat.reduceAdd, Nat.reduceEqDiff]
  rw [waitForATResponseRaw_queue _ _ _ _ _ _ _ _ (by simp) (by simp)]
  simp only [q3, e4, Bool.false_eq_true, if_false, if_true, Nat.reduceAdd, Nat.reduceEqDiff]
  rw [waitForATResponseRaw_held _ _ _ _ _ _ _ _ (by simp) (by simp)]
  simp only [hi, e5, Bool.false_eq_true, if_false]

/-- The echo of `AT+SBDRB\r` read by the response matcher from a filter at rest:
the match is found at the carriage return, the filter is at rest again, and the
transport left is exactly what followed the echo, whatever that is. -/
theorem echo_consumed_exactly (cs : Bool) (s : IridiumSBD) (Y : Raw) (fuel : Nat)
    (hf : 9 ≤ fuel) (h1 : s.nextChar = -1) (h2 : s.head = 0) (h3 : s.tail = 0) :
    waitForATResponseRaw cs false none (cstr "AT+SBDRB\r") fuel (WaitState.init 0 none) s
        ((cstr "AT+SBDRB\r").map some ++ Y)
      = (true,
         { response := [], responseSize := 0, matchPromptPos := 0, matchTerminatorPos := 9,
           promptState := PromptState.LOOKING_FOR_TERMINATOR },
         s, Y) := by
  obtain ⟨k, rfl⟩ := Nat.exists_eq_add_of_le hf
  have hk : 9 + k = k + 1 + 1 + 1 + 1 + 1 + 1 + 1 + 1 + 1 := by omega
  have hT : cstr "AT+SBDRB\r" = [65, 84, 43, 83, 66, 68, 82, 66, 13] := by decide
  have hw : WaitState.init 0 none
      = { response := [], responseSize := 0, matchPromptPos := 0, matchTerminatorPos := 0,
          promptState := PromptState.LOOKING_FOR_TERMINATOR } := rfl
  have e : ∀ i, i < 9 →
      waitStep false none [65, 84, 43, 83, 66, 68, 82, 66, 13]
          { response := [], responseSize := 0, matchPromptPos := 0, matchTerminatorPos := i,
            promptState := PromptState.LOOKING_FOR_TERMINATOR }
          (cstrAt [65, 84, 43, 83, 66, 68, 82, 66, 13] i)
        = ({ response := [], responseSize := 0, matchPromptPos := 0, matchTerminatorPos := i + 1,
             promptState := PromptState.LOOKING_FOR_TERMINATOR }, decide (i = 8)) := by
    decide
  have e0 : waitStep false none [65, 84, 43, 83, 66, 68, 82, 66, 13] _ 65 = _ := e 0 (by decide)
  have e1 : waitStep false none [65, 84, 43, 83, 66, 68, 82, 66, 13] _ 84 = _ := e 1 (by decide)
  have e2 : waitStep false none [65, 84, 43, 83, 66, 68, 82, 66, 13] _ 43 = _ := e 2 (by decide)
  have e3 : waitStep false none [65, 84, 43, 83, 66, 68, 82, 66, 13] _ 83 = _ := e 3 (by decide)
  have e4 : waitStep false none [65, 84, 43, 83, 66, 68, 82, 66, 13] _ 66 = _ := e 4 (by decide)
  have e5 : waitStep false none [65, 84, 43, 83, 66, 68, 82, 66, 13] _ 68 = _ := e 5 (by decide)
  have e6 : waitStep false none [65, 84, 43, 83, 66, 68, 82, 66, 13] _ 82 = _ := e 6 (by decide)
  have e7 : waitStep false none [65, 84, 43, 83, 66, 68, 82, 66, 13] _ 66 = _ := e 7 (by decide)
  have e8 : waitStep false none [65, 84, 43, 83, 66, 68, 82, 66, 13] _ 13 = _ := e 8 (by decide)
  rw [hk, hT, hw]
  show waitForATResponseRaw cs false none _ _ _ s
    (some 65 :: some 84 :: some 43 :: some 83 :: some 66 :: some 68 :: some 82 :: some 66
      :: some 13 :: Y) = _
  rw [waitForATResponseRaw_plain cs false none _ _ _ s 65 _ h1 h2 h3 (by decide) (by decide), e0]
  simp only [decide_False, Bool.false_eq_true, if_false, Nat.reduceAdd, Nat.reduceEqDiff]
  rw [waitForATResponseRaw_plain cs false none _ _ _ s 84 _ h1 h2 h3 (by decide) (by decide), e1]
  simp only [decide_False, Bool.false_eq_true, if_false, Nat.reduceAdd, Nat.reduceEqDiff]
  rw [waitForATResponseRaw_plain cs false none _ _ _ s 43 _ h1 h2 h3 (by decide) (by decide), e2]
  simp only [decide_False, Bool.false_eq_true, if_false, Nat.reduceAdd, Nat.reduceEqDiff]
  rw [waitForATResponseRaw_SBDRB cs false none _ _ _ _ _ _ _ _ s _ h1 h2 h3 e3 e4 e5 e6 e7]
  rw [waitForATResponseRaw_plain cs false none _ _ _ s 13 _ h1 h2 h3 (by decide) (by decide), e8]
  simp only [decide_True, if_true, Nat.reduceAdd]

/-! ## The position of the transport after a match -/

/-- Reading one more raw byte keeps the history, whatever the filter does with
its queue, when the byte held back afterwards is that byte or none. -/
theorem Consumed_step (cs : Bool) (E : Raw) (s t : IridiumSBD) (b : Nat) (rest : Raw)
    (h : Consumed cs E s (some b :: rest))
    (ht : t.nextChar = -1 ∨ t.nextChar = charToInt cs b) :
    Consumed cs E t rest := by
  obtain ⟨⟨P, hP⟩, _⟩ := h
  refine ⟨⟨P ++ [some b], by rw [hP]; simp⟩, fun hn => ?_⟩
  rcases ht with ht | ht
  · exact absurd ht hn
  · exact ⟨P, b, hP, ht⟩

/-- The filter keeps the history of the session. -/
theorem filterSBDRING_consumed (cs : Bool) (E : Raw) : ∀ (evs : Raw) (s : IridiumSBD),
    Consumed cs E s evs →
    Consumed cs E (filterSBDRING cs s evs).1 (filterSBDRING cs s evs).2 := by
  intro evs
  induction evs with
  | nil => intro s hs; exact hs
  | cons e rest ih =>
    intro s hs
    cases e with
    | none => exact hs
    | some b =>
      rw [filterSBDRING]
      split
      · exact hs
      · rename_i hn
        have hn1 : s.nextChar = -1 := by
          by_contra h
          exact hn h
        split
        · split
          · exact ih _ (Consumed_step cs E s _ b rest hs (Or.inl hn1))
          · split
            · exact ih _ (Consumed_step cs E s _ b rest hs (Or.inl hn1))
            · exact ih _ (Consumed_step cs E s _ b rest hs (Or.inr rfl))
        · exact ih _ (Consumed_step cs E s _ b rest hs (Or.inr rfl))

/-- The history depends on the session only through the byte held back. -/
theorem Consumed_congr (cs : Bool) (E : Raw) (s t : IridiumSBD) (evs : Raw)
    (h : Consumed cs E s evs) (ht : t.nextChar = -1 ∨ t.nextChar = s.nextChar) :
    Consumed cs E t evs := by
  refine ⟨h.1, fun hn => ?_⟩
  rcases ht with ht | ht
  · exact absurd ht hn
  · rw [ht] at hn ⊢
    exact h.2 hn

/-- Skipping a pause keeps the history when no byte is held back. -/
theorem Consumed_pause (cs : Bool) (E : Raw) (s : IridiumSBD) (rest : Raw)
    (h : Consumed cs E s (none :: rest)) (hn : s.nextChar = -1) :
    Consumed cs E s rest := by
  obtain ⟨⟨P, hP⟩, _⟩ := h
  exact ⟨⟨P ++ [none], by rw [hP]; simp⟩, fun h => absurd hn h⟩

/-- A held-back byte reaches the loop body as the byte it was read as. -/
theorem intToChar_held (cs : Bool) (b : Nat) :
    intToChar (charToInt cs (intToChar (charToInt cs b))) = intToChar (charToInt cs b) :=
  intToChar_charToInt cs _ (by unfold intToChar; omega)

/-- When the response matcher, run on the raw transport with a terminator that
no byte of the filter queue can complete, returns true, the transport left is
exactly what follows the raw byte that completed the terminator. -/
theorem matched_transport_position (cs resp : Bool) (prompt : Option (List Nat))
    (T : List Nat) (E : Raw)
    (hq : QuietTerminator T) : ∀ (fuel : Nat) (w : WaitState) (s : IridiumSBD) (evs : Raw),
    QueueOK s → Consumed cs E s evs → w.matchTerminatorPos < T.length →
    (0 < s.tail → ¬ completes T w.matchTerminatorPos (cstrAt SBDRING s.tail)) →
    (waitForATResponseRaw cs resp prompt T fuel w s evs).1 = true →
    ∃ (P : Raw) (b : Nat),
      E = P ++ some b :: (waitForATResponseRaw cs resp prompt T fuel w s evs).2.2.2 ∧
      intToChar (charToInt cs b) = cstrAt T (T.length - 1) := by
  obtain ⟨hlen, hT, hQ⟩ := hq
  intro fuel
  induction fuel with
  | zero =>
    intro w s evs _ _ _ _ h
    simp [waitForATResponseRaw] at h
  | succ fuel ih =>
    intro w s evs hs hE hpos hL hm
    obtain ⟨q1, t1⟩ := filterSBDRING_queue cs evs s hs
    have k1 := filterSBDRING_consumed cs E evs s hE
    generalize hF1 : filterSBDRING cs s evs = F1 at q1 t1 k1
    obtain ⟨s1, evs1⟩ := F1
    simp only [] at q1 t1 k1
    have hL1 : 0 < s1.tail → ¬ completes T w.matchTerminatorPos (cstrAt SBDRING s1.tail) := by
      intro h
      have e := t1 h
      rw [e]
      exact hL (by omega)
    obtain ⟨q2, t2⟩ := filterSBDRING_queue cs evs1 s1 q1
    have k2 := filterSBDRING_consumed cs E evs1 s1 k1
    generalize hF2 : filterSBDRING cs s1 evs1 = F2 at q2 t2 k2
    obtain ⟨s2, evs2⟩ := F2
    simp only [] at q2 t2 k2
    have hL2 : 0 < s2.tail → ¬ completes T w.matchTerminatorPos (cstrAt SBDRING s2.tail) := by
      intro h
      have e := t2 h
      rw [e]
      exact hL1 (by omega)
    obtain ⟨g1, g2, g3⟩ := q2
    rw [waitForATResponseRaw] at hm ⊢
    simp only [filteredavailable, hF1] at hm ⊢
    by_cases ha : ((s1.head : Int) - (s1.tail : Int) + (if s1.nextChar ≠ -1 then 1 else 0)) > 0
    · rw [if_pos ha] at hm ⊢
      simp only [filteredread, hF2] at hm ⊢
      by_cases hq1 : s2.head > s2.tail
      · -- a byte of the queue: it does not complete the terminator
        simp only [if_pos hq1, charToInt_literal] at hm ⊢
        have hnc : ¬ completes T w.matchTerminatorPos (cstrAt SBDRING s2.tail) := by
          by_cases h0 : s2.tail = 0
          · rw [h0]
            exact (hQ _ hpos).1
          · exact hL2 (by omega)
        obtain ⟨c1, c2⟩ := waitStep_completes resp prompt T w (cstrAt SBDRING s2.tail)
        have hst : (waitStep resp prompt T w (cstrAt SBDRING s2.tail)).2 = false := by
          cases hx : (waitStep resp prompt T w (cstrAt SBDRING s2.tail)).2
          · rfl
          · exact absurd (c1.1 hx) hnc
        simp only [hst, Bool.false_eq_true, if_false] at hm ⊢
        have hpos1 : (waitStep resp prompt T w (cstrAt SBDRING s2.tail)).1.matchTerminatorPos
            < T.length := by
          rw [c2]
          exact nextPos_lt T hlen hT _ _ hnc
        by_cases heq : s2.head = s2.tail + 1
        · simp only [heq, if_true] at hm ⊢
          exact ih _ _ _ ⟨le_refl _, by simp, Or.inl rfl⟩
            (Consumed_congr cs E s2 _ evs2 k2 (Or.inr rfl)) hpos1
            (fun h => absurd h (by simp)) hm
        · simp only [heq, if_false] at hm ⊢
          refine ih _ _ _ ⟨by simp only []; omega, g2, by simp only []; omega⟩
            (Consumed_congr cs E s2 _ evs2 k2 (Or.inr rfl)) hpos1 ?_ hm
          intro _
          rw [c2]
          exact (hQ _ hpos).2.2 s2.tail (by omega)
      · have ht0 : s2.tail = 0 := by omega
        by_cases hq2 : s2.nextChar ≠ -1
        · -- the held-back byte
          simp only [if_neg hq1, if_pos hq2] at hm ⊢
          obtain ⟨P, b, hP, hb⟩ := k2.2 hq2
          have hcb : intToChar (charToInt cs (intToChar s2.nextChar))
              = intToChar (charToInt cs b) := by
            rw [hb]
            exact intToChar_held cs b
          rw [hcb] at hm ⊢
          generalize hc : intToChar (charToInt cs b) = c at hm ⊢
          obtain ⟨c1, c2⟩ := waitStep_completes resp prompt T w c
          cases hx : (waitStep resp prompt T w c).2
          · simp only [hx, Bool.false_eq_true, if_false] at hm ⊢
            have hnc : ¬ completes T w.matchTerminatorPos c := fun h => by
              have := c1.2 h
              rw [hx] at this
              cases this
            refine ih _ _ _ ⟨by simp only []; omega, g2, Or.inl ht0⟩
              (Consumed_congr cs E s2 _ evs2 k2 (Or.inl rfl)) ?_ ?_ hm
            · rw [c2]
              exact nextPos_lt T hlen hT _ _ hnc
            · intro h
              simp only [] at h
              omega
          · simp only [hx, if_true]
            refine ⟨P, b, hP, ?_⟩
            obtain ⟨e1, e2⟩ := c1.1 hx
            rw [cstrAt_eq_zero_iff T hT] at e2
            have : w.matchTerminatorPos = T.length - 1 := by omega
            rw [hc, e1, this]
        · -- nothing to read
          simp only [if_neg hq1, if_neg hq2] at hm ⊢
          have h255 : intToChar (-1) = 255 := by decide
          rw [h255] at hm ⊢
          have hnc : ¬ completes T w.matchTerminatorPos 255 := (hQ _ hpos).2.1
          obtain ⟨c1, c2⟩ := waitStep_completes resp prompt T w 255
          have hst : (waitStep resp prompt T w 255).2 = false := by
            cases hx : (waitStep resp prompt T w 255).2
            · rfl
            · exact absurd (c1.1 hx) hnc
          simp only [hst, Bool.false_eq_true, if_false] at hm ⊢
          refine ih _ _ _ ⟨g1, g2, g3⟩ k2 ?_ ?_ hm
          · rw [c2]
            exact nextPos_lt T hlen hT _ _ hnc
          · intro h
            omega
    · rw [if_neg ha] at hm ⊢
      have hn1 : s1.nextChar = -1 := by
        by_contra h
        rw [if_pos h] at ha
        obtain ⟨a1, _, _⟩ := q1
        omega
      match evs1, hm, k1 with
      | [], hm, _ => simp at hm
      | some b :: rest, hm, _ => simp at hm
      | none :: rest, hm, k1 =>
        simp only [] at hm ⊢
        exact ih w s1 rest q1 (Consumed_pause cs E s1 rest k1 hn1) hpos hL1 hm

/-- The operation `filteredavailable` keeps the queue in order and the history of the
session. -/
theorem filteredavailable_invariants (cs : Bool) (E : Raw) (s : IridiumSBD) (evs : Raw)
    (hs : QueueOK s) (hE : Consumed cs E s evs) :
    QueueOK (filteredavailable cs s evs).2.1 ∧
    Consumed cs E (filteredavailable cs s evs).2.1 (filteredavailable cs s evs).2.2 :=
  ⟨(filterSBDRING_queue cs evs s hs).1, filterSBDRING_consumed cs E evs s hE⟩

/-- The operation `filteredread` keeps the queue in order and the history of the
session. -/
theorem filteredread_invariants (cs : Bool) (E : Raw) (s : IridiumSBD) (evs : Raw)
    (hs : QueueOK s) (hE : Consumed cs E s evs) :
    QueueOK (filteredread cs s evs).2.1 ∧
    Consumed cs E (filteredread cs s evs).2.1 (filteredread cs s evs).2.2 := by
  obtain ⟨⟨g1, g2, g3⟩, _⟩ := filterSBDRING_queue cs evs s hs
  have k := filterSBDRING_consumed cs E evs s hE
  generalize hF : filterSBDRING cs s evs = F at g1 g2 g3 k
  obtain ⟨s1, evs1⟩ := F
  simp only [] at g1 g2 g3 k
  unfold filteredread
  simp only [hF]
  by_cases hq1 : s1.head > s1.tail
  · simp only [if_pos hq1]
    by_cases heq : s1.head = s1.tail + 1
    · simp only [heq, if_true]
      exact ⟨⟨le_refl _, by simp, Or.inl rfl⟩, Consumed_congr cs E s1 _ evs1 k (Or.inr rfl)⟩
    · simp only [heq, if_false]
      exact ⟨⟨by simp only []; omega, g2, by simp only []; omega⟩,
        Consumed_congr cs E s1 _ evs1 k (Or.inr rfl)⟩
  · simp only [if_neg hq1]
    by_cases hq2 : s1.nextChar ≠ -1
    · simp only [if_pos hq2]
      exact ⟨⟨g1, g2, g3⟩, Consumed_congr cs E s1 _ evs1 k (Or.inl rfl)⟩
    · simp only [if_neg hq2]
      exact ⟨⟨g1, g2, g3⟩, k⟩

/-- The response matcher keeps the queue in order and the history of the
session, whatever it returns. -/
theorem waitForATResponseRaw_invariants (cs resp : Bool) (prompt : Option (List Nat))
    (T : List Nat) (E : Raw) : ∀ (fuel : Nat) (w : WaitState) (s : IridiumSBD) (evs : Raw),
    QueueOK s → Consumed cs E s evs →
    QueueOK (waitForATResponseRaw cs resp prompt T fuel w s evs).2.2.1 ∧
    Consumed cs E (waitForATResponseRaw cs resp prompt T fuel w s evs).2.2.1
      (waitForATResponseRaw cs resp prompt T fuel w s evs).2.2.2 := by
  intro fuel
  induction fuel with
  | zero => intro w s evs hs hE; exact ⟨hs, hE⟩
  | succ fuel ih =>
    intro w s evs hs hE
    obtain ⟨q1, _⟩ := filterSBDRING_queue cs evs s hs
    have k1 := filterSBDRING_consumed cs E evs s hE
    rw [waitForATResponseRaw]
    simp only [filteredavailable]
    generalize filterSBDRING cs s evs = F1 at q1 k1
    obtain ⟨s1, evs1⟩ := F1
    simp only [] at q1 k1 ⊢
    by_cases ha : ((s1.head : Int) - (s1.tail : Int) + (if s1.nextChar ≠ -1 then 1 else 0)) > 0
    · rw [if_pos ha]
      obtain ⟨q2, k2⟩ := filteredread_invariants cs E s1 evs1 q1 k1
      split
      · exact ⟨q2, k2⟩
      · exact ih _ _ _ q2 k2
    · rw [if_neg ha]
      have hn1 : s1.nextChar = -1 := by
        by_contra h
        rw [if_pos h] at ha
        obtain ⟨a1, _, _⟩ := q1
        omega
      match evs1, k1 with
      | [], k1 => exact ⟨q1, k1⟩
      | some b :: rest, k1 => exact ⟨q1, k1⟩
      | none :: rest, k1 => exact ih w s1 rest q1 (Consumed_pause cs E s1 rest k1 hn1)

/-- None of the terminators the library waits for can be completed by a byte of
the filter queue, by the letter S, or by the byte the empty marker reads as. -/
theorem library_terminators_quiet (T : List Nat)
    (hT : T = cstr "OK\r\n" ∨ T = cstr "READY\r\n" ∨ T = cstr "0\r\n\r\nOK\r\n"
      ∨ T = cstr "AT+SBDRB\r") : QuietTerminator T := by
  rcases hT with h | h | h | h <;> subst h <;> unfold QuietTerminator completes <;> decide

/-- C36 (for either signedness of `char`): the response matcher is run on the raw
transport, through the filter, with one of the terminators of the library,
from any session whose filter queue is in order; every reachable session is
one (the constructor gives one, and the three filter operations, the only
writers of `head`, `tail` and `nextChar`, keep the order and the history of the
transport).  When the matcher returns true, the filter holds no undelivered
byte: no byte is held back and the queue is empty, so that with nothing new on
the transport `filteredavailable` is 0 and `filteredread` is -1.  The transport
left is exactly what follows the raw byte that completed the terminator.  The
next exchange that reads the echo `AT+SBDRB\r`, which contains the prefix SBDR of
the literal, ends with the filter at rest again and the transport exactly at
the byte after the echo, the first length byte that `doSBDRB` then reads raw. -/
theorem filter_at_rest_after_match (cs resp : Bool) (n : Int) (prompt : Option (List Nat))
    (T : List Nat) (E : Raw) (fuel : Nat) (s : IridiumSBD) (evs : Raw)
    (w1 : WaitState) (s1 : IridiumSBD) (left : Raw)
    (hT : T = cstr "OK\r\n" ∨ T = cstr "READY\r\n" ∨ T = cstr "0\r\n\r\nOK\r\n"
      ∨ T = cstr "AT+SBDRB\r")
    (hs : QueueOK s)
    (hr : waitForATResponseRaw cs resp prompt T fuel (WaitState.init n prompt) s evs
      = (true, w1, s1, left)) :
    (s1.nextChar = -1 ∧ s1.head = 0 ∧ s1.tail = 0) ∧
    ((filteredavailable cs s1 []).1 = 0 ∧ (filteredread cs s1 []).1 = -1) ∧
    (Consumed cs E s evs →
      ∃ (P : Raw) (b : Nat), E = P ++ some b :: left ∧
        intToChar (charToInt cs b) = cstrAt T (T.length - 1)) ∧
    (∀ (Y : Raw) (fuel2 : Nat), 9 ≤ fuel2 →
      waitForATResponseRaw cs false none (cstr "AT+SBDRB\r") fuel2 (WaitState.init 0 none) s1
          ((cstr "AT+SBDRB\r").map some ++ Y)
        = (true,
           { response := [], responseSize := 0, matchPromptPos := 0, matchTerminatorPos := 9,
             promptState := PromptState.LOOKING_FOR_TERMINATOR },
           s1, Y)) ∧
    (∀ a b : Int, QueueOK (new a b) ∧ Consumed cs E (new a b) E) ∧
    (∀ (t : IridiumSBD) (ev : Raw), QueueOK t → Consumed cs E t ev →
      (QueueOK (filterSBDRING cs t ev).1 ∧
        Consumed cs E (filterSBDRING cs t ev).1 (filterSBDRING cs t ev).2) ∧
      (QueueOK (filteredavailable cs t ev).2.1 ∧
        Consumed cs E (filteredavailable cs t ev).2.1 (filteredavailable cs t ev).2.2) ∧
      (QueueOK (filteredread cs t ev).2.1 ∧
        Consumed cs E (filteredread cs t ev).2.1 (filteredread cs t ev).2.2)) := by
  have hq := library_terminators_quiet T hT
  have hpos : (WaitState.init n prompt).matchTerminatorPos < T.length := by
    have := hq.1
    show 0 < T.length
    omega
  have hL : 0 < s.tail →
      ¬ completes T (WaitState.init n prompt).matchTerminatorPos (cstrAt SBDRING s.tail) := by
    intro _ hc
    have h2 : cstrAt T (0 + 1) = 0 := hc.2
    rw [cstrAt_eq_zero_iff T hq.2.1] at h2
    have := hq.1
    omega
  have hm : (waitForATResponseRaw cs resp prompt T fuel (WaitState.init n prompt) s evs).1
      = true := by rw [hr]
  have hrest := matched_filter_empty cs resp prompt T hq fuel _ s evs hs hpos hL hm
  rw [hr] at hrest
  obtain ⟨r1, r2, r3⟩ := hrest
  simp only [] at r1 r2 r3
  refine ⟨⟨r1, r2, r3⟩, ?_, ?_, ?_, ?_, ?_⟩
  · simp [filteredavailable, filteredread, filterSBDRING, r1, r2, r3]
  · intro hE
    have hp := matched_transport_position cs resp prompt T E hq fuel _ s evs hs hE hpos hL hm
    rw [hr] at hp
    exact hp
  · intro Y fuel2 hf
    exact echo_consumed_exactly cs s1 Y fuel2 hf r1 r2 r3
  · intro a b
    exact ⟨⟨le_refl _, Nat.zero_le 8, Or.inl rfl⟩, ⟨[], rfl⟩, fun h => absurd rfl h⟩
  · intro t ev ht hE
    exact ⟨⟨(filterSBDRING_queue cs ev t ht).1, filterSBDRING_consumed cs E ev t hE⟩,
      filteredavailable_invariants cs E t ev ht hE, filteredread_invariants cs E t ev ht hE⟩

/-- Witness for C36: a fresh session reads the echo `AT+SBDRB\r` followed by the
length bytes 00 01, the payload 07 and the checksum 00 07; the matcher returns
true with the filter at rest and the transport at the first length byte. -/
theorem filter_at_rest_after_match_witness :
    QueueOK (new (-1) (-1)) ∧
    waitForATResponseRaw true false none (cstr "AT+SBDRB\r") 9 (WaitState.init 0 none)
        (new (-1) (-1))
        ((cstr "AT+SBDRB\r").map some ++ [some 0, some 1, some 7, some 0, some 7])
      = (true,
         { response := [], responseSize := 0, matchPromptPos := 0, matchTerminatorPos := 9,
           promptState := PromptState.LOOKING_FOR_TERMINATOR },
         new (-1) (-1), [some 0, some 1, some 7, some 0, some 7]) ∧
    ((new (-1) (-1)).nextChar = -1 ∧ (new (-1) (-1)).head = 0 ∧ (new (-1) (-1)).tail = 0) ∧
    ((filteredavailable true (new (-1) (-1)) []).1 = 0 ∧
      (filteredread true (new (-1) (-1)) []).1 = -1) ∧
    ∃ (P : Raw) (b : Nat),
      (cstr "AT+SBDRB\r").map some ++ [some 0, some 1, some 7, some 0, some 7]
        = P ++ some b :: [some 0, some 1, some 7, some 0, some 7] ∧
      intToChar (charToInt true b) = cstrAt (cstr "AT+SBDRB\r") ((cstr "AT+SBDRB\r").length - 1) :=
  have hs : QueueOK (new (-1) (-1)) := ⟨le_refl _, Nat.zero_le 8, Or.inl rfl⟩
  have hr := echo_consumed_exactly true (new (-1) (-1))
    [some 0, some 1, some 7, some 0, some 7] 9 (le_refl _) rfl rfl rfl
  have h := filter_at_rest_after_match true false 0 none (cstr "AT+SBDRB\r")
    ((cstr "AT+SBDRB\r").map some ++ [some 0, some 1, some 7, some 0, some 7]) 9
    (new (-1) (-1)) _ _ _ _ (Or.inr (Or.inr (Or.inr rfl))) hs hr
  ⟨hs, hr, h.1, h.2.1, h.2.2.1 ⟨⟨[], rfl⟩, fun h => absurd rfl h⟩⟩

/-! ## The invariant of the filter state -/

/-- With the queue in order, `filteredavailable` returns a value from 0 to 9. -/
theorem filteredavailable_range (cs : Bool) (s : IridiumSBD) (evs : Raw) (hs : QueueOK s) :
    0 ≤ (filteredavailable cs s evs).1 ∧ (filteredavailable cs s evs).1 ≤ 9 := by
  obtain ⟨⟨g1, g2, _⟩, _⟩ := filterSBDRING_queue cs evs s hs
  unfold filteredavailable
  simp only []
  generalize filterSBDRING cs s evs = F at g1 g2
  obtain ⟨s1, evs1⟩ := F
  simp only [] at g1 g2 ⊢
  split <;> omega

/-- C37, the code at the failing input: where `char` is signed, a fresh session
whose transport carries the letter S immediately followed by the byte 0xFF
leaves `filterSBDRING` with no byte held back (`nextChar = -1`) and a queue that is
not empty (`head = 1`, `tail = 0`), the whole transport consumed; `filteredavailable`
then returns 1 and `filteredread` the letter S.  The session started with the
invariant (`head = tail = 0`, `nextChar = -1`).  Where `char` is unsigned the same
input leaves the byte 255 held back behind the queued S. -/
theorem invariant_broken_by_0xFF :
    ((new (-1) (-1)).nextChar = -1 ∧ (new (-1) (-1)).head = 0 ∧ (new (-1) (-1)).tail = 0) ∧
    ((filterSBDRING true (new (-1) (-1)) [some 83, some 255]).1.nextChar = -1 ∧
      (filterSBDRING true (new (-1) (-1)) [some 83, some 255]).1.head = 1 ∧
      (filterSBDRING true (new (-1) (-1)) [some 83, some 255]).1.tail = 0 ∧
      (filterSBDRING true (new (-1) (-1)) [some 83, some 255]).2 = []) ∧
    ((filteredavailable true (new (-1) (-1)) [some 83, some 255]).1 = 1 ∧
      (filteredavailable true (new (-1) (-1)) [some 83, some 255]).2.1.nextChar = -1 ∧
      (filteredavailable true (new (-1) (-1)) [some 83, some 255]).2.1.head = 1) ∧
    (filteredread true (new (-1) (-1)) [some 83, some 255]).1 = 83 ∧
    ((filterSBDRING false (new (-1) (-1)) [some 83, some 255]).1.nextChar = 255 ∧
      (filterSBDRING false (new (-1) (-1)) [some 83, some 255]).1.head = 1 ∧
      (filterSBDRING false (new (-1) (-1)) [some 83, some 255]).1.tail = 0) := by
  decide

/-! ## Waits for an AT response that fail -/

end IridiumSBD
